import Mathlib

/-!
Shallow embedding of the TLSF allocator (src/tlsf.c) for a 64-bit build
(`__WORDSIZE == 64`, so `TLSF_64BIT` is defined).

Machine integers are modelled as `Nat`; where the C code can wrap
(`align_up` on `size_t`), the wrap is made explicit with `% 2^64`.
-/

namespace Tlsf

/-! ## Compile-time constants (64-bit values) -/

def WORDSIZE : Nat := 64

/-- SL_INDEX_COUNT_SHIFT -/
def SL_INDEX_COUNT_SHIFT : Nat := 5

/-- ALIGN_SIZE_SHIFT (64-bit) -/
def ALIGN_SIZE_SHIFT : Nat := 3

/-- ALIGN_SIZE = 1 << ALIGN_SIZE_SHIFT = 8 -/
def ALIGN_SIZE : Nat := 1 <<< ALIGN_SIZE_SHIFT

/-- FL_INDEX_MAX (64-bit): 8G -/
def FL_INDEX_MAX : Nat := 33

/-- SL_INDEX_COUNT = 1 << SL_INDEX_COUNT_SHIFT = 32 -/
def SL_INDEX_COUNT : Nat := 1 <<< SL_INDEX_COUNT_SHIFT

/-- FL_INDEX_SHIFT = SL_INDEX_COUNT_SHIFT + ALIGN_SIZE_SHIFT = 8 -/
def FL_INDEX_SHIFT : Nat := SL_INDEX_COUNT_SHIFT + ALIGN_SIZE_SHIFT

/-- FL_INDEX_COUNT = FL_INDEX_MAX - FL_INDEX_SHIFT + 1 = 26 -/
def FL_INDEX_COUNT : Nat := FL_INDEX_MAX - FL_INDEX_SHIFT + 1

/-- SMALL_BLOCK_SIZE = 1 << FL_INDEX_SHIFT = 256 -/
def SMALL_BLOCK_SIZE : Nat := 1 <<< FL_INDEX_SHIFT

/-- BLOCK_OVERHEAD = sizeof(size_t) = 8 -/
def BLOCK_OVERHEAD : Nat := 8

/-- POOL_OVERHEAD = 2 * BLOCK_OVERHEAD = 16 -/
def POOL_OVERHEAD : Nat := 2 * BLOCK_OVERHEAD

/-- BLOCK_START_OFFSET = offsetof(struct block_s, header) + sizeof(size_t) = 16 -/
def BLOCK_START_OFFSET : Nat := 16

/-- BLOCK_SIZE_MIN = sizeof(struct block_s) - sizeof(block_t) = 32 - 8 = 24 -/
def BLOCK_SIZE_MIN : Nat := 24

/-- BLOCK_SIZE_MAX = 1 << FL_INDEX_MAX = 2^33 -/
def BLOCK_SIZE_MAX : Nat := 1 <<< FL_INDEX_MAX

/-- sizeof(struct block_s) = 4 words = 32 bytes (64-bit) -/
def SIZEOF_BLOCK : Nat := 32

/-- TLSF_SIZE = sizeof(struct tlsf_s) without TLSF_STATS:
    fl_bitmap 4 + sl_bitmap 26*4 + pad 4 + block_null 32 + blocks 26*32*8
    + map 8 + unmap 8 + user 8 = 6824 bytes. -/
def TLSF_SIZE : Nat := 6824

/-! ## Bit utilities

`ffs` returns the 0-based index of the lowest set bit (the C wrapper
subtracts 1 from `__builtin_ffs`; on 0 the C code asserts in debug builds
and would return a garbage index — the model returns 0 there, and every
use below is guarded by a nonzero argument).
`flsl` returns the 0-based index of the highest set bit and 0 on 0,
exactly like the C wrapper around `__builtin_clzl`.
Both are defined structurally on a 64-step fuel so that the kernel can
evaluate them on concrete inputs. -/

def ffsAux : Nat → Nat → Nat
  | 0, _ => 0
  | fuel + 1, x => if x % 2 = 1 ∨ x = 0 then 0 else ffsAux fuel (x / 2) + 1

def ffs (x : Nat) : Nat := ffsAux 64 x

def flsAux : Nat → Nat → Nat
  | 0, _ => 0
  | fuel + 1, x => if x < 2 then 0 else flsAux fuel (x / 2) + 1

def flsl (x : Nat) : Nat := flsAux 64 x

/-- flsAux computes Nat.log 2 whenever the fuel covers the bit length. -/
theorem flsAux_eq_log (fuel x : Nat) (h : x < 2 ^ fuel) : flsAux fuel x = Nat.log 2 x := by
  induction fuel generalizing x with
  | zero =>
    simp only [pow_zero, Nat.lt_one_iff] at h
    subst h; simp [flsAux]
  | succ n ih =>
    by_cases hx : x < 2
    · unfold flsAux
      rw [if_pos hx, Nat.log_eq_zero_iff.mpr (Or.inl hx)]
    · unfold flsAux
      rw [if_neg hx]
      have hdiv : x / 2 < 2 ^ n := by
        have h2 : 2 ^ (n + 1) = 2 ^ n * 2 := by ring
        exact Nat.div_lt_of_lt_mul (by omega)
      rw [ih (x / 2) hdiv, Nat.log_div_base 2 x]
      have hpos : 0 < Nat.log 2 x := Nat.log_pos (by norm_num) (by omega)
      omega

/-- flsl agrees with Nat.log 2 on all inputs below 2^64 (the size_t domain). -/
theorem flsl_eq_log (x : Nat) (h : x < 2 ^ 64) : flsl x = Nat.log 2 x :=
  flsAux_eq_log 64 x h

/-! ## Size-to-index mapping (mapping_insert / mapping_search) -/

/-- mapping_insert from src/tlsf.c lines 253-267.  Returns (fl, sl).
The C `(unsigned int)` casts never truncate here: for size ≥
SMALL_BLOCK_SIZE the shifted value is < 64. -/
def mapping_insert (size : Nat) : Nat × Nat :=
  if size < SMALL_BLOCK_SIZE then
    (0, size / (SMALL_BLOCK_SIZE / SL_INDEX_COUNT))
  else
    let fl := flsl size
    let sl := (size >>> (fl - SL_INDEX_COUNT_SHIFT)) ^^^ (1 <<< SL_INDEX_COUNT_SHIFT)
    (fl - (FL_INDEX_SHIFT - 1), sl)

/-- mapping_search from src/tlsf.c lines 270-276: rounds the size up to the
next sl bucket before mapping.  The C addition `size += round` is on
size_t, hence the explicit `% 2^64`. -/
def mapping_search (size : Nat) : Nat × Nat :=
  if SMALL_BLOCK_SIZE ≤ size then
    let round := (1 <<< (flsl size - SL_INDEX_COUNT_SHIFT)) - 1
    mapping_insert ((size + round) % 2 ^ 64)
  else
    mapping_insert size

/-! ## Good-fit analysis (claim C1)

`cellLB c` is the smallest block size whose `mapping_insert` image is the
cell `c` (for cells actually in the image); lexicographic order on cells
then corresponds to the order of these lower bounds. -/

/-- Lexicographic order on (fl, sl) cells. -/
def cellLE (a b : Nat × Nat) : Prop :=
  a.1 < b.1 ∨ (a.1 = b.1 ∧ a.2 ≤ b.2)

/-- Lower bound of the size range covered by a cell: linear buckets of
width ALIGN_SIZE at fl = 0, and for fl = f+1 the range
[2^(f+8) + sl·2^(f+3), ...) (first level f+1 covers sizes with highest
bit f + FL_INDEX_SHIFT, subdivided in 32 buckets). -/
def cellLB : Nat × Nat → Nat
  | (0, sl) => ALIGN_SIZE * sl
  | (fl + 1, sl) => 2 ^ (fl + FL_INDEX_SHIFT) + sl * 2 ^ (fl + ALIGN_SIZE_SHIFT)

theorem xor_32_of_lt : ∀ w < 32, (32 + w) ^^^ 32 = w := by decide

theorem SMALL_eq : SMALL_BLOCK_SIZE = 256 := rfl

theorem ALIGN_eq : ALIGN_SIZE = 8 := rfl

theorem BSMAX_eq : BLOCK_SIZE_MAX = 2 ^ 33 := rfl

theorem BSMIN_eq : BLOCK_SIZE_MIN = 24 := rfl

theorem two_pow_pos (n : Nat) : 0 < 2 ^ n := pow_pos (by norm_num) n

theorem le_log2 (m b : Nat) (h : 2 ^ m ≤ b) : m ≤ Nat.log 2 b :=
  (Nat.pow_le_iff_le_log (by norm_num) (by have := two_pow_pos m; omega)).mp h

theorem log2_le_self (b : Nat) (hb : b ≠ 0) : 2 ^ Nat.log 2 b ≤ b :=
  Nat.pow_log_le_self 2 hb

theorem lt_log2_succ (b : Nat) : b < 2 ^ (Nat.log 2 b + 1) :=
  Nat.lt_pow_succ_log_self (by norm_num) b

/-- For sizes in the large regime, mapping_insert computes
(log₂ size - 7, size / 2^(log₂ size - 5) - 32). -/
theorem mapping_insert_large (b : Nat) (hb : SMALL_BLOCK_SIZE ≤ b) (hb64 : b < 2 ^ 64) :
    mapping_insert b =
      (Nat.log 2 b - 7, b / 2 ^ (Nat.log 2 b - 5) - 32) := by
  have h256 : (256 : Nat) ≤ b := SMALL_eq ▸ hb
  have hk8 : 8 ≤ Nat.log 2 b := le_log2 8 b (by norm_num; omega)
  set k := Nat.log 2 b with hk
  have hlow : 2 ^ k ≤ b := log2_le_self b (by omega)
  have hvlow : 32 ≤ b / 2 ^ (k - 5) := by
    rw [Nat.le_div_iff_mul_le (two_pow_pos _)]
    calc 32 * 2 ^ (k - 5) = 2 ^ 5 * 2 ^ (k - 5) := by norm_num
    _ = 2 ^ (5 + (k - 5)) := (pow_add 2 5 (k - 5)).symm
    _ = 2 ^ k := by congr 1; omega
    _ ≤ b := hlow
  unfold mapping_insert
  rw [if_neg (by rw [SMALL_eq]; omega)]
  have hfl : flsl b = k := flsl_eq_log b hb64
  simp only [hfl, SL_INDEX_COUNT_SHIFT, FL_INDEX_SHIFT, ALIGN_SIZE_SHIFT]
  rw [Nat.shiftRight_eq_div_pow]
  have hxor : b / 2 ^ (k - 5) ^^^ (1 <<< 5) = b / 2 ^ (k - 5) - 32 := by
    have hvhigh : b / 2 ^ (k - 5) < 64 := by
      rw [Nat.div_lt_iff_lt_mul (two_pow_pos _)]
      calc b < 2 ^ (k + 1) := lt_log2_succ b
      _ = 2 ^ 6 * 2 ^ (k - 5) := by rw [← pow_add]; congr 1; omega
      _ = 64 * 2 ^ (k - 5) := by norm_num
    have h1 : (1 <<< 5 : Nat) = 32 := rfl
    rw [h1]
    obtain ⟨w, hw⟩ : ∃ w, b / 2 ^ (k - 5) = 32 + w := ⟨b / 2 ^ (k - 5) - 32, by omega⟩
    rw [hw, xor_32_of_lt w (by omega)]
    omega
  rw [hxor]

/-- In the large regime the lower bound of the image cell is
(size / stepwidth) * stepwidth, i.e. the size rounded down to its bucket. -/
theorem cellLB_insert_large (b : Nat) (hb : SMALL_BLOCK_SIZE ≤ b) (hb64 : b < 2 ^ 64) :
    cellLB (mapping_insert b) = b / 2 ^ (Nat.log 2 b - 5) * 2 ^ (Nat.log 2 b - 5) := by
  have h256 : (256 : Nat) ≤ b := SMALL_eq ▸ hb
  have hk8 : 8 ≤ Nat.log 2 b := le_log2 8 b (by norm_num; omega)
  rw [mapping_insert_large b hb hb64]
  set k := Nat.log 2 b with hk
  have hlow : 2 ^ k ≤ b := log2_le_self b (by omega)
  have hvlow : 32 ≤ b / 2 ^ (k - 5) := by
    rw [Nat.le_div_iff_mul_le (two_pow_pos _)]
    calc 32 * 2 ^ (k - 5) = 2 ^ 5 * 2 ^ (k - 5) := by norm_num
    _ = 2 ^ (5 + (k - 5)) := (pow_add 2 5 (k - 5)).symm
    _ = 2 ^ k := by congr 1; omega
    _ ≤ b := hlow
  obtain ⟨f, hf⟩ : ∃ f, k - 7 = f + 1 := ⟨k - 8, by omega⟩
  rw [hf]
  show 2 ^ (f + FL_INDEX_SHIFT) + (b / 2 ^ (k - 5) - 32) * 2 ^ (f + ALIGN_SIZE_SHIFT) = _
  have hfs : f + FL_INDEX_SHIFT = k := by
    simp only [FL_INDEX_SHIFT, SL_INDEX_COUNT_SHIFT, ALIGN_SIZE_SHIFT]; omega
  have has : f + ALIGN_SIZE_SHIFT = k - 5 := by
    simp only [ALIGN_SIZE_SHIFT]; omega
  rw [hfs, has]
  have hexp : 2 ^ k = 32 * 2 ^ (k - 5) := by
    rw [show (32 : Nat) = 2 ^ 5 by norm_num, ← pow_add]; congr 1; omega
  have hmul : 32 * 2 ^ (k - 5) ≤ b / 2 ^ (k - 5) * 2 ^ (k - 5) :=
    Nat.mul_le_mul_right _ hvlow
  rw [Nat.sub_mul, hexp]
  omega

/-- Every size files into a cell whose lower bound it dominates. -/
theorem cellLB_le_of_insert (b : Nat) (hb64 : b < 2 ^ 64) :
    cellLB (mapping_insert b) ≤ b := by
  by_cases hb : b < SMALL_BLOCK_SIZE
  · unfold mapping_insert
    rw [if_pos hb]
    show cellLB (0, b / (SMALL_BLOCK_SIZE / SL_INDEX_COUNT)) ≤ b
    show ALIGN_SIZE * (b / (SMALL_BLOCK_SIZE / SL_INDEX_COUNT)) ≤ b
    rw [show (SMALL_BLOCK_SIZE / SL_INDEX_COUNT : Nat) = 8 from rfl, ALIGN_eq]
    calc 8 * (b / 8) = b / 8 * 8 := Nat.mul_comm _ _
    _ ≤ b := Nat.div_mul_le_self b 8
  · push_neg at hb
    rw [cellLB_insert_large b hb hb64]
    exact Nat.div_mul_le_self b _

/-- The second-level index produced by mapping_insert is always < 32. -/
theorem mapping_insert_sl_lt (b : Nat) (hb64 : b < 2 ^ 64) :
    (mapping_insert b).2 < 32 := by
  by_cases hb : b < SMALL_BLOCK_SIZE
  · unfold mapping_insert
    rw [if_pos hb]
    show b / (SMALL_BLOCK_SIZE / SL_INDEX_COUNT) < 32
    rw [show (SMALL_BLOCK_SIZE / SL_INDEX_COUNT : Nat) = 8 from rfl]
    have h256 : b < 256 := SMALL_eq ▸ hb
    omega
  · push_neg at hb
    have h256 : (256 : Nat) ≤ b := SMALL_eq ▸ hb
    have hk8 : 8 ≤ Nat.log 2 b := le_log2 8 b (by norm_num; omega)
    rw [mapping_insert_large b hb hb64]
    set k := Nat.log 2 b with hk
    have hvhigh : b / 2 ^ (k - 5) < 64 := by
      rw [Nat.div_lt_iff_lt_mul (two_pow_pos _)]
      calc b < 2 ^ (k + 1) := lt_log2_succ b
      _ = 2 ^ 6 * 2 ^ (k - 5) := by rw [← pow_add]; congr 1; omega
      _ = 64 * 2 ^ (k - 5) := by norm_num
    show b / 2 ^ (k - 5) - 32 < 32
    omega

theorem cellLB_zero (l : Nat) : cellLB (0, l) = 8 * l := rfl

theorem cellLB_succ (f l : Nat) : cellLB (f + 1, l) = 2 ^ (f + 8) + l * 2 ^ (f + 3) := rfl

/-- mapping_search never leaves the request's cell lower bound below the
request: the returned cell only contains sizes ≥ the (aligned) request. -/
theorem le_cellLB_of_search (s : Nat) (hs1 : BLOCK_SIZE_MIN ≤ s) (hs2 : s < BLOCK_SIZE_MAX)
    (hsa : s % ALIGN_SIZE = 0) : s ≤ cellLB (mapping_search s) := by
  have hs24 : 24 ≤ s := BSMIN_eq ▸ hs1
  have hsM : s < 2 ^ 33 := BSMAX_eq ▸ hs2
  have hs8 : s % 8 = 0 := ALIGN_eq ▸ hsa
  unfold mapping_search
  by_cases hsmall : SMALL_BLOCK_SIZE ≤ s
  · rw [if_pos hsmall]
    have h256 : (256 : Nat) ≤ s := SMALL_eq ▸ hsmall
    have hk8 : 8 ≤ Nat.log 2 s := le_log2 8 s (by norm_num; omega)
    have hk32 : Nat.log 2 s ≤ 32 := by
      have := lt_log2_succ s
      by_contra hcon
      push_neg at hcon
      have : 2 ^ 33 ≤ 2 ^ Nat.log 2 s := Nat.pow_le_pow_right (by norm_num) (by omega)
      have := log2_le_self s (by omega)
      omega
    set k := Nat.log 2 s with hk
    have hfl : flsl s = k := flsl_eq_log s (by
      have : (2:Nat) ^ 33 < 2 ^ 64 := by norm_num
      omega)
    rw [hfl]
    have hshift : (1 <<< (k - SL_INDEX_COUNT_SHIFT) : Nat) = 2 ^ (k - 5) := by
      simp only [SL_INDEX_COUNT_SHIFT, Nat.shiftLeft_eq, one_mul]
    rw [hshift]
    set step := 2 ^ (k - 5) with hstep
    have hstep_pos : 0 < step := two_pow_pos _
    have hstep_le : step ≤ 2 ^ 27 := by
      rw [hstep]
      exact Nat.pow_le_pow_right (by norm_num) (by omega)
    have hmod : (s + (step - 1)) % 2 ^ 64 = s + (step - 1) := by
      apply Nat.mod_eq_of_lt
      have : (2:Nat) ^ 27 < 2 ^ 64 := by norm_num
      have : (2:Nat) ^ 33 + 2 ^ 27 < 2 ^ 64 := by norm_num
      omega
    show s ≤ cellLB (mapping_insert ((s + (step - 1)) % 2 ^ 64))
    rw [hmod]
    set s' := s + (step - 1) with hs'
    have hs'256 : SMALL_BLOCK_SIZE ≤ s' := by rw [SMALL_eq]; omega
    have hs'64 : s' < 2 ^ 64 := by
      have : (2:Nat) ^ 33 + 2 ^ 27 < 2 ^ 64 := by norm_num
      omega
    have hklow : 2 ^ k ≤ s := log2_le_self s (by omega)
    have hkhigh : s < 2 ^ (k + 1) := lt_log2_succ s
    by_cases hcross : s' < 2 ^ (k + 1)
    · -- round-up stays in the same first-level range
      have hk' : Nat.log 2 s' = k :=
        Nat.log_eq_of_pow_le_of_lt_pow (by omega) hcross
      rw [cellLB_insert_large s' hs'256 hs'64, hk']
      have hdm := Nat.div_add_mod s' step
      have hm : s' % step < step := Nat.mod_lt _ hstep_pos
      have hcm : s' / step * step = step * (s' / step) := Nat.mul_comm _ _
      rw [← hstep] at *
      omega
    · -- round-up crosses into the next first-level range; the cell starts
      -- exactly at 2^(k+1) ≥ s
      push_neg at hcross
      have hs'hi : s' < 2 ^ (k + 2) := by
        have h4 : (2:Nat) ^ (k + 2) = 4 * 2 ^ k := by
          rw [pow_add]; ring
        have hstep_lt : step ≤ 2 ^ k := by
          rw [hstep]
          exact Nat.pow_le_pow_right (by norm_num) (by omega)
        have := two_pow_pos k
        omega
      have hk' : Nat.log 2 s' = k + 1 :=
        Nat.log_eq_of_pow_le_of_lt_pow hcross hs'hi
      rw [cellLB_insert_large s' hs'256 hs'64, hk']
      have hq : s' / 2 ^ (k + 1 - 5) = 32 := by
        apply Nat.div_eq_of_lt_le
        · calc 32 * 2 ^ (k + 1 - 5) = 2 ^ 5 * 2 ^ (k + 1 - 5) := by norm_num
          _ = 2 ^ (5 + (k + 1 - 5)) := (pow_add 2 5 (k + 1 - 5)).symm
          _ = 2 ^ (k + 1) := by congr 1; omega
          _ ≤ s' := hcross
        · have h1 : (32 + 1) * 2 ^ (k + 1 - 5) = 2 ^ (k + 1) + 2 ^ (k + 1 - 5) := by
            have : 32 * 2 ^ (k + 1 - 5) = 2 ^ (k + 1) := by
              calc 32 * 2 ^ (k + 1 - 5) = 2 ^ 5 * 2 ^ (k + 1 - 5) := by norm_num
              _ = 2 ^ (5 + (k + 1 - 5)) := (pow_add 2 5 (k + 1 - 5)).symm
              _ = 2 ^ (k + 1) := by congr 1; omega
            omega
          rw [h1]
          have hsteple : step ≤ 2 ^ (k + 1 - 5) := by
            rw [hstep]
            exact Nat.pow_le_pow_right (by norm_num) (by omega)
          omega
      rw [hq]
      have : 32 * 2 ^ (k + 1 - 5) = 2 ^ (k + 1) := by
        calc 32 * 2 ^ (k + 1 - 5) = 2 ^ 5 * 2 ^ (k + 1 - 5) := by norm_num
        _ = 2 ^ (5 + (k + 1 - 5)) := (pow_add 2 5 (k + 1 - 5)).symm
        _ = 2 ^ (k + 1) := by congr 1; omega
      omega
  · rw [if_neg hsmall]
    push_neg at hsmall
    have h256 : s < 256 := SMALL_eq ▸ hsmall
    unfold mapping_insert
    rw [if_pos (by rw [SMALL_eq]; omega)]
    show s ≤ cellLB (0, s / (SMALL_BLOCK_SIZE / SL_INDEX_COUNT))
    rw [show (SMALL_BLOCK_SIZE / SL_INDEX_COUNT : Nat) = 8 from rfl, cellLB_zero]
    omega

/-- mapping_search's second-level index is < 32. -/
theorem mapping_search_sl_lt (s : Nat) (hs2 : s < BLOCK_SIZE_MAX) :
    (mapping_search s).2 < 32 := by
  unfold mapping_search
  by_cases h : SMALL_BLOCK_SIZE ≤ s
  · rw [if_pos h]
    exact mapping_insert_sl_lt _ (Nat.mod_lt _ (two_pow_pos 64))
  · rw [if_neg h]
    have : s < 2 ^ 33 := BSMAX_eq ▸ hs2
    exact mapping_insert_sl_lt s (by
      have : (2:Nat) ^ 33 < 2 ^ 64 := by norm_num
      omega)

/-- Cell lower bounds are monotone in the lexicographic cell order (over
cells with a legal second-level index). -/
theorem cellLB_mono (a c : Nat × Nat) (ha : a.2 < 32) (hc : c.2 < 32)
    (h : cellLE a c) : cellLB a ≤ cellLB c := by
  obtain ⟨f, l⟩ := a
  obtain ⟨f', l'⟩ := c
  simp only at ha hc
  rcases h with hlt | ⟨heq, hle⟩
  · simp only at hlt
    obtain ⟨g, hg⟩ : ∃ g, f' = g + 1 := ⟨f' - 1, by omega⟩
    subst hg
    have hub : cellLB (f, l) < 2 ^ (f + 8) := by
      cases f with
      | zero =>
        rw [cellLB_zero]
        have : (2:Nat) ^ (0 + 8) = 256 := by norm_num
        omega
      | succ g0 =>
        rw [cellLB_succ]
        have hA1 : (2:Nat) ^ (g0 + 8) = 32 * 2 ^ (g0 + 3) := by
          rw [show g0 + 8 = 5 + (g0 + 3) by omega, pow_add]
          norm_num
        have hA2 : (2:Nat) ^ (g0 + 1 + 8) = 64 * 2 ^ (g0 + 3) := by
          rw [show g0 + 1 + 8 = 6 + (g0 + 3) by omega, pow_add]
          norm_num
        have hlm : l * 2 ^ (g0 + 3) ≤ 31 * 2 ^ (g0 + 3) :=
          Nat.mul_le_mul_right _ (by omega)
        have hpos : 0 < 2 ^ (g0 + 3) := two_pow_pos _
        omega
    have hlb : 2 ^ (g + 8) ≤ cellLB (g + 1, l') := by
      rw [cellLB_succ]
      omega
    have hpow : 2 ^ (f + 8) ≤ 2 ^ (g + 8) :=
      Nat.pow_le_pow_right (by norm_num) (by omega)
    omega
  · simp only at heq hle
    subst heq
    cases f with
    | zero =>
      rw [cellLB_zero, cellLB_zero]
      omega
    | succ g0 =>
      rw [cellLB_succ, cellLB_succ]
      have := Nat.mul_le_mul_right (2 ^ (g0 + 3)) hle
      omega

/-- C1 (good-fit guarantee): for every ALIGN-multiple request size s in
[BLOCK_SIZE_MIN, BLOCK_SIZE_MAX) and every block size b in the same range,
if mapping_insert files b into a cell lexicographically ≥ the cell
returned by mapping_search s, then b is large enough for the request:
s ≤ b. -/
theorem c1_good_fit (s b : Nat) (hs1 : BLOCK_SIZE_MIN ≤ s) (hs2 : s < BLOCK_SIZE_MAX)
    (hsa : s % ALIGN_SIZE = 0) (hb1 : BLOCK_SIZE_MIN ≤ b) (hb2 : b < BLOCK_SIZE_MAX)
    (h : cellLE (mapping_search s) (mapping_insert b)) : s ≤ b := by
  have hb64 : b < 2 ^ 64 := by
    have h1 : b < 2 ^ 33 := BSMAX_eq ▸ hb2
    have h2 : (2:Nat) ^ 33 < 2 ^ 64 := by norm_num
    omega
  have h1 : s ≤ cellLB (mapping_search s) := le_cellLB_of_search s hs1 hs2 hsa
  have h2 : cellLB (mapping_search s) ≤ cellLB (mapping_insert b) :=
    cellLB_mono _ _ (mapping_search_sl_lt s hs2) (mapping_insert_sl_lt b hb64) h
  have h3 : cellLB (mapping_insert b) ≤ b := cellLB_le_of_insert b hb64
  omega

/-- Witness for C1 at s = 32, b = 40: search(32) gives cell (0, 4),
insert(40) gives cell (0, 5) ≥ (0, 4), and indeed 32 ≤ 40. -/
theorem c1_good_fit_witness :
    BLOCK_SIZE_MIN ≤ 32 ∧ (32 : Nat) < BLOCK_SIZE_MAX ∧ 32 % ALIGN_SIZE = 0 ∧
    BLOCK_SIZE_MIN ≤ 40 ∧ (40 : Nat) < BLOCK_SIZE_MAX ∧
    cellLE (mapping_search 32) (mapping_insert 40) ∧ (32 : Nat) ≤ 40 :=
  ⟨by decide, by decide, by decide, by decide, by decide,
   by unfold cellLE; decide,
   c1_good_fit 32 40 (by decide) (by decide) (by decide) (by decide) (by decide)
     (by unfold cellLE; decide)⟩

/-! ## The allocator state model

Pointers are per-pool offsets: `Ptr.blk pid off` is the address of a block
header, `off` being the byte distance from the pool's first block (which by
`add_pool` sits at `mem - BLOCK_OVERHEAD` for the `mem` handed to
`add_pool`).  `Ptr.blockNull` is `&control->block_null` and `Ptr.nullp`
is the C null pointer.  Pools obtained from distinct `map` calls are
disjoint regions, so distinct pool ids never alias.

Memory is a total function from pointers to block headers.  `map`-fresh
memory is modelled with all-zero headers where C leaves it uninitialized;
in a defined execution the allocator writes every header field before
reading it, so the choice of initial contents is unobservable.  Stale
headers (inside payloads, or absorbed by coalescing) simply linger, as the
underlying bytes do in C. -/

inductive Ptr where
  | nullp : Ptr
  | blockNull : Ptr
  | blk (pid : Nat) (off : Nat) : Ptr
deriving DecidableEq

/-- Block header (struct block_s): prev_phys_block, the packed
size/is_free/is_prev_free/is_pool header word, and the free-list links. -/
structure BlockHdr where
  prevPhys : Ptr
  size : Nat
  isFree : Bool
  isPrevFree : Bool
  isPool : Bool
  nextFree : Ptr
  prevFree : Ptr
deriving DecidableEq

def emptyHdr : BlockHdr :=
  { prevPhys := Ptr.nullp, size := 0, isFree := false, isPrevFree := false,
    isPool := false, nextFree := Ptr.nullp, prevFree := Ptr.nullp }

/-- Pointer arithmetic: only block addresses move; the C code never offsets
the null pointer or &block_null in a defined execution. -/
def ptrAdd : Ptr → Nat → Ptr
  | Ptr.blk pid off, n => Ptr.blk pid (off + n)
  | p, _ => p

def pidOf : Ptr → Option Nat
  | Ptr.blk pid _ => some pid
  | _ => none

/-- Function update helpers for the bitmap/array/memory state. -/
def upd1 {α : Type} (f : Nat → α) (i : Nat) (v : α) : Nat → α :=
  fun j => if j = i then v else f j

def upd2 {α : Type} (f : Nat → Nat → α) (i j : Nat) (v : α) : Nat → Nat → α :=
  upd1 f i (upd1 (f i) j v)

def setHdr (m : Ptr → BlockHdr) (p : Ptr) (h : BlockHdr) : Ptr → BlockHdr :=
  fun q => if q = p then h else m q

def updHdr (m : Ptr → BlockHdr) (p : Ptr) (f : BlockHdr → BlockHdr) : Ptr → BlockHdr :=
  setHdr m p (f (m p))

/-- Mask `~0U << n` on the 32-bit bitmaps. -/
def mask32shl (n : Nat) : Nat := ((2 ^ 32 - 1) >>> n) <<< n

/-- Mask `~(1U << n)` on the 32-bit bitmaps. -/
def mask32not (n : Nat) : Nat := (2 ^ 32 - 1) ^^^ (1 <<< n)

/-- The TLSF control structure (struct tlsf_s).  `hasUnmap` abstracts
whether the `unmap` callback is non-null; `block_null`'s own header lives
at `mem Ptr.blockNull`.

The fields after `hasUnmap` are ghost state used only to state invariants
and record observable callback events; no operation's control flow reads
them:
 * `nextPid` numbers the regions returned by successive `map` calls
   (pool 0 is the region obtained by tlsf_create);
 * `pools` lists the pool ids currently owned by the allocator;
 * `chainG pid` is the ascending list of block-header offsets forming the
   physical chain of the pool, sentinel included;
 * `cellsG fl sl` is the contents (head first) of free list (fl, sl);
 * `unmapLog` records each unmap(ptr, size, user) invocation. -/
structure tlsf_s where
  flBitmap : Nat
  slBitmap : Nat → Nat
  blocks : Nat → Nat → Ptr
  mem : Ptr → BlockHdr
  hasUnmap : Bool
  nextPid : Nat
  pools : List Nat
  chainG : Nat → List Nat
  cellsG : Nat → Nat → List Ptr
  unmapLog : List (Ptr × Nat)

/-! ### block_t member functions (src/tlsf.c lines 186-246) -/

def block_is_last (m : Ptr → BlockHdr) (b : Ptr) : Bool := (m b).size == 0

/-- block_from_ptr: user pointer - BLOCK_START_OFFSET. -/
def block_from_ptr : Ptr → Ptr
  | Ptr.blk pid off => Ptr.blk pid (off - BLOCK_START_OFFSET)
  | p => p

/-- block_to_ptr: block + BLOCK_START_OFFSET. -/
def block_to_ptr (b : Ptr) : Ptr := ptrAdd b BLOCK_START_OFFSET

/-- block_prev: read the prev_phys_block field (valid only when the
previous block is free). -/
def block_prev (m : Ptr → BlockHdr) (b : Ptr) : Ptr := (m b).prevPhys

/-- block_next: block_to_ptr(b) + (size - BLOCK_OVERHEAD); in size_t
arithmetic this is exactly b + size + BLOCK_OVERHEAD. -/
def block_next (m : Ptr → BlockHdr) (b : Ptr) : Ptr :=
  ptrAdd b ((m b).size + BLOCK_OVERHEAD)

/-- block_link_next: next->prev_phys_block = block; return next. -/
def block_link_next (t : tlsf_s) (b : Ptr) : Ptr × tlsf_s :=
  let next := block_next t.mem b
  (next, { t with mem := updHdr t.mem next (fun h => { h with prevPhys := b }) })

/-- block_can_split: block->size >= sizeof(struct block_s) + size. -/
def block_can_split (t : tlsf_s) (b : Ptr) (size : Nat) : Bool :=
  SIZEOF_BLOCK + size ≤ (t.mem b).size

/-- block_set_free: set is_free, then propagate is_prev_free into the next
physical block (which block_link_next also re-links). -/
def block_set_free (t : tlsf_s) (b : Ptr) (free : Bool) : tlsf_s :=
  let t1 := { t with mem := updHdr t.mem b (fun h => { h with isFree := free }) }
  let nt := block_link_next t1 b
  { nt.2 with mem := updHdr nt.2.mem nt.1 (fun h => { h with isPrevFree := free }) }

/-- align_up (src/tlsf.c line 228): (x + ALIGN_SIZE-1) & ~(ALIGN_SIZE-1) on
size_t; the addition wraps modulo 2^64, the mask rounds down to a multiple
of ALIGN_SIZE. -/
def align_up (x : Nat) : Nat :=
  (x + (ALIGN_SIZE - 1)) % 2 ^ 64 / ALIGN_SIZE * ALIGN_SIZE

/-- adjust_size (src/tlsf.c lines 240-246).  INSIST is compiled into every
build (not only debug) and aborts the process; `none` models that abort. -/
def adjust_size (size : Nat) : Option Nat :=
  let s := align_up size
  if s < BLOCK_SIZE_MIN then some BLOCK_SIZE_MIN
  else if s < BLOCK_SIZE_MAX then some s
  else none

/-! ### Free-list maintenance (src/tlsf.c lines 278-371) -/

/-- search_suitable_block: returns the head of the first nonempty list at
cell ≥ (fl, sl), with the cell it came from, or none when the bitmaps show
no suitable block. -/
def search_suitable_block (t : tlsf_s) (fl sl : Nat) : Option (Ptr × Nat × Nat) :=
  let slMap := t.slBitmap fl &&& mask32shl sl
  if slMap = 0 then
    let flMap := t.flBitmap &&& mask32shl (fl + 1)
    if flMap = 0 then none
    else
      let fl' := ffs flMap
      let sl' := ffs (t.slBitmap fl')
      some (t.blocks fl' sl', fl', sl')
  else
    let sl' := ffs slMap
    some (t.blocks fl sl', fl, sl')

/-- remove_free_block (src/tlsf.c lines 305-332). -/
def remove_free_block (t : tlsf_s) (b : Ptr) (fl sl : Nat) : tlsf_s :=
  let prev := (t.mem b).prevFree
  let next := (t.mem b).nextFree
  let m1 := updHdr t.mem next (fun h => { h with prevFree := prev })
  let m2 := updHdr m1 prev (fun h => { h with nextFree := next })
  let t1 := { t with mem := m2,
                     cellsG := upd2 t.cellsG fl sl ((t.cellsG fl sl).erase b) }
  if t1.blocks fl sl = b then
    let t2 := { t1 with blocks := upd2 t1.blocks fl sl next }
    if next = Ptr.blockNull then
      let t3 := { t2 with
        slBitmap := upd1 t2.slBitmap fl (t2.slBitmap fl &&& mask32not sl) }
      if t3.slBitmap fl = 0 then
        { t3 with flBitmap := t3.flBitmap &&& mask32not fl }
      else t3
    else t2
  else t1

/-- insert_free_block (src/tlsf.c lines 335-357).  Note the write
current->prev_free = block also hits block_null when the list was empty. -/
def insert_free_block (t : tlsf_s) (b : Ptr) (fl sl : Nat) : tlsf_s :=
  let current := t.blocks fl sl
  let m1 := updHdr t.mem b (fun h =>
    { h with nextFree := current, prevFree := Ptr.blockNull })
  let m2 := updHdr m1 current (fun h => { h with prevFree := b })
  { t with mem := m2,
           blocks := upd2 t.blocks fl sl b,
           flBitmap := t.flBitmap ||| (1 <<< fl),
           slBitmap := upd1 t.slBitmap fl (t.slBitmap fl ||| (1 <<< sl)),
           cellsG := upd2 t.cellsG fl sl (b :: t.cellsG fl sl) }

/-- block_remove: look the cell up from the block's current size. -/
def block_remove (t : tlsf_s) (b : Ptr) : tlsf_s :=
  let fs := mapping_insert (t.mem b).size
  remove_free_block t b fs.1 fs.2

/-- block_insert: look the cell up from the block's current size. -/
def block_insert (t : tlsf_s) (b : Ptr) : tlsf_s :=
  let fs := mapping_insert (t.mem b).size
  insert_free_block t b fs.1 fs.2

/-! ### Split and coalesce (src/tlsf.c lines 373-464) -/

/-- Ghost helper: record a new block offset right after an existing one in
a pool's physical chain. -/
def chainIns (l : List Nat) (o oNew : Nat) : List Nat :=
  match l with
  | [] => []
  | x :: xs => if x = o then x :: oNew :: xs else x :: chainIns xs o oNew

/-- Ghost helper for block_split: the remainder, `delta` bytes after the
split block, appears in the chain. -/
def ghostSplit (t : tlsf_s) (b : Ptr) (delta : Nat) : tlsf_s :=
  match b with
  | Ptr.blk pid off =>
    { t with chainG := upd1 t.chainG pid (chainIns (t.chainG pid) off (off + delta)) }
  | _ => t

/-- Ghost helper for block_absorb: the absorbed offset leaves the chain. -/
def ghostAbsorb (t : tlsf_s) (b : Ptr) : tlsf_s :=
  match b with
  | Ptr.blk pid off => { t with chainG := upd1 t.chainG pid ((t.chainG pid).erase off) }
  | _ => t

/-- block_split (src/tlsf.c lines 374-393).  The remainder starts at
block_to_ptr(b) + (size - BLOCK_OVERHEAD) = b + size + BLOCK_OVERHEAD; the
callers guard with block_can_split, so the size_t subtraction computing
remain_size does not wrap. -/
def block_split (t : tlsf_s) (b : Ptr) (size : Nat) : Ptr × tlsf_s :=
  let remaining := ptrAdd b (size + BLOCK_OVERHEAD)
  let remain_size := (t.mem b).size - (size + BLOCK_OVERHEAD)
  let m1 := updHdr t.mem remaining (fun h =>
    { h with size := remain_size, isPool := false, isFree := false, isPrevFree := false })
  let t1 := ghostSplit { t with mem := m1 } b (size + BLOCK_OVERHEAD)
  let t2 := block_set_free t1 remaining true
  let t3 := { t2 with mem := updHdr t2.mem b (fun h => { h with size := size }) }
  (remaining, t3)

/-- block_absorb (src/tlsf.c lines 396-401): prev->size += block->size +
BLOCK_OVERHEAD, then re-link the next block's prev_phys_block. -/
def block_absorb (t : tlsf_s) (prev b : Ptr) : Ptr × tlsf_s :=
  let m1 := updHdr t.mem prev (fun h =>
    { h with size := h.size + (t.mem b).size + BLOCK_OVERHEAD })
  let t1 := ghostAbsorb { t with mem := m1 } b
  let t2 := (block_link_next t1 prev).2
  (prev, t2)

/-- block_merge_prev (src/tlsf.c lines 404-414): decided by the
is_prev_free flag; the previous block is found through prev_phys_block. -/
def block_merge_prev (t : tlsf_s) (b : Ptr) : Ptr × tlsf_s :=
  if (t.mem b).isPrevFree then
    let prev := block_prev t.mem b
    let t1 := block_remove t prev
    block_absorb t1 prev b
  else (b, t)

/-- block_merge_next (src/tlsf.c lines 417-428): decided by the next
physical block's is_free bit. -/
def block_merge_next (t : tlsf_s) (b : Ptr) : Ptr × tlsf_s :=
  let next := block_next t.mem b
  if (t.mem next).isFree then
    let t1 := block_remove t next
    block_absorb t1 b next
  else (b, t)

/-- block_trim_free (src/tlsf.c lines 431-439). -/
def block_trim_free (t : tlsf_s) (b : Ptr) (size : Nat) : tlsf_s :=
  if block_can_split t b size then
    let rt := block_split t b size
    let t1 := (block_link_next rt.2 b).2
    let t2 := { t1 with mem := updHdr t1.mem rt.1 (fun h => { h with isPrevFree := true }) }
    block_insert t2 rt.1
  else t

/-- block_trim_used (src/tlsf.c lines 442-452). -/
def block_trim_used (t : tlsf_s) (b : Ptr) (size : Nat) : tlsf_s :=
  if block_can_split t b size then
    let rt := block_split t b size
    let t1 := { rt.2 with mem := updHdr rt.2.mem rt.1 (fun h => { h with isPrevFree := false }) }
    let rt2 := block_merge_next t1 rt.1
    block_insert rt2.2 rt2.1
  else t

/-- block_locate_free (src/tlsf.c lines 455-464). -/
def block_locate_free (t : tlsf_s) (size : Nat) : Option Ptr × tlsf_s :=
  let fs := mapping_search size
  match search_suitable_block t fs.1 fs.2 with
  | none => (none, t)
  | some bfs => (some bfs.1, remove_free_block t bfs.1 bfs.2.1 bfs.2.2)

/-! ### Pool lifecycle (src/tlsf.c lines 472-521) -/

/-- add_pool (src/tlsf.c lines 472-504).  `pid` identifies the fresh
region handed in by the caller ('mem'); the pool's first block sits at
mem - BLOCK_OVERHEAD, i.e. offset 0 of the region as addressed here. -/
def add_pool (t : tlsf_s) (pid : Nat) (size : Nat) : Ptr × tlsf_s :=
  let pool_size := size - POOL_OVERHEAD
  let b := Ptr.blk pid 0
  let m1 := updHdr t.mem b (fun h =>
    { h with size := pool_size, isFree := true, isPrevFree := false, isPool := false })
  let t1 := { t with
    mem := m1
    pools := pid :: t.pools
    chainG := upd1 t.chainG pid [0, pool_size + BLOCK_OVERHEAD] }
  let t2 := block_insert t1 b
  let st := block_link_next t2 b
  let t4 := { st.2 with mem := updHdr st.2.mem st.1 (fun h =>
    { h with size := 0, isFree := false, isPrevFree := true, isPool := false }) }
  (b, t4)

/-- remove_pool (src/tlsf.c lines 506-521): unmap(block + BLOCK_OVERHEAD,
size + POOL_OVERHEAD, user). -/
def remove_pool (t : tlsf_s) (b : Ptr) : tlsf_s :=
  let t1 := { t with unmapLog :=
    (ptrAdd b BLOCK_OVERHEAD, (t.mem b).size + POOL_OVERHEAD) :: t.unmapLog }
  match b with
  | Ptr.blk pid _ => { t1 with pools := t1.pools.erase pid,
                               chainG := upd1 t1.chainG pid [] }
  | _ => t1

/-! ### Main interface (src/tlsf.c lines 527-682) -/

/-- tlsf_create (src/tlsf.c lines 527-558).  `granted` is the size the map
callback reported back (callers of tlsf_create must get at least
TLSF_SIZE + POOL_OVERHEAD + BLOCK_OVERHEAD bytes); the control structure
occupies the first TLSF_SIZE bytes and the rest becomes pool 0. -/
def tlsf_create (granted : Nat) (hasUnmap : Bool) : tlsf_s :=
  let t0 : tlsf_s := {
    flBitmap := 0
    slBitmap := fun _ => 0
    blocks := fun _ _ => Ptr.blockNull
    mem := fun _ => emptyHdr
    hasUnmap := hasUnmap
    nextPid := 1
    pools := []
    chainG := fun _ => []
    cellsG := fun _ _ => []
    unmapLog := [] }
  let mnull := updHdr t0.mem Ptr.blockNull
    (fun h => { h with nextFree := Ptr.blockNull, prevFree := Ptr.blockNull })
  let t1 := { t0 with mem := mnull }
  (add_pool t1 0 (granted - TLSF_SIZE)).2

/-- Common tail of tlsf_malloc (src/tlsf.c lines 594-596): trim, mark
used, hand out the payload pointer. -/
def mallocFinish (t : tlsf_s) (b : Ptr) (sz : Nat) : Option Ptr × tlsf_s :=
  let t1 := block_trim_free t b sz
  let t2 := block_set_free t1 b false
  (some (block_to_ptr b), t2)

/-- tlsf_malloc (src/tlsf.c lines 574-597).  `resp` is the behaviour of
the map callback on this call: `none` for a null return, `some memsize`
for success with `memsize` the granted byte count written back through
the size pointer.  `Except.error ()` models an aborted execution: either
the INSIST in adjust_size (all builds), or the locate failure after
add_pool, where a debug build fails ASSERT(block) and a release build
dereferences a null block pointer. -/
def tlsf_malloc (resp : Option Nat) (t : tlsf_s) (size : Nat) :
    Except Unit (Option Ptr × tlsf_s) :=
  match adjust_size size with
  | none => Except.error ()
  | some sz =>
    let obt := block_locate_free t sz
    match obt.1 with
    | some b => Except.ok (mallocFinish obt.2 b sz)
    | none =>
      match resp with
      | none => Except.ok (none, obt.2)
      | some memsize =>
        let pid := obt.2.nextPid
        let pt := add_pool { obt.2 with nextPid := pid + 1 } pid memsize
        let t3 := { pt.2 with mem := updHdr pt.2.mem pt.1 (fun h => { h with isPool := true }) }
        let obt2 := block_locate_free t3 sz
        match obt2.1 with
        | some b => Except.ok (mallocFinish obt2.2 b sz)
        | none => Except.error ()

/-- The merge phase of tlsf_free (src/tlsf.c lines 603-612): mark the
block free, then coalesce with the previous and next physical
neighbours.  Returns the merged block and the resulting state. -/
def freeMerged (t : tlsf_s) (p : Ptr) : Ptr × tlsf_s :=
  let b := block_from_ptr p
  let t1 := block_set_free t b true
  let bt2 := block_merge_prev t1 b
  block_merge_next bt2.2 bt2.1

/-- tlsf_free (src/tlsf.c lines 599-618). -/
def tlsf_free (t : tlsf_s) (p : Ptr) : tlsf_s :=
  if p = Ptr.nullp then t
  else
    let bt3 := freeMerged t p
    let merged := bt3.1
    let t3 := bt3.2
    if (t3.mem merged).isPool ∧ (t3.mem (block_next t3.mem merged)).size = 0 ∧
        t3.hasUnmap then
      remove_pool t3 merged
    else
      block_insert t3 merged

/-- tlsf_realloc (src/tlsf.c lines 633-675).  The memcpy of the payload on
the reallocate-and-copy path is not represented (the model carries no
payload bytes). -/
def tlsf_realloc (resp : Option Nat) (t : tlsf_s) (p : Ptr) (size : Nat) :
    Except Unit (Option Ptr × tlsf_s) :=
  if p ≠ Ptr.nullp ∧ size = 0 then
    Except.ok (none, tlsf_free t p)
  else if p = Ptr.nullp then
    tlsf_malloc resp t size
  else
    let b := block_from_ptr p
    let next := block_next t.mem b
    let cursize := (t.mem b).size
    let combined := cursize + (t.mem next).size + BLOCK_OVERHEAD
    match adjust_size size with
    | none => Except.error ()
    | some sz =>
      if cursize < sz ∧ ((t.mem next).isFree = false ∨ combined < sz) then
        match tlsf_malloc resp t sz with
        | Except.error e => Except.error e
        | Except.ok (some q, t1) =>
            -- memcpy(p, mem, cursize) copies payload bytes (not modelled)
            Except.ok (some q, tlsf_free t1 p)
        | Except.ok (none, t1) => Except.ok (none, t1)
      else
        let t1 :=
          if cursize < sz then
            let t2 := (block_merge_next t b).2
            let nxt := block_next t2.mem b
            { t2 with mem := updHdr t2.mem nxt (fun h => { h with isPrevFree := false }) }
          else t
        Except.ok (some p, block_trim_used t1 b sz)

/-! ## Basic state-manipulation lemmas -/

theorem setHdr_same (m : Ptr → BlockHdr) (p : Ptr) (h : BlockHdr) : setHdr m p h p = h :=
  if_pos rfl

theorem setHdr_other (m : Ptr → BlockHdr) (p : Ptr) (h : BlockHdr) (q : Ptr) (hq : q ≠ p) :
    setHdr m p h q = m q := if_neg hq

theorem updHdr_same (m : Ptr → BlockHdr) (p : Ptr) (f : BlockHdr → BlockHdr) :
    updHdr m p f p = f (m p) := setHdr_same _ _ _

theorem updHdr_other (m : Ptr → BlockHdr) (p : Ptr) (f : BlockHdr → BlockHdr) (q : Ptr)
    (hq : q ≠ p) : updHdr m p f q = m q := setHdr_other _ _ _ _ hq

theorem upd1_same {α : Type} (f : Nat → α) (i : Nat) (v : α) : upd1 f i v i = v :=
  if_pos rfl

theorem upd1_other {α : Type} (f : Nat → α) (i : Nat) (v : α) (j : Nat) (hj : j ≠ i) :
    upd1 f i v j = f j := if_neg hj

/-! ## Bitmap bit lemmas -/

theorem testBit_mask32shl (n i : Nat) :
    (mask32shl n).testBit i = (decide (n ≤ i) && decide (i < 32)) := by
  unfold mask32shl
  rw [Nat.testBit_shiftLeft, Nat.testBit_shiftRight, Nat.testBit_two_pow_sub_one]
  by_cases h : n ≤ i
  · have hni : n + (i - n) = i := by omega
    rw [hni]
  · simp [h]

theorem testBit_mask32not (n i : Nat) (hn : n < 32) :
    (mask32not n).testBit i = (decide (i < 32) && !decide (i = n)) := by
  unfold mask32not
  rw [Nat.testBit_xor, Nat.testBit_two_pow_sub_one, Nat.shiftLeft_eq, one_mul,
    Nat.testBit_two_pow]
  by_cases h : i < 32
  · by_cases h2 : n = i
    · subst h2
      simp [h]
    · have hi : i ≠ n := fun hh => h2 hh.symm
      simp [h, h2, hi]
  · have hi : i ≠ n := by omega
    have hn2 : n ≠ i := by omega
    simp [h, hi, hn2]

theorem ne_zero_of_testBit {x i : Nat} (h : x.testBit i = true) : x ≠ 0 := by
  intro h0
  subst h0
  simp at h

theorem shiftLeft_one_eq (n : Nat) : (1 <<< n : Nat) = 2 ^ n := by
  rw [Nat.shiftLeft_eq, one_mul]

/-! ## Pointer and accessor lemmas -/

theorem block_from_to (b : Ptr) : block_from_ptr (block_to_ptr b) = b := by
  cases b <;> simp [block_from_ptr, block_to_ptr, ptrAdd, BLOCK_START_OFFSET]

/-- The is_free bit of the block itself after block_set_free. -/
theorem block_set_free_isFree (t : tlsf_s) (b : Ptr) (free : Bool) :
    ((block_set_free t b free).mem b).isFree = free := by
  simp only [block_set_free, block_link_next]
  generalize block_next (updHdr t.mem b (fun h => { h with isFree := free })) b = nxt
  by_cases hb : b = nxt
  · subst hb
    simp only [updHdr_same]
  · rw [updHdr_other _ _ _ _ hb, updHdr_other _ _ _ _ hb, updHdr_same]

/-! ## search_suitable_block / block_locate_free characterization -/

theorem search_some_of_sl (t : tlsf_s) (fl sl : Nat)
    (h : t.slBitmap fl &&& mask32shl sl ≠ 0) :
    search_suitable_block t fl sl =
      some (t.blocks fl (ffs (t.slBitmap fl &&& mask32shl sl)), fl,
        ffs (t.slBitmap fl &&& mask32shl sl)) := by
  unfold search_suitable_block
  rw [if_neg h]

theorem search_some_of_fl (t : tlsf_s) (fl sl : Nat)
    (h : t.flBitmap &&& mask32shl (fl + 1) ≠ 0) :
    ∃ b fl' sl', search_suitable_block t fl sl = some (b, fl', sl') := by
  unfold search_suitable_block
  by_cases h1 : t.slBitmap fl &&& mask32shl sl = 0
  · rw [if_pos h1, if_neg h]
    exact ⟨_, _, _, rfl⟩
  · rw [if_neg h1]
    exact ⟨_, _, _, rfl⟩

theorem search_none_facts (t : tlsf_s) (fl sl : Nat)
    (h : search_suitable_block t fl sl = none) :
    t.slBitmap fl &&& mask32shl sl = 0 ∧ t.flBitmap &&& mask32shl (fl + 1) = 0 := by
  unfold search_suitable_block at h
  by_cases h1 : t.slBitmap fl &&& mask32shl sl = 0
  · rw [if_pos h1] at h
    by_cases h2 : t.flBitmap &&& mask32shl (fl + 1) = 0
    · exact ⟨h1, h2⟩
    · rw [if_neg h2] at h
      exact absurd h (by simp)
  · rw [if_neg h1] at h
    exact absurd h (by simp)

theorem block_locate_free_none (t : tlsf_s) (sz : Nat)
    (h : search_suitable_block t (mapping_search sz).1 (mapping_search sz).2 = none) :
    block_locate_free t sz = (none, t) := by
  unfold block_locate_free
  simp only [h]

theorem block_locate_free_some (t : tlsf_s) (sz : Nat) (b : Ptr) (fl' sl' : Nat)
    (h : search_suitable_block t (mapping_search sz).1 (mapping_search sz).2 =
      some (b, fl', sl')) :
    block_locate_free t sz = (some b, remove_free_block t b fl' sl') := by
  unfold block_locate_free
  simp only [h]

/-- The state tlsf_malloc builds when the first locate fails and map
grants `memsize` bytes: a fresh pool is added and its initial block is
flagged is_pool. -/
def grownState (t : tlsf_s) (memsize : Nat) : tlsf_s :=
  let pt := add_pool { t with nextPid := t.nextPid + 1 } t.nextPid memsize
  { pt.2 with mem := updHdr pt.2.mem pt.1 (fun h => { h with isPool := true }) }

/-- Shape of tlsf_malloc when the first locate fails and the map callback
grants memory: the result is determined by a second locate on the
pool-extended state. -/
theorem tlsf_malloc_grow_eq (t : tlsf_s) (n sz memsize : Nat)
    (ha : adjust_size n = some sz)
    (hs : search_suitable_block t (mapping_search sz).1 (mapping_search sz).2 = none) :
    tlsf_malloc (some memsize) t n =
      (match (block_locate_free (grownState t memsize) sz).1 with
       | some b => Except.ok (mallocFinish (block_locate_free (grownState t memsize) sz).2 b sz)
       | none => Except.error ()) := by
  unfold tlsf_malloc grownState
  rw [ha]
  simp only [block_locate_free_none t sz hs]

/-- A failing tlsf_malloc leaves the state unchanged: the only path
returning a null pointer is locate-failure followed by a null map return,
and neither step mutates anything. -/
theorem tlsf_malloc_none_state (resp : Option Nat) (t : tlsf_s) (n : Nat) (t' : tlsf_s)
    (h : tlsf_malloc resp t n = Except.ok (none, t')) : t' = t ∧ resp = none := by
  cases ha : adjust_size n with
  | none =>
    unfold tlsf_malloc at h
    rw [ha] at h
    exact absurd h (by simp)
  | some sz =>
    cases hs : search_suitable_block t (mapping_search sz).1 (mapping_search sz).2 with
    | some bfs =>
      unfold tlsf_malloc at h
      rw [ha] at h
      have hl : block_locate_free t sz = (some bfs.1, remove_free_block t bfs.1 bfs.2.1 bfs.2.2) :=
        block_locate_free_some t sz bfs.1 bfs.2.1 bfs.2.2 (by rw [hs])
      simp only [hl] at h
      simp [mallocFinish] at h
    | none =>
      cases resp with
      | none =>
        unfold tlsf_malloc at h
        rw [ha] at h
        simp only [block_locate_free_none t sz hs] at h
        simp only [Except.ok.injEq, Prod.mk.injEq] at h
        exact ⟨h.2.symm, rfl⟩
      | some memsize =>
        have he := tlsf_malloc_grow_eq t n sz memsize ha hs
        set t3 := grownState t memsize with ht3
        rw [he] at h
        cases hs2 : (block_locate_free t3 sz).1 with
        | some b =>
          rw [hs2] at h
          simp [mallocFinish] at h
        | none =>
          rw [hs2] at h
          exact absurd h (by simp)

theorem mapping_insert_small (b : Nat) (hb : b < SMALL_BLOCK_SIZE) :
    mapping_insert b = (0, b / 8) := by
  unfold mapping_insert
  rw [if_pos hb]
  rfl

theorem mallocFinish_fst (t : tlsf_s) (b : Ptr) (sz : Nat) :
    (mallocFinish t b sz).1 = some (block_to_ptr b) := rfl

theorem mallocFinish_isFree (t : tlsf_s) (b : Ptr) (sz : Nat) :
    ((mallocFinish t b sz).2.mem b).isFree = false := by
  unfold mallocFinish
  exact block_set_free_isFree _ b false

theorem add_pool_flBitmap (t : tlsf_s) (pid size : Nat) :
    (add_pool t pid size).2.flBitmap =
      t.flBitmap ||| 1 <<< (mapping_insert (size - POOL_OVERHEAD)).1 := by
  simp [add_pool, block_insert, insert_free_block, block_link_next, updHdr, setHdr_same]

theorem add_pool_slBitmap (t : tlsf_s) (pid size : Nat) :
    (add_pool t pid size).2.slBitmap =
      upd1 t.slBitmap (mapping_insert (size - POOL_OVERHEAD)).1
        (t.slBitmap (mapping_insert (size - POOL_OVERHEAD)).1 |||
          1 <<< (mapping_insert (size - POOL_OVERHEAD)).2) := by
  simp [add_pool, block_insert, insert_free_block, block_link_next, updHdr, setHdr_same]

theorem grownState_flBitmap (t : tlsf_s) (memsize : Nat) :
    (grownState t memsize).flBitmap =
      t.flBitmap ||| 1 <<< (mapping_insert (memsize - POOL_OVERHEAD)).1 := by
  show (add_pool { t with nextPid := t.nextPid + 1 } t.nextPid memsize).2.flBitmap = _
  rw [add_pool_flBitmap]

theorem grownState_slBitmap (t : tlsf_s) (memsize : Nat) :
    (grownState t memsize).slBitmap =
      upd1 t.slBitmap (mapping_insert (memsize - POOL_OVERHEAD)).1
        (t.slBitmap (mapping_insert (memsize - POOL_OVERHEAD)).1 |||
          1 <<< (mapping_insert (memsize - POOL_OVERHEAD)).2) := by
  show (add_pool { t with nextPid := t.nextPid + 1 } t.nextPid memsize).2.slBitmap = _
  rw [add_pool_slBitmap]

/-! ## Claim theorems C4, C5, C6, C8, C9 -/

/-- C4 (code evidence at the boundary): a request of exactly
BLOCK_SIZE_MAX - BLOCK_OVERHEAD passes adjust_size unchanged, but
mapping_search then computes first-level index 26 = FL_INDEX_COUNT, one
past the last valid index of sl_bitmap[] / blocks[][]: the following
search_suitable_block indexes out of bounds (undefined behaviour), so the
request does not succeed cleanly as the claim states.  The pool a
successful map would add for it (pool_size = BLOCK_SIZE_MAX) likewise
files at fl = FL_INDEX_COUNT in mapping_insert inside add_pool, an
out-of-bounds write.  The failure half of the claim also does not hold as
stated for every size ≥ BLOCK_SIZE_MAX: it holds (by abort in every
build, not only debug) up to 2^64 - BLOCK_OVERHEAD, while from
2^64 - ALIGN_SIZE + 1 on, align_up wraps and adjust_size accepts the
request as BLOCK_SIZE_MIN. -/
theorem c4_boundary_out_of_bounds :
    adjust_size (BLOCK_SIZE_MAX - BLOCK_OVERHEAD) = some (BLOCK_SIZE_MAX - BLOCK_OVERHEAD) ∧
    (mapping_search (BLOCK_SIZE_MAX - BLOCK_OVERHEAD)).1 = FL_INDEX_COUNT ∧
    (mapping_insert BLOCK_SIZE_MAX).1 = FL_INDEX_COUNT ∧
    FL_INDEX_COUNT = 26 ∧
    (∀ n, BLOCK_SIZE_MAX ≤ n → n ≤ 2 ^ 64 - BLOCK_OVERHEAD → adjust_size n = none) ∧
    adjust_size (2 ^ 64 - 7) = some BLOCK_SIZE_MIN := by
  refine ⟨by decide, by decide, by decide, by decide, ?_, by decide⟩
  intro n h1 h2
  rw [show (BLOCK_OVERHEAD : Nat) = 8 from rfl] at h2
  rw [BSMAX_eq] at h1
  have hmod : (n + (ALIGN_SIZE - 1)) % 2 ^ 64 = n + 7 := by
    rw [ALIGN_eq]
    omega
  have hal : align_up n = (n + 7) / 8 * 8 := by
    unfold align_up
    rw [hmod, ALIGN_eq]
  have hge : 2 ^ 33 ≤ align_up n := by
    rw [hal]
    omega
  unfold adjust_size
  rw [if_neg (by rw [BSMIN_eq]; omega), if_neg (by rw [BSMAX_eq]; omega)]

/-- C9: for every request size n with SIZE_MAX - ALIGN + 2 ≤ n (i.e.
n + ALIGN_SIZE - 1 overflows size_t), align_up wraps to 0, adjust_size
returns BLOCK_SIZE_MIN instead of detecting the over-limit request, and
tlsf_malloc behaves exactly as a BLOCK_SIZE_MIN-byte request. -/
theorem c9_align_up_wraps (n : Nat) (h1 : 2 ^ 64 - 1 - ALIGN_SIZE + 2 ≤ n)
    (h2 : n < 2 ^ 64) :
    align_up n = 0 ∧ adjust_size n = some BLOCK_SIZE_MIN ∧
    ∀ resp t, tlsf_malloc resp t n = tlsf_malloc resp t BLOCK_SIZE_MIN := by
  rw [ALIGN_eq] at h1
  have hal : align_up n = 0 := by
    unfold align_up
    rw [ALIGN_eq]
    omega
  have hadj : adjust_size n = some BLOCK_SIZE_MIN := by
    unfold adjust_size
    rw [hal]
    decide
  refine ⟨hal, hadj, ?_⟩
  intro resp t
  unfold tlsf_malloc
  rw [hadj, show adjust_size BLOCK_SIZE_MIN = some BLOCK_SIZE_MIN from by decide]

/-- Witness for C9 at n = 2^64 - 7 on a fresh allocator. -/
theorem c9_align_up_wraps_witness :
    align_up (2 ^ 64 - 7) = 0 ∧ adjust_size (2 ^ 64 - 7) = some BLOCK_SIZE_MIN ∧
    tlsf_malloc none (tlsf_create 6872 true) (2 ^ 64 - 7) =
      tlsf_malloc none (tlsf_create 6872 true) BLOCK_SIZE_MIN :=
  ⟨(c9_align_up_wraps (2 ^ 64 - 7) (by decide) (by decide)).1,
   (c9_align_up_wraps (2 ^ 64 - 7) (by decide) (by decide)).2.1,
   (c9_align_up_wraps (2 ^ 64 - 7) (by decide) (by decide)).2.2 none (tlsf_create 6872 true)⟩

/-- C8: tlsf_realloc(t, null, n) is tlsf_malloc(t, n) — result and state
change alike — and tlsf_realloc(t, p, 0) for non-null p is tlsf_free(t, p)
plus a null return. -/
theorem c8_realloc_degenerate (resp : Option Nat) (t : tlsf_s) :
    (∀ n, tlsf_realloc resp t Ptr.nullp n = tlsf_malloc resp t n) ∧
    (∀ p, p ≠ Ptr.nullp →
      tlsf_realloc resp t p 0 = Except.ok (none, tlsf_free t p)) := by
  constructor
  · intro n
    unfold tlsf_realloc
    rw [if_neg (by simp), if_pos rfl]
  · intro p hp
    unfold tlsf_realloc
    rw [if_pos ⟨hp, rfl⟩]

/-- Witness for C8 on a concrete state. -/
theorem c8_realloc_degenerate_witness :
    tlsf_realloc none (tlsf_create 6872 true) Ptr.nullp 16 =
      tlsf_malloc none (tlsf_create 6872 true) 16 ∧
    tlsf_realloc none (tlsf_create 6872 true) (Ptr.blk 0 16) 0 =
      Except.ok (none, tlsf_free (tlsf_create 6872 true) (Ptr.blk 0 16)) :=
  ⟨(c8_realloc_degenerate none (tlsf_create 6872 true)).1 16,
   (c8_realloc_degenerate none (tlsf_create 6872 true)).2 (Ptr.blk 0 16) (by decide)⟩

/-- C5: whenever tlsf_realloc takes the reallocate-and-copy path (the
request exceeds the current block and the next physical block is used or
too small) and the internal tlsf_malloc returns null, tlsf_realloc
returns null and the state — in particular the original allocation, its
address, its header and every other byte — is exactly the pre-call
state. -/
theorem c5_realloc_failure_atomic (resp : Option Nat) (t t1 : tlsf_s) (p : Ptr)
    (n sz : Nat) (hp : p ≠ Ptr.nullp) (hn : n ≠ 0)
    (hadj : adjust_size n = some sz)
    (hgrow : (t.mem (block_from_ptr p)).size < sz)
    (hnofit : (t.mem (block_next t.mem (block_from_ptr p))).isFree = false ∨
      (t.mem (block_from_ptr p)).size +
        (t.mem (block_next t.mem (block_from_ptr p))).size + BLOCK_OVERHEAD < sz)
    (hfail : tlsf_malloc resp t sz = Except.ok (none, t1)) :
    tlsf_realloc resp t p n = Except.ok (none, t) := by
  obtain ⟨ht1, -⟩ := tlsf_malloc_none_state resp t sz t1 hfail
  subst ht1
  unfold tlsf_realloc
  rw [if_neg (by intro hc; exact hn hc.2), if_neg hp, hadj]
  simp only []
  rw [if_pos ⟨hgrow, hnofit⟩, hfail]

/-- C7: tlsf_malloc(t, 0) goes through adjust_size, which clamps the
requested size to BLOCK_SIZE_MIN, and does not return null when memory is
available: for every state, if the map callback would grant a pool of at
least the minimum legal size, the call returns a payload pointer to a
block that ends up marked used (hence passable to tlsf_free, whose
debug-build assert demands exactly a used block). -/
theorem c7_malloc_zero (t : tlsf_s) (g : Nat)
    (hg1 : POOL_OVERHEAD + BLOCK_OVERHEAD + BLOCK_SIZE_MIN ≤ g)
    (hg2 : g ≤ BLOCK_SIZE_MAX) :
    adjust_size 0 = some BLOCK_SIZE_MIN ∧
    ∃ p t', tlsf_malloc (some g) t 0 = Except.ok (some p, t') ∧
      (t'.mem (block_from_ptr p)).isFree = false := by
  refine ⟨by decide, ?_⟩
  have hadj : adjust_size 0 = some 24 := by decide
  cases hs : search_suitable_block t (mapping_search 24).1 (mapping_search 24).2 with
  | some bfs =>
    have hl : block_locate_free t 24 =
        (some bfs.1, remove_free_block t bfs.1 bfs.2.1 bfs.2.2) :=
      block_locate_free_some t 24 bfs.1 bfs.2.1 bfs.2.2 (by rw [hs])
    refine ⟨block_to_ptr bfs.1,
      (mallocFinish (remove_free_block t bfs.1 bfs.2.1 bfs.2.2) bfs.1 24).2, ?_, ?_⟩
    · unfold tlsf_malloc
      rw [hadj]
      simp only [hl]
      rfl
    · rw [block_from_to]
      exact mallocFinish_isFree _ _ _
  | none =>
    have he := tlsf_malloc_grow_eq t 0 24 g hadj hs
    have hms : mapping_search 24 = (0, 3) := by decide
    have h16 : (POOL_OVERHEAD : Nat) = 16 := rfl
    have h48 : (POOL_OVERHEAD + BLOCK_OVERHEAD + BLOCK_SIZE_MIN : Nat) = 48 := rfl
    rw [h48] at hg1
    rw [BSMAX_eq] at hg2
    have hps32 : 32 ≤ g - POOL_OVERHEAD := by rw [h16]; omega
    have hpsM : g - POOL_OVERHEAD < 2 ^ 33 := by rw [h16]; omega
    have hsearch2 : ∃ b2 fl2 sl2,
        search_suitable_block (grownState t g) (mapping_search 24).1
          (mapping_search 24).2 = some (b2, fl2, sl2) := by
      rw [hms]
      by_cases hsmall : g - POOL_OVERHEAD < SMALL_BLOCK_SIZE
      · -- the new pool's block files in the first-level-0 row, at sl ≥ 4
        have hmi : mapping_insert (g - POOL_OVERHEAD) = (0, (g - POOL_OVERHEAD) / 8) :=
          mapping_insert_small _ hsmall
        refine ⟨_, _, _, search_some_of_sl _ 0 3 ?_⟩
        apply ne_zero_of_testBit (i := (g - POOL_OVERHEAD) / 8)
        rw [grownState_slBitmap, hmi]
        simp only [upd1_same]
        rw [Nat.testBit_and, Nat.testBit_or, shiftLeft_one_eq, testBit_mask32shl]
        have hsl4 : 4 ≤ (g - POOL_OVERHEAD) / 8 := by omega
        have hsl32 : (g - POOL_OVERHEAD) / 8 < 32 := by
          rw [SMALL_eq] at hsmall
          omega
        rw [Nat.testBit_two_pow]
        have d1 : decide ((3:Nat) ≤ (g - POOL_OVERHEAD) / 8) = true := by
          simp only [decide_eq_true_eq]; omega
        have d2 : decide ((g - POOL_OVERHEAD) / 8 < 32) = true := by
          simp only [decide_eq_true_eq]; omega
        simp [d1, d2]
      · -- the new pool's block files at first level ≥ 1
        push_neg at hsmall
        have h256 : (256 : Nat) ≤ g - POOL_OVERHEAD := SMALL_eq ▸ hsmall
        have hk8 : 8 ≤ Nat.log 2 (g - POOL_OVERHEAD) :=
          le_log2 8 _ (by norm_num; omega)
        have hkle : Nat.log 2 (g - POOL_OVERHEAD) ≤ 32 := by
          by_contra hcon
          push_neg at hcon
          have hup := log2_le_self (g - POOL_OVERHEAD) (by omega)
          have hbig : (2:Nat) ^ 33 ≤ 2 ^ Nat.log 2 (g - POOL_OVERHEAD) :=
            Nat.pow_le_pow_right (by norm_num) (by omega)
          omega
        have hmi := mapping_insert_large (g - POOL_OVERHEAD) hsmall (by omega)
        apply search_some_of_fl
        apply ne_zero_of_testBit (i := Nat.log 2 (g - POOL_OVERHEAD) - 7)
        rw [grownState_flBitmap, hmi]
        rw [Nat.testBit_and, Nat.testBit_or, shiftLeft_one_eq, testBit_mask32shl]
        rw [Nat.testBit_two_pow]
        have d2 : decide ((0:Nat) + 1 ≤ Nat.log 2 (g - POOL_OVERHEAD) - 7) = true := by
          simp only [decide_eq_true_eq]; omega
        have d3 : decide (Nat.log 2 (g - POOL_OVERHEAD) - 7 < 32) = true := by
          simp only [decide_eq_true_eq]; omega
        simp [d2, d3]
    obtain ⟨b2, fl2, sl2, hs2⟩ := hsearch2
    have hl2 : block_locate_free (grownState t g) 24 =
        (some b2, remove_free_block (grownState t g) b2 fl2 sl2) :=
      block_locate_free_some _ 24 b2 fl2 sl2 hs2
    refine ⟨block_to_ptr b2,
      (mallocFinish (remove_free_block (grownState t g) b2 fl2 sl2) b2 24).2, ?_, ?_⟩
    · rw [he]
      simp only [hl2]
      rfl
    · rw [block_from_to]
      exact mallocFinish_isFree _ _ _

/-- Witness for C7 on a fresh allocator with map granting 48 bytes. -/
theorem c7_malloc_zero_witness :
    adjust_size 0 = some BLOCK_SIZE_MIN ∧
    ∃ p t', tlsf_malloc (some 48) (tlsf_create 6872 true) 0 = Except.ok (some p, t') ∧
      (t'.mem (block_from_ptr p)).isFree = false :=
  c7_malloc_zero (tlsf_create 6872 true) 48 (by decide) (by decide)

/-- Witness for C4's universal conjunct at n = 2^33. -/
theorem c4_boundary_out_of_bounds_witness :
    BLOCK_SIZE_MAX ≤ 2 ^ 33 ∧ (2 : Nat) ^ 33 ≤ 2 ^ 64 - BLOCK_OVERHEAD ∧
    adjust_size (2 ^ 33) = none :=
  ⟨by decide, by decide,
   c4_boundary_out_of_bounds.2.2.2.2.1 (2 ^ 33) (by decide) (by decide)⟩

/-- The concrete state for the C5 witness: a fresh allocator whose entire
32-byte initial pool has been handed out by one malloc. -/
def c5state : tlsf_s :=
  match tlsf_malloc none (tlsf_create 6872 true) 0 with
  | Except.ok x => x.2
  | Except.error _ => tlsf_create 6872 true

/-- Witness for C5: in c5state, growing the lone allocation to 100 bytes
must reallocate (the next block is the sentinel), the map callback
returns null, and realloc returns null leaving the state untouched. -/
theorem c5_realloc_failure_atomic_witness :
    tlsf_realloc none c5state (Ptr.blk 0 16) 100 = Except.ok (none, c5state) :=
  c5_realloc_failure_atomic none c5state c5state (Ptr.blk 0 16) 100 104
    (by decide) (by decide) (by decide) (by decide) (by decide) (by rfl)

/-- C6 counterexample: immediately after tlsf_create (with the map
callback granting 6872 bytes), block_null's prev_free field points at the
initial pool block, not at block_null itself: add_pool's
insert_free_block executed current->prev_free = block with current =
&block_null.  So block_null's own links do not stay self-referential
after complete public operations. -/
theorem c6_block_null_counterexample :
    ((tlsf_create 6872 true).mem Ptr.blockNull).prevFree = Ptr.blk 0 0 ∧
    Ptr.blk 0 0 ≠ Ptr.blockNull ∧
    ((tlsf_create 6872 true).mem Ptr.blockNull).prevFree ≠ Ptr.blockNull := by
  refine ⟨by decide, by decide, by decide⟩

/-! ## Reachable states

States reachable by complete, defined executions of the public API from a
fresh allocator.  The side conditions are exactly the callers' and the
map callback's documented obligations:
 * tlsf_create's region must hold the control plus a minimal pool, and
   the pool must fit the index (add_pool's asserted precondition);
 * map grants at least the requested minimum
   (`ASSERT(memsize >= minsize)`), and the resulting pool fits the index
   (`ASSERT(pool_size <= BLOCK_SIZE_MAX)`, strengthened to < because a
   pool of exactly BLOCK_SIZE_MAX already overruns the index — see C4);
 * free/realloc receive null or a pointer to a currently allocated
   block (anything else is undefined behaviour by §7 of the spec). -/

def respOK (resp : Option Nat) (sz : Nat) : Prop :=
  ∀ g, resp = some g →
    POOL_OVERHEAD + BLOCK_OVERHEAD + sz ≤ g ∧ g < BLOCK_SIZE_MAX + POOL_OVERHEAD

/-- A pointer that may legally be passed to tlsf_free / tlsf_realloc:
null, or the payload pointer of a currently allocated (used,
non-sentinel) block of a live pool. -/
def ValidFree (t : tlsf_s) (p : Ptr) : Prop :=
  p = Ptr.nullp ∨
  ∃ pid off, pid ∈ t.pools ∧ off ∈ t.chainG pid ∧
    off ≠ (t.chainG pid).getLast?.getD 0 ∧
    p = Ptr.blk pid (off + BLOCK_START_OFFSET) ∧
    (t.mem (Ptr.blk pid off)).isFree = false

inductive Reach : tlsf_s → Prop where
  | create (granted : Nat) (hasUnmap : Bool)
      (h1 : TLSF_SIZE + POOL_OVERHEAD + BLOCK_OVERHEAD + BLOCK_SIZE_MIN ≤ granted)
      (h2 : granted < TLSF_SIZE + POOL_OVERHEAD + BLOCK_SIZE_MAX) :
      Reach (tlsf_create granted hasUnmap)
  | malloc (t : tlsf_s) (resp : Option Nat) (n : Nat) (p : Option Ptr) (t' : tlsf_s)
      (ht : Reach t)
      (hresp : ∀ sz, adjust_size n = some sz → respOK resp sz)
      (h : tlsf_malloc resp t n = Except.ok (p, t')) :
      Reach t'
  | free (t : tlsf_s) (p : Ptr) (ht : Reach t) (hv : ValidFree t p) :
      Reach (tlsf_free t p)
  | realloc (t : tlsf_s) (resp : Option Nat) (p : Ptr) (n : Nat) (q : Option Ptr)
      (t' : tlsf_s) (ht : Reach t) (hv : ValidFree t p)
      (hresp : ∀ sz, adjust_size n = some sz → respOK resp sz)
      (h : tlsf_realloc resp t p n = Except.ok (q, t')) :
      Reach t'

/-! ## The is_pool placement invariant (claims C10 and C3)

`memPoolLe m m'` says evolution from memory m to m' introduced no new
is_pool bit; all primitive operations except the single
`add_pool(...)->is_pool = true` in tlsf_malloc have this property. -/

def memPoolLe (m m' : Ptr → BlockHdr) : Prop :=
  ∀ q, (m' q).isPool = true → (m q).isPool = true

theorem memPoolLe_rfl (m : Ptr → BlockHdr) : memPoolLe m m := fun _ h => h

theorem memPoolLe_trans {a b c : Ptr → BlockHdr} (h1 : memPoolLe a b)
    (h2 : memPoolLe b c) : memPoolLe a c := fun q h => h1 q (h2 q h)

theorem memPoolLe_updHdr (m : Ptr → BlockHdr) (p : Ptr) (f : BlockHdr → BlockHdr)
    (hf : ∀ h, (f h).isPool = true → h.isPool = true) : memPoolLe m (updHdr m p f) := by
  intro q hq
  by_cases h : q = p
  · subst h
    rw [updHdr_same] at hq
    exact hf _ hq
  · rw [updHdr_other _ _ _ _ h] at hq
    exact hq

theorem link_next_poolLe (t : tlsf_s) (b : Ptr) :
    memPoolLe t.mem (block_link_next t b).2.mem :=
  memPoolLe_updHdr _ _ _ (fun _ hh => hh)

theorem set_free_poolLe (t : tlsf_s) (b : Ptr) (fr : Bool) :
    memPoolLe t.mem (block_set_free t b fr).mem := by
  unfold block_set_free block_link_next
  simp only []
  refine memPoolLe_trans ?_ (memPoolLe_updHdr _ _ _ (fun _ hh => hh))
  refine memPoolLe_trans ?_ (memPoolLe_updHdr _ _ _ (fun _ hh => hh))
  exact memPoolLe_updHdr _ _ _ (fun _ hh => hh)

theorem remove_free_block_poolLe (t : tlsf_s) (b : Ptr) (fl sl : Nat) :
    memPoolLe t.mem (remove_free_block t b fl sl).mem := by
  unfold remove_free_block
  simp only []
  split_ifs <;>
  · refine memPoolLe_trans ?_ (memPoolLe_updHdr _ _ _ (fun _ hh => hh))
    exact memPoolLe_updHdr _ _ _ (fun _ hh => hh)

theorem insert_free_block_poolLe (t : tlsf_s) (b : Ptr) (fl sl : Nat) :
    memPoolLe t.mem (insert_free_block t b fl sl).mem := by
  unfold insert_free_block
  simp only []
  refine memPoolLe_trans ?_ (memPoolLe_updHdr _ _ _ (fun _ hh => hh))
  exact memPoolLe_updHdr _ _ _ (fun _ hh => hh)

theorem block_remove_poolLe (t : tlsf_s) (b : Ptr) :
    memPoolLe t.mem (block_remove t b).mem :=
  remove_free_block_poolLe _ _ _ _

theorem block_insert_poolLe (t : tlsf_s) (b : Ptr) :
    memPoolLe t.mem (block_insert t b).mem :=
  insert_free_block_poolLe _ _ _ _

theorem block_split_poolLe (t : tlsf_s) (b : Ptr) (size : Nat) :
    memPoolLe t.mem (block_split t b size).2.mem := by
  unfold block_split ghostSplit
  simp only []
  cases b <;>
  · refine memPoolLe_trans ?_ (memPoolLe_updHdr _ _ _ (fun _ hh => hh))
    refine memPoolLe_trans ?_ (set_free_poolLe _ _ _)
    exact memPoolLe_updHdr _ _ _ (fun _ hh => by simp at hh)

theorem block_absorb_poolLe (t : tlsf_s) (prev b : Ptr) :
    memPoolLe t.mem (block_absorb t prev b).2.mem := by
  unfold block_absorb ghostAbsorb
  simp only []
  cases b <;>
  · refine memPoolLe_trans ?_ (memPoolLe_updHdr _ _ _ (fun _ hh => hh))
    exact memPoolLe_updHdr _ _ _ (fun _ hh => hh)

theorem merge_prev_poolLe (t : tlsf_s) (b : Ptr) :
    memPoolLe t.mem (block_merge_prev t b).2.mem := by
  unfold block_merge_prev
  simp only []
  split_ifs
  · refine memPoolLe_trans ?_ (block_absorb_poolLe _ _ _)
    exact block_remove_poolLe _ _
  · exact memPoolLe_rfl _

theorem merge_next_poolLe (t : tlsf_s) (b : Ptr) :
    memPoolLe t.mem (block_merge_next t b).2.mem := by
  unfold block_merge_next
  simp only []
  split_ifs
  · refine memPoolLe_trans ?_ (block_absorb_poolLe _ _ _)
    exact block_remove_poolLe _ _
  · exact memPoolLe_rfl _

theorem trim_free_poolLe (t : tlsf_s) (b : Ptr) (size : Nat) :
    memPoolLe t.mem (block_trim_free t b size).mem := by
  unfold block_trim_free
  simp only []
  split_ifs
  · refine memPoolLe_trans ?_ (block_insert_poolLe _ _)
    refine memPoolLe_trans ?_ (memPoolLe_updHdr _ _ _ (fun _ hh => hh))
    refine memPoolLe_trans ?_ (link_next_poolLe _ _)
    exact block_split_poolLe _ _ _
  · exact memPoolLe_rfl _

theorem trim_used_poolLe (t : tlsf_s) (b : Ptr) (size : Nat) :
    memPoolLe t.mem (block_trim_used t b size).mem := by
  unfold block_trim_used
  simp only []
  split_ifs
  · refine memPoolLe_trans ?_ (block_insert_poolLe _ _)
    refine memPoolLe_trans ?_ (merge_next_poolLe _ _)
    refine memPoolLe_trans ?_ (memPoolLe_updHdr _ _ _ (fun _ hh => hh))
    exact block_split_poolLe _ _ _
  · exact memPoolLe_rfl _

theorem locate_poolLe (t : tlsf_s) (sz : Nat) :
    memPoolLe t.mem (block_locate_free t sz).2.mem := by
  unfold block_locate_free
  simp only []
  cases search_suitable_block t (mapping_search sz).1 (mapping_search sz).2 with
  | none => exact memPoolLe_rfl _
  | some bfs => exact remove_free_block_poolLe _ _ _ _

theorem remove_pool_poolLe (t : tlsf_s) (b : Ptr) :
    memPoolLe t.mem (remove_pool t b).mem := by
  unfold remove_pool
  simp only []
  cases b <;> exact memPoolLe_rfl _

theorem add_pool_poolLe (t : tlsf_s) (pid size : Nat) :
    memPoolLe t.mem (add_pool t pid size).2.mem := by
  unfold add_pool
  simp only []
  refine memPoolLe_trans ?_ (memPoolLe_updHdr _ _ _ (fun _ hh => by simp at hh))
  refine memPoolLe_trans ?_ (link_next_poolLe _ _)
  refine memPoolLe_trans ?_ (block_insert_poolLe _ _)
  exact memPoolLe_updHdr _ _ _ (fun _ hh => by simp at hh)

theorem freeMerged_poolLe (t : tlsf_s) (p : Ptr) :
    memPoolLe t.mem (freeMerged t p).2.mem := by
  unfold freeMerged
  simp only []
  refine memPoolLe_trans ?_ (merge_next_poolLe _ _)
  refine memPoolLe_trans ?_ (merge_prev_poolLe _ _)
  exact set_free_poolLe _ _ _

theorem tlsf_free_poolLe (t : tlsf_s) (p : Ptr) :
    memPoolLe t.mem (tlsf_free t p).mem := by
  unfold tlsf_free
  simp only []
  split_ifs
  · exact memPoolLe_rfl _
  · refine memPoolLe_trans ?_ (remove_pool_poolLe _ _)
    exact freeMerged_poolLe _ _
  · refine memPoolLe_trans ?_ (block_insert_poolLe _ _)
    exact freeMerged_poolLe _ _

theorem mallocFinish_poolLe (t : tlsf_s) (b : Ptr) (sz : Nat) :
    memPoolLe t.mem (mallocFinish t b sz).2.mem := by
  unfold mallocFinish
  simp only []
  refine memPoolLe_trans ?_ (set_free_poolLe _ _ _)
  exact trim_free_poolLe _ _ _

/-! ### nextPid preservation (only tlsf_malloc's add_pool call bumps it) -/

@[simp] theorem nextPid_link (t : tlsf_s) (b : Ptr) :
    (block_link_next t b).2.nextPid = t.nextPid := rfl

@[simp] theorem nextPid_set_free (t : tlsf_s) (b : Ptr) (fr : Bool) :
    (block_set_free t b fr).nextPid = t.nextPid := rfl

@[simp] theorem nextPid_remove_free (t : tlsf_s) (b : Ptr) (fl sl : Nat) :
    (remove_free_block t b fl sl).nextPid = t.nextPid := by
  unfold remove_free_block
  simp only []
  split_ifs <;> rfl

@[simp] theorem nextPid_insert_free (t : tlsf_s) (b : Ptr) (fl sl : Nat) :
    (insert_free_block t b fl sl).nextPid = t.nextPid := rfl

@[simp] theorem nextPid_block_remove (t : tlsf_s) (b : Ptr) :
    (block_remove t b).nextPid = t.nextPid := nextPid_remove_free _ _ _ _

@[simp] theorem nextPid_block_insert (t : tlsf_s) (b : Ptr) :
    (block_insert t b).nextPid = t.nextPid := rfl

@[simp] theorem nextPid_split (t : tlsf_s) (b : Ptr) (size : Nat) :
    (block_split t b size).2.nextPid = t.nextPid := by
  unfold block_split ghostSplit
  simp only []
  cases b <;> rfl

@[simp] theorem nextPid_absorb (t : tlsf_s) (prev b : Ptr) :
    (block_absorb t prev b).2.nextPid = t.nextPid := by
  unfold block_absorb ghostAbsorb
  simp only []
  cases b <;> rfl

@[simp] theorem nextPid_merge_prev (t : tlsf_s) (b : Ptr) :
    (block_merge_prev t b).2.nextPid = t.nextPid := by
  unfold block_merge_prev
  simp only []
  split_ifs <;> simp

@[simp] theorem nextPid_merge_next (t : tlsf_s) (b : Ptr) :
    (block_merge_next t b).2.nextPid = t.nextPid := by
  unfold block_merge_next
  simp only []
  split_ifs <;> simp

@[simp] theorem nextPid_trim_free (t : tlsf_s) (b : Ptr) (size : Nat) :
    (block_trim_free t b size).nextPid = t.nextPid := by
  unfold block_trim_free
  simp only []
  split_ifs <;> simp

@[simp] theorem nextPid_trim_used (t : tlsf_s) (b : Ptr) (size : Nat) :
    (block_trim_used t b size).nextPid = t.nextPid := by
  unfold block_trim_used
  simp only []
  split_ifs <;> simp

@[simp] theorem nextPid_locate (t : tlsf_s) (sz : Nat) :
    (block_locate_free t sz).2.nextPid = t.nextPid := by
  unfold block_locate_free
  simp only []
  cases search_suitable_block t (mapping_search sz).1 (mapping_search sz).2 <;> simp

@[simp] theorem nextPid_remove_pool (t : tlsf_s) (b : Ptr) :
    (remove_pool t b).nextPid = t.nextPid := by
  unfold remove_pool
  simp only []
  cases b <;> rfl

@[simp] theorem nextPid_mallocFinish (t : tlsf_s) (b : Ptr) (sz : Nat) :
    (mallocFinish t b sz).2.nextPid = t.nextPid := by
  unfold mallocFinish
  simp only []
  simp

@[simp] theorem nextPid_freeMerged (t : tlsf_s) (p : Ptr) :
    (freeMerged t p).2.nextPid = t.nextPid := by
  unfold freeMerged
  simp only []
  simp

@[simp] theorem nextPid_free (t : tlsf_s) (p : Ptr) :
    (tlsf_free t p).nextPid = t.nextPid := by
  unfold tlsf_free
  simp only []
  split_ifs <;> simp

@[simp] theorem nextPid_grownState (t : tlsf_s) (memsize : Nat) :
    (grownState t memsize).nextPid = t.nextPid + 1 := rfl

/-! ### The invariant itself -/

/-- Only the initial block (offset 0) of a tlsf_malloc-added pool
(pool id ≥ 1; pool 0 is the pool tlsf_create embeds behind the control)
ever carries is_pool. -/
def IsPoolInv (t : tlsf_s) : Prop :=
  (∀ q, (t.mem q).isPool = true → ∃ pid, 1 ≤ pid ∧ q = Ptr.blk pid 0) ∧ 1 ≤ t.nextPid

theorem isPoolInv_of_poolLe {t t' : tlsf_s} (h : IsPoolInv t)
    (hle : memPoolLe t.mem t'.mem) (hn : t.nextPid ≤ t'.nextPid) : IsPoolInv t' :=
  ⟨fun q hq => h.1 q (hle q hq), le_trans h.2 hn⟩

theorem tlsf_create_isPoolInv (granted : Nat) (hU : Bool) :
    IsPoolInv (tlsf_create granted hU) := by
  unfold tlsf_create
  simp only []
  constructor
  · intro q hq
    exfalso
    have h2 := add_pool_poolLe _ 0 (granted - TLSF_SIZE) q hq
    have h3 := memPoolLe_updHdr (fun _ => emptyHdr) Ptr.blockNull
      (fun h => { h with nextFree := Ptr.blockNull, prevFree := Ptr.blockNull })
      (fun _ hh => hh) q h2
    simp [emptyHdr] at h3
  · exact Nat.le.refl

theorem grownState_isPoolInv (t : tlsf_s) (memsize : Nat) (h : IsPoolInv t) :
    IsPoolInv (grownState t memsize) := by
  constructor
  · intro q hq
    by_cases hqe : q = Ptr.blk t.nextPid 0
    · exact ⟨t.nextPid, h.2, hqe⟩
    · unfold grownState at hq
      simp only [] at hq
      rw [show (add_pool { t with nextPid := t.nextPid + 1 } t.nextPid memsize).1 =
        Ptr.blk t.nextPid 0 from rfl] at hq
      rw [updHdr_other _ _ _ _ hqe] at hq
      exact h.1 q (add_pool_poolLe _ _ _ q hq)
  · rw [nextPid_grownState]
    omega

/-- tlsf_malloc preserves the is_pool placement invariant. -/
theorem tlsf_malloc_isPoolInv (resp : Option Nat) (t : tlsf_s) (n : Nat)
    (p : Option Ptr) (t' : tlsf_s) (h : tlsf_malloc resp t n = Except.ok (p, t'))
    (hI : IsPoolInv t) : IsPoolInv t' := by
  cases ha : adjust_size n with
  | none =>
    unfold tlsf_malloc at h
    rw [ha] at h
    exact absurd h (by simp)
  | some sz =>
    cases hs : search_suitable_block t (mapping_search sz).1 (mapping_search sz).2 with
    | some bfs =>
      unfold tlsf_malloc at h
      rw [ha] at h
      have hl : block_locate_free t sz =
          (some bfs.1, remove_free_block t bfs.1 bfs.2.1 bfs.2.2) :=
        block_locate_free_some t sz bfs.1 bfs.2.1 bfs.2.2 (by rw [hs])
      simp only [hl] at h
      simp only [mallocFinish, Except.ok.injEq, Prod.mk.injEq] at h
      refine isPoolInv_of_poolLe hI ?_ ?_
      · rw [← h.2]
        refine memPoolLe_trans ?_ (set_free_poolLe _ _ _)
        refine memPoolLe_trans ?_ (trim_free_poolLe _ _ _)
        exact remove_free_block_poolLe _ _ _ _
      · rw [← h.2]
        simp
    | none =>
      cases resp with
      | none =>
        unfold tlsf_malloc at h
        rw [ha] at h
        simp only [block_locate_free_none t sz hs] at h
        simp only [Except.ok.injEq, Prod.mk.injEq] at h
        rw [← h.2]
        exact hI
      | some memsize =>
        have he := tlsf_malloc_grow_eq t n sz memsize ha hs
        rw [he] at h
        cases hs2 : (block_locate_free (grownState t memsize) sz).1 with
        | none =>
          rw [hs2] at h
          exact absurd h (by simp)
        | some b =>
          rw [hs2] at h
          simp only [mallocFinish, Except.ok.injEq, Prod.mk.injEq] at h
          have hg := grownState_isPoolInv t memsize hI
          refine isPoolInv_of_poolLe hg ?_ ?_
          · rw [← h.2]
            refine memPoolLe_trans ?_ (set_free_poolLe _ _ _)
            refine memPoolLe_trans ?_ (trim_free_poolLe _ _ _)
            exact locate_poolLe _ _
          · rw [← h.2]
            simp

/-- tlsf_free preserves the is_pool placement invariant. -/
theorem tlsf_free_isPoolInv (t : tlsf_s) (p : Ptr) (hI : IsPoolInv t) :
    IsPoolInv (tlsf_free t p) :=
  isPoolInv_of_poolLe hI (tlsf_free_poolLe t p) (by simp)

/-- tlsf_realloc preserves the is_pool placement invariant. -/
theorem tlsf_realloc_isPoolInv (resp : Option Nat) (t : tlsf_s) (p : Ptr) (n : Nat)
    (q : Option Ptr) (t' : tlsf_s) (h : tlsf_realloc resp t p n = Except.ok (q, t'))
    (hI : IsPoolInv t) : IsPoolInv t' := by
  unfold tlsf_realloc at h
  split_ifs at h with h1 h2
  · simp only [Except.ok.injEq, Prod.mk.injEq] at h
    rw [← h.2]
    exact tlsf_free_isPoolInv t p hI
  · exact tlsf_malloc_isPoolInv resp t n q t' h hI
  · simp only [] at h
    cases ha : adjust_size n with
    | none =>
      rw [ha] at h
      exact absurd h (by simp)
    | some sz =>
      rw [ha] at h
      simp only [] at h
      split_ifs at h with h3 h4
      · cases hm : tlsf_malloc resp t sz with
        | error e =>
          rw [hm] at h
          exact absurd h (by simp)
        | ok x =>
          obtain ⟨mp, t1⟩ := x
          have hI1 : IsPoolInv t1 := tlsf_malloc_isPoolInv resp t sz mp t1 hm hI
          rw [hm] at h
          cases mp with
          | some q2 =>
            simp only [Except.ok.injEq, Prod.mk.injEq] at h
            rw [← h.2]
            exact tlsf_free_isPoolInv t1 p hI1
          | none =>
            simp only [Except.ok.injEq, Prod.mk.injEq] at h
            rw [← h.2]
            exact hI1
      · simp only [Except.ok.injEq, Prod.mk.injEq] at h
        rw [← h.2]
        refine isPoolInv_of_poolLe hI ?_ ?_
        · refine memPoolLe_trans ?_ (trim_used_poolLe _ _ _)
          refine memPoolLe_trans ?_ (memPoolLe_updHdr _ _ _ (fun _ hh => hh))
          exact merge_next_poolLe _ _
        · simp
      · simp only [Except.ok.injEq, Prod.mk.injEq] at h
        rw [← h.2]
        refine isPoolInv_of_poolLe hI ?_ ?_
        · exact trim_used_poolLe _ _ _
        · simp

/-- Every reachable state satisfies the is_pool placement invariant. -/
theorem reach_isPoolInv (t : tlsf_s) (h : Reach t) : IsPoolInv t := by
  induction h with
  | create granted hU h1 h2 => exact tlsf_create_isPoolInv granted hU
  | malloc t resp n p t' ht hresp hstep ih => exact tlsf_malloc_isPoolInv resp t n p t' hstep ih
  | free t p ht hv ih => exact tlsf_free_isPoolInv t p ih
  | realloc t resp p n q t' ht hv hresp hstep ih =>
    exact tlsf_realloc_isPoolInv resp t p n q t' hstep ih

/-! ### unmapLog: only remove_pool records an unmap invocation -/

@[simp] theorem unmapLog_link (t : tlsf_s) (b : Ptr) :
    (block_link_next t b).2.unmapLog = t.unmapLog := rfl

@[simp] theorem unmapLog_set_free (t : tlsf_s) (b : Ptr) (fr : Bool) :
    (block_set_free t b fr).unmapLog = t.unmapLog := rfl

@[simp] theorem unmapLog_remove_free (t : tlsf_s) (b : Ptr) (fl sl : Nat) :
    (remove_free_block t b fl sl).unmapLog = t.unmapLog := by
  unfold remove_free_block
  simp only []
  split_ifs <;> rfl

@[simp] theorem unmapLog_insert_free (t : tlsf_s) (b : Ptr) (fl sl : Nat) :
    (insert_free_block t b fl sl).unmapLog = t.unmapLog := rfl

@[simp] theorem unmapLog_block_remove (t : tlsf_s) (b : Ptr) :
    (block_remove t b).unmapLog = t.unmapLog := unmapLog_remove_free _ _ _ _

@[simp] theorem unmapLog_block_insert (t : tlsf_s) (b : Ptr) :
    (block_insert t b).unmapLog = t.unmapLog := rfl

@[simp] theorem unmapLog_absorb (t : tlsf_s) (prev b : Ptr) :
    (block_absorb t prev b).2.unmapLog = t.unmapLog := by
  unfold block_absorb ghostAbsorb
  simp only []
  cases b <;> rfl

@[simp] theorem unmapLog_merge_prev (t : tlsf_s) (b : Ptr) :
    (block_merge_prev t b).2.unmapLog = t.unmapLog := by
  unfold block_merge_prev
  simp only []
  split_ifs <;> simp

@[simp] theorem unmapLog_merge_next (t : tlsf_s) (b : Ptr) :
    (block_merge_next t b).2.unmapLog = t.unmapLog := by
  unfold block_merge_next
  simp only []
  split_ifs <;> simp

@[simp] theorem unmapLog_freeMerged (t : tlsf_s) (p : Ptr) :
    (freeMerged t p).2.unmapLog = t.unmapLog := by
  unfold freeMerged
  simp only []
  simp

@[simp] theorem unmapLog_remove_pool (t : tlsf_s) (b : Ptr) :
    (remove_pool t b).unmapLog =
      (ptrAdd b BLOCK_OVERHEAD, (t.mem b).size + POOL_OVERHEAD) :: t.unmapLog := by
  unfold remove_pool
  simp only []
  cases b <;> rfl

/-! ## Claim theorems C10 and C3 -/

/-- C10: in every reachable state a block header carries is_pool only if
it is the first physical block (offset 0) of a pool auto-added by
tlsf_malloc: pool ids ≥ 1 are exactly the regions obtained by
tlsf_malloc's map calls, while pool 0 — the pool add_pool creates inside
tlsf_create's region — never carries the flag (add_pool clears it on both
the initial block and the sentinel, block_split clears it on every
remainder, and only tlsf_malloc line 585 sets it, on the initial block of
the pool it just added).  Consequently at most one block per pool carries
the flag, and it sits at the pool's start. -/
theorem c10_is_pool_placement (t : tlsf_s) (h : Reach t) :
    (∀ q, (t.mem q).isPool = true → ∃ pid, 1 ≤ pid ∧ q = Ptr.blk pid 0) ∧
    (∀ pid off, (t.mem (Ptr.blk pid off)).isPool = true → off = 0 ∧ 1 ≤ pid) := by
  have hI := reach_isPoolInv t h
  refine ⟨hI.1, ?_⟩
  intro pid off hq
  obtain ⟨pid', h1, h2⟩ := hI.1 _ hq
  cases h2
  exact ⟨rfl, h1⟩

/-- The reachable two-pool state used as witness input for C10: the tiny
initial pool cannot serve a 100-byte request, so tlsf_malloc maps a
second pool (pool 1) whose initial block carries is_pool. -/
def c10state : tlsf_s :=
  match tlsf_malloc (some 128) (tlsf_create 6872 true) 100 with
  | Except.ok x => x.2
  | Except.error _ => tlsf_create 6872 true

theorem reach_c10state : Reach c10state := by
  refine Reach.malloc (tlsf_create 6872 true) (some 128) 100 (some (Ptr.blk 1 16)) c10state
    (Reach.create 6872 true (by decide) (by decide)) ?_ (by rfl)
  intro sz hsz g hg
  rw [show adjust_size 100 = some 104 from by decide] at hsz
  cases hsz
  cases hg
  exact ⟨by decide, by decide⟩

/-- Witness for C10 at the is_pool block of the mapped pool. -/
theorem c10_is_pool_placement_witness :
    ∃ pid, 1 ≤ pid ∧ Ptr.blk 1 0 = Ptr.blk pid 0 :=
  (c10_is_pool_placement c10state reach_c10state).1 (Ptr.blk 1 0) (by decide)

/-- C3: for every reachable state and valid non-null pointer, tlsf_free
calls remove_pool — whose sole effect beyond dropping the pool is
invoking unmap(block + BLOCK_OVERHEAD, size + POOL_OVERHEAD, user) — if
and only if the coalesced block has is_pool set, the next physical block
is the size-0 sentinel, and the unmap callback is non-null; otherwise it
inserts the coalesced block into the free index and invokes no unmap.
Moreover the coalesced block can carry is_pool only at offset 0 of a
malloc-added pool (id ≥ 1), so tlsf_free never auto-unmaps pool 0, the
initial pool created by tlsf_create (only tlsf_destroy releases it). -/
theorem c3_pool_auto_release (t : tlsf_s) (p : Ptr) (hre : Reach t) (hp : p ≠ Ptr.nullp) :
    ((((freeMerged t p).2.mem (freeMerged t p).1).isPool = true ∧
      ((freeMerged t p).2.mem
        (block_next (freeMerged t p).2.mem (freeMerged t p).1)).size = 0 ∧
      (freeMerged t p).2.hasUnmap = true) →
        tlsf_free t p = remove_pool (freeMerged t p).2 (freeMerged t p).1 ∧
        (tlsf_free t p).unmapLog =
          (ptrAdd (freeMerged t p).1 BLOCK_OVERHEAD,
            ((freeMerged t p).2.mem (freeMerged t p).1).size + POOL_OVERHEAD) ::
            t.unmapLog) ∧
    (¬(((freeMerged t p).2.mem (freeMerged t p).1).isPool = true ∧
      ((freeMerged t p).2.mem
        (block_next (freeMerged t p).2.mem (freeMerged t p).1)).size = 0 ∧
      (freeMerged t p).2.hasUnmap = true) →
        tlsf_free t p = block_insert (freeMerged t p).2 (freeMerged t p).1 ∧
        (tlsf_free t p).unmapLog = t.unmapLog) ∧
    (((freeMerged t p).2.mem (freeMerged t p).1).isPool = true →
        ∃ pid, 1 ≤ pid ∧ (freeMerged t p).1 = Ptr.blk pid 0) := by
  have hfree : tlsf_free t p =
      (if ((freeMerged t p).2.mem (freeMerged t p).1).isPool = true ∧
          ((freeMerged t p).2.mem
            (block_next (freeMerged t p).2.mem (freeMerged t p).1)).size = 0 ∧
          (freeMerged t p).2.hasUnmap = true then
        remove_pool (freeMerged t p).2 (freeMerged t p).1
      else
        block_insert (freeMerged t p).2 (freeMerged t p).1) := by
    unfold tlsf_free
    rw [if_neg hp]
  refine ⟨?_, ?_, ?_⟩
  · intro hc
    rw [hfree, if_pos hc]
    refine ⟨rfl, ?_⟩
    rw [unmapLog_remove_pool, unmapLog_freeMerged]
  · intro hc
    rw [hfree, if_neg hc]
    refine ⟨rfl, ?_⟩
    rw [unmapLog_block_insert, unmapLog_freeMerged]
  · intro hpool
    have hI : IsPoolInv (freeMerged t p).2 :=
      isPoolInv_of_poolLe (reach_isPoolInv t hre) (freeMerged_poolLe t p) (by simp)
    exact hI.1 _ hpool

/-- The reachable two-pool state used as witness input for C3 (same
construction as for C10's witness). -/
def c3state : tlsf_s :=
  match tlsf_malloc (some 128) (tlsf_create 6872 true) 100 with
  | Except.ok x => x.2
  | Except.error _ => tlsf_create 6872 true

theorem reach_c3state : Reach c3state := by
  refine Reach.malloc (tlsf_create 6872 true) (some 128) 100 (some (Ptr.blk 1 16)) c3state
    (Reach.create 6872 true (by decide) (by decide)) ?_ (by rfl)
  intro sz hsz g hg
  rw [show adjust_size 100 = some 104 from by decide] at hsz
  cases hsz
  cases hg
  exact ⟨by decide, by decide⟩

/-- Witness for C3: freeing the only allocation of the mapped pool, whose
coalesced block is its is_pool-flagged initial block followed by the
sentinel, with an unmap callback present, triggers remove_pool and
records the unmap(block + 8, size + 16) call. -/
theorem c3_pool_auto_release_witness :
    tlsf_free c3state (Ptr.blk 1 16) =
      remove_pool (freeMerged c3state (Ptr.blk 1 16)).2
        (freeMerged c3state (Ptr.blk 1 16)).1 ∧
    (tlsf_free c3state (Ptr.blk 1 16)).unmapLog =
      (ptrAdd (freeMerged c3state (Ptr.blk 1 16)).1 BLOCK_OVERHEAD,
        ((freeMerged c3state (Ptr.blk 1 16)).2.mem
          (freeMerged c3state (Ptr.blk 1 16)).1).size + POOL_OVERHEAD) ::
        c3state.unmapLog :=
  (c3_pool_auto_release c3state (Ptr.blk 1 16) reach_c3state (by decide)).1
    ⟨by decide, by decide, by decide⟩

/-! ## Structural well-formedness of the allocator state

`R m pid a b` relates consecutive block offsets of one pool's physical
chain: the next block starts right after the previous one's header and
payload, the is_prev_free flag and (for free predecessors) the
prev_phys_block field are accurate, no two neighbours are both free, and
every block followed by another block has at least the minimum size. -/

def R (m : Ptr → BlockHdr) (pid : Nat) (a b : Nat) : Prop :=
  b = a + (m (Ptr.blk pid a)).size + BLOCK_OVERHEAD ∧
  (m (Ptr.blk pid b)).isPrevFree = (m (Ptr.blk pid a)).isFree ∧
  ((m (Ptr.blk pid a)).isFree = true → (m (Ptr.blk pid b)).prevPhys = Ptr.blk pid a) ∧
  ¬((m (Ptr.blk pid a)).isFree = true ∧ (m (Ptr.blk pid b)).isFree = true) ∧
  BLOCK_SIZE_MIN ≤ (m (Ptr.blk pid a)).size

/-- Physical well-formedness of one pool: the chain starts at the pool's
first block (offset 0, whose is_prev_free is never set), consecutive
offsets satisfy `R`, and the chain ends in the used size-0 sentinel at a
bounded offset. -/
def PoolOK (m : Ptr → BlockHdr) (pid : Nat) (c : List Nat) : Prop :=
  c.head? = some 0 ∧
  (m (Ptr.blk pid 0)).isPrevFree = false ∧
  c.Chain' (R m pid) ∧
  ∀ e ∈ c.getLast?, (m (Ptr.blk pid e)).size = 0 ∧
    (m (Ptr.blk pid e)).isFree = false ∧ e ≤ BLOCK_SIZE_MAX + BLOCK_OVERHEAD

/-- Accuracy of the doubly-linked free list representation: walking the
ghost list, every member's prev_free points at its predecessor (the
sentinel block_null before the head) and next_free at its successor
(block_null after the last). -/
def linksOK (m : Ptr → BlockHdr) : Ptr → List Ptr → Prop
  | _, [] => True
  | prev, b :: rest =>
    (m b).prevFree = prev ∧
    (m b).nextFree = rest.head?.getD Ptr.blockNull ∧
    linksOK m b rest

theorem linksOK_congr {m m' : Ptr → BlockHdr} {L : List Ptr} (prev : Ptr)
    (h : linksOK m prev L)
    (hsame : ∀ b ∈ L, (m' b).prevFree = (m b).prevFree ∧ (m' b).nextFree = (m b).nextFree) :
    linksOK m' prev L := by
  induction L generalizing prev with
  | nil => trivial
  | cons b rest ih =>
    obtain ⟨h1, h2, h3⟩ := h
    obtain ⟨hs1, hs2⟩ := hsame b (List.mem_cons_self b rest)
    exact ⟨hs1.trans h1, hs2.trans h2,
      ih b h3 (fun q hq => hsame q (List.mem_cons_of_mem b hq))⟩

/-- Chain' congruence where the two relations agree on members. -/
theorem chain'_mem_congr {α : Type} {S S' : α → α → Prop} : ∀ {c : List α},
    c.Chain' S → (∀ a ∈ c, ∀ b ∈ c, S a b → S' a b) → c.Chain' S'
  | [], _, _ => List.chain'_nil
  | [_], _, _ => List.chain'_singleton _
  | a :: b :: rest, h, himp => by
    rw [List.chain'_cons] at h ⊢
    refine ⟨himp a (List.mem_cons_self _ _) b (List.mem_cons_of_mem _ (List.mem_cons_self _ _)) h.1, ?_⟩
    exact chain'_mem_congr h.2
      (fun x hx y hy hS => himp x (List.mem_cons_of_mem _ hx) y (List.mem_cons_of_mem _ hy) hS)

theorem mem_of_getLast? {α : Type} {c : List α} {e : α} (h : c.getLast? = some e) :
    e ∈ c := by
  cases c with
  | nil => simp at h
  | cons a rest =>
    rw [List.getLast?_eq_getLast _ (by simp)] at h
    injection h with h
    rw [← h]
    exact List.getLast_mem _

/-- The four heap-side header fields at all chain members determine
PoolOK. -/
theorem poolOK_congr_heap {m m' : Ptr → BlockHdr} {pid : Nat} {c : List Nat}
    (h : PoolOK m pid c)
    (hs : ∀ off ∈ c,
      (m' (Ptr.blk pid off)).size = (m (Ptr.blk pid off)).size ∧
      (m' (Ptr.blk pid off)).isFree = (m (Ptr.blk pid off)).isFree ∧
      (m' (Ptr.blk pid off)).isPrevFree = (m (Ptr.blk pid off)).isPrevFree ∧
      (m' (Ptr.blk pid off)).prevPhys = (m (Ptr.blk pid off)).prevPhys) :
    PoolOK m' pid c := by
  obtain ⟨h0, hf, hc, hl⟩ := h
  have h0mem : 0 ∈ c := by
    cases c with
    | nil => simp at h0
    | cons a rest =>
      simp only [List.head?_cons, Option.some.injEq] at h0
      subst h0
      exact List.mem_cons_self _ _
  refine ⟨h0, ?_, ?_, ?_⟩
  · rw [(hs 0 h0mem).2.2.1]
    exact hf
  · refine chain'_mem_congr hc ?_
    intro a ha b hb hR
    obtain ⟨r1, r2, r3, r4, r5⟩ := hR
    obtain ⟨sa1, sa2, sa3, sa4⟩ := hs a ha
    obtain ⟨sb1, sb2, sb3, sb4⟩ := hs b hb
    exact ⟨by rw [sa1]; exact r1, by rw [sb3, sa2]; exact r2,
      fun hfr => by rw [sb4]; exact r3 (sa2 ▸ hfr),
      fun hboth => r4 ⟨sa2 ▸ hboth.1, sb2 ▸ hboth.2⟩, by rw [sa1]; exact r5⟩
  · intro e he
    obtain ⟨he1, he2, he3⟩ := hl e he
    obtain ⟨se1, se2, _, _⟩ := hs e (mem_of_getLast? he)
    exact ⟨by rw [se1]; exact he1, by rw [se2]; exact he2, he3⟩

/-! ### Small utilities for the well-formedness proofs -/

theorem ffsAux_testBit (fuel x : Nat) (hx : x ≠ 0) (hfuel : x < 2 ^ fuel) :
    x.testBit (ffsAux fuel x) = true := by
  induction fuel generalizing x with
  | zero =>
    exfalso
    simp only [pow_zero, Nat.lt_one_iff] at hfuel
    exact hx hfuel
  | succ n ih =>
    unfold ffsAux
    by_cases h : x % 2 = 1 ∨ x = 0
    · rw [if_pos h]
      have h1 : x % 2 = 1 := by
        rcases h with h | h
        · exact h
        · exact absurd h hx
      simp [Nat.testBit_zero, h1]
    · rw [if_neg h]
      push_neg at h
      have h2 : x % 2 = 0 := by omega
      have h3 : x / 2 ≠ 0 := by omega
      have h4 : x / 2 < 2 ^ n := by
        have : (2:Nat) ^ (n + 1) = 2 ^ n * 2 := by ring
        omega
      rw [Nat.testBit_add_one]
      exact ih (x / 2) h3 h4

theorem ffs_testBit (x : Nat) (hx : x ≠ 0) (h64 : x < 2 ^ 64) :
    x.testBit (ffs x) = true :=
  ffsAux_testBit 64 x hx h64

/-- Values whose set bits all sit below 32 are below 2^32. -/
theorem lt_two_pow32_of_bits (x : Nat) (h : ∀ i, 32 ≤ i → x.testBit i = false) :
    x < 2 ^ 32 :=
  Nat.lt_pow_two_of_testBit x (fun i hi => h i hi)

/-- Heap-side field agreement between two memories. -/
def sameHeap (m m' : Ptr → BlockHdr) : Prop :=
  ∀ q, (m' q).size = (m q).size ∧ (m' q).isFree = (m q).isFree ∧
    (m' q).isPrevFree = (m q).isPrevFree ∧ (m' q).prevPhys = (m q).prevPhys

theorem sameHeap_rfl (m : Ptr → BlockHdr) : sameHeap m m :=
  fun _ => ⟨rfl, rfl, rfl, rfl⟩

theorem sameHeap_trans {a b c : Ptr → BlockHdr} (h1 : sameHeap a b) (h2 : sameHeap b c) :
    sameHeap a c := by
  intro q
  obtain ⟨x1, x2, x3, x4⟩ := h1 q
  obtain ⟨y1, y2, y3, y4⟩ := h2 q
  exact ⟨y1.trans x1, y2.trans x2, y3.trans x3, y4.trans x4⟩

theorem sameHeap_updHdr (m : Ptr → BlockHdr) (p : Ptr) (f : BlockHdr → BlockHdr)
    (hf : ∀ h, (f h).size = h.size ∧ (f h).isFree = h.isFree ∧
      (f h).isPrevFree = h.isPrevFree ∧ (f h).prevPhys = h.prevPhys) :
    sameHeap m (updHdr m p f) := by
  intro q
  by_cases h : q = p
  · subst h
    rw [updHdr_same]
    exact hf _
  · rw [updHdr_other _ _ _ _ h]
    exact ⟨rfl, rfl, rfl, rfl⟩

theorem poolOK_of_sameHeap {m m' : Ptr → BlockHdr} {pid : Nat} {c : List Nat}
    (h : PoolOK m pid c) (hs : sameHeap m m') : PoolOK m' pid c :=
  poolOK_congr_heap h (fun off _ => hs (Ptr.blk pid off))

/-- remove_free_block and insert_free_block write only free-list link
fields. -/
theorem sameHeap_remove_free (t : tlsf_s) (b : Ptr) (fl sl : Nat) :
    sameHeap t.mem (remove_free_block t b fl sl).mem := by
  unfold remove_free_block
  simp only []
  split_ifs <;>
  · refine sameHeap_trans ?_ (sameHeap_updHdr _ _ _ (fun h => ⟨rfl, rfl, rfl, rfl⟩))
    exact sameHeap_updHdr _ _ _ (fun h => ⟨rfl, rfl, rfl, rfl⟩)

theorem sameHeap_insert_free (t : tlsf_s) (b : Ptr) (fl sl : Nat) :
    sameHeap t.mem (insert_free_block t b fl sl).mem := by
  unfold insert_free_block
  simp only []
  refine sameHeap_trans ?_ (sameHeap_updHdr _ _ _ (fun h => ⟨rfl, rfl, rfl, rfl⟩))
  exact sameHeap_updHdr _ _ _ (fun h => ⟨rfl, rfl, rfl, rfl⟩)

theorem sameHeap_block_remove (t : tlsf_s) (b : Ptr) :
    sameHeap t.mem (block_remove t b).mem := sameHeap_remove_free _ _ _ _

theorem sameHeap_block_insert (t : tlsf_s) (b : Ptr) :
    sameHeap t.mem (block_insert t b).mem := sameHeap_insert_free _ _ _ _

/-! ### Ghost/array field equations for the primitives -/

@[simp] theorem pools_link (t : tlsf_s) (b : Ptr) :
    (block_link_next t b).2.pools = t.pools := rfl

@[simp] theorem pools_set_free (t : tlsf_s) (b : Ptr) (fr : Bool) :
    (block_set_free t b fr).pools = t.pools := rfl

@[simp] theorem pools_remove_free (t : tlsf_s) (b : Ptr) (fl sl : Nat) :
    (remove_free_block t b fl sl).pools = t.pools := by
  unfold remove_free_block
  simp only []
  split_ifs <;> rfl

@[simp] theorem pools_insert_free (t : tlsf_s) (b : Ptr) (fl sl : Nat) :
    (insert_free_block t b fl sl).pools = t.pools := rfl

@[simp] theorem pools_block_remove (t : tlsf_s) (b : Ptr) :
    (block_remove t b).pools = t.pools := pools_remove_free _ _ _ _

@[simp] theorem pools_block_insert (t : tlsf_s) (b : Ptr) :
    (block_insert t b).pools = t.pools := rfl

@[simp] theorem pools_split (t : tlsf_s) (b : Ptr) (size : Nat) :
    (block_split t b size).2.pools = t.pools := by
  unfold block_split ghostSplit
  simp only []
  cases b <;> rfl

@[simp] theorem pools_absorb (t : tlsf_s) (prev b : Ptr) :
    (block_absorb t prev b).2.pools = t.pools := by
  unfold block_absorb ghostAbsorb
  simp only []
  cases b <;> rfl

@[simp] theorem chainG_link (t : tlsf_s) (b : Ptr) :
    (block_link_next t b).2.chainG = t.chainG := rfl

@[simp] theorem chainG_set_free (t : tlsf_s) (b : Ptr) (fr : Bool) :
    (block_set_free t b fr).chainG = t.chainG := rfl

@[simp] theorem chainG_remove_free (t : tlsf_s) (b : Ptr) (fl sl : Nat) :
    (remove_free_block t b fl sl).chainG = t.chainG := by
  unfold remove_free_block
  simp only []
  split_ifs <;> rfl

@[simp] theorem chainG_insert_free (t : tlsf_s) (b : Ptr) (fl sl : Nat) :
    (insert_free_block t b fl sl).chainG = t.chainG := rfl

@[simp] theorem chainG_block_remove (t : tlsf_s) (b : Ptr) :
    (block_remove t b).chainG = t.chainG := chainG_remove_free _ _ _ _

@[simp] theorem chainG_block_insert (t : tlsf_s) (b : Ptr) :
    (block_insert t b).chainG = t.chainG := rfl

@[simp] theorem chainG_split (t : tlsf_s) (pid off : Nat) (size : Nat) :
    (block_split t (Ptr.blk pid off) size).2.chainG =
      upd1 t.chainG pid (chainIns (t.chainG pid) off (off + (size + BLOCK_OVERHEAD))) := rfl

@[simp] theorem chainG_absorb (t : tlsf_s) (prev : Ptr) (pid off : Nat) :
    (block_absorb t prev (Ptr.blk pid off)).2.chainG =
      upd1 t.chainG pid ((t.chainG pid).erase off) := rfl

@[simp] theorem hasUnmap_link (t : tlsf_s) (b : Ptr) :
    (block_link_next t b).2.hasUnmap = t.hasUnmap := rfl

@[simp] theorem hasUnmap_set_free (t : tlsf_s) (b : Ptr) (fr : Bool) :
    (block_set_free t b fr).hasUnmap = t.hasUnmap := rfl

@[simp] theorem hasUnmap_remove_free (t : tlsf_s) (b : Ptr) (fl sl : Nat) :
    (remove_free_block t b fl sl).hasUnmap = t.hasUnmap := by
  unfold remove_free_block
  simp only []
  split_ifs <;> rfl

@[simp] theorem hasUnmap_insert_free (t : tlsf_s) (b : Ptr) (fl sl : Nat) :
    (insert_free_block t b fl sl).hasUnmap = t.hasUnmap := rfl

@[simp] theorem cellsG_link (t : tlsf_s) (b : Ptr) :
    (block_link_next t b).2.cellsG = t.cellsG := rfl

@[simp] theorem cellsG_set_free (t : tlsf_s) (b : Ptr) (fr : Bool) :
    (block_set_free t b fr).cellsG = t.cellsG := rfl

@[simp] theorem cellsG_split (t : tlsf_s) (b : Ptr) (size : Nat) :
    (block_split t b size).2.cellsG = t.cellsG := by
  unfold block_split ghostSplit
  simp only []
  cases b <;> rfl

@[simp] theorem cellsG_absorb (t : tlsf_s) (prev b : Ptr) :
    (block_absorb t prev b).2.cellsG = t.cellsG := by
  unfold block_absorb ghostAbsorb
  simp only []
  cases b <;> rfl

@[simp] theorem blocks_link (t : tlsf_s) (b : Ptr) :
    (block_link_next t b).2.blocks = t.blocks := rfl

@[simp] theorem blocks_set_free (t : tlsf_s) (b : Ptr) (fr : Bool) :
    (block_set_free t b fr).blocks = t.blocks := rfl

@[simp] theorem blocks_split (t : tlsf_s) (b : Ptr) (size : Nat) :
    (block_split t b size).2.blocks = t.blocks := by
  unfold block_split ghostSplit
  simp only []
  cases b <;> rfl

@[simp] theorem blocks_absorb (t : tlsf_s) (prev b : Ptr) :
    (block_absorb t prev b).2.blocks = t.blocks := by
  unfold block_absorb ghostAbsorb
  simp only []
  cases b <;> rfl

@[simp] theorem bitmaps_link (t : tlsf_s) (b : Ptr) :
    (block_link_next t b).2.flBitmap = t.flBitmap ∧
    (block_link_next t b).2.slBitmap = t.slBitmap := ⟨rfl, rfl⟩

@[simp] theorem flBitmap_set_free (t : tlsf_s) (b : Ptr) (fr : Bool) :
    (block_set_free t b fr).flBitmap = t.flBitmap := rfl

@[simp] theorem slBitmap_set_free (t : tlsf_s) (b : Ptr) (fr : Bool) :
    (block_set_free t b fr).slBitmap = t.slBitmap := rfl

@[simp] theorem flBitmap_split (t : tlsf_s) (b : Ptr) (size : Nat) :
    (block_split t b size).2.flBitmap = t.flBitmap := by
  unfold block_split ghostSplit
  simp only []
  cases b <;> rfl

@[simp] theorem slBitmap_split (t : tlsf_s) (b : Ptr) (size : Nat) :
    (block_split t b size).2.slBitmap = t.slBitmap := by
  unfold block_split ghostSplit
  simp only []
  cases b <;> rfl

@[simp] theorem flBitmap_absorb (t : tlsf_s) (prev b : Ptr) :
    (block_absorb t prev b).2.flBitmap = t.flBitmap := by
  unfold block_absorb ghostAbsorb
  simp only []
  cases b <;> rfl

@[simp] theorem slBitmap_absorb (t : tlsf_s) (prev b : Ptr) :
    (block_absorb t prev b).2.slBitmap = t.slBitmap := by
  unfold block_absorb ghostAbsorb
  simp only []
  cases b <;> rfl

/-- Upper bound of the first-level index for any block size that can occur
in a chain (at most BLOCK_SIZE_MAX + BLOCK_OVERHEAD). -/
theorem mapping_insert_fl_le (b : Nat) (hb : b ≤ BLOCK_SIZE_MAX + BLOCK_OVERHEAD) :
    (mapping_insert b).1 ≤ 26 := by
  unfold mapping_insert
  split_ifs with h
  · simp
  · simp only []
    push_neg at h
    rw [SMALL_eq] at h
    have hb' : b ≤ 2 ^ 33 + 8 := by rw [BSMAX_eq] at hb; exact hb
    have hb64 : b < 2 ^ 64 := by omega
    rw [flsl_eq_log b hb64]
    have hlog : Nat.log 2 b ≤ 33 := by
      by_contra hc
      push_neg at hc
      have h1 : (2:Nat) ^ 34 ≤ 2 ^ Nat.log 2 b := Nat.pow_le_pow_right (by norm_num) hc
      have h2 : (2:Nat) ^ Nat.log 2 b ≤ b := log2_le_self b (by omega)
      have : (2:Nat) ^ 34 = 17179869184 := by norm_num
      omega
    rw [show FL_INDEX_SHIFT - 1 = 7 from rfl]
    omega

theorem eq_zero_of_forall_testBit (x : Nat) (h : ∀ i, x.testBit i = false) : x = 0 :=
  Nat.eq_of_testBit_eq (fun i => by rw [h i, Nat.zero_testBit])

theorem erase_of_append {α : Type} [DecidableEq α] (L1 L2 : List α) (x : α)
    (hnd : (L1 ++ x :: L2).Nodup) : (L1 ++ x :: L2).erase x = L1 ++ L2 := by
  have hx1 : x ∉ L1 := by
    intro hmem
    rw [List.nodup_append] at hnd
    exact hnd.2.2 hmem (List.mem_cons_self _ _)
  rw [List.erase_append_right _ hx1, List.erase_cons_head]

/-- Position of a member in an accurate doubly-linked list: its prev_free
is the preceding element (or the entry sentinel) and its next_free the
following one (or block_null). -/
theorem linksOK_middle {m : Ptr → BlockHdr} :
    ∀ (L1 : List Ptr) (prev x : Ptr) (L2 : List Ptr),
    linksOK m prev (L1 ++ x :: L2) →
    (m x).prevFree = L1.getLast?.getD prev ∧
    (m x).nextFree = L2.head?.getD Ptr.blockNull
  | [], _, _, _, h => ⟨h.1, h.2.1⟩
  | a :: L1', prev, x, L2, h => by
    obtain ⟨-, -, h3⟩ := h
    have ih := linksOK_middle L1' a x L2 h3
    refine ⟨?_, ih.2⟩
    rw [ih.1]
    cases L1' with
    | nil => simp
    | cons c L1'' =>
      rw [List.getLast?_cons_cons, List.getLast?_eq_getLast (c :: L1'') (by simp)]
      rfl

/-- Unlinking a member from an accurate doubly-linked list (the two writes
of remove_free_block lines 311-312) leaves an accurate list without it. -/
theorem linksOK_erase {m : Ptr → BlockHdr} {x : Ptr} :
    ∀ (L1 : List Ptr) (prev : Ptr) (L2 : List Ptr),
    linksOK m prev (L1 ++ x :: L2) →
    (L1 ++ x :: L2).Nodup →
    Ptr.blockNull ∉ L1 ++ x :: L2 →
    prev ∉ L1 ++ x :: L2 →
    linksOK
      (updHdr (updHdr m (m x).nextFree (fun h => { h with prevFree := (m x).prevFree }))
        (m x).prevFree (fun h => { h with nextFree := (m x).nextFree }))
      prev (L1 ++ L2)
  | [], prev, L2, h, hnd, hbn, hprev => by
    obtain ⟨hp, hn, hrest⟩ := h
    cases L2 with
    | nil => trivial
    | cons c rest =>
      simp only [List.head?_cons, Option.getD_some] at hn
      have hcbn : c ≠ Ptr.blockNull := by
        intro hc
        exact hbn (by rw [← hc]; exact List.mem_cons_of_mem _ (List.mem_cons_self _ _))
      have hcprev : c ≠ prev := by
        intro hc
        exact hprev (by rw [← hc]; exact List.mem_cons_of_mem _ (List.mem_cons_self _ _))
      have hcp : c ≠ (m x).prevFree := by rw [hp]; exact hcprev
      have hcval : (updHdr (updHdr m (m x).nextFree
          (fun h => { h with prevFree := (m x).prevFree }))
            (m x).prevFree (fun h => { h with nextFree := (m x).nextFree })) c =
          { m c with prevFree := (m x).prevFree } := by
        rw [updHdr_other _ _ _ _ hcp, hn, updHdr_same]
      obtain ⟨hnodc, hcrest⟩ := List.nodup_cons.mp (List.nodup_cons.mp hnd).2
      refine ⟨?_, ?_, ?_⟩
      · rw [hcval]
        simp only []
        rw [hp]
      · rw [hcval]
        simp only []
        exact hrest.2.1
      · refine linksOK_congr c hrest.2.2 ?_
        intro q hq
        have hq1 : q ≠ (m x).prevFree := by
          rw [hp]
          intro hh
          exact hprev (by rw [← hh]
                          exact List.mem_cons_of_mem _ (List.mem_cons_of_mem _ hq))
        have hq2 : q ≠ (m x).nextFree := by
          rw [hn]
          intro hh
          exact hnodc (hh ▸ hq)
        rw [updHdr_other _ _ _ _ hq1, updHdr_other _ _ _ _ hq2]
        exact ⟨rfl, rfl⟩
  | a :: L1', prev, L2, h, hnd, hbn, hprev => by
    obtain ⟨ha1, ha2, h3⟩ := h
    obtain ⟨hanotin, hnd'⟩ := List.nodup_cons.mp hnd
    have hbn' : Ptr.blockNull ∉ L1' ++ x :: L2 := fun hh => hbn (List.mem_cons_of_mem _ hh)
    have ih := linksOK_erase L1' a L2 h3 hnd' hbn' hanotin
    have habn : a ≠ Ptr.blockNull := by
      intro hh
      exact hbn (hh ▸ List.mem_cons_self _ _)
    have han : a ≠ (m x).nextFree := by
      have := (linksOK_middle L1' a x L2 h3).2
      rw [this]
      cases L2 with
      | nil => simpa using habn
      | cons c rest =>
        simp only [List.head?_cons, Option.getD_some]
        intro hh
        exact hanotin (hh ▸ List.mem_append_right _ (List.mem_cons_of_mem _
          (List.mem_cons_self _ _)))
    refine ⟨?_, ?_, ih⟩
    · by_cases hap : a = (m x).prevFree
      · rw [← hap, updHdr_same, updHdr_other _ _ _ _ han]
        simp only []
        exact ha1
      · rw [updHdr_other _ _ _ _ hap, updHdr_other _ _ _ _ han]
        exact ha1
    · cases L1' with
      | nil =>
        have hap : a = (m x).prevFree := by
          have := (linksOK_middle [] a x L2 h3).1
          rw [this]
          rfl
        rw [← hap, updHdr_same]
        exact (linksOK_middle [] a x L2 h3).2
      | cons c L1'' =>
        have hap : a ≠ (m x).prevFree := by
          have := (linksOK_middle (c :: L1'') a x L2 h3).1
          rw [this]
          intro hh
          have hmem : (c :: L1'').getLast?.getD a ∈ c :: L1'' := by
            rw [List.getLast?_eq_getLast _ (by simp)]
            exact List.getLast_mem _
          exact hanotin (List.mem_append_left _ (hh ▸ hmem))
        rw [updHdr_other _ _ _ _ hap, updHdr_other _ _ _ _ han, ha2]
        rfl

/-! ## Free-index well-formedness

`CellsWF t X` states the accuracy of the segregated free index of state
`t`.  `X` lists "detached" blocks: free physical-chain blocks that the
index does not currently list because an operation holds them between
removal (or creation) and reinsertion (or disposal); in a quiescent state
`X = []`. -/

structure CellsWF (t : tlsf_s) (X : List Ptr) : Prop where
  cellHead : ∀ fl sl, t.blocks fl sl = (t.cellsG fl sl).head?.getD Ptr.blockNull
  cellMem : ∀ fl sl, ∀ p ∈ t.cellsG fl sl, ∃ pid off, p = Ptr.blk pid off ∧
    pid ∈ t.pools ∧ off ∈ t.chainG pid ∧ (t.mem p).isFree = true ∧
    (t.mem p).size ≤ BLOCK_SIZE_MAX + BLOCK_OVERHEAD ∧
    mapping_insert (t.mem p).size = (fl, sl)
  links : ∀ fl sl, linksOK t.mem Ptr.blockNull (t.cellsG fl sl)
  nodup : ∀ fl sl, (t.cellsG fl sl).Nodup
  complete : ∀ pid ∈ t.pools, ∀ off ∈ t.chainG pid,
    (t.mem (Ptr.blk pid off)).isFree = true →
    Ptr.blk pid off ∈ X ∨
    Ptr.blk pid off ∈ t.cellsG (mapping_insert (t.mem (Ptr.blk pid off)).size).1
      (mapping_insert (t.mem (Ptr.blk pid off)).size).2
  exempt : ∀ x ∈ X, ∀ fl sl, x ∉ t.cellsG fl sl
  bitSL : ∀ fl sl, (t.slBitmap fl).testBit sl = true ↔ t.cellsG fl sl ≠ []
  bitFL : ∀ fl, t.flBitmap.testBit fl = true ↔ t.slBitmap fl ≠ 0

/-- Each free block sits in exactly one cell. -/
theorem cells_disjoint {t : tlsf_s} {X : List Ptr} (h : CellsWF t X)
    {p : Ptr} {fl sl fl' sl' : Nat} (h1 : p ∈ t.cellsG fl sl)
    (h2 : p ∈ t.cellsG fl' sl') : fl = fl' ∧ sl = sl' := by
  obtain ⟨pid, off, _, _, _, _, _, hm1⟩ := h.cellMem fl sl p h1
  obtain ⟨pid', off', _, _, _, _, _, hm2⟩ := h.cellMem fl' sl' p h2
  rw [hm1] at hm2
  exact ⟨congrArg Prod.fst hm2, congrArg Prod.snd hm2⟩

theorem blockNull_notin_cells {t : tlsf_s} {X : List Ptr} (h : CellsWF t X)
    (fl sl : Nat) : Ptr.blockNull ∉ t.cellsG fl sl := by
  intro hmem
  obtain ⟨pid, off, hp, -⟩ := h.cellMem fl sl _ hmem
  exact Ptr.noConfusion hp

theorem nullp_notin_cells {t : tlsf_s} {X : List Ptr} (h : CellsWF t X)
    (fl sl : Nat) : Ptr.nullp ∉ t.cellsG fl sl := by
  intro hmem
  obtain ⟨pid, off, hp, -⟩ := h.cellMem fl sl _ hmem
  exact Ptr.noConfusion hp

/-- Cells beyond the live index range are empty. -/
theorem cells_empty_sl {t : tlsf_s} {X : List Ptr} (h : CellsWF t X)
    {fl sl : Nat} (hsl : 32 ≤ sl) : t.cellsG fl sl = [] := by
  cases hc : t.cellsG fl sl with
  | nil => rfl
  | cons p rest =>
    obtain ⟨pid, off, hp, -, -, -, hsz, hm⟩ :=
      h.cellMem fl sl p (by rw [hc]; exact List.mem_cons_self _ _)
    have hsl' := mapping_insert_sl_lt (t.mem p).size
      (by rw [BSMAX_eq, show (BLOCK_OVERHEAD:Nat) = 8 from rfl] at hsz; omega)
    rw [hm] at hsl'
    omega

theorem cells_empty_fl {t : tlsf_s} {X : List Ptr} (h : CellsWF t X)
    {fl sl : Nat} (hfl : 27 ≤ fl) : t.cellsG fl sl = [] := by
  cases hc : t.cellsG fl sl with
  | nil => rfl
  | cons p rest =>
    obtain ⟨pid, off, hp, -, -, -, hsz, hm⟩ :=
      h.cellMem fl sl p (by rw [hc]; exact List.mem_cons_self _ _)
    have hfl' := mapping_insert_fl_le (t.mem p).size hsz
    rw [hm] at hfl'
    omega

theorem slBitmap_row_lt {t : tlsf_s} {X : List Ptr} (h : CellsWF t X) (fl : Nat) :
    t.slBitmap fl < 2 ^ 32 := by
  refine lt_two_pow32_of_bits _ (fun i hi => ?_)
  by_contra hb
  rw [Bool.not_eq_false] at hb
  exact (h.bitSL fl i).mp hb (cells_empty_sl h hi)

theorem slBitmap_row_high_zero {t : tlsf_s} {X : List Ptr} (h : CellsWF t X)
    {fl : Nat} (hfl : 27 ≤ fl) : t.slBitmap fl = 0 := by
  refine eq_zero_of_forall_testBit _ (fun i => ?_)
  by_contra hb
  rw [Bool.not_eq_false] at hb
  exact (h.bitSL fl i).mp hb (cells_empty_fl h hfl)

theorem flBitmap_lt {t : tlsf_s} {X : List Ptr} (h : CellsWF t X) :
    t.flBitmap < 2 ^ 32 := by
  refine lt_two_pow32_of_bits _ (fun i hi => ?_)
  by_contra hb
  rw [Bool.not_eq_false] at hb
  exact (h.bitFL i).mp hb (slBitmap_row_high_zero h (by omega))

/-- A successful suitable-block search lands on a cell whose bitmap bit is
set and returns that cell's list head. -/
theorem search_suitable_bit {t : tlsf_s} {X : List Ptr} (hW : CellsWF t X)
    {fl sl : Nat} {b : Ptr} {fl' sl' : Nat}
    (h : search_suitable_block t fl sl = some (b, fl', sl')) :
    (t.slBitmap fl').testBit sl' = true ∧ b = t.blocks fl' sl' := by
  unfold search_suitable_block at h
  by_cases h1 : t.slBitmap fl &&& mask32shl sl = 0
  · rw [if_pos h1] at h
    by_cases h2 : t.flBitmap &&& mask32shl (fl + 1) = 0
    · rw [if_pos h2] at h
      exact absurd h (by simp)
    · rw [if_neg h2] at h
      simp only [Option.some.injEq, Prod.mk.injEq] at h
      obtain ⟨hb, hfl', hsl'⟩ := h
      have hflt : t.flBitmap &&& mask32shl (fl + 1) < 2 ^ 64 := by
        have := Nat.and_le_left (n := t.flBitmap) (m := mask32shl (fl + 1))
        have := flBitmap_lt hW
        have h32 : (2:Nat) ^ 32 < 2 ^ 64 := by norm_num
        omega
      have hbit := ffs_testBit _ h2 hflt
      rw [Nat.testBit_and] at hbit
      have hflbit : t.flBitmap.testBit (ffs (t.flBitmap &&& mask32shl (fl + 1))) = true :=
        (Bool.and_eq_true _ _).mp hbit |>.1
      have hrow := (hW.bitFL _).mp hflbit
      have hrowlt : t.slBitmap (ffs (t.flBitmap &&& mask32shl (fl + 1))) < 2 ^ 64 := by
        have := slBitmap_row_lt hW (ffs (t.flBitmap &&& mask32shl (fl + 1)))
        have h32 : (2:Nat) ^ 32 < 2 ^ 64 := by norm_num
        omega
      have hbit2 := ffs_testBit _ hrow hrowlt
      subst hfl'
      subst hsl'
      exact ⟨hbit2, hb.symm⟩
  · rw [if_neg h1] at h
    simp only [Option.some.injEq, Prod.mk.injEq] at h
    obtain ⟨hb, hfl', hsl'⟩ := h
    have hslt : t.slBitmap fl &&& mask32shl sl < 2 ^ 64 := by
      have := Nat.and_le_left (n := t.slBitmap fl) (m := mask32shl sl)
      have := slBitmap_row_lt hW fl
      have h32 : (2:Nat) ^ 32 < 2 ^ 64 := by norm_num
      omega
    have hbit := ffs_testBit _ h1 hslt
    rw [Nat.testBit_and] at hbit
    have hslbit : (t.slBitmap fl).testBit (ffs (t.slBitmap fl &&& mask32shl sl)) = true :=
      (Bool.and_eq_true _ _).mp hbit |>.1
    subst hfl'
    subst hsl'
    exact ⟨hslbit, hb.symm⟩

/-- The block a successful search returns is the head, hence a member, of
a nonempty cell. -/
theorem search_suitable_mem {t : tlsf_s} {X : List Ptr} (hW : CellsWF t X)
    {fl sl : Nat} {b : Ptr} {fl' sl' : Nat}
    (h : search_suitable_block t fl sl = some (b, fl', sl')) :
    b ∈ t.cellsG fl' sl' ∧ b = t.blocks fl' sl' := by
  obtain ⟨hbit, hb⟩ := search_suitable_bit hW h
  have hne := (hW.bitSL fl' sl').mp hbit
  cases hc : t.cellsG fl' sl' with
  | nil => exact absurd hc hne
  | cons p rest =>
    have hhead := hW.cellHead fl' sl'
    rw [hc] at hhead
    simp only [List.head?_cons, Option.getD_some] at hhead
    rw [hb, hhead]
    exact ⟨List.mem_cons_self _ _, by rw [← hhead, ← hb]⟩

/-- Index accuracy survives any step that leaves the index arrays alone,
preserves the listed blocks' sizes, free bits and link fields, keeps the
listed blocks in live chains, and frees no block outside the detached
list. -/
theorem cellsWF_step {t t' : tlsf_s} {X X' : List Ptr} (h : CellsWF t X)
    (hcells : t'.cellsG = t.cellsG)
    (hblocks : t'.blocks = t.blocks)
    (hflb : t'.flBitmap = t.flBitmap)
    (hslb : t'.slBitmap = t.slBitmap)
    (hlisted : ∀ fl sl, ∀ q ∈ t.cellsG fl sl,
      (t'.mem q).size = (t.mem q).size ∧ (t'.mem q).isFree = (t.mem q).isFree ∧
      (t'.mem q).prevFree = (t.mem q).prevFree ∧ (t'.mem q).nextFree = (t.mem q).nextFree)
    (hchain : ∀ fl sl, ∀ p ∈ t.cellsG fl sl, ∀ pid offv, p = Ptr.blk pid offv →
      pid ∈ t'.pools ∧ offv ∈ t'.chainG pid)
    (hXsub : ∀ x ∈ X, x ∈ X' ∨ (t'.mem x).isFree = false)
    (hX' : ∀ x ∈ X', ∀ fl sl, x ∉ t.cellsG fl sl)
    (hfree : ∀ pid ∈ t'.pools, ∀ offv ∈ t'.chainG pid,
      (t'.mem (Ptr.blk pid offv)).isFree = true →
      Ptr.blk pid offv ∈ X' ∨
      (pid ∈ t.pools ∧ offv ∈ t.chainG pid ∧
       (t.mem (Ptr.blk pid offv)).isFree = true ∧
       (t'.mem (Ptr.blk pid offv)).size = (t.mem (Ptr.blk pid offv)).size)) :
    CellsWF t' X' := by
  refine ⟨?_, ?_, ?_, ?_, ?_, ?_, ?_, ?_⟩
  · intro fl sl
    rw [hcells, hblocks]
    exact h.cellHead fl sl
  · intro fl sl p hp
    rw [hcells] at hp
    obtain ⟨pid, offv, hpq, hpid, hoffv, hfr, hsz, hm⟩ := h.cellMem fl sl p hp
    obtain ⟨hs1, hs2, -, -⟩ := hlisted fl sl p hp
    obtain ⟨hpid', hoffv'⟩ := hchain fl sl p hp pid offv hpq
    exact ⟨pid, offv, hpq, hpid', hoffv', hs2.trans hfr, hs1 ▸ hsz, hs1 ▸ hm⟩
  · intro fl sl
    rw [hcells]
    refine linksOK_congr _ (h.links fl sl) ?_
    intro q hq
    exact ⟨(hlisted fl sl q hq).2.2.1, (hlisted fl sl q hq).2.2.2⟩
  · intro fl sl
    rw [hcells]
    exact h.nodup fl sl
  · intro pid hpid offv hoffv hfr
    rcases hfree pid hpid offv hoffv hfr with hx | ⟨hpid0, hoffv0, hfr0, hsz0⟩
    · exact Or.inl hx
    · rcases h.complete pid hpid0 offv hoffv0 hfr0 with hx | hmem
      · rcases hXsub _ hx with hx' | hused
        · exact Or.inl hx'
        · rw [hused] at hfr
          exact absurd hfr (by simp)
      · rw [hcells, hsz0]
        exact Or.inr hmem
  · intro x hx fl sl
    rw [hcells]
    exact hX' x hx fl sl
  · intro fl sl
    rw [hslb, hcells]
    exact h.bitSL fl sl
  · intro fl
    rw [hflb, hslb]
    exact h.bitFL fl


theorem upd2_same {α : Type} (f : Nat → Nat → α) (i j : Nat) (v : α) :
    upd2 f i j v i j = v := by
  rw [upd2, upd1_same, upd1_same]

theorem upd2_other {α : Type} (f : Nat → Nat → α) (i j : Nat) (v : α) (i' j' : Nat)
    (h : ¬(i' = i ∧ j' = j)) : upd2 f i j v i' j' = f i' j' := by
  rw [upd2]
  by_cases h1 : i' = i
  · subst h1
    have h2 : j' ≠ j := fun hj => h ⟨rfl, hj⟩
    rw [upd1_same, upd1_other _ _ _ _ h2]
  · rw [upd1_other _ _ _ _ h1]

/-- The two link writes of insert_free_block (src/tlsf.c lines 344-351). -/
def insMem (m : Ptr → BlockHdr) (b cur : Ptr) : Ptr → BlockHdr :=
  updHdr (updHdr m b (fun h => { h with nextFree := cur, prevFree := Ptr.blockNull }))
    cur (fun h => { h with prevFree := b })

theorem insert_free_block_eq (t : tlsf_s) (b : Ptr) (fl sl : Nat) :
    insert_free_block t b fl sl = { t with
      mem := insMem t.mem b (t.blocks fl sl)
      blocks := upd2 t.blocks fl sl b
      flBitmap := t.flBitmap ||| (1 <<< fl)
      slBitmap := upd1 t.slBitmap fl (t.slBitmap fl ||| (1 <<< sl))
      cellsG := upd2 t.cellsG fl sl (b :: t.cellsG fl sl) } := rfl

theorem insMem_b (m : Ptr → BlockHdr) (b cur : Ptr) (hbc : b ≠ cur) :
    insMem m b cur b = { m b with nextFree := cur, prevFree := Ptr.blockNull } := by
  rw [insMem, updHdr_other _ _ _ _ hbc, updHdr_same]

theorem insMem_cur (m : Ptr → BlockHdr) (b cur : Ptr) (hbc : b ≠ cur) :
    insMem m b cur cur = { m cur with prevFree := b } := by
  rw [insMem, updHdr_same, updHdr_other _ _ _ _ (fun hh => hbc hh.symm)]

theorem insMem_other (m : Ptr → BlockHdr) (b cur q : Ptr) (h1 : q ≠ b) (h2 : q ≠ cur) :
    insMem m b cur q = m q := by
  rw [insMem, updHdr_other _ _ _ _ h2, updHdr_other _ _ _ _ h1]

theorem insMem_sameHeap (m : Ptr → BlockHdr) (b cur : Ptr) : sameHeap m (insMem m b cur) := by
  unfold insMem
  refine sameHeap_trans ?_ (sameHeap_updHdr _ _ _ (fun _ => ⟨rfl, rfl, rfl, rfl⟩))
  exact sameHeap_updHdr _ _ _ (fun _ => ⟨rfl, rfl, rfl, rfl⟩)

/-- The two unlink writes of remove_free_block (src/tlsf.c lines 311-312). -/
def remMem (m : Ptr → BlockHdr) (x : Ptr) : Ptr → BlockHdr :=
  updHdr (updHdr m (m x).nextFree (fun h => { h with prevFree := (m x).prevFree }))
    (m x).prevFree (fun h => { h with nextFree := (m x).nextFree })

theorem remMem_sameHeap (m : Ptr → BlockHdr) (x : Ptr) : sameHeap m (remMem m x) := by
  unfold remMem
  refine sameHeap_trans ?_ (sameHeap_updHdr _ _ _ (fun _ => ⟨rfl, rfl, rfl, rfl⟩))
  exact sameHeap_updHdr _ _ _ (fun _ => ⟨rfl, rfl, rfl, rfl⟩)

theorem remMem_other (m : Ptr → BlockHdr) (x q : Ptr) (h1 : q ≠ (m x).prevFree)
    (h2 : q ≠ (m x).nextFree) : remMem m x q = m q := by
  rw [remMem, updHdr_other _ _ _ _ h1, updHdr_other _ _ _ _ h2]

theorem remMem_linksOK {m : Ptr → BlockHdr} {x : Ptr} (L1 : List Ptr) (prev : Ptr)
    (L2 : List Ptr) (h : linksOK m prev (L1 ++ x :: L2)) (hnd : (L1 ++ x :: L2).Nodup)
    (hbn : Ptr.blockNull ∉ L1 ++ x :: L2) (hprev : prev ∉ L1 ++ x :: L2) :
    linksOK (remMem m x) prev (L1 ++ L2) :=
  linksOK_erase L1 prev L2 h hnd hbn hprev

theorem remove_free_block_mem (t : tlsf_s) (x : Ptr) (fl sl : Nat) :
    (remove_free_block t x fl sl).mem = remMem t.mem x := by
  unfold remove_free_block
  simp only []
  split_ifs <;> rfl

theorem remove_free_block_cells (t : tlsf_s) (x : Ptr) (fl sl : Nat) :
    (remove_free_block t x fl sl).cellsG =
      upd2 t.cellsG fl sl ((t.cellsG fl sl).erase x) := by
  unfold remove_free_block
  simp only []
  split_ifs <;> rfl

theorem remove_free_block_not_head (t : tlsf_s) (x : Ptr) (fl sl : Nat)
    (h : t.blocks fl sl ≠ x) :
    remove_free_block t x fl sl = { t with
      mem := remMem t.mem x
      cellsG := upd2 t.cellsG fl sl ((t.cellsG fl sl).erase x) } := by
  unfold remove_free_block
  simp only []
  rw [if_neg h]
  rfl

theorem remove_free_block_head_mid (t : tlsf_s) (x : Ptr) (fl sl : Nat)
    (h1 : t.blocks fl sl = x) (h2 : (t.mem x).nextFree ≠ Ptr.blockNull) :
    remove_free_block t x fl sl = { t with
      mem := remMem t.mem x
      cellsG := upd2 t.cellsG fl sl ((t.cellsG fl sl).erase x)
      blocks := upd2 t.blocks fl sl (t.mem x).nextFree } := by
  unfold remove_free_block
  simp only []
  rw [if_pos h1, if_neg h2]
  rfl

theorem remove_free_block_head_last (t : tlsf_s) (x : Ptr) (fl sl : Nat)
    (h1 : t.blocks fl sl = x) (h2 : (t.mem x).nextFree = Ptr.blockNull)
    (h3 : t.slBitmap fl &&& mask32not sl ≠ 0) :
    remove_free_block t x fl sl = { t with
      mem := remMem t.mem x
      cellsG := upd2 t.cellsG fl sl ((t.cellsG fl sl).erase x)
      blocks := upd2 t.blocks fl sl (t.mem x).nextFree
      slBitmap := upd1 t.slBitmap fl (t.slBitmap fl &&& mask32not sl) } := by
  unfold remove_free_block
  simp only []
  rw [if_pos h1, if_pos h2, upd1_same, if_neg h3]
  rfl

theorem remove_free_block_head_last_zero (t : tlsf_s) (x : Ptr) (fl sl : Nat)
    (h1 : t.blocks fl sl = x) (h2 : (t.mem x).nextFree = Ptr.blockNull)
    (h3 : t.slBitmap fl &&& mask32not sl = 0) :
    remove_free_block t x fl sl = { t with
      mem := remMem t.mem x
      cellsG := upd2 t.cellsG fl sl ((t.cellsG fl sl).erase x)
      blocks := upd2 t.blocks fl sl (t.mem x).nextFree
      slBitmap := upd1 t.slBitmap fl (t.slBitmap fl &&& mask32not sl)
      flBitmap := t.flBitmap &&& mask32not fl } := by
  unfold remove_free_block
  simp only []
  rw [if_pos h1, if_pos h2, upd1_same, if_pos h3]
  rfl

/-- Inserting a detached free block into the cell its size maps to
restores index accuracy with the block no longer detached
(insert_free_block, src/tlsf.c lines 335-357). -/
theorem insert_free_cellsWF {t : tlsf_s} {X : List Ptr} {pid off : Nat} {fl₀ sl₀ : Nat}
    (hW : CellsWF t (Ptr.blk pid off :: X))
    (hpid : pid ∈ t.pools) (hoff : off ∈ t.chainG pid)
    (hfree : (t.mem (Ptr.blk pid off)).isFree = true)
    (hsize : (t.mem (Ptr.blk pid off)).size ≤ BLOCK_SIZE_MAX + BLOCK_OVERHEAD)
    (hmap : mapping_insert ((t.mem (Ptr.blk pid off)).size) = (fl₀, sl₀))
    (hbX : Ptr.blk pid off ∉ X) :
    CellsWF (insert_free_block t (Ptr.blk pid off) fl₀ sl₀) X := by
  have hbnot : ∀ f s, Ptr.blk pid off ∉ t.cellsG f s :=
    hW.exempt _ (List.mem_cons_self _ _)
  have hcur : t.blocks fl₀ sl₀ = (t.cellsG fl₀ sl₀).head?.getD Ptr.blockNull :=
    hW.cellHead fl₀ sl₀
  have hbc : Ptr.blk pid off ≠ t.blocks fl₀ sl₀ := by
    cases hc : t.cellsG fl₀ sl₀ with
    | nil =>
      rw [hcur, hc]
      simp
    | cons p r =>
      rw [hcur, hc]
      simp only [List.head?_cons, Option.getD_some]
      intro hh
      have hp : p ∈ t.cellsG fl₀ sl₀ := by
        rw [hc]
        exact List.mem_cons_self p r
      exact hbnot fl₀ sl₀ (by rw [hh]; exact hp)
  rw [insert_free_block_eq]
  refine ⟨?_, ?_, ?_, ?_, ?_, ?_, ?_, ?_⟩
  · intro f s
    simp only []
    by_cases h1 : f = fl₀ ∧ s = sl₀
    · obtain ⟨rfl, rfl⟩ := h1
      rw [upd2_same, upd2_same]
      rfl
    · rw [upd2_other _ _ _ _ _ _ h1, upd2_other _ _ _ _ _ _ h1]
      exact hW.cellHead f s
  · intro f s p hp
    simp only [] at hp ⊢
    have htrans : ∀ q ∈ t.cellsG f s, ∃ pid' off', q = Ptr.blk pid' off' ∧
        pid' ∈ t.pools ∧ off' ∈ t.chainG pid' ∧
        (insMem t.mem (Ptr.blk pid off) (t.blocks fl₀ sl₀) q).isFree = true ∧
        (insMem t.mem (Ptr.blk pid off) (t.blocks fl₀ sl₀) q).size ≤
          BLOCK_SIZE_MAX + BLOCK_OVERHEAD ∧
        mapping_insert (insMem t.mem (Ptr.blk pid off) (t.blocks fl₀ sl₀) q).size =
          (f, s) := by
      intro q hq
      obtain ⟨pid', off', hq1, hq2, hq3, hq4, hq5, hq6⟩ := hW.cellMem f s q hq
      obtain ⟨e1, e2, -, -⟩ := insMem_sameHeap t.mem (Ptr.blk pid off) (t.blocks fl₀ sl₀) q
      refine ⟨pid', off', hq1, hq2, hq3, ?_, ?_, ?_⟩
      · rw [e2]
        exact hq4
      · rw [e1]
        exact hq5
      · rw [e1]
        exact hq6
    by_cases h1 : f = fl₀ ∧ s = sl₀
    · obtain ⟨rfl, rfl⟩ := h1
      rw [upd2_same] at hp
      rcases List.mem_cons.mp hp with hpb | hpc
      · subst hpb
        obtain ⟨e1, e2, -, -⟩ :=
          insMem_sameHeap t.mem (Ptr.blk pid off) (t.blocks f s) (Ptr.blk pid off)
        refine ⟨pid, off, rfl, hpid, hoff, ?_, ?_, ?_⟩
        · rw [e2]
          exact hfree
        · rw [e1]
          exact hsize
        · rw [e1]
          exact hmap
      · exact htrans p hpc
    · rw [upd2_other _ _ _ _ _ _ h1] at hp
      exact htrans p hp
  · intro f s
    simp only []
    by_cases h1 : f = fl₀ ∧ s = sl₀
    · obtain ⟨rfl, rfl⟩ := h1
      rw [upd2_same]
      refine ⟨?_, ?_, ?_⟩
      · rw [insMem_b _ _ _ hbc]
      · rw [insMem_b _ _ _ hbc]
        simp only []
        exact hcur
      · cases hc : t.cellsG f s with
        | nil => trivial
        | cons p r =>
          have hl := hW.links f s
          rw [hc] at hl
          obtain ⟨hp1, hp2, hp3⟩ := hl
          have hpcur : t.blocks f s = p := by
            rw [hcur, hc]
            rfl
          have hnd := hW.nodup f s
          rw [hc] at hnd
          have hpnotr : p ∉ r := (List.nodup_cons.mp hnd).1
          refine ⟨?_, ?_, ?_⟩
          · rw [show p = t.blocks f s from hpcur.symm, insMem_cur _ _ _ hbc]
          · rw [show p = t.blocks f s from hpcur.symm, insMem_cur _ _ _ hbc]
            simp only []
            rw [hpcur]
            exact hp2
          · refine linksOK_congr p hp3 ?_
            intro z hz
            have hzb : z ≠ Ptr.blk pid off := by
              intro hh
              refine hbnot f s ?_
              rw [← hh, hc]
              exact List.mem_cons_of_mem _ hz
            have hzc : z ≠ t.blocks f s := by
              rw [hpcur]
              intro hh
              exact hpnotr (hh ▸ hz)
            rw [insMem_other _ _ _ _ hzb hzc]
            exact ⟨rfl, rfl⟩
    · rw [upd2_other _ _ _ _ _ _ h1]
      refine linksOK_congr _ (hW.links f s) ?_
      intro z hz
      have hzb : z ≠ Ptr.blk pid off := fun hh => hbnot f s (hh ▸ hz)
      have hzc : z ≠ t.blocks fl₀ sl₀ := by
        intro hh
        cases hc : t.cellsG fl₀ sl₀ with
        | nil =>
          have hbn : t.blocks fl₀ sl₀ = Ptr.blockNull := by
            rw [hcur, hc]
            rfl
          exact blockNull_notin_cells hW f s (by rw [← hbn, ← hh]; exact hz)
        | cons p r =>
          have hpcur : t.blocks fl₀ sl₀ = p := by
            rw [hcur, hc]
            rfl
          have hzin : z ∈ t.cellsG fl₀ sl₀ := by
            rw [hc, hh, hpcur]
            exact List.mem_cons_self p r
          exact h1 ⟨(cells_disjoint hW hz hzin).1, (cells_disjoint hW hz hzin).2⟩
      rw [insMem_other _ _ _ _ hzb hzc]
      exact ⟨rfl, rfl⟩
  · intro f s
    simp only []
    by_cases h1 : f = fl₀ ∧ s = sl₀
    · obtain ⟨rfl, rfl⟩ := h1
      rw [upd2_same]
      exact List.nodup_cons.mpr ⟨hbnot f s, hW.nodup f s⟩
    · rw [upd2_other _ _ _ _ _ _ h1]
      exact hW.nodup f s
  · intro pid' hpid' offv hoffv hfr
    simp only [] at hpid' hoffv hfr ⊢
    obtain ⟨e1, e2, -, -⟩ :=
      insMem_sameHeap t.mem (Ptr.blk pid off) (t.blocks fl₀ sl₀) (Ptr.blk pid' offv)
    have hfr' : (t.mem (Ptr.blk pid' offv)).isFree = true := by
      rw [← e2]
      exact hfr
    rcases hW.complete pid' hpid' offv hoffv hfr' with hx | hmem
    · rcases List.mem_cons.mp hx with hxb | hxX
      · refine Or.inr ?_
        rw [e1, hxb, hmap]
        simp only []
        rw [upd2_same]
        exact List.mem_cons_self _ _
      · exact Or.inl hxX
    · refine Or.inr ?_
      rw [e1]
      by_cases h1 : (mapping_insert (t.mem (Ptr.blk pid' offv)).size).1 = fl₀ ∧
          (mapping_insert (t.mem (Ptr.blk pid' offv)).size).2 = sl₀
      · rw [h1.1, h1.2] at hmem ⊢
        rw [upd2_same]
        exact List.mem_cons_of_mem _ hmem
      · rw [upd2_other _ _ _ _ _ _ h1]
        exact hmem
  · intro x hx f s
    simp only []
    by_cases h1 : f = fl₀ ∧ s = sl₀
    · obtain ⟨rfl, rfl⟩ := h1
      rw [upd2_same]
      intro hmem
      rcases List.mem_cons.mp hmem with hh | hh
      · exact hbX (hh ▸ hx)
      · exact hW.exempt x (List.mem_cons_of_mem _ hx) f s hh
    · rw [upd2_other _ _ _ _ _ _ h1]
      exact hW.exempt x (List.mem_cons_of_mem _ hx) f s
  · intro f s
    simp only []
    by_cases h1 : f = fl₀
    · subst h1
      rw [upd1_same]
      by_cases h2 : s = sl₀
      · subst h2
        rw [upd2_same]
        constructor
        · intro _
          simp
        · intro _
          rw [Nat.testBit_or, shiftLeft_one_eq, Nat.testBit_two_pow]
          simp
      · rw [upd2_other _ _ _ _ _ _ (fun hh => h2 hh.2), Nat.testBit_or, shiftLeft_one_eq,
          Nat.testBit_two_pow]
        have hd : (decide (sl₀ = s) : Bool) = false := by
          simp only [decide_eq_false_iff_not]
          exact fun hh => h2 hh.symm
        rw [hd, Bool.or_false]
        exact hW.bitSL f s
    · rw [upd1_other _ _ _ _ h1, upd2_other _ _ _ _ _ _ (fun hh => h1 hh.1)]
      exact hW.bitSL f s
  · intro f
    simp only []
    by_cases h1 : f = fl₀
    · subst h1
      rw [upd1_same]
      constructor
      · intro _
        refine ne_zero_of_testBit (i := sl₀) ?_
        rw [Nat.testBit_or, shiftLeft_one_eq, Nat.testBit_two_pow]
        simp
      · intro _
        rw [Nat.testBit_or, shiftLeft_one_eq, Nat.testBit_two_pow]
        simp
    · rw [upd1_other _ _ _ _ h1, Nat.testBit_or, shiftLeft_one_eq, Nat.testBit_two_pow]
      have hd : (decide (fl₀ = f) : Bool) = false := by
        simp only [decide_eq_false_iff_not]
        exact fun hh => h1 hh.symm
      rw [hd, Bool.or_false]
      exact hW.bitFL f

/-- Removing a listed block from its cell leaves an accurate index with
the block detached (remove_free_block, src/tlsf.c lines 305-332). -/
theorem remove_free_cellsWF {t : tlsf_s} {X : List Ptr} {x : Ptr} {fl sl : Nat}
    (hW : CellsWF t X) (hx : x ∈ t.cellsG fl sl) :
    CellsWF (remove_free_block t x fl sl) (x :: X) := by
  obtain ⟨L1, L2, hsplit⟩ := List.append_of_mem hx
  have hnd : (L1 ++ x :: L2).Nodup := by
    rw [← hsplit]
    exact hW.nodup fl sl
  have hbn : Ptr.blockNull ∉ L1 ++ x :: L2 := by
    rw [← hsplit]
    exact blockNull_notin_cells hW fl sl
  have hxnotin : x ∉ L1 ++ L2 := by
    intro hmem
    rw [List.nodup_append] at hnd
    rcases List.mem_append.mp hmem with h1 | h2
    · exact hnd.2.2 h1 (List.mem_cons_self _ _)
    · exact (List.nodup_cons.mp hnd.2.1).1 h2
  have hlinks0 : linksOK t.mem Ptr.blockNull (L1 ++ x :: L2) := by
    rw [← hsplit]
    exact hW.links fl sl
  have hmid := linksOK_middle L1 Ptr.blockNull x L2 hlinks0
  have herase : (t.cellsG fl sl).erase x = L1 ++ L2 := by
    rw [hsplit]
    exact erase_of_append L1 L2 x hnd
  obtain ⟨pid, off, hxeq, hxpid, hxoff, hxfree, hxsize, hxmap⟩ := hW.cellMem fl sl x hx
  have hsl32 : sl < 32 := by
    have hh := mapping_insert_sl_lt (t.mem x).size
      (by rw [BSMAX_eq, show (BLOCK_OVERHEAD:Nat) = 8 from rfl] at hxsize; omega)
    rw [hxmap] at hh
    exact hh
  have hfl27 : fl ≤ 26 := by
    have hh := mapping_insert_fl_le (t.mem x).size hxsize
    rw [hxmap] at hh
    exact hh
  have hkeepHeap := remMem_sameHeap t.mem x
  have hploc : (t.mem x).prevFree ∈ t.cellsG fl sl ∨ (t.mem x).prevFree = Ptr.blockNull := by
    rw [hmid.1]
    cases hL1 : L1 with
    | nil => exact Or.inr rfl
    | cons a r =>
      refine Or.inl ?_
      rw [List.getLast?_eq_getLast _ (by simp)]
      simp only [Option.getD_some]
      rw [hsplit, hL1]
      exact List.mem_append_left _ (List.getLast_mem _)
  have hnloc : (t.mem x).nextFree ∈ t.cellsG fl sl ∨ (t.mem x).nextFree = Ptr.blockNull := by
    rw [hmid.2]
    cases hL2 : L2 with
    | nil => exact Or.inr rfl
    | cons c r =>
      refine Or.inl ?_
      simp only [List.head?_cons, Option.getD_some]
      rw [hsplit, hL2]
      exact List.mem_append_right _ (List.mem_cons_of_mem _ (List.mem_cons_self _ _))
  have hother : ∀ f s, ¬(f = fl ∧ s = sl) → ∀ z ∈ t.cellsG f s,
      remMem t.mem x z = t.mem z := by
    intro f s hne z hz
    have hz1 : z ≠ (t.mem x).prevFree := by
      intro hh
      rcases hploc with hin | hbnx
      · have hzin : z ∈ t.cellsG fl sl := by
          rw [hh]
          exact hin
        exact hne ⟨(cells_disjoint hW hz hzin).1, (cells_disjoint hW hz hzin).2⟩
      · exact blockNull_notin_cells hW f s ((hh.trans hbnx) ▸ hz)
    have hz2 : z ≠ (t.mem x).nextFree := by
      intro hh
      rcases hnloc with hin | hbnx
      · have hzin : z ∈ t.cellsG fl sl := by
          rw [hh]
          exact hin
        exact hne ⟨(cells_disjoint hW hz hzin).1, (cells_disjoint hW hz hzin).2⟩
      · exact blockNull_notin_cells hW f s ((hh.trans hbnx) ▸ hz)
    exact remMem_other _ _ _ hz1 hz2
  have Hhead : ∀ f s, ¬(f = fl ∧ s = sl) → t.blocks f s =
      (upd2 t.cellsG fl sl ((t.cellsG fl sl).erase x) f s).head?.getD Ptr.blockNull := by
    intro f s hne
    rw [upd2_other _ _ _ _ _ _ hne]
    exact hW.cellHead f s
  have Hmem : ∀ f s, ∀ p ∈ upd2 t.cellsG fl sl ((t.cellsG fl sl).erase x) f s,
      ∃ pid' off', p = Ptr.blk pid' off' ∧ pid' ∈ t.pools ∧ off' ∈ t.chainG pid' ∧
      (remMem t.mem x p).isFree = true ∧
      (remMem t.mem x p).size ≤ BLOCK_SIZE_MAX + BLOCK_OVERHEAD ∧
      mapping_insert (remMem t.mem x p).size = (f, s) := by
    intro f s p hp
    have hp' : p ∈ t.cellsG f s := by
      by_cases h1 : f = fl ∧ s = sl
      · obtain ⟨rfl, rfl⟩ := h1
        rw [upd2_same] at hp
        exact List.erase_subset _ _ hp
      · rw [upd2_other _ _ _ _ _ _ h1] at hp
        exact hp
    obtain ⟨pid', off', h1, h2, h3, h4, h5, h6⟩ := hW.cellMem f s p hp'
    obtain ⟨e1, e2, -, -⟩ := hkeepHeap p
    refine ⟨pid', off', h1, h2, h3, ?_, ?_, ?_⟩
    · rw [e2]
      exact h4
    · rw [e1]
      exact h5
    · rw [e1]
      exact h6
  have Hlinks : ∀ f s, linksOK (remMem t.mem x) Ptr.blockNull
      (upd2 t.cellsG fl sl ((t.cellsG fl sl).erase x) f s) := by
    intro f s
    by_cases h1 : f = fl ∧ s = sl
    · obtain ⟨rfl, rfl⟩ := h1
      rw [upd2_same, herase]
      exact remMem_linksOK L1 Ptr.blockNull L2 hlinks0 hnd hbn hbn
    · rw [upd2_other _ _ _ _ _ _ h1]
      refine linksOK_congr _ (hW.links f s) ?_
      intro z hz
      rw [hother f s h1 z hz]
      exact ⟨rfl, rfl⟩
  have Hnodup : ∀ f s, (upd2 t.cellsG fl sl ((t.cellsG fl sl).erase x) f s).Nodup := by
    intro f s
    by_cases h1 : f = fl ∧ s = sl
    · obtain ⟨rfl, rfl⟩ := h1
      rw [upd2_same]
      exact (hW.nodup f s).erase x
    · rw [upd2_other _ _ _ _ _ _ h1]
      exact hW.nodup f s
  have Hcomplete : ∀ pid' ∈ t.pools, ∀ offv ∈ t.chainG pid',
      (remMem t.mem x (Ptr.blk pid' offv)).isFree = true →
      Ptr.blk pid' offv ∈ x :: X ∨
      Ptr.blk pid' offv ∈ upd2 t.cellsG fl sl ((t.cellsG fl sl).erase x)
        (mapping_insert (remMem t.mem x (Ptr.blk pid' offv)).size).1
        (mapping_insert (remMem t.mem x (Ptr.blk pid' offv)).size).2 := by
    intro pid' hpid' offv hoffv hfr
    obtain ⟨e1, e2, -, -⟩ := hkeepHeap (Ptr.blk pid' offv)
    have hfr' : (t.mem (Ptr.blk pid' offv)).isFree = true := by
      rw [← e2]
      exact hfr
    by_cases hqx : Ptr.blk pid' offv = x
    · refine Or.inl ?_
      rw [hqx]
      exact List.mem_cons_self _ _
    · rcases hW.complete pid' hpid' offv hoffv hfr' with hXm | hmem
      · exact Or.inl (List.mem_cons_of_mem _ hXm)
      · refine Or.inr ?_
        rw [e1]
        by_cases h1 : (mapping_insert (t.mem (Ptr.blk pid' offv)).size).1 = fl ∧
            (mapping_insert (t.mem (Ptr.blk pid' offv)).size).2 = sl
        · rw [h1.1, h1.2] at hmem ⊢
          rw [upd2_same]
          exact (List.mem_erase_of_ne hqx).mpr hmem
        · rw [upd2_other _ _ _ _ _ _ h1]
          exact hmem
  have Hexempt : ∀ z ∈ x :: X, ∀ f s,
      z ∉ upd2 t.cellsG fl sl ((t.cellsG fl sl).erase x) f s := by
    intro z hzX f s
    by_cases h1 : f = fl ∧ s = sl
    · obtain ⟨rfl, rfl⟩ := h1
      rw [upd2_same]
      rcases List.mem_cons.mp hzX with hzx | hzX'
      · subst hzx
        intro hmem
        rw [herase] at hmem
        exact hxnotin hmem
      · intro hmem
        exact hW.exempt z hzX' f s (List.erase_subset _ _ hmem)
    · rw [upd2_other _ _ _ _ _ _ h1]
      rcases List.mem_cons.mp hzX with hzx | hzX'
      · subst hzx
        intro hmem
        exact h1 ⟨(cells_disjoint hW hmem hx).1, (cells_disjoint hW hmem hx).2⟩
      · exact hW.exempt z hzX' f s
  cases hL1 : L1 with
  | nil =>
    have hheadx : t.blocks fl sl = x := by
      rw [hW.cellHead fl sl, hsplit, hL1]
      rfl
    have Hhead2 : ∀ f s, upd2 t.blocks fl sl (t.mem x).nextFree f s =
        (upd2 t.cellsG fl sl ((t.cellsG fl sl).erase x) f s).head?.getD Ptr.blockNull := by
      intro f s
      by_cases h1 : f = fl ∧ s = sl
      · obtain ⟨rfl, rfl⟩ := h1
        rw [upd2_same, upd2_same, herase, hL1]
        exact hmid.2
      · rw [upd2_other _ _ _ _ _ _ h1]
        exact Hhead f s h1
    cases hL2 : L2 with
    | nil =>
      have hnull : (t.mem x).nextFree = Ptr.blockNull := by
        rw [hmid.2, hL2]
        rfl
      have HbitSL2 : ∀ f s,
          ((upd1 t.slBitmap fl (t.slBitmap fl &&& mask32not sl)) f).testBit s = true ↔
          upd2 t.cellsG fl sl ((t.cellsG fl sl).erase x) f s ≠ [] := by
        intro f s
        by_cases h1 : f = fl
        · subst h1
          rw [upd1_same]
          by_cases h2 : s = sl
          · subst h2
            rw [upd2_same, herase, hL1, hL2]
            rw [Nat.testBit_and, testBit_mask32not _ _ hsl32]
            simp
          · have h12 : ¬(f = f ∧ s = sl) := fun hh => h2 hh.2
            rw [upd2_other _ _ _ _ _ _ h12]
            by_cases hs32 : s < 32
            · have hmask : (mask32not sl).testBit s = true := by
                rw [testBit_mask32not _ _ hsl32]
                simp [hs32, h2]
              rw [Nat.testBit_and, hmask, Bool.and_true]
              exact hW.bitSL f s
            · have hmask : (mask32not sl).testBit s = false := by
                rw [testBit_mask32not _ _ hsl32]
                simp [hs32]
              rw [Nat.testBit_and, hmask, Bool.and_false]
              rw [cells_empty_sl hW (show 32 ≤ s by omega)]
              simp
        · rw [upd1_other _ _ _ _ h1]
          have h12 : ¬(f = fl ∧ s = sl) := fun hh => h1 hh.1
          rw [upd2_other _ _ _ _ _ _ h12]
          exact hW.bitSL f s
      by_cases hz : t.slBitmap fl &&& mask32not sl = 0
      · rw [remove_free_block_head_last_zero t x fl sl hheadx hnull hz]
        refine ⟨?_, ?_, ?_, ?_, ?_, ?_, ?_, ?_⟩
        · intro f s
          simp only []
          exact Hhead2 f s
        · intro f s p hp
          simp only [] at hp ⊢
          exact Hmem f s p hp
        · intro f s
          simp only []
          exact Hlinks f s
        · intro f s
          simp only []
          exact Hnodup f s
        · intro pid' hpid' offv hoffv hfr
          simp only [] at hpid' hoffv hfr ⊢
          exact Hcomplete pid' hpid' offv hoffv hfr
        · intro z hzX f s
          simp only []
          exact Hexempt z hzX f s
        · intro f s
          simp only []
          exact HbitSL2 f s
        · intro f
          simp only []
          have hfl32 : fl < 32 := by omega
          by_cases h1 : f = fl
          · subst h1
            rw [upd1_same, Nat.testBit_and, testBit_mask32not _ _ hfl32, hz]
            simp
          · rw [upd1_other _ _ _ _ h1]
            by_cases hf32 : f < 32
            · have hmask : (mask32not fl).testBit f = true := by
                rw [testBit_mask32not _ _ hfl32]
                simp [hf32, h1]
              rw [Nat.testBit_and, hmask, Bool.and_true]
              exact hW.bitFL f
            · have hmask : (mask32not fl).testBit f = false := by
                rw [testBit_mask32not _ _ hfl32]
                simp [hf32]
              rw [Nat.testBit_and, hmask, Bool.and_false]
              rw [slBitmap_row_high_zero hW (show 27 ≤ f by omega)]
              simp
      · rw [remove_free_block_head_last t x fl sl hheadx hnull hz]
        refine ⟨?_, ?_, ?_, ?_, ?_, ?_, ?_, ?_⟩
        · intro f s
          simp only []
          exact Hhead2 f s
        · intro f s p hp
          simp only [] at hp ⊢
          exact Hmem f s p hp
        · intro f s
          simp only []
          exact Hlinks f s
        · intro f s
          simp only []
          exact Hnodup f s
        · intro pid' hpid' offv hoffv hfr
          simp only [] at hpid' hoffv hfr ⊢
          exact Hcomplete pid' hpid' offv hoffv hfr
        · intro z hzX f s
          simp only []
          exact Hexempt z hzX f s
        · intro f s
          simp only []
          exact HbitSL2 f s
        · intro f
          simp only []
          by_cases h1 : f = fl
          · subst h1
            rw [upd1_same]
            constructor
            · intro _
              exact hz
            · intro _
              refine (hW.bitFL f).mpr ?_
              refine ne_zero_of_testBit (i := sl) ?_
              refine (hW.bitSL f sl).mpr ?_
              rw [hsplit]
              simp
          · rw [upd1_other _ _ _ _ h1]
            exact hW.bitFL f
    | cons c r2 =>
      have hcmem : c ∈ L1 ++ x :: L2 := by
        rw [hL2]
        exact List.mem_append_right _ (List.mem_cons_of_mem _ (List.mem_cons_self _ _))
      have hnext_c : (t.mem x).nextFree = c := by
        rw [hmid.2, hL2]
        rfl
      have hnullne : (t.mem x).nextFree ≠ Ptr.blockNull := by
        rw [hnext_c]
        intro hh
        exact hbn (hh ▸ hcmem)
      rw [remove_free_block_head_mid t x fl sl hheadx hnullne]
      refine ⟨?_, ?_, ?_, ?_, ?_, ?_, ?_, ?_⟩
      · intro f s
        simp only []
        exact Hhead2 f s
      · intro f s p hp
        simp only [] at hp ⊢
        exact Hmem f s p hp
      · intro f s
        simp only []
        exact Hlinks f s
      · intro f s
        simp only []
        exact Hnodup f s
      · intro pid' hpid' offv hoffv hfr
        simp only [] at hpid' hoffv hfr ⊢
        exact Hcomplete pid' hpid' offv hoffv hfr
      · intro z hzX f s
        simp only []
        exact Hexempt z hzX f s
      · intro f s
        simp only []
        by_cases h1 : f = fl ∧ s = sl
        · obtain ⟨rfl, rfl⟩ := h1
          rw [upd2_same, herase, hL1, hL2]
          constructor
          · intro _
            simp
          · intro _
            refine (hW.bitSL f s).mpr ?_
            rw [hsplit]
            simp
        · rw [upd2_other _ _ _ _ _ _ h1]
          exact hW.bitSL f s
      · intro f
        simp only []
        exact hW.bitFL f
  | cons a r1 =>
    have hheadne : t.blocks fl sl ≠ x := by
      rw [hW.cellHead fl sl, hsplit, hL1]
      simp only [List.cons_append, List.head?_cons, Option.getD_some]
      intro hh
      rw [hL1] at hnd
      have hax : x ∈ r1 ++ x :: L2 :=
        List.mem_append_right _ (List.mem_cons_self _ _)
      have hnotin : a ∉ r1 ++ x :: L2 :=
        (List.nodup_cons.mp (by rw [List.cons_append] at hnd; exact hnd)).1
      exact hnotin (by rw [hh]; exact hax)
    rw [remove_free_block_not_head t x fl sl hheadne]
    refine ⟨?_, ?_, ?_, ?_, ?_, ?_, ?_, ?_⟩
    · intro f s
      simp only []
      by_cases h1 : f = fl ∧ s = sl
      · obtain ⟨rfl, rfl⟩ := h1
        rw [upd2_same, herase, hL1, hW.cellHead f s, hsplit, hL1]
        rfl
      · rw [upd2_other _ _ _ _ _ _ h1]
        exact hW.cellHead f s
    · intro f s p hp
      simp only [] at hp ⊢
      exact Hmem f s p hp
    · intro f s
      simp only []
      exact Hlinks f s
    · intro f s
      simp only []
      exact Hnodup f s
    · intro pid' hpid' offv hoffv hfr
      simp only [] at hpid' hoffv hfr ⊢
      exact Hcomplete pid' hpid' offv hoffv hfr
    · intro z hzX f s
      simp only []
      exact Hexempt z hzX f s
    · intro f s
      simp only []
      by_cases h1 : f = fl ∧ s = sl
      · obtain ⟨rfl, rfl⟩ := h1
        rw [upd2_same, herase, hL1]
        constructor
        · intro _
          simp
        · intro _
          refine (hW.bitSL f s).mpr ?_
          rw [hsplit]
          simp
      · rw [upd2_other _ _ _ _ _ _ h1]
        exact hW.bitSL f s
    · intro f
      simp only []
      exact hW.bitFL f

/-! ## Physical-chain well-formedness -/

structure HeapWF (t : tlsf_s) : Prop where
  poolsNodup : t.pools.Nodup
  poolsLt : ∀ pid ∈ t.pools, pid < t.nextPid
  pools_ok : ∀ pid ∈ t.pools, PoolOK t.mem pid (t.chainG pid)

/-- Full well-formedness of a quiescent allocator state. -/
def WF (t : tlsf_s) : Prop := HeapWF t ∧ CellsWF t []

theorem chain_sorted {m : Ptr → BlockHdr} {pid : Nat} {c : List Nat}
    (hc : c.Chain' (R m pid)) : c.Chain' (· < ·) := by
  refine List.Chain'.imp ?_ hc
  intro a b hr
  have h1 := hr.1
  rw [show (BLOCK_OVERHEAD:Nat) = 8 from rfl] at h1
  omega

theorem chain_nodup {c : List Nat} (hc : c.Chain' (· < ·)) : c.Nodup := by
  have hp : c.Pairwise (· < ·) := List.chain'_iff_pairwise.mp hc
  exact hp.imp Nat.ne_of_lt

theorem chain_le_last {c : List Nat} (hc : c.Chain' (· < ·)) :
    ∀ off ∈ c, ∀ e ∈ c.getLast?, off ≤ e := by
  have hp : c.Pairwise (· < ·) := List.chain'_iff_pairwise.mp hc
  intro off hoff e he
  have hemem := mem_of_getLast? he
  by_cases hoe : off = e
  · omega
  · -- off appears before e or after; pairwise sorted with nodup means before
    induction c with
    | nil => simp at hoff
    | cons a c' ih =>
      rcases List.mem_cons.mp hoff with h1 | h1
      · subst h1
        cases c' with
        | nil =>
          simp at he
          omega
        | cons b c'' =>
          rw [List.getLast?_cons_cons] at he
          have hee : e ∈ b :: c'' := mem_of_getLast? he
          have := (List.pairwise_cons.mp hp).1 e hee
          omega
      · cases c' with
        | nil => simp at h1
        | cons b c'' =>
          rw [List.getLast?_cons_cons] at he
          exact ih (List.Chain'.tail hc) (List.pairwise_cons.mp hp).2 h1 he
            (mem_of_getLast? he)

theorem chain_size_off_le {m : Ptr → BlockHdr} {pid : Nat} :
    ∀ {c : List Nat}, c.Chain' (R m pid) →
    (∀ e ∈ c.getLast?, (m (Ptr.blk pid e)).size = 0 ∧
      e ≤ BLOCK_SIZE_MAX + BLOCK_OVERHEAD) →
    ∀ off ∈ c, off + (m (Ptr.blk pid off)).size ≤ BLOCK_SIZE_MAX + BLOCK_OVERHEAD
  | [], _, _, off, hoff => by simp at hoff
  | [e], _, hlast, off, hoff => by
    have h1 : off = e := by simpa using hoff
    subst h1
    have h2 := hlast off (by simp)
    omega
  | a :: b :: rest, hc, hlast, off, hoff => by
    rcases List.mem_cons.mp hoff with h1 | h1
    · subst h1
      have hr := (List.chain'_cons.mp hc).1
      have h2 := hr.1
      have hble : b ≤ (b :: rest).getLast?.getD 0 := by
        cases hgl : (b :: rest).getLast? with
        | none => simp at hgl
        | some e =>
          simp only [Option.getD_some]
          exact chain_le_last (chain_sorted (List.Chain'.tail hc)) b
            (List.mem_cons_self _ _) e hgl
      have hlast2 := hlast ((b :: rest).getLast?.getD 0) (by
        rw [List.getLast?_cons_cons]
        cases hgl : (b :: rest).getLast? with
        | none => simp at hgl
        | some e => simp [hgl])
      omega
    · exact chain_size_off_le (List.Chain'.tail hc)
        (fun e he => hlast e (by rw [List.getLast?_cons_cons]; exact he)) off h1

theorem chainIns_append (P : List Nat) (off oNew : Nat) (S : List Nat)
    (hP : off ∉ P) : chainIns (P ++ off :: S) off oNew = P ++ off :: oNew :: S := by
  induction P with
  | nil =>
    rw [List.nil_append, chainIns, if_pos rfl]
    rfl
  | cons p P' ih =>
    have hpo : p ≠ off := fun hh => hP (hh ▸ List.mem_cons_self _ _)
    rw [List.cons_append, chainIns, if_neg hpo, ih (fun hh => hP (List.mem_cons_of_mem _ hh))]
    rfl

theorem erase_append_notin {α : Type} [DecidableEq α] (L1 L2 : List α) (x : α)
    (hx1 : x ∉ L1) : (L1 ++ x :: L2).erase x = L1 ++ L2 := by
  rw [List.erase_append_right _ hx1, List.erase_cons_head]

/-- Chain-relation congruence: sizes and free bits preserved on the whole
segment, incoming flags preserved on its tail. -/
theorem chain'_R_congr {m m' : Ptr → BlockHdr} {pid : Nat} :
    ∀ {c : List Nat}, c.Chain' (R m pid) →
    (∀ off ∈ c, (m' (Ptr.blk pid off)).size = (m (Ptr.blk pid off)).size ∧
      (m' (Ptr.blk pid off)).isFree = (m (Ptr.blk pid off)).isFree) →
    (∀ off ∈ c.tail, (m' (Ptr.blk pid off)).isPrevFree = (m (Ptr.blk pid off)).isPrevFree ∧
      (m' (Ptr.blk pid off)).prevPhys = (m (Ptr.blk pid off)).prevPhys) →
    c.Chain' (R m' pid)
  | [], _, _, _ => List.chain'_nil
  | [_], _, _, _ => List.chain'_singleton _
  | a :: b :: rest, hc, hsf, hfl => by
    rw [List.chain'_cons] at hc ⊢
    obtain ⟨hr, hc2⟩ := hc
    obtain ⟨r1, r2, r3, r4, r5⟩ := hr
    obtain ⟨sa1, sa2⟩ := hsf a (List.mem_cons_self _ _)
    obtain ⟨sb1, sb2⟩ := hsf b (List.mem_cons_of_mem _ (List.mem_cons_self _ _))
    obtain ⟨fb1, fb2⟩ := hfl b (List.mem_cons_self _ _)
    refine ⟨⟨by rw [sa1]; exact r1, by rw [fb1, sa2]; exact r2,
      fun hfr => by rw [fb2]; exact r3 (by rw [← sa2]; exact hfr),
      fun hboth => r4 ⟨by rw [← sa2]; exact hboth.1, by rw [← sb2]; exact hboth.2⟩,
      by rw [sa1]; exact r5⟩, ?_⟩
    refine chain'_R_congr hc2 ?_ ?_
    · intro z hz
      exact hsf z (List.mem_cons_of_mem _ hz)
    · intro z hz
      exact hfl z (List.mem_cons_of_mem _ hz)

/-- Replacing a nonempty interior segment of a pool chain: the prefix is
untouched, the suffix keeps sizes and free bits (its head may receive new
incoming flags), the new segment is internally chained and correctly
joined on both sides. -/
theorem poolOK_replace {m m' : Ptr → BlockHdr} {pid : Nat} {P mid mid' S : List Nat}
    (h : PoolOK m pid (P ++ mid ++ S))
    (hS : S ≠ []) (hmidne : mid ≠ []) (hmid'ne : mid' ≠ [])
    (hhead : mid'.head? = mid.head?)
    (hP : ∀ off ∈ P, (m' (Ptr.blk pid off)).size = (m (Ptr.blk pid off)).size ∧
      (m' (Ptr.blk pid off)).isFree = (m (Ptr.blk pid off)).isFree ∧
      (m' (Ptr.blk pid off)).isPrevFree = (m (Ptr.blk pid off)).isPrevFree ∧
      (m' (Ptr.blk pid off)).prevPhys = (m (Ptr.blk pid off)).prevPhys)
    (hSsf : ∀ off ∈ S, (m' (Ptr.blk pid off)).size = (m (Ptr.blk pid off)).size ∧
      (m' (Ptr.blk pid off)).isFree = (m (Ptr.blk pid off)).isFree)
    (hStail : ∀ off ∈ S.tail,
      (m' (Ptr.blk pid off)).isPrevFree = (m (Ptr.blk pid off)).isPrevFree ∧
      (m' (Ptr.blk pid off)).prevPhys = (m (Ptr.blk pid off)).prevPhys)
    (hmidC : mid'.Chain' (R m' pid))
    (hjoin1 : ∀ p ∈ P.getLast?, ∀ a ∈ mid'.head?, R m' pid p a)
    (hjoin2 : ∀ b ∈ mid'.getLast?, ∀ e ∈ S.head?, R m' pid b e)
    (hflag0 : P = [] → ∀ a ∈ mid'.head?, (m' (Ptr.blk pid a)).isPrevFree = false) :
    PoolOK m' pid (P ++ mid' ++ S) := by
  obtain ⟨h0, hf0, hc, hl⟩ := h
  have hc1 := (List.chain'_append).mp hc
  obtain ⟨hcPM, hcS, hjPMS⟩ := hc1
  have hc2 := (List.chain'_append).mp hcPM
  obtain ⟨hcP, hcM, hjPM⟩ := hc2
  refine ⟨?_, ?_, ?_, ?_⟩
  · -- head is 0
    cases hPc : P with
    | nil =>
      rw [hPc] at h0
      rw [List.nil_append] at h0 ⊢
      rw [List.head?_append_of_ne_nil _ hmid'ne]
      rw [List.head?_append_of_ne_nil _ hmidne] at h0
      rw [hhead]
      exact h0
    | cons p P' =>
      rw [hPc] at h0
      rw [List.cons_append, List.cons_append] at h0 ⊢
      exact h0
  · -- is_prev_free of block 0
    cases hPc : P with
    | nil =>
      subst hPc
      rw [List.nil_append, List.head?_append_of_ne_nil _ hmidne] at h0
      cases hm' : mid'.head? with
      | none =>
        exact absurd (List.head?_eq_none_iff.mp hm') hmid'ne
      | some a =>
        have ha0 : a = 0 := by
          rw [hhead] at hm'
          rw [hm'] at h0
          injection h0
        have hfa := hflag0 rfl a hm'
        rw [← ha0]
        exact hfa
    | cons p P' =>
      have hp0 : p = 0 := by
        rw [hPc] at h0
        rw [List.cons_append, List.cons_append] at h0
        injection h0
      have h0P : (0:Nat) ∈ P := by
        rw [hPc, ← hp0]
        exact List.mem_cons_self _ _
      rw [(hP 0 h0P).2.2.1]
      exact hf0
  · -- the chain relation
    rw [List.chain'_append]
    refine ⟨?_, ?_, ?_⟩
    · rw [List.chain'_append]
      refine ⟨?_, hmidC, hjoin1⟩
      refine chain'_R_congr hcP (fun z hz => ⟨(hP z hz).1, (hP z hz).2.1⟩) ?_
      intro z hz
      have hz' : z ∈ P := List.mem_of_mem_tail hz
      exact ⟨(hP z hz').2.2.1, (hP z hz').2.2.2⟩
    · exact chain'_R_congr hcS hSsf hStail
    · intro b hb e he
      rw [List.getLast?_append_of_ne_nil _ hmid'ne] at hb
      exact hjoin2 b hb e he
  · -- the sentinel
    intro e he
    rw [List.getLast?_append_of_ne_nil _ hS] at he
    have heold : (P ++ mid ++ S).getLast? = some e := by
      rw [List.getLast?_append_of_ne_nil _ hS]
      exact he
    obtain ⟨he1, he2, he3⟩ := hl e heold
    have heS : e ∈ S := mem_of_getLast? he
    exact ⟨(hSsf e heS).1.trans he1, (hSsf e heS).2.trans he2, he3⟩

theorem heapWF_sameHeap_keep {t t' : tlsf_s} (hH : HeapWF t)
    (hmem : sameHeap t.mem t'.mem)
    (hpools : t'.pools = t.pools) (hchain : t'.chainG = t.chainG)
    (hnext : t.nextPid ≤ t'.nextPid) : HeapWF t' := by
  refine ⟨?_, ?_, ?_⟩
  · rw [hpools]
    exact hH.poolsNodup
  · intro pid hpid
    rw [hpools] at hpid
    have hh := hH.poolsLt pid hpid
    omega
  · intro pid hpid
    rw [hpools] at hpid
    rw [hchain]
    exact poolOK_of_sameHeap (hH.pools_ok pid hpid) hmem

/-- Heap well-formedness when the step rewrites the chain of at most one
pool and leaves all other pools' blocks untouched. -/
theorem heapWF_one_pool {t t' : tlsf_s} (hH : HeapWF t) (pid : Nat)
    (hpools : t'.pools = t.pools) (hnext : t'.nextPid = t.nextPid)
    (hchain_other : ∀ p, p ≠ pid → t'.chainG p = t.chainG p)
    (hsame_other : ∀ p ∈ t.pools, p ≠ pid → ∀ off ∈ t.chainG p,
      (t'.mem (Ptr.blk p off)).size = (t.mem (Ptr.blk p off)).size ∧
      (t'.mem (Ptr.blk p off)).isFree = (t.mem (Ptr.blk p off)).isFree ∧
      (t'.mem (Ptr.blk p off)).isPrevFree = (t.mem (Ptr.blk p off)).isPrevFree ∧
      (t'.mem (Ptr.blk p off)).prevPhys = (t.mem (Ptr.blk p off)).prevPhys)
    (hthis : pid ∈ t.pools → PoolOK t'.mem pid (t'.chainG pid)) : HeapWF t' := by
  refine ⟨?_, ?_, ?_⟩
  · rw [hpools]
    exact hH.poolsNodup
  · intro p hp
    rw [hpools] at hp
    rw [hnext]
    exact hH.poolsLt p hp
  · intro p hp
    rw [hpools] at hp
    by_cases hpp : p = pid
    · subst hpp
      exact hthis hp
    · rw [hchain_other p hpp]
      exact poolOK_congr_heap (hH.pools_ok p hp) (hsame_other p hp hpp)

theorem chain_head_le {c : List Nat} (hc : c.Chain' (· < ·)) :
    ∀ a ∈ c.head?, ∀ z ∈ c, a ≤ z := by
  have hp : c.Pairwise (· < ·) := List.chain'_iff_pairwise.mp hc
  intro a ha z hz
  cases c with
  | nil => simp at ha
  | cons u rest =>
    simp only [List.head?_cons, Option.mem_def, Option.some.injEq] at ha
    subst ha
    rcases List.mem_cons.mp hz with h1 | h1
    · omega
    · have := (List.pairwise_cons.mp hp).1 z h1
      omega

theorem chainIns_mem {l : List Nat} {z : Nat} (o oNew : Nat) (hz : z ∈ l) :
    z ∈ chainIns l o oNew := by
  induction l with
  | nil => simp at hz
  | cons a rest ih =>
    rw [chainIns]
    by_cases h : a = o
    · rw [if_pos h]
      rcases List.mem_cons.mp hz with h1 | h1
      · exact h1 ▸ List.mem_cons_self _ _
      · exact List.mem_cons_of_mem _ (List.mem_cons_of_mem _ h1)
    · rw [if_neg h]
      rcases List.mem_cons.mp hz with h1 | h1
      · exact h1 ▸ List.mem_cons_self _ _
      · exact List.mem_cons_of_mem _ (ih h1)

/-- Facts bundled from the position of a free block in a well-formed
chain: the suffix is nonempty, its head is the physically next block, and
no chain member lies strictly inside the block. -/
theorem chain_pos_facts {m : Ptr → BlockHdr} {pid : Nat} {c : List Nat} {P S : List Nat}
    {ob : Nat} (hpo : PoolOK m pid c) (hc : c = P ++ ob :: S)
    (hfree : (m (Ptr.blk pid ob)).isFree = true) :
    S ≠ [] ∧
    (∀ oc ∈ S.head?, R m pid ob oc ∧ oc = ob + (m (Ptr.blk pid ob)).size + BLOCK_OVERHEAD) ∧
    (∀ p ∈ P.getLast?, R m pid p ob) ∧
    (∀ z ∈ P, z < ob) ∧
    (∀ z ∈ S, ob + (m (Ptr.blk pid ob)).size + BLOCK_OVERHEAD ≤ z) := by
  obtain ⟨h0, hf0, hchain, hlast⟩ := hpo
  rw [hc] at hchain hlast
  have hS : S ≠ [] := by
    intro hSnil
    subst hSnil
    have hgl : (P ++ [ob]).getLast? = some ob := by
      rw [List.getLast?_append_of_ne_nil _ (by simp)]
      rfl
    obtain ⟨-, hfe, -⟩ := hlast ob hgl
    rw [hfree] at hfe
    exact Bool.noConfusion hfe
  obtain ⟨hcP, hcObS, hjoin⟩ := (List.chain'_append).mp hchain
  have hPlast : ∀ p ∈ P.getLast?, p < ob := by
    intro p hp
    have hRp : R m pid p ob := hjoin p hp ob rfl
    have h1 := hRp.1
    rw [show (BLOCK_OVERHEAD:Nat) = 8 from rfl] at h1
    omega
  have hPmem : ∀ z ∈ P, z < ob := by
    intro z hz
    cases hP0 : P with
    | nil =>
      rw [hP0] at hz
      simp at hz
    | cons a P' =>
      have hgl : ∃ p, P.getLast? = some p := by
        rw [hP0, List.getLast?_eq_getLast _ (by simp)]
        exact ⟨_, rfl⟩
      obtain ⟨p, hp⟩ := hgl
      have h1 := chain_le_last (chain_sorted hcP) z hz p hp
      have h2 := hPlast p hp
      omega
  refine ⟨hS, ?_, (fun p hp => hjoin p hp ob rfl), hPmem, ?_⟩
  · intro oc hoc
    cases hSc : S with
    | nil =>
      rw [hSc] at hoc
      simp at hoc
    | cons u S' =>
      rw [hSc] at hoc
      simp only [List.head?_cons, Option.mem_def, Option.some.injEq] at hoc
      subst hoc
      have hr : R m pid ob u := by
        rw [hSc] at hcObS
        exact (List.chain'_cons.mp hcObS).1
      exact ⟨hr, hr.1⟩
  · intro z hz
    cases hSc : S with
    | nil =>
      rw [hSc] at hz
      simp at hz
    | cons u S' =>
      have hr : R m pid ob u := by
        rw [hSc] at hcObS
        exact (List.chain'_cons.mp hcObS).1
      have hu : u = ob + (m (Ptr.blk pid ob)).size + BLOCK_OVERHEAD := hr.1
      have hcS : (u :: S').Chain' (R m pid) := by
        rw [hSc] at hcObS
        exact (List.chain'_cons.mp hcObS).2
      have hle : u ≤ z := chain_head_le (chain_sorted hcS) u rfl z
        (by rw [hSc] at hz; exact hz)
      omega

theorem fresh_notin_cells {t : tlsf_s} {X : List Ptr} (hW : CellsWF t X) {pid : Nat}
    (hnotin : pid ∉ t.pools) (off : Nat) : ∀ f s, Ptr.blk pid off ∉ t.cellsG f s := by
  intro f s hmem
  obtain ⟨pid', off', heq, hpid', -⟩ := hW.cellMem f s _ hmem
  injection heq with h1 h2
  subst h1
  exact hnotin hpid'

theorem blocks_ne_of_notin {t : tlsf_s} {X : List Ptr} (hW : CellsWF t X) {q : Ptr}
    (hq : ∀ f s, q ∉ t.cellsG f s) (hqbn : q ≠ Ptr.blockNull) (f s : Nat) :
    q ≠ t.blocks f s := by
  rw [hW.cellHead f s]
  cases hc : t.cellsG f s with
  | nil => simpa using hqbn
  | cons p r =>
    simp only [List.head?_cons, Option.getD_some]
    intro hh
    exact hq f s (by rw [hh, hc]; exact List.mem_cons_self _ _)

theorem block_insert_eq (t : tlsf_s) (b : Ptr) :
    block_insert t b = insert_free_block t b (mapping_insert (t.mem b).size).1
      (mapping_insert (t.mem b).size).2 := rfl

/-- Stage one of add_pool (src/tlsf.c lines 480-489): write the header of
the pool's single initial free block and register the pool. -/
def addPool1 (t : tlsf_s) (pid size : Nat) : tlsf_s :=
  { t with
    mem := updHdr t.mem (Ptr.blk pid 0) (fun h =>
      { h with size := size - POOL_OVERHEAD, isFree := true,
               isPrevFree := false, isPool := false })
    pools := pid :: t.pools
    chainG := upd1 t.chainG pid [0, size - POOL_OVERHEAD + BLOCK_OVERHEAD] }

/-- Stage three of add_pool (src/tlsf.c lines 494-501): link and write the
terminating sentinel block. -/
def addPool3 (t2 : tlsf_s) (b : Ptr) : tlsf_s :=
  let nxt := block_next t2.mem b
  let m1 := updHdr t2.mem nxt (fun h => { h with prevPhys := b })
  let m2 := updHdr m1 nxt (fun h =>
    { h with size := 0, isFree := false, isPrevFree := true, isPool := false })
  { t2 with mem := m2 }

theorem add_pool_eq (t : tlsf_s) (pid size : Nat) :
    add_pool t pid size =
      (Ptr.blk pid 0,
       addPool3 (block_insert (addPool1 t pid size) (Ptr.blk pid 0)) (Ptr.blk pid 0)) :=
  rfl

theorem addPool1_mem (t : tlsf_s) (pid size : Nat) :
    (addPool1 t pid size).mem = updHdr t.mem (Ptr.blk pid 0) (fun h =>
      { h with size := size - POOL_OVERHEAD, isFree := true,
               isPrevFree := false, isPool := false }) := rfl

theorem addPool1_pools (t : tlsf_s) (pid size : Nat) :
    (addPool1 t pid size).pools = pid :: t.pools := rfl

theorem addPool1_chainG (t : tlsf_s) (pid size : Nat) :
    (addPool1 t pid size).chainG =
      upd1 t.chainG pid [0, size - POOL_OVERHEAD + BLOCK_OVERHEAD] := rfl

theorem addPool3_mem (t2 : tlsf_s) (b : Ptr) :
    (addPool3 t2 b).mem =
      updHdr (updHdr t2.mem (block_next t2.mem b) (fun h => { h with prevPhys := b }))
        (block_next t2.mem b)
        (fun h =>
          { h with size := 0, isFree := false, isPrevFree := true, isPool := false }) :=
  rfl

/-- add_pool on a fresh pool id yields a well-formed state
(src/tlsf.c lines 472-504). -/
theorem add_pool_WF (t : tlsf_s) (pid size : Nat)
    (hH : HeapWF t) (hC : CellsWF t [])
    (hnotin : pid ∉ t.pools) (hlt : pid < t.nextPid)
    (hsz1 : POOL_OVERHEAD + BLOCK_OVERHEAD + BLOCK_SIZE_MIN ≤ size)
    (hsz2 : size < BLOCK_SIZE_MAX + POOL_OVERHEAD) :
    WF (add_pool t pid size).2 := by
  rw [add_pool_eq]
  have hPO : (POOL_OVERHEAD:Nat) = 16 := rfl
  have hBO : (BLOCK_OVERHEAD:Nat) = 8 := rfl
  have hBM : (BLOCK_SIZE_MIN:Nat) = 24 := rfl
  have hps1 : BLOCK_SIZE_MIN ≤ size - POOL_OVERHEAD := by
    rw [hPO, hBO, hBM] at hsz1
    rw [hBM, hPO]
    omega
  have hps2 : size - POOL_OVERHEAD + BLOCK_OVERHEAD ≤ BLOCK_SIZE_MAX + BLOCK_OVERHEAD := by
    rw [BSMAX_eq, hPO] at hsz2
    rw [BSMAX_eq, hPO, hBO]
    omega
  have hps0 : size - POOL_OVERHEAD ≤ BLOCK_SIZE_MAX + BLOCK_OVERHEAD := by
    rw [hBO] at hps2 ⊢
    omega
  have hbE : Ptr.blk pid 0 ≠ Ptr.blk pid (size - POOL_OVERHEAD + BLOCK_OVERHEAD) := by
    intro hh
    injection hh with h1 h2
    rw [hBO] at h2
    omega
  have hfreshcell : ∀ off f s, Ptr.blk pid off ∉ t.cellsG f s :=
    fun off => fresh_notin_cells hC hnotin off
  -- step 1: the initial block header write and the ghost registration
  have hC1 : CellsWF (addPool1 t pid size)
      [Ptr.blk pid 0, Ptr.blk pid (size - POOL_OVERHEAD + BLOCK_OVERHEAD)] := by
    refine cellsWF_step hC rfl rfl rfl rfl ?_ ?_ ?_ ?_ ?_
    · intro f s q hq
      rw [addPool1_mem]
      have hqb : q ≠ Ptr.blk pid 0 := by
        intro hh
        exact hfreshcell 0 f s (by rw [← hh]; exact hq)
      rw [updHdr_other _ _ _ _ hqb]
      exact ⟨rfl, rfl, rfl, rfl⟩
    · intro f s p hp pid' off' hpeq
      obtain ⟨pid2, off2, heq, hpid2, hoff2, -⟩ := hC.cellMem f s p hp
      rw [hpeq] at heq
      injection heq with h1 h2
      subst h1
      subst h2
      rw [addPool1_pools, addPool1_chainG]
      refine ⟨List.mem_cons_of_mem _ hpid2, ?_⟩
      rw [upd1_other _ _ _ _ (fun hh => hnotin (by rw [← hh]; exact hpid2))]
      exact hoff2
    · intro x hx
      simp at hx
    · intro x hx f s hmem
      rcases List.mem_cons.mp hx with h1 | h2
      · exact hfreshcell 0 f s (by rw [← h1]; exact hmem)
      · rcases List.mem_cons.mp h2 with h3 | h3
        · exact hfreshcell _ f s (by rw [← h3]; exact hmem)
        · simp at h3
    · intro pid' hpid' offv hoffv hfr
      rw [addPool1_pools] at hpid'
      rw [addPool1_chainG] at hoffv
      rcases List.mem_cons.mp hpid' with hpp | hpp
      · subst hpp
        rw [upd1_same] at hoffv
        rcases List.mem_cons.mp hoffv with ho | ho
        · subst ho
          exact Or.inl (List.mem_cons_self _ _)
        · rcases List.mem_cons.mp ho with ho2 | ho2
          · subst ho2
            exact Or.inl (List.mem_cons_of_mem _ (List.mem_cons_self _ _))
          · simp at ho2
      · have hne : pid' ≠ pid := fun hh => hnotin (hh ▸ hpp)
        rw [upd1_other _ _ _ _ hne] at hoffv
        have hneq : Ptr.blk pid' offv ≠ Ptr.blk pid 0 := by
          intro hh
          injection hh with u1 u2
          exact hne u1
        rw [addPool1_mem, updHdr_other _ _ _ _ hneq] at hfr
        refine Or.inr ⟨hpp, hoffv, hfr, ?_⟩
        rw [addPool1_mem, updHdr_other _ _ _ _ hneq]
  -- step 2: insert the initial block
  have hbcur : Ptr.blk pid 0 ≠
      (addPool1 t pid size).blocks
        (mapping_insert ((addPool1 t pid size).mem (Ptr.blk pid 0)).size).1
        (mapping_insert ((addPool1 t pid size).mem (Ptr.blk pid 0)).size).2 := by
    refine blocks_ne_of_notin hC1 ?_ (by simp) _ _
    intro f s hmem
    exact hfreshcell 0 f s hmem
  have hC2 : CellsWF (block_insert (addPool1 t pid size) (Ptr.blk pid 0))
      [Ptr.blk pid (size - POOL_OVERHEAD + BLOCK_OVERHEAD)] := by
    refine insert_free_cellsWF hC1 ?_ ?_ ?_ ?_ ?_ ?_
    · rw [addPool1_pools]
      exact List.mem_cons_self _ _
    · rw [addPool1_chainG, upd1_same]
      exact List.mem_cons_self _ _
    · rw [addPool1_mem, updHdr_same]
    · rw [addPool1_mem, updHdr_same]
      exact hps0
    · rfl
    · intro hmem
      rcases List.mem_cons.mp hmem with h1 | h1
      · exact hbE h1
      · simp at h1
  -- evaluation facts about the post-insert state
  have ht2mem : (block_insert (addPool1 t pid size) (Ptr.blk pid 0)).mem =
      insMem (addPool1 t pid size).mem (Ptr.blk pid 0)
        ((addPool1 t pid size).blocks
          (mapping_insert ((addPool1 t pid size).mem (Ptr.blk pid 0)).size).1
          (mapping_insert ((addPool1 t pid size).mem (Ptr.blk pid 0)).size).2) := by
    rw [block_insert_eq, insert_free_block_eq]
  have ht2b : (block_insert (addPool1 t pid size) (Ptr.blk pid 0)).mem (Ptr.blk pid 0) =
      { (addPool1 t pid size).mem (Ptr.blk pid 0) with
        nextFree := (addPool1 t pid size).blocks
          (mapping_insert ((addPool1 t pid size).mem (Ptr.blk pid 0)).size).1
          (mapping_insert ((addPool1 t pid size).mem (Ptr.blk pid 0)).size).2
        prevFree := Ptr.blockNull } := by
    rw [ht2mem, insMem_b _ _ _ hbcur]
  have ht1b : (addPool1 t pid size).mem (Ptr.blk pid 0) =
      { t.mem (Ptr.blk pid 0) with
        size := size - POOL_OVERHEAD, isFree := true,
        isPrevFree := false, isPool := false } := by
    rw [addPool1_mem, updHdr_same]
  have hEeq : block_next (block_insert (addPool1 t pid size) (Ptr.blk pid 0)).mem
      (Ptr.blk pid 0) = Ptr.blk pid (size - POOL_OVERHEAD + BLOCK_OVERHEAD) := by
    rw [block_next, ht2b, ht1b]
    simp only []
    rw [ptrAdd]
    norm_num
  -- step 3: the sentinel write
  have hC4 : CellsWF (addPool3 (block_insert (addPool1 t pid size) (Ptr.blk pid 0))
      (Ptr.blk pid 0)) [] := by
    have hEnot : ∀ f s, Ptr.blk pid (size - POOL_OVERHEAD + BLOCK_OVERHEAD) ∉
        (block_insert (addPool1 t pid size) (Ptr.blk pid 0)).cellsG f s :=
      hC2.exempt _ (List.mem_cons_self _ _)
    refine cellsWF_step hC2 rfl rfl rfl rfl ?_ ?_ ?_ ?_ ?_
    · intro f s q hq
      rw [addPool3_mem, hEeq]
      have hqE : q ≠ Ptr.blk pid (size - POOL_OVERHEAD + BLOCK_OVERHEAD) := by
        intro hh
        exact hEnot f s (by rw [← hh]; exact hq)
      rw [updHdr_other _ _ _ _ hqE, updHdr_other _ _ _ _ hqE]
      exact ⟨rfl, rfl, rfl, rfl⟩
    · intro f s p hp pid' off' hpeq
      subst hpeq
      obtain ⟨pid2, off2, heq, hpid2, hoff2, -⟩ := hC2.cellMem f s _ hp
      injection heq with h1 h2
      subst h1
      subst h2
      exact ⟨hpid2, hoff2⟩
    · intro x hx
      rcases List.mem_cons.mp hx with h1 | h1
      · refine Or.inr ?_
        rw [h1, addPool3_mem, hEeq, updHdr_same]
      · simp at h1
    · intro x hx
      simp at hx
    · intro pid' hpid' offv hoffv hfr
      by_cases hqE : Ptr.blk pid' offv =
          Ptr.blk pid (size - POOL_OVERHEAD + BLOCK_OVERHEAD)
      · rw [hqE, addPool3_mem, hEeq, updHdr_same] at hfr
        simp only [] at hfr
        exact absurd hfr (by simp)
      · rw [addPool3_mem, hEeq, updHdr_other _ _ _ _ hqE,
          updHdr_other _ _ _ _ hqE] at hfr
        exact Or.inr ⟨hpid', hoffv, hfr, by
          rw [addPool3_mem, hEeq, updHdr_other _ _ _ _ hqE, updHdr_other _ _ _ _ hqE]⟩
  -- heap side
  have hfour : ∀ q, q ≠ Ptr.blk pid 0 →
      q ≠ Ptr.blk pid (size - POOL_OVERHEAD + BLOCK_OVERHEAD) →
      ((addPool3 (block_insert (addPool1 t pid size) (Ptr.blk pid 0))
          (Ptr.blk pid 0)).mem q).size = (t.mem q).size ∧
      ((addPool3 (block_insert (addPool1 t pid size) (Ptr.blk pid 0))
          (Ptr.blk pid 0)).mem q).isFree = (t.mem q).isFree ∧
      ((addPool3 (block_insert (addPool1 t pid size) (Ptr.blk pid 0))
          (Ptr.blk pid 0)).mem q).isPrevFree = (t.mem q).isPrevFree ∧
      ((addPool3 (block_insert (addPool1 t pid size) (Ptr.blk pid 0))
          (Ptr.blk pid 0)).mem q).prevPhys = (t.mem q).prevPhys := by
    intro q hq0 hqE
    rw [addPool3_mem, hEeq, updHdr_other _ _ _ _ hqE, updHdr_other _ _ _ _ hqE]
    obtain ⟨e1, e2, e3, e4⟩ := insMem_sameHeap (addPool1 t pid size).mem (Ptr.blk pid 0)
      ((addPool1 t pid size).blocks
        (mapping_insert ((addPool1 t pid size).mem (Ptr.blk pid 0)).size).1
        (mapping_insert ((addPool1 t pid size).mem (Ptr.blk pid 0)).size).2) q
    rw [ht2mem, e1, e2, e3, e4, addPool1_mem, updHdr_other _ _ _ _ hq0]
    exact ⟨rfl, rfl, rfl, rfl⟩
  have hfinb : (addPool3 (block_insert (addPool1 t pid size) (Ptr.blk pid 0))
      (Ptr.blk pid 0)).mem (Ptr.blk pid 0) =
      (block_insert (addPool1 t pid size) (Ptr.blk pid 0)).mem (Ptr.blk pid 0) := by
    rw [addPool3_mem, hEeq, updHdr_other _ _ _ _ hbE, updHdr_other _ _ _ _ hbE]
  have hfinE : (addPool3 (block_insert (addPool1 t pid size) (Ptr.blk pid 0))
      (Ptr.blk pid 0)).mem (Ptr.blk pid (size - POOL_OVERHEAD + BLOCK_OVERHEAD)) =
      { (block_insert (addPool1 t pid size) (Ptr.blk pid 0)).mem
          (Ptr.blk pid (size - POOL_OVERHEAD + BLOCK_OVERHEAD)) with
        prevPhys := Ptr.blk pid 0, size := 0, isFree := false,
        isPrevFree := true, isPool := false } := by
    rw [addPool3_mem, hEeq, updHdr_same, updHdr_same]
  refine ⟨⟨?_, ?_, ?_⟩, hC4⟩
  · show (pid :: t.pools).Nodup
    exact List.nodup_cons.mpr ⟨hnotin, hH.poolsNodup⟩
  · intro p hp
    show p < t.nextPid
    rcases List.mem_cons.mp hp with h1 | h1
    · rw [h1]
      exact hlt
    · exact hH.poolsLt p h1
  · intro p hp
    rcases List.mem_cons.mp (show p ∈ pid :: t.pools from hp) with h1 | h1
    · subst h1
      show PoolOK _ p (upd1 t.chainG p [0, size - POOL_OVERHEAD + BLOCK_OVERHEAD] p)
      rw [upd1_same]
      refine ⟨rfl, ?_, ?_, ?_⟩
      · rw [hfinb, ht2b, ht1b]
      · refine List.chain'_cons.mpr ⟨?_, List.chain'_singleton _⟩
        refine ⟨?_, ?_, ?_, ?_, ?_⟩
        · rw [hfinb, ht2b, ht1b]
          simp only []
          omega
        · rw [hfinE, hfinb, ht2b, ht1b]
        · intro hfr
          rw [hfinE]
        · intro hboth
          rw [hfinE] at hboth
          simp only [] at hboth
          exact Bool.noConfusion hboth.2
        · rw [hfinb, ht2b, ht1b]
          simp only []
          exact hps1
      · intro e he
        simp only [List.getLast?_cons_cons, List.getLast?_singleton,
          Option.mem_def, Option.some.injEq] at he
        subst he
        refine ⟨?_, ?_, hps2⟩
        · rw [hfinE]
        · rw [hfinE]
    · show PoolOK _ p (upd1 t.chainG pid [0, size - POOL_OVERHEAD + BLOCK_OVERHEAD] p)
      have hne : p ≠ pid := fun hh => hnotin (hh ▸ h1)
      rw [upd1_other _ _ _ _ hne]
      refine poolOK_congr_heap (hH.pools_ok p h1) ?_
      intro off hoff
      refine hfour (Ptr.blk p off) ?_ ?_
      · intro hh
        injection hh with u1 u2
        exact hne u1
      · intro hh
        injection hh with u1 u2
        exact hne u1

/-- WF is stable under steps that touch neither the index nor any
chain-relevant header field (e.g. the is_pool flag write). -/
theorem WF_congr_heapNeutral {t t' : tlsf_s} (hW : WF t)
    (hmem : sameHeap t.mem t'.mem)
    (hlinks : ∀ q, (t'.mem q).prevFree = (t.mem q).prevFree ∧
      (t'.mem q).nextFree = (t.mem q).nextFree)
    (hpools : t'.pools = t.pools) (hchain : t'.chainG = t.chainG)
    (hnext : t.nextPid ≤ t'.nextPid) (hcells : t'.cellsG = t.cellsG)
    (hblocks : t'.blocks = t.blocks) (hfl : t'.flBitmap = t.flBitmap)
    (hsl : t'.slBitmap = t.slBitmap) : WF t' := by
  refine ⟨heapWF_sameHeap_keep hW.1 hmem hpools hchain hnext, ?_⟩
  refine cellsWF_step hW.2 hcells hblocks hfl hsl ?_ ?_ ?_ ?_ ?_
  · intro f s q hq
    exact ⟨(hmem q).1, (hmem q).2.1, (hlinks q).1, (hlinks q).2⟩
  · intro f s p hp pid off hpeq
    obtain ⟨pid2, off2, heq, h2, h3, -⟩ := hW.2.cellMem f s p hp
    rw [hpeq] at heq
    injection heq with u1 u2
    subst u1
    subst u2
    rw [hpools, hchain]
    exact ⟨h2, h3⟩
  · intro x hx
    simp at hx
  · intro x hx
    simp at hx
  · intro pid hpid off hoff hfr
    rw [hpools] at hpid
    rw [hchain] at hoff
    refine Or.inr ⟨hpid, hoff, ?_, (hmem _).1⟩
    rw [← (hmem _).2.1]
    exact hfr

/-- tlsf_create yields a well-formed allocator (src/tlsf.c lines 527-558). -/
theorem tlsf_create_WF (granted : Nat) (hU : Bool)
    (h1 : TLSF_SIZE + POOL_OVERHEAD + BLOCK_OVERHEAD + BLOCK_SIZE_MIN ≤ granted)
    (h2 : granted < TLSF_SIZE + POOL_OVERHEAD + BLOCK_SIZE_MAX) :
    WF (tlsf_create granted hU) := by
  unfold tlsf_create
  simp only []
  refine add_pool_WF _ 0 _ ⟨?_, ?_, ?_⟩ ⟨?_, ?_, ?_, ?_, ?_, ?_, ?_, ?_⟩ ?_ ?_ ?_ ?_
  · simp
  · intro pid hpid
    simp at hpid
  · intro pid hpid
    simp at hpid
  · intro f s
    rfl
  · intro f s p hp
    simp at hp
  · intro f s
    trivial
  · intro f s
    simp
  · intro pid hpid
    simp at hpid
  · intro x hx
    simp at hx
  · intro f s
    simp
  · intro f
    simp
  · simp
  · show (0:Nat) < 1
    omega
  · rw [show (TLSF_SIZE:Nat) = 6824 from rfl, show (POOL_OVERHEAD:Nat) = 16 from rfl,
      show (BLOCK_OVERHEAD:Nat) = 8 from rfl, show (BLOCK_SIZE_MIN:Nat) = 24 from rfl] at h1 ⊢
    omega
  · rw [show (TLSF_SIZE:Nat) = 6824 from rfl, show (POOL_OVERHEAD:Nat) = 16 from rfl,
      BSMAX_eq] at h2 ⊢
    omega

/-- The pool-growing step of tlsf_malloc preserves well-formedness. -/
theorem grownState_WF (t : tlsf_s) (memsize : Nat) (hW : WF t)
    (hsz1 : POOL_OVERHEAD + BLOCK_OVERHEAD + BLOCK_SIZE_MIN ≤ memsize)
    (hsz2 : memsize < BLOCK_SIZE_MAX + POOL_OVERHEAD) :
    WF (grownState t memsize) := by
  have hWn : WF { t with nextPid := t.nextPid + 1 } := by
    refine WF_congr_heapNeutral hW (sameHeap_rfl _) (fun q => ⟨rfl, rfl⟩) rfl rfl ?_
      rfl rfl rfl rfl
    show t.nextPid ≤ t.nextPid + 1
    omega
  have hnotin : t.nextPid ∉ t.pools := by
    intro hmem
    exact absurd (hW.1.poolsLt _ hmem) (lt_irrefl _)
  have hadd := add_pool_WF { t with nextPid := t.nextPid + 1 } t.nextPid memsize
    hWn.1 hWn.2 hnotin (by show t.nextPid < t.nextPid + 1; omega) hsz1 hsz2
  unfold grownState
  simp only []
  refine WF_congr_heapNeutral hadd ?_ ?_ rfl rfl (le_refl _) rfl rfl rfl rfl
  · show sameHeap _ (updHdr _ _ _)
    exact sameHeap_updHdr _ _ _ (fun h => ⟨rfl, rfl, rfl, rfl⟩)
  · intro q
    show ((updHdr (add_pool { t with nextPid := t.nextPid + 1 } t.nextPid memsize).2.mem
      (add_pool { t with nextPid := t.nextPid + 1 } t.nextPid memsize).1
      (fun h => { h with isPool := true })) q).prevFree = _ ∧
      ((updHdr (add_pool { t with nextPid := t.nextPid + 1 } t.nextPid memsize).2.mem
        (add_pool { t with nextPid := t.nextPid + 1 } t.nextPid memsize).1
        (fun h => { h with isPool := true })) q).nextFree = _
    by_cases hq : q = (add_pool { t with nextPid := t.nextPid + 1 } t.nextPid memsize).1
    · subst hq
      rw [updHdr_same]
      exact ⟨rfl, rfl⟩
    · rw [updHdr_other _ _ _ _ hq]
      exact ⟨rfl, rfl⟩

theorem block_next_updHdr_size_eq (m : Ptr → BlockHdr) (b : Ptr) (f : BlockHdr → BlockHdr)
    (hf : ∀ h, (f h).size = h.size) : block_next (updHdr m b f) b = block_next m b := by
  rw [block_next, block_next, updHdr_same, hf]

theorem block_set_free_mem (t : tlsf_s) (b : Ptr) (fr : Bool) :
    (block_set_free t b fr).mem =
      updHdr (updHdr (updHdr t.mem b (fun h => { h with isFree := fr }))
          (block_next t.mem b) (fun h => { h with prevPhys := b }))
        (block_next t.mem b) (fun h => { h with isPrevFree := fr }) := by
  unfold block_set_free block_link_next
  simp only []
  have hbn : block_next (updHdr t.mem b (fun h => { h with isFree := fr })) b =
      block_next t.mem b := block_next_updHdr_size_eq _ _ _ (fun h => rfl)
  rw [hbn]

theorem set_free_mem_b (t : tlsf_s) (b : Ptr) (fr : Bool)
    (hne : b ≠ block_next t.mem b) :
    (block_set_free t b fr).mem b = { t.mem b with isFree := fr } := by
  rw [block_set_free_mem, updHdr_other _ _ _ _ hne, updHdr_other _ _ _ _ hne, updHdr_same]

theorem set_free_mem_next (t : tlsf_s) (b : Ptr) (fr : Bool)
    (hne : b ≠ block_next t.mem b) :
    (block_set_free t b fr).mem (block_next t.mem b) =
      { t.mem (block_next t.mem b) with prevPhys := b, isPrevFree := fr } := by
  rw [block_set_free_mem, updHdr_same, updHdr_same,
    updHdr_other _ _ _ _ (fun hh => hne hh.symm)]

theorem set_free_mem_other (t : tlsf_s) (b : Ptr) (fr : Bool) (q : Ptr)
    (h1 : q ≠ b) (h2 : q ≠ block_next t.mem b) :
    (block_set_free t b fr).mem q = t.mem q := by
  rw [block_set_free_mem, updHdr_other _ _ _ _ h2, updHdr_other _ _ _ _ h2,
    updHdr_other _ _ _ _ h1]

theorem block_trim_free_nosplit (t : tlsf_s) (b : Ptr) (size : Nat)
    (h : ¬ block_can_split t b size = true) : block_trim_free t b size = t := by
  unfold block_trim_free
  rw [if_neg h]

theorem block_trim_free_split (t : tlsf_s) (b : Ptr) (size : Nat)
    (h : block_can_split t b size = true) :
    block_trim_free t b size =
      block_insert
        { (block_link_next (block_split t b size).2 b).2 with
          mem := updHdr (block_link_next (block_split t b size).2 b).2.mem
            (block_split t b size).1 (fun hh => { hh with isPrevFree := true }) }
        (block_split t b size).1 := by
  unfold block_trim_free
  rw [if_pos h]

theorem block_split_fst (t : tlsf_s) (b : Ptr) (size : Nat) :
    (block_split t b size).1 = ptrAdd b (size + BLOCK_OVERHEAD) := rfl

theorem block_link_next_snd_mem (t : tlsf_s) (b : Ptr) :
    (block_link_next t b).2.mem =
      updHdr t.mem (block_next t.mem b) (fun h => { h with prevPhys := b }) := rfl

theorem block_can_split_le {t : tlsf_s} {b : Ptr} {size : Nat}
    (h : block_can_split t b size = true) : SIZEOF_BLOCK + size ≤ (t.mem b).size := by
  unfold block_can_split at h
  exact of_decide_eq_true h

/-- mallocFinish without a split: the located block is simply marked used
(src/tlsf.c lines 594-596 with block_trim_free a no-op). -/
theorem mallocFinish_WF_nosplit (t : tlsf_s) (pid ob sz : Nat)
    (hH : HeapWF t) (hC : CellsWF t [Ptr.blk pid ob])
    (hpid : pid ∈ t.pools) (hob : ob ∈ t.chainG pid)
    (hfree : (t.mem (Ptr.blk pid ob)).isFree = true)
    (hcs : ¬ block_can_split t (Ptr.blk pid ob) sz = true) :
    WF (mallocFinish t (Ptr.blk pid ob) sz).2 := by
  obtain ⟨P, S, hchain⟩ := List.append_of_mem hob
  have hpo := hH.pools_ok pid hpid
  obtain ⟨hS, hShead, hPjoin, hPmem, hSmem⟩ := chain_pos_facts hpo hchain hfree
  cases hSc : S with
  | nil => exact absurd hSc hS
  | cons oc S2 =>
  have hR : R t.mem pid ob oc ∧ oc = ob + (t.mem (Ptr.blk pid ob)).size + BLOCK_OVERHEAD := by
    refine hShead oc ?_
    rw [hSc]
    rfl
  have hcused : (t.mem (Ptr.blk pid oc)).isFree = false := by
    by_contra hcf
    rw [Bool.not_eq_false] at hcf
    exact hR.1.2.2.2.1 ⟨hfree, hcf⟩
  have hocpos : ob < oc := by
    have h1 := hR.2
    rw [show (BLOCK_OVERHEAD:Nat) = 8 from rfl] at h1
    omega
  have hnextc : block_next t.mem (Ptr.blk pid ob) = Ptr.blk pid oc := by
    rw [block_next, ptrAdd, hR.2, Nat.add_assoc]
  have hbneq : Ptr.blk pid ob ≠ block_next t.mem (Ptr.blk pid ob) := by
    rw [hnextc]
    intro hh
    injection hh with u1 u2
    omega
  have hexempt : ∀ f s, Ptr.blk pid ob ∉ t.cellsG f s := hC.exempt _ (List.mem_cons_self _ _)
  have hnodupchain : (t.chainG pid).Nodup := chain_nodup (chain_sorted hpo.2.2.1)
  have hocnotS2 : oc ∉ S2 := by
    rw [hchain, hSc] at hnodupchain
    rw [List.nodup_append] at hnodupchain
    exact (List.nodup_cons.mp (List.nodup_cons.mp hnodupchain.2.1).2).1
  have hlistedne : ∀ f s, ∀ q ∈ t.cellsG f s,
      q ≠ Ptr.blk pid ob ∧ q ≠ Ptr.blk pid oc := by
    intro f s q hq
    constructor
    · intro hh
      exact hexempt f s (by rw [← hh]; exact hq)
    · intro hh
      obtain ⟨pid2, off2, heq, -, -, hqfree, -⟩ := hC.cellMem f s q hq
      rw [hh] at hqfree
      rw [hqfree] at hcused
      exact Bool.noConfusion hcused
  unfold mallocFinish
  simp only []
  rw [block_trim_free_nosplit _ _ _ hcs]
  constructor
  · -- heap side
    refine heapWF_one_pool hH pid rfl rfl (fun p hp => rfl) ?_ ?_
    · intro p hp hppid off hoff
      have h1 : Ptr.blk p off ≠ Ptr.blk pid ob := by
        intro hh
        injection hh with u1 u2
        exact hppid u1
      have h2 : Ptr.blk p off ≠ block_next t.mem (Ptr.blk pid ob) := by
        rw [hnextc]
        intro hh
        injection hh with u1 u2
        exact hppid u1
      rw [set_free_mem_other _ _ _ _ h1 h2]
      exact ⟨rfl, rfl, rfl, rfl⟩
    · intro hfpid
      show PoolOK (block_set_free t (Ptr.blk pid ob) false).mem pid
        ((block_set_free t (Ptr.blk pid ob) false).chainG pid)
      rw [chainG_set_free, hchain, List.append_cons]
      have hpo2 : PoolOK t.mem pid (P ++ [ob] ++ S) := by
        rw [← List.append_cons, ← hchain]
        exact hpo
      refine poolOK_replace hpo2 hS (by simp) (by simp) rfl ?_ ?_ ?_ ?_ ?_ ?_ ?_
      · intro off hoff
        have h1 : Ptr.blk pid off ≠ Ptr.blk pid ob := by
          have hlt := hPmem off hoff
          intro hh
          injection hh with u1 u2
          omega
        have h2 : Ptr.blk pid off ≠ block_next t.mem (Ptr.blk pid ob) := by
          rw [hnextc]
          have hlt := hPmem off hoff
          intro hh
          injection hh with u1 u2
          omega
        rw [set_free_mem_other _ _ _ _ h1 h2]
        exact ⟨rfl, rfl, rfl, rfl⟩
      · intro off hoff
        by_cases hoc : off = oc
        · subst hoc
          rw [← hnextc, set_free_mem_next _ _ _ hbneq]
          exact ⟨rfl, rfl⟩
        · have h1 : Ptr.blk pid off ≠ Ptr.blk pid ob := by
            have hge := hSmem off hoff
            rw [show (BLOCK_OVERHEAD:Nat) = 8 from rfl] at hge
            intro hh
            injection hh with u1 u2
            omega
          have h2 : Ptr.blk pid off ≠ block_next t.mem (Ptr.blk pid ob) := by
            rw [hnextc]
            intro hh
            injection hh with u1 u2
            exact hoc u2
          rw [set_free_mem_other _ _ _ _ h1 h2]
          exact ⟨rfl, rfl⟩
      · intro off hoff
        rw [hSc] at hoff
        simp only [List.tail_cons] at hoff
        have hne_oc : off ≠ oc := fun hh => hocnotS2 (hh ▸ hoff)
        have h1 : Ptr.blk pid off ≠ Ptr.blk pid ob := by
          have hge := hSmem off (by rw [hSc]; exact List.mem_cons_of_mem _ hoff)
          rw [show (BLOCK_OVERHEAD:Nat) = 8 from rfl] at hge
          intro hh
          injection hh with u1 u2
          omega
        have h2 : Ptr.blk pid off ≠ block_next t.mem (Ptr.blk pid ob) := by
          rw [hnextc]
          intro hh
          injection hh with u1 u2
          exact hne_oc u2
        rw [set_free_mem_other _ _ _ _ h1 h2]
        exact ⟨rfl, rfl⟩
      · exact List.chain'_singleton _
      · intro p hp a ha
        have ha2 : ob = a := by simpa using ha
        subst ha2
        have hRold : R t.mem pid p ob := hPjoin p hp
        have hpP : p ∈ P := mem_of_getLast? hp
        have h1 : Ptr.blk pid p ≠ Ptr.blk pid ob := by
          have hlt := hPmem p hpP
          intro hh
          injection hh with u1 u2
          omega
        have h2 : Ptr.blk pid p ≠ block_next t.mem (Ptr.blk pid ob) := by
          rw [hnextc]
          have hlt := hPmem p hpP
          intro hh
          injection hh with u1 u2
          omega
        have hpval := set_free_mem_other t (Ptr.blk pid ob) false _ h1 h2
        have hbval := set_free_mem_b t (Ptr.blk pid ob) false hbneq
        refine ⟨?_, ?_, ?_, ?_, ?_⟩
        · rw [hpval]
          exact hRold.1
        · rw [hpval, hbval]
          exact hRold.2.1
        · intro hfr
          rw [hbval]
          rw [hpval] at hfr
          exact hRold.2.2.1 hfr
        · intro hboth
          rw [hbval] at hboth
          simp only [] at hboth
          exact Bool.noConfusion hboth.2
        · rw [hpval]
          exact hRold.2.2.2.2
      · intro bb hbb e he
        have hbb2 : ob = bb := by simpa using hbb
        have he2 : oc = e := by
          rw [hSc] at he
          simpa using he
        subst hbb2
        subst he2
        have hbval := set_free_mem_b t (Ptr.blk pid ob) false hbneq
        have hcval : (block_set_free t (Ptr.blk pid ob) false).mem (Ptr.blk pid oc) =
            { t.mem (Ptr.blk pid oc) with prevPhys := Ptr.blk pid ob, isPrevFree := false } := by
          rw [← hnextc, set_free_mem_next _ _ _ hbneq]
        refine ⟨?_, ?_, ?_, ?_, ?_⟩
        · rw [hbval]
          exact hR.2
        · rw [hbval, hcval]
        · intro hfr
          rw [hbval] at hfr
          simp only [] at hfr
          exact absurd hfr (by simp)
        · intro hboth
          rw [hbval] at hboth
          simp only [] at hboth
          exact Bool.noConfusion hboth.1
        · rw [hbval]
          exact hR.1.2.2.2.2
      · intro hPnil a ha
        have ha2 : ob = a := by simpa using ha
        subst ha2
        have hob0 : ob = 0 := by
          have h0 := hpo.1
          rw [hchain, hPnil] at h0
          simp only [List.nil_append, List.head?_cons, Option.some.injEq] at h0
          exact h0
        rw [set_free_mem_b _ _ _ hbneq]
        simp only []
        have hf0 := hpo.2.1
        rw [hob0]
        exact hf0
  · -- index side
    refine cellsWF_step hC rfl rfl rfl rfl ?_ ?_ ?_ ?_ ?_
    · intro f s q hq
      obtain ⟨h1, h2⟩ := hlistedne f s q hq
      have h2' : q ≠ block_next t.mem (Ptr.blk pid ob) := by
        rw [hnextc]
        exact h2
      rw [set_free_mem_other _ _ _ _ h1 h2']
      exact ⟨rfl, rfl, rfl, rfl⟩
    · intro f s p hp pid2 off2 hpeq
      obtain ⟨pid3, off3, heq, hp3, ho3, -⟩ := hC.cellMem f s p hp
      rw [hpeq] at heq
      injection heq with u1 u2
      subst u1
      subst u2
      exact ⟨hp3, ho3⟩
    · intro x hx
      rcases List.mem_cons.mp hx with h1 | h1
      · refine Or.inr ?_
        rw [h1, set_free_mem_b _ _ _ hbneq]
      · simp at h1
    · intro x hx
      simp at hx
    · intro pid2 hpid2 off2 hoff2 hfr2
      by_cases hqb : Ptr.blk pid2 off2 = Ptr.blk pid ob
      · rw [hqb, set_free_mem_b _ _ _ hbneq] at hfr2
        simp only [] at hfr2
        exact absurd hfr2 (by simp)
      · by_cases hqc : Ptr.blk pid2 off2 = block_next t.mem (Ptr.blk pid ob)
        · rw [hqc, set_free_mem_next _ _ _ hbneq] at hfr2
          simp only [] at hfr2
          refine Or.inr ⟨hpid2, hoff2, ?_, ?_⟩
          · rw [hqc]
            exact hfr2
          · rw [hqc, set_free_mem_next _ _ _ hbneq]
        · rw [set_free_mem_other _ _ _ _ hqb hqc] at hfr2
          refine Or.inr ⟨hpid2, hoff2, hfr2, ?_⟩
          rw [set_free_mem_other _ _ _ _ hqb hqc]

theorem ghostSplit_mem (t : tlsf_s) (b : Ptr) (d : Nat) :
    (ghostSplit t b d).mem = t.mem := by
  unfold ghostSplit
  cases b <;> rfl

theorem block_split_decomp (t : tlsf_s) (b : Ptr) (size : Nat) :
    (block_split t b size).2 =
      { block_set_free
          (ghostSplit
            { t with mem := updHdr t.mem (ptrAdd b (size + BLOCK_OVERHEAD)) (fun h =>
              { h with size := (t.mem b).size - (size + BLOCK_OVERHEAD), isPool := false,
                       isFree := false, isPrevFree := false }) }
            b (size + BLOCK_OVERHEAD))
          (ptrAdd b (size + BLOCK_OVERHEAD)) true with
        mem := updHdr
          (block_set_free
            (ghostSplit
              { t with mem := updHdr t.mem (ptrAdd b (size + BLOCK_OVERHEAD)) (fun h =>
                { h with size := (t.mem b).size - (size + BLOCK_OVERHEAD), isPool := false,
                         isFree := false, isPrevFree := false }) }
              b (size + BLOCK_OVERHEAD))
            (ptrAdd b (size + BLOCK_OVERHEAD)) true).mem b
          (fun h => { h with size := size }) } := rfl

theorem block_split_eval (t : tlsf_s) (pid ob size : Nat)
    (hlt : size + BLOCK_OVERHEAD < (t.mem (Ptr.blk pid ob)).size) :
    ((block_split t (Ptr.blk pid ob) size).2.mem (Ptr.blk pid (ob + (size + BLOCK_OVERHEAD))) =
      { t.mem (Ptr.blk pid (ob + (size + BLOCK_OVERHEAD))) with
        size := (t.mem (Ptr.blk pid ob)).size - (size + BLOCK_OVERHEAD)
        isPool := false
        isFree := true
        isPrevFree := false }) ∧
    ((block_split t (Ptr.blk pid ob) size).2.mem (Ptr.blk pid ob) =
      { t.mem (Ptr.blk pid ob) with size := size }) ∧
    ((block_split t (Ptr.blk pid ob) size).2.mem
        (Ptr.blk pid (ob + (t.mem (Ptr.blk pid ob)).size + BLOCK_OVERHEAD)) =
      { t.mem (Ptr.blk pid (ob + (t.mem (Ptr.blk pid ob)).size + BLOCK_OVERHEAD)) with
        prevPhys := Ptr.blk pid (ob + (size + BLOCK_OVERHEAD))
        isPrevFree := true }) ∧
    (∀ q, q ≠ Ptr.blk pid ob → q ≠ Ptr.blk pid (ob + (size + BLOCK_OVERHEAD)) →
      q ≠ Ptr.blk pid (ob + (t.mem (Ptr.blk pid ob)).size + BLOCK_OVERHEAD) →
      (block_split t (Ptr.blk pid ob) size).2.mem q = t.mem q) := by
  have hBO : (BLOCK_OVERHEAD:Nat) = 8 := rfl
  have hbr : Ptr.blk pid ob ≠ Ptr.blk pid (ob + (size + BLOCK_OVERHEAD)) := by
    intro hh
    injection hh with u1 u2
    rw [hBO] at u2
    omega
  have hrc : Ptr.blk pid (ob + (size + BLOCK_OVERHEAD)) ≠
      Ptr.blk pid (ob + (t.mem (Ptr.blk pid ob)).size + BLOCK_OVERHEAD) := by
    intro hh
    injection hh with u1 u2
    rw [hBO] at u2 hlt
    omega
  have hbc : Ptr.blk pid ob ≠
      Ptr.blk pid (ob + (t.mem (Ptr.blk pid ob)).size + BLOCK_OVERHEAD) := by
    intro hh
    injection hh with u1 u2
    rw [hBO] at u2 hlt
    omega
  rw [block_split_decomp]
  simp only []
  rw [show ptrAdd (Ptr.blk pid ob) (size + BLOCK_OVERHEAD) =
    Ptr.blk pid (ob + (size + BLOCK_OVERHEAD)) from rfl]
  have htA : (ghostSplit
      { t with mem := updHdr t.mem (Ptr.blk pid (ob + (size + BLOCK_OVERHEAD))) (fun h =>
        { h with size := (t.mem (Ptr.blk pid ob)).size - (size + BLOCK_OVERHEAD),
                 isPool := false, isFree := false, isPrevFree := false }) }
      (Ptr.blk pid ob) (size + BLOCK_OVERHEAD)).mem =
      updHdr t.mem (Ptr.blk pid (ob + (size + BLOCK_OVERHEAD))) (fun h =>
        { h with size := (t.mem (Ptr.blk pid ob)).size - (size + BLOCK_OVERHEAD),
                 isPool := false, isFree := false, isPrevFree := false }) := by
    rw [ghostSplit_mem]
  have hnr : block_next (ghostSplit
      { t with mem := updHdr t.mem (Ptr.blk pid (ob + (size + BLOCK_OVERHEAD))) (fun h =>
        { h with size := (t.mem (Ptr.blk pid ob)).size - (size + BLOCK_OVERHEAD),
                 isPool := false, isFree := false, isPrevFree := false }) }
      (Ptr.blk pid ob) (size + BLOCK_OVERHEAD)).mem
      (Ptr.blk pid (ob + (size + BLOCK_OVERHEAD))) =
      Ptr.blk pid (ob + (t.mem (Ptr.blk pid ob)).size + BLOCK_OVERHEAD) := by
    rw [htA, block_next, updHdr_same]
    simp only []
    rw [ptrAdd]
    congr 1
    rw [hBO] at hlt ⊢
    omega
  have hrnr : Ptr.blk pid (ob + (size + BLOCK_OVERHEAD)) ≠ block_next (ghostSplit
      { t with mem := updHdr t.mem (Ptr.blk pid (ob + (size + BLOCK_OVERHEAD))) (fun h =>
        { h with size := (t.mem (Ptr.blk pid ob)).size - (size + BLOCK_OVERHEAD),
                 isPool := false, isFree := false, isPrevFree := false }) }
      (Ptr.blk pid ob) (size + BLOCK_OVERHEAD)).mem
      (Ptr.blk pid (ob + (size + BLOCK_OVERHEAD))) := by
    rw [hnr]
    exact hrc
  refine ⟨?_, ?_, ?_, ?_⟩
  · rw [updHdr_other _ _ _ _ (fun hh => hbr hh.symm), set_free_mem_b _ _ _ hrnr, htA,
      updHdr_same]
  · rw [updHdr_same, set_free_mem_other _ _ _ _ hbr (by rw [hnr]; exact hbc), htA,
      updHdr_other _ _ _ _ hbr]
  · rw [updHdr_other _ _ _ _ (fun hh => hbc hh.symm), ← hnr,
      set_free_mem_next _ _ _ hrnr, hnr, htA, updHdr_other _ _ _ _ hrc.symm]
  · intro q hq1 hq2 hq3
    rw [updHdr_other _ _ _ _ hq1, set_free_mem_other _ _ _ _ hq2 (by rw [hnr]; exact hq3),
      htA, updHdr_other _ _ _ _ hq2]

theorem chainIns_mem_rev {l : List Nat} {z o oNew : Nat} (hz : z ∈ chainIns l o oNew) :
    z = oNew ∨ z ∈ l := by
  induction l with
  | nil => simp [chainIns] at hz
  | cons a rest ih =>
    rw [chainIns] at hz
    by_cases h : a = o
    · rw [if_pos h] at hz
      rcases List.mem_cons.mp hz with h1 | h1
      · exact Or.inr (h1 ▸ List.mem_cons_self _ _)
      · rcases List.mem_cons.mp h1 with h2 | h2
        · exact Or.inl h2
        · exact Or.inr (List.mem_cons_of_mem _ h2)
    · rw [if_neg h] at hz
      rcases List.mem_cons.mp hz with h1 | h1
      · exact Or.inr (h1 ▸ List.mem_cons_self _ _)
      · rcases ih h1 with h2 | h2
        · exact Or.inl h2
        · exact Or.inr (List.mem_cons_of_mem _ h2)

/-- mallocFinish with a split: the located block is trimmed, the remainder
reinserted, and the block marked used (src/tlsf.c lines 594-596, 431-439,
374-393). -/
theorem mallocFinish_WF_split (t : tlsf_s) (pid ob sz : Nat)
    (hH : HeapWF t) (hC : CellsWF t [Ptr.blk pid ob])
    (hpid : pid ∈ t.pools) (hob : ob ∈ t.chainG pid)
    (hfree : (t.mem (Ptr.blk pid ob)).isFree = true)
    (hsz : BLOCK_SIZE_MIN ≤ sz)
    (hcs : block_can_split t (Ptr.blk pid ob) sz = true) :
    WF (mallocFinish t (Ptr.blk pid ob) sz).2 := by
  obtain ⟨P, S, hchain⟩ := List.append_of_mem hob
  have hpo := hH.pools_ok pid hpid
  obtain ⟨hS, hShead, hPjoin, hPmem, hSmem⟩ := chain_pos_facts hpo hchain hfree
  cases hSc : S with
  | nil => exact absurd hSc hS
  | cons oc S2 =>
  have hBO : (BLOCK_OVERHEAD:Nat) = 8 := rfl
  have hBM : (BLOCK_SIZE_MIN:Nat) = 24 := rfl
  have hle := block_can_split_le hcs
  rw [show (SIZEOF_BLOCK:Nat) = 32 from rfl] at hle
  have hlt : sz + BLOCK_OVERHEAD < (t.mem (Ptr.blk pid ob)).size := by
    rw [hBO]
    omega
  have hR : R t.mem pid ob oc ∧ oc = ob + (t.mem (Ptr.blk pid ob)).size + BLOCK_OVERHEAD := by
    refine hShead oc ?_
    rw [hSc]
    rfl
  have hcused : (t.mem (Ptr.blk pid oc)).isFree = false := by
    by_contra hcf
    rw [Bool.not_eq_false] at hcf
    exact hR.1.2.2.2.1 ⟨hfree, hcf⟩
  have hocpos : ob < oc := by
    have h1 := hR.2
    rw [hBO] at h1
    omega
  have hor_lt : ob + (sz + BLOCK_OVERHEAD) < oc := by
    rw [hR.2, hBO] at *
    omega
  have hbneRP : Ptr.blk pid ob ≠ Ptr.blk pid (ob + (sz + BLOCK_OVERHEAD)) := by
    intro hh
    injection hh with u1 u2
    rw [hBO] at u2
    omega
  have hRPneC : Ptr.blk pid (ob + (sz + BLOCK_OVERHEAD)) ≠ Ptr.blk pid oc := by
    intro hh
    injection hh with u1 u2
    omega
  have hbneC : Ptr.blk pid ob ≠ Ptr.blk pid oc := by
    intro hh
    injection hh with u1 u2
    omega
  have hexempt : ∀ f s, Ptr.blk pid ob ∉ t.cellsG f s := hC.exempt _ (List.mem_cons_self _ _)
  have hnodupchain : (t.chainG pid).Nodup := chain_nodup (chain_sorted hpo.2.2.1)
  have hocnotS2 : oc ∉ S2 := by
    rw [hchain, hSc] at hnodupchain
    rw [List.nodup_append] at hnodupchain
    exact (List.nodup_cons.mp (List.nodup_cons.mp hnodupchain.2.1).2).1
  have hobnotP : ob ∉ P := fun hmem => absurd (hPmem ob hmem) (lt_irrefl _)
  have hornot : ob + (sz + BLOCK_OVERHEAD) ∉ t.chainG pid := by
    intro hmem
    rw [hchain] at hmem
    rcases List.mem_append.mp hmem with h1 | h1
    · have hl := hPmem _ h1
      omega
    · rcases List.mem_cons.mp h1 with h2 | h2
      · rw [hBO] at h2
        omega
      · have hl := hSmem _ h2
        rw [hR.2] at hor_lt
        omega
  have hRPnotlisted : ∀ f s, Ptr.blk pid (ob + (sz + BLOCK_OVERHEAD)) ∉ t.cellsG f s := by
    intro f s hmem
    obtain ⟨pid2, off2, heq, hp2, ho2, -⟩ := hC.cellMem f s _ hmem
    injection heq with u1 u2
    subst u1
    subst u2
    exact hornot ho2
  have hCnotlisted : ∀ f s, Ptr.blk pid oc ∉ t.cellsG f s := by
    intro f s hmem
    obtain ⟨pid2, off2, heq, -, -, hf2, -⟩ := hC.cellMem f s _ hmem
    rw [hf2] at hcused
    exact Bool.noConfusion hcused
  have hszb_bound := chain_size_off_le hpo.2.2.1
    (fun e he => ⟨(hpo.2.2.2 e he).1, (hpo.2.2.2 e he).2.2⟩) ob hob
  -- evaluation of the split state
  have heval := block_split_eval t pid ob sz hlt
  rw [← hR.2] at heval
  obtain ⟨hev_r, hev_b, hev_c, hev_o⟩ := heval
  unfold mallocFinish
  simp only []
  rw [block_trim_free_split _ _ _ hcs, block_split_fst,
    show ptrAdd (Ptr.blk pid ob) (sz + BLOCK_OVERHEAD) =
      Ptr.blk pid (ob + (sz + BLOCK_OVERHEAD)) from rfl]
  set s1 : tlsf_s := (block_split t (Ptr.blk pid ob) sz).2 with hs1
  have hnext1 : block_next s1.mem (Ptr.blk pid ob) =
      Ptr.blk pid (ob + (sz + BLOCK_OVERHEAD)) := by
    rw [block_next, hev_b]
    rfl
  set s2 : tlsf_s := (block_link_next s1 (Ptr.blk pid ob)).2 with hs2
  have hs2mem : s2.mem = updHdr s1.mem (Ptr.blk pid (ob + (sz + BLOCK_OVERHEAD)))
      (fun h => { h with prevPhys := Ptr.blk pid ob }) := by
    rw [hs2, block_link_next_snd_mem, hnext1]
  set s3 : tlsf_s := { s2 with mem := updHdr s2.mem (Ptr.blk pid (ob + (sz + BLOCK_OVERHEAD))) (fun hh => { hh with isPrevFree := true }) } with hs3
  -- s3 memory values
  have hs3_rp : s3.mem (Ptr.blk pid (ob + (sz + BLOCK_OVERHEAD))) =
      { t.mem (Ptr.blk pid (ob + (sz + BLOCK_OVERHEAD))) with
        size := (t.mem (Ptr.blk pid ob)).size - (sz + BLOCK_OVERHEAD)
        isPool := false
        isFree := true
        isPrevFree := true
        prevPhys := Ptr.blk pid ob } := by
    rw [hs3]
    simp only []
    rw [updHdr_same, hs2mem, updHdr_same, hev_r]
  have hs3_other : ∀ q, q ≠ Ptr.blk pid (ob + (sz + BLOCK_OVERHEAD)) → s3.mem q = s1.mem q := by
    intro q hq
    rw [hs3]
    simp only []
    rw [updHdr_other _ _ _ _ hq, hs2mem, updHdr_other _ _ _ _ hq]
  have hs3_b : s3.mem (Ptr.blk pid ob) = { t.mem (Ptr.blk pid ob) with size := sz } := by
    rw [hs3_other _ hbneRP, hev_b]
  have hs3_c : s3.mem (Ptr.blk pid oc) =
      { t.mem (Ptr.blk pid oc) with
        prevPhys := Ptr.blk pid (ob + (sz + BLOCK_OVERHEAD))
        isPrevFree := true } := by
    rw [hs3_other _ (fun hh => hRPneC hh.symm), hev_c]
  have hs3_o : ∀ q, q ≠ Ptr.blk pid ob → q ≠ Ptr.blk pid (ob + (sz + BLOCK_OVERHEAD)) →
      q ≠ Ptr.blk pid oc → s3.mem q = t.mem q := by
    intro q h1 h2 h3
    rw [hs3_other _ h2, hev_o q h1 h2 h3]
  have hs3cells : s3.cellsG = t.cellsG := rfl
  have hs3blocks : s3.blocks = t.blocks := rfl
  have hs3fl : s3.flBitmap = t.flBitmap := rfl
  have hs3sl : s3.slBitmap = t.slBitmap := rfl
  have hs3pools : s3.pools = t.pools := rfl
  have hs3chain : s3.chainG =
      upd1 t.chainG pid (chainIns (t.chainG pid) ob (ob + (sz + BLOCK_OVERHEAD))) := rfl
  -- step A: index accuracy up to s3
  have hCA : CellsWF s3
      [Ptr.blk pid (ob + (sz + BLOCK_OVERHEAD)), Ptr.blk pid ob] := by
    refine cellsWF_step hC hs3cells hs3blocks hs3fl hs3sl ?_ ?_ ?_ ?_ ?_
    · intro f s q hq
      have h1 : q ≠ Ptr.blk pid ob := by
        intro hh
        exact hexempt f s (by rw [← hh]; exact hq)
      have h2 : q ≠ Ptr.blk pid (ob + (sz + BLOCK_OVERHEAD)) := by
        intro hh
        exact hRPnotlisted f s (by rw [← hh]; exact hq)
      have h3 : q ≠ Ptr.blk pid oc := by
        intro hh
        exact hCnotlisted f s (by rw [← hh]; exact hq)
      rw [hs3_o q h1 h2 h3]
      exact ⟨rfl, rfl, rfl, rfl⟩
    · intro f s p hp pid2 off2 hpeq
      obtain ⟨pid3, off3, heq, hp3, ho3, -⟩ := hC.cellMem f s p hp
      rw [hpeq] at heq
      injection heq with u1 u2
      subst u1
      subst u2
      rw [hs3pools, hs3chain]
      refine ⟨hp3, ?_⟩
      by_cases hp4 : pid2 = pid
      · subst hp4
        rw [upd1_same]
        exact chainIns_mem _ _ ho3
      · rw [upd1_other _ _ _ _ hp4]
        exact ho3
    · intro x hx
      rcases List.mem_cons.mp hx with h1 | h1
      · exact Or.inl (by rw [h1]; exact List.mem_cons_of_mem _ (List.mem_cons_self _ _))
      · simp at h1
    · intro x hx f s hmem
      rcases List.mem_cons.mp hx with h1 | h1
      · exact hRPnotlisted f s (by rw [← h1]; exact hmem)
      · rcases List.mem_cons.mp h1 with h2 | h2
        · exact hexempt f s (by rw [← h2]; exact hmem)
        · simp at h2
    · intro pid2 hpid2 off2 hoff2 hfr2
      rw [hs3pools] at hpid2
      rw [hs3chain] at hoff2
      by_cases hp4 : pid2 = pid
      · subst hp4
        rw [upd1_same] at hoff2
        rcases chainIns_mem_rev hoff2 with h1 | h1
        · subst h1
          exact Or.inl (List.mem_cons_self _ _)
        · by_cases hqb : off2 = ob
          · subst hqb
            exact Or.inl (List.mem_cons_of_mem _ (List.mem_cons_self _ _))
          · by_cases hqc : off2 = oc
            · subst hqc
              rw [hs3_c] at hfr2
              simp only [] at hfr2
              rw [hfr2] at hcused
              exact Bool.noConfusion hcused
            · have h2 : Ptr.blk pid2 off2 ≠ Ptr.blk pid2 ob := by
                intro hh
                injection hh with u1 u2
                exact hqb u2
              have h3 : Ptr.blk pid2 off2 ≠ Ptr.blk pid2 (ob + (sz + BLOCK_OVERHEAD)) := by
                intro hh
                injection hh with u1 u2
                exact hornot (u2 ▸ h1)
              have h4 : Ptr.blk pid2 off2 ≠ Ptr.blk pid2 oc := by
                intro hh
                injection hh with u1 u2
                exact hqc u2
              rw [hs3_o _ h2 h3 h4] at hfr2
              exact Or.inr ⟨hpid2, h1, hfr2, by rw [hs3_o _ h2 h3 h4]⟩
      · rw [upd1_other _ _ _ _ hp4] at hoff2
        have h2 : Ptr.blk pid2 off2 ≠ Ptr.blk pid ob := by
          intro hh
          injection hh with u1 u2
          exact hp4 u1
        have h3 : Ptr.blk pid2 off2 ≠ Ptr.blk pid (ob + (sz + BLOCK_OVERHEAD)) := by
          intro hh
          injection hh with u1 u2
          exact hp4 u1
        have h4 : Ptr.blk pid2 off2 ≠ Ptr.blk pid oc := by
          intro hh
          injection hh with u1 u2
          exact hp4 u1
        rw [hs3_o _ h2 h3 h4] at hfr2
        exact Or.inr ⟨hpid2, hoff2, hfr2, by rw [hs3_o _ h2 h3 h4]⟩
  -- step B: insert the remainder
  have hrs_bound : (s3.mem (Ptr.blk pid (ob + (sz + BLOCK_OVERHEAD)))).size ≤
      BLOCK_SIZE_MAX + BLOCK_OVERHEAD := by
    rw [hs3_rp]
    simp only []
    omega
  have hCB : CellsWF (block_insert s3 (Ptr.blk pid (ob + (sz + BLOCK_OVERHEAD))))
      [Ptr.blk pid ob] := by
    refine insert_free_cellsWF hCA ?_ ?_ ?_ hrs_bound rfl ?_
    · rw [hs3pools]
      exact hpid
    · rw [hs3chain, upd1_same, hchain, chainIns_append P ob _ S hobnotP]
      exact List.mem_append_right _ (List.mem_cons_of_mem _ (List.mem_cons_self _ _))
    · rw [hs3_rp]
    · intro hmem
      rcases List.mem_cons.mp hmem with h1 | h1
      · exact hbneRP h1.symm
      · simp at h1
  set s4 : tlsf_s := block_insert s3 (Ptr.blk pid (ob + (sz + BLOCK_OVERHEAD))) with hs4
  -- s4 memory: four heap fields as in s3, plus the remainder is free
  have hs4heap := insMem_sameHeap s3.mem (Ptr.blk pid (ob + (sz + BLOCK_OVERHEAD)))
    (s3.blocks (mapping_insert ((s3.mem (Ptr.blk pid (ob + (sz + BLOCK_OVERHEAD)))).size)).1
      (mapping_insert ((s3.mem (Ptr.blk pid (ob + (sz + BLOCK_OVERHEAD)))).size)).2)
  have hs4mem : s4.mem = insMem s3.mem (Ptr.blk pid (ob + (sz + BLOCK_OVERHEAD)))
      (s3.blocks (mapping_insert ((s3.mem (Ptr.blk pid (ob + (sz + BLOCK_OVERHEAD)))).size)).1
        (mapping_insert ((s3.mem (Ptr.blk pid (ob + (sz + BLOCK_OVERHEAD)))).size)).2) := by
    rw [hs4, block_insert_eq, insert_free_block_eq]
  have hs4four : ∀ q, (s4.mem q).size = (s3.mem q).size ∧
      (s4.mem q).isFree = (s3.mem q).isFree ∧
      (s4.mem q).isPrevFree = (s3.mem q).isPrevFree ∧
      (s4.mem q).prevPhys = (s3.mem q).prevPhys := by
    intro q
    rw [hs4mem]
    exact hs4heap q
  have hnext4 : block_next s4.mem (Ptr.blk pid ob) =
      Ptr.blk pid (ob + (sz + BLOCK_OVERHEAD)) := by
    rw [block_next, (hs4four _).1, hs3_b]
    rfl
  have hbne4 : Ptr.blk pid ob ≠ block_next s4.mem (Ptr.blk pid ob) := by
    rw [hnext4]
    exact hbneRP
  -- final memory values
  have hF_b : (block_set_free s4 (Ptr.blk pid ob) false).mem (Ptr.blk pid ob) =
      { s4.mem (Ptr.blk pid ob) with isFree := false } :=
    set_free_mem_b _ _ _ hbne4
  have hF_rp : (block_set_free s4 (Ptr.blk pid ob) false).mem
      (Ptr.blk pid (ob + (sz + BLOCK_OVERHEAD))) =
      { s4.mem (Ptr.blk pid (ob + (sz + BLOCK_OVERHEAD))) with
        prevPhys := Ptr.blk pid ob
        isPrevFree := false } := by
    rw [← hnext4]
    exact set_free_mem_next _ _ _ hbne4
  have hF_o : ∀ q, q ≠ Ptr.blk pid ob → q ≠ Ptr.blk pid (ob + (sz + BLOCK_OVERHEAD)) →
      (block_set_free s4 (Ptr.blk pid ob) false).mem q = s4.mem q := by
    intro q h1 h2
    refine set_free_mem_other _ _ _ _ h1 ?_
    rw [hnext4]
    exact h2
  have hfour : ∀ q, q ≠ Ptr.blk pid ob → q ≠ Ptr.blk pid (ob + (sz + BLOCK_OVERHEAD)) →
      q ≠ Ptr.blk pid oc →
      ((block_set_free s4 (Ptr.blk pid ob) false).mem q).size = (t.mem q).size ∧
      ((block_set_free s4 (Ptr.blk pid ob) false).mem q).isFree = (t.mem q).isFree ∧
      ((block_set_free s4 (Ptr.blk pid ob) false).mem q).isPrevFree = (t.mem q).isPrevFree ∧
      ((block_set_free s4 (Ptr.blk pid ob) false).mem q).prevPhys = (t.mem q).prevPhys := by
    intro q h1 h2 h3
    rw [hF_o q h1 h2]
    obtain ⟨e1, e2, e3, e4⟩ := hs4four q
    rw [e1, e2, e3, e4, hs3_o q h1 h2 h3]
    exact ⟨rfl, rfl, rfl, rfl⟩
  constructor
  · -- heap side
    refine heapWF_one_pool hH pid rfl rfl ?_ ?_ ?_
    · intro p hp
      show upd1 t.chainG pid (chainIns (t.chainG pid) ob (ob + (sz + BLOCK_OVERHEAD))) p =
        t.chainG p
      rw [upd1_other _ _ _ _ hp]
    · intro p hp hppid off hoff
      refine hfour (Ptr.blk p off) ?_ ?_ ?_ <;>
      · intro hh
        injection hh with u1 u2
        exact hppid u1
    · intro hfpid
      show PoolOK (block_set_free s4 (Ptr.blk pid ob) false).mem pid
        (upd1 t.chainG pid (chainIns (t.chainG pid) ob (ob + (sz + BLOCK_OVERHEAD))) pid)
      rw [upd1_same, hchain, chainIns_append P ob _ S hobnotP,
        show P ++ ob :: (ob + (sz + BLOCK_OVERHEAD)) :: S =
          P ++ [ob, ob + (sz + BLOCK_OVERHEAD)] ++ S from by simp]
      have hpo2 : PoolOK t.mem pid (P ++ [ob] ++ S) := by
        rw [← List.append_cons, ← hchain]
        exact hpo
      refine poolOK_replace hpo2 hS (by simp) (by simp) rfl ?_ ?_ ?_ ?_ ?_ ?_ ?_
      · intro off hoff
        have hp1 := hPmem off hoff
        refine hfour (Ptr.blk pid off) ?_ ?_ ?_ <;>
        · intro hh
          injection hh with u1 u2
          omega
      · intro off hoff
        by_cases hoc2 : off = oc
        · rw [hoc2]
          have hC4 : (block_set_free s4 (Ptr.blk pid ob) false).mem (Ptr.blk pid oc) =
              s4.mem (Ptr.blk pid oc) :=
            hF_o _ (fun hh => hbneC hh.symm) (fun hh => hRPneC hh.symm)
          rw [hC4]
          obtain ⟨e1, e2, -, -⟩ := hs4four (Ptr.blk pid oc)
          rw [e1, e2, hs3_c]
          exact ⟨rfl, rfl⟩
        · have hge := hSmem off hoff
          rw [hR.2] at hor_lt
          refine (fun hf => ⟨hf.1, hf.2.1⟩) (hfour (Ptr.blk pid off) ?_ ?_ ?_) <;>
          · intro hh
            injection hh with u1 u2
            rw [hBO] at *
            omega
      · intro off hoff
        rw [hSc] at hoff
        simp only [List.tail_cons] at hoff
        have hne_oc : off ≠ oc := fun hh => hocnotS2 (hh ▸ hoff)
        have hge := hSmem off (by rw [hSc]; exact List.mem_cons_of_mem _ hoff)
        rw [hR.2] at hor_lt
        refine (fun hf => ⟨hf.2.2.1, hf.2.2.2⟩) (hfour (Ptr.blk pid off) ?_ ?_ ?_) <;>
        · intro hh
          injection hh with u1 u2
          rw [hBO] at *
          omega
      · -- the new two-block segment is chained
        refine List.chain'_cons.mpr ⟨?_, List.chain'_singleton _⟩
        refine ⟨?_, ?_, ?_, ?_, ?_⟩
        · rw [hF_b, (hs4four _).1, hs3_b]
          simp only []
          rw [hBO]
          omega
        · rw [hF_rp, hF_b]
        · intro hfr
          rw [hF_b] at hfr
          simp only [] at hfr
          exact absurd hfr (by simp)
        · intro hboth
          rw [hF_b] at hboth
          simp only [] at hboth
          exact Bool.noConfusion hboth.1
        · rw [hF_b, (hs4four _).1, hs3_b]
          simp only []
          exact hsz
      · intro p hp a ha
        have ha2 : ob = a := by simpa using ha
        subst ha2
        have hRold : R t.mem pid p ob := hPjoin p hp
        have hpP : p ∈ P := mem_of_getLast? hp
        have hplt := hPmem p hpP
        have hpval := hfour (Ptr.blk pid p)
          (by intro hh; injection hh with u1 u2; omega)
          (by intro hh; injection hh with u1 u2; rw [hBO] at u2; omega)
          (by intro hh; injection hh with u1 u2; omega)
        obtain ⟨e1, e2, e3, e4⟩ := hpval
        have hFbsize : ((block_set_free s4 (Ptr.blk pid ob) false).mem
            (Ptr.blk pid ob)).size = sz := by
          rw [hF_b]
          simp only []
          rw [(hs4four _).1, hs3_b]
        have hFbprevfl : ((block_set_free s4 (Ptr.blk pid ob) false).mem
            (Ptr.blk pid ob)).isPrevFree = (t.mem (Ptr.blk pid ob)).isPrevFree := by
          rw [hF_b]
          simp only []
          rw [(hs4four _).2.2.1, hs3_b]
        have hFbprevph : ((block_set_free s4 (Ptr.blk pid ob) false).mem
            (Ptr.blk pid ob)).prevPhys = (t.mem (Ptr.blk pid ob)).prevPhys := by
          rw [hF_b]
          simp only []
          rw [(hs4four _).2.2.2, hs3_b]
        have hFbfree : ((block_set_free s4 (Ptr.blk pid ob) false).mem
            (Ptr.blk pid ob)).isFree = false := by
          rw [hF_b]
        refine ⟨?_, ?_, ?_, ?_, ?_⟩
        · rw [e1]
          exact hRold.1
        · rw [hFbprevfl, e2]
          exact hRold.2.1
        · intro hfr
          rw [e2] at hfr
          rw [hFbprevph]
          exact hRold.2.2.1 hfr
        · intro hboth
          rw [hFbfree] at hboth
          exact Bool.noConfusion hboth.2
        · rw [e1]
          exact hRold.2.2.2.2
      · intro bb hbb e he
        have hbb2 : ob + (sz + BLOCK_OVERHEAD) = bb := by simpa using hbb
        have he2 : oc = e := by
          rw [hSc] at he
          simpa using he
        subst hbb2
        subst he2
        have hF_rp_size : ((block_set_free s4 (Ptr.blk pid ob) false).mem
            (Ptr.blk pid (ob + (sz + BLOCK_OVERHEAD)))).size =
            (t.mem (Ptr.blk pid ob)).size - (sz + BLOCK_OVERHEAD) := by
          rw [hF_rp]
          simp only []
          rw [(hs4four _).1, hs3_rp]
        have hF_rp_free : ((block_set_free s4 (Ptr.blk pid ob) false).mem
            (Ptr.blk pid (ob + (sz + BLOCK_OVERHEAD)))).isFree = true := by
          rw [hF_rp]
          simp only []
          rw [(hs4four _).2.1, hs3_rp]
        have hFC : (block_set_free s4 (Ptr.blk pid ob) false).mem (Ptr.blk pid oc) =
            s4.mem (Ptr.blk pid oc) :=
          hF_o _ (fun hh => hbneC hh.symm) (fun hh => hRPneC hh.symm)
        refine ⟨?_, ?_, ?_, ?_, ?_⟩
        · rw [hF_rp_size]
          have h1 := hR.2
          rw [hBO] at h1 hlt ⊢
          omega
        · rw [hFC, (hs4four _).2.2.1, hs3_c, hF_rp_free]
        · intro hfr
          rw [hFC, (hs4four _).2.2.2, hs3_c]
        · intro hboth
          have hcv : ((block_set_free s4 (Ptr.blk pid ob) false).mem
              (Ptr.blk pid oc)).isFree = false := by
            rw [hFC, (hs4four _).2.1, hs3_c]
            exact hcused
          rw [hcv] at hboth
          exact Bool.noConfusion hboth.2
        · rw [hF_rp_size, hBM, hBO]
          omega
      · intro hPnil a ha
        have ha2 : ob = a := by simpa using ha
        subst ha2
        have hob0 : ob = 0 := by
          have h0 := hpo.1
          rw [hchain, hPnil] at h0
          simp only [List.nil_append, List.head?_cons, Option.some.injEq] at h0
          exact h0
        have hFbprevfl : ((block_set_free s4 (Ptr.blk pid ob) false).mem
            (Ptr.blk pid ob)).isPrevFree = (t.mem (Ptr.blk pid ob)).isPrevFree := by
          rw [hF_b]
          simp only []
          rw [(hs4four _).2.2.1, hs3_b]
        rw [hFbprevfl]
        have hf0 := hpo.2.1
        rw [hob0]
        exact hf0
  · -- index side: the final set_free over the inserted state
    refine cellsWF_step hCB rfl rfl rfl rfl ?_ ?_ ?_ ?_ ?_
    · intro f s q hq
      have h1 : q ≠ Ptr.blk pid ob := by
        intro hh
        exact hCB.exempt _ (List.mem_cons_self _ _) f s (by rw [← hh]; exact hq)
      by_cases h2 : q = Ptr.blk pid (ob + (sz + BLOCK_OVERHEAD))
      · rw [h2, hF_rp]
        exact ⟨rfl, rfl, rfl, rfl⟩
      · rw [hF_o q h1 h2]
        exact ⟨rfl, rfl, rfl, rfl⟩
    · intro f s p hp pid2 off2 hpeq
      obtain ⟨pid3, off3, heq, hp3, ho3, -⟩ := hCB.cellMem f s p hp
      rw [hpeq] at heq
      injection heq with u1 u2
      subst u1
      subst u2
      exact ⟨hp3, ho3⟩
    · intro x hx
      rcases List.mem_cons.mp hx with h1 | h1
      · refine Or.inr ?_
        rw [h1, hF_b]
      · simp at h1
    · intro x hx
      simp at hx
    · intro pid2 hpid2 off2 hoff2 hfr2
      by_cases hqb : Ptr.blk pid2 off2 = Ptr.blk pid ob
      · rw [hqb, hF_b] at hfr2
        simp only [] at hfr2
        exact absurd hfr2 (by simp)
      · by_cases hqr : Ptr.blk pid2 off2 = Ptr.blk pid (ob + (sz + BLOCK_OVERHEAD))
        · refine Or.inr ⟨hpid2, hoff2, ?_, ?_⟩
          · rw [hqr, (hs4four _).2.1, hs3_rp]
          · rw [hqr, hF_rp]
        · rw [hF_o _ hqb hqr] at hfr2
          refine Or.inr ⟨hpid2, hoff2, hfr2, ?_⟩
          rw [hF_o _ hqb hqr]

theorem adjust_size_bounds {n sz : Nat} (h : adjust_size n = some sz) :
    BLOCK_SIZE_MIN ≤ sz ∧ sz < BLOCK_SIZE_MAX := by
  unfold adjust_size at h
  simp only [] at h
  split_ifs at h with h1 h2
  · injection h with hh
    subst hh
    refine ⟨le_refl _, ?_⟩
    rw [show (BLOCK_SIZE_MIN:Nat) = 24 from rfl, show (BLOCK_SIZE_MAX:Nat) = 2 ^ 33 from rfl]
    norm_num
  · injection h with hh
    subst hh
    exact ⟨Nat.le_of_not_lt h1, h2⟩

/-- A successful search hands block_locate_free a listed free block; the
unlink plus mallocFinish preserve well-formedness. -/
theorem locate_hit_WF (t : tlsf_s) (sz : Nat) (b : Ptr) (fl' sl' : Nat)
    (hW : WF t) (hsz : BLOCK_SIZE_MIN ≤ sz)
    (hs : search_suitable_block t (mapping_search sz).1 (mapping_search sz).2 =
      some (b, fl', sl')) :
    WF (mallocFinish (remove_free_block t b fl' sl') b sz).2 := by
  obtain ⟨hH, hC⟩ := hW
  obtain ⟨hmem, -⟩ := search_suitable_mem hC hs
  obtain ⟨pid, ob, hbeq, hpid, hob, hfree, -, -⟩ := hC.cellMem _ _ b hmem
  subst hbeq
  have hC1 : CellsWF (remove_free_block t (Ptr.blk pid ob) fl' sl') [Ptr.blk pid ob] :=
    remove_free_cellsWF hC hmem
  have hH1 : HeapWF (remove_free_block t (Ptr.blk pid ob) fl' sl') := by
    refine heapWF_sameHeap_keep hH ?_ (pools_remove_free _ _ _ _)
      (chainG_remove_free _ _ _ _) ?_
    · rw [remove_free_block_mem]
      exact remMem_sameHeap _ _
    · rw [nextPid_remove_free]
  have hfree1 : ((remove_free_block t (Ptr.blk pid ob) fl' sl').mem
      (Ptr.blk pid ob)).isFree = true := by
    rw [remove_free_block_mem, (remMem_sameHeap t.mem (Ptr.blk pid ob) (Ptr.blk pid ob)).2.1]
    exact hfree
  have hpid1 : pid ∈ (remove_free_block t (Ptr.blk pid ob) fl' sl').pools := by
    rw [pools_remove_free]
    exact hpid
  have hob1 : ob ∈ (remove_free_block t (Ptr.blk pid ob) fl' sl').chainG pid := by
    rw [chainG_remove_free]
    exact hob
  by_cases hcs : block_can_split (remove_free_block t (Ptr.blk pid ob) fl' sl')
      (Ptr.blk pid ob) sz = true
  · exact mallocFinish_WF_split _ pid ob sz hH1 hC1 hpid1 hob1 hfree1 hsz hcs
  · exact mallocFinish_WF_nosplit _ pid ob sz hH1 hC1 hpid1 hob1 hfree1 hcs

/-- tlsf_malloc preserves well-formedness whenever the map callback
respects the allocator's grow-request contract. -/
theorem tlsf_malloc_WF (resp : Option Nat) (t : tlsf_s) (n : Nat) (p : Option Ptr)
    (t' : tlsf_s) (hW : WF t)
    (hresp : ∀ sz, adjust_size n = some sz → respOK resp sz)
    (h : tlsf_malloc resp t n = Except.ok (p, t')) : WF t' := by
  cases ha : adjust_size n with
  | none =>
    unfold tlsf_malloc at h
    rw [ha] at h
    exact absurd h (by simp)
  | some sz =>
  obtain ⟨hsz, hszmax⟩ := adjust_size_bounds ha
  cases hs : search_suitable_block t (mapping_search sz).1 (mapping_search sz).2 with
  | some bfs =>
    unfold tlsf_malloc at h
    rw [ha] at h
    have hl : block_locate_free t sz = (some bfs.1, remove_free_block t bfs.1 bfs.2.1 bfs.2.2) :=
      block_locate_free_some t sz bfs.1 bfs.2.1 bfs.2.2 (by rw [hs])
    simp only [hl] at h
    have ht' : t' = (mallocFinish (remove_free_block t bfs.1 bfs.2.1 bfs.2.2) bfs.1 sz).2 := by
      rw [mallocFinish] at h
      simp only [Except.ok.injEq, Prod.mk.injEq] at h
      exact h.2.symm
    rw [ht']
    exact locate_hit_WF t sz bfs.1 bfs.2.1 bfs.2.2 hW hsz (by rw [hs])
  | none =>
    cases hr : resp with
    | none =>
      unfold tlsf_malloc at h
      rw [ha] at h
      simp only [block_locate_free_none t sz hs] at h
      rw [hr] at h
      simp only [Except.ok.injEq, Prod.mk.injEq] at h
      rw [← h.2]
      exact hW
    | some memsize =>
      subst hr
      have he := tlsf_malloc_grow_eq t n sz memsize ha hs
      rw [he] at h
      have hmembounds := hresp sz ha memsize rfl
      have hW3 : WF (grownState t memsize) := by
        refine grownState_WF t memsize hW ?_ hmembounds.2
        have h1 := hmembounds.1
        rw [show (POOL_OVERHEAD:Nat) = 16 from rfl, show (BLOCK_OVERHEAD:Nat) = 8 from rfl,
          show (BLOCK_SIZE_MIN:Nat) = 24 from rfl] at *
        omega
      cases hs2 : search_suitable_block (grownState t memsize)
          (mapping_search sz).1 (mapping_search sz).2 with
      | some bfs2 =>
        have hl2 : block_locate_free (grownState t memsize) sz =
            (some bfs2.1, remove_free_block (grownState t memsize) bfs2.1 bfs2.2.1 bfs2.2.2) :=
          block_locate_free_some _ sz bfs2.1 bfs2.2.1 bfs2.2.2 (by rw [hs2])
        rw [hl2] at h
        simp only [] at h
        have ht' : t' = (mallocFinish
            (remove_free_block (grownState t memsize) bfs2.1 bfs2.2.1 bfs2.2.2) bfs2.1 sz).2 := by
          rw [mallocFinish] at h
          simp only [Except.ok.injEq, Prod.mk.injEq] at h
          exact h.2.symm
        rw [ht']
        exact locate_hit_WF _ sz bfs2.1 bfs2.2.1 bfs2.2.2 hW3 hsz (by rw [hs2])
      | none =>
        rw [block_locate_free_none _ sz hs2] at h
        exact absurd h (by simp)

/-- chain_pos_facts for a used block: the successor obligation is supplied
directly (the block is known not to be the chain's last element). -/
theorem chain_mid_facts {m : Ptr → BlockHdr} {pid : Nat} {c : List Nat} {P S : List Nat}
    {ob : Nat} (hpo : PoolOK m pid c) (hc : c = P ++ ob :: S) (hS : S ≠ []) :
    (∀ oc ∈ S.head?, R m pid ob oc ∧ oc = ob + (m (Ptr.blk pid ob)).size + BLOCK_OVERHEAD) ∧
    (∀ p ∈ P.getLast?, R m pid p ob) ∧
    (∀ z ∈ P, z < ob) ∧
    (∀ z ∈ S, ob + (m (Ptr.blk pid ob)).size + BLOCK_OVERHEAD ≤ z) := by
  obtain ⟨h0, hf0, hchain, hlast⟩ := hpo
  rw [hc] at hchain hlast
  obtain ⟨hcP, hcObS, hjoin⟩ := (List.chain'_append).mp hchain
  have hPlast : ∀ p ∈ P.getLast?, p < ob := by
    intro p hp
    have hRp : R m pid p ob := hjoin p hp ob rfl
    have h1 := hRp.1
    rw [show (BLOCK_OVERHEAD:Nat) = 8 from rfl] at h1
    omega
  have hPmem : ∀ z ∈ P, z < ob := by
    intro z hz
    cases hP0 : P with
    | nil =>
      rw [hP0] at hz
      simp at hz
    | cons a P2 =>
      have hgl : ∃ p, P.getLast? = some p := by
        rw [hP0, List.getLast?_eq_getLast _ (by simp)]
        exact ⟨_, rfl⟩
      obtain ⟨p, hp⟩ := hgl
      have h1 := chain_le_last (chain_sorted hcP) z hz p hp
      have h2 := hPlast p hp
      omega
  refine ⟨?_, (fun p hp => hjoin p hp ob rfl), hPmem, ?_⟩
  · intro oc hoc
    cases hSc : S with
    | nil =>
      rw [hSc] at hoc
      simp at hoc
    | cons u S2 =>
      rw [hSc] at hoc
      simp only [List.head?_cons, Option.mem_def, Option.some.injEq] at hoc
      subst hoc
      have hr : R m pid ob u := by
        rw [hSc] at hcObS
        exact (List.chain'_cons.mp hcObS).1
      exact ⟨hr, hr.1⟩
  · intro z hz
    cases hSc : S with
    | nil =>
      rw [hSc] at hz
      simp at hz
    | cons u S2 =>
      have hr : R m pid ob u := by
        rw [hSc] at hcObS
        exact (List.chain'_cons.mp hcObS).1
      have hu : u = ob + (m (Ptr.blk pid ob)).size + BLOCK_OVERHEAD := hr.1
      have hcS : (u :: S2).Chain' (R m pid) := by
        rw [hSc] at hcObS
        exact (List.chain'_cons.mp hcObS).2
      have hle : u ≤ z := chain_head_le (chain_sorted hcS) u rfl z
        (by rw [hSc] at hz; exact hz)
      omega

/-- Detached blocks that no longer belong to any live chain can be
forgotten: the exemption list shrinks to nothing. -/
theorem cellsWF_dropAll {t : tlsf_s} {X : List Ptr} (h : CellsWF t X)
    (hX : ∀ x ∈ X, ∀ pid ∈ t.pools, ∀ off ∈ t.chainG pid, Ptr.blk pid off ≠ x) :
    CellsWF t [] := by
  refine ⟨h.cellHead, h.cellMem, h.links, h.nodup, ?_, ?_, h.bitSL, h.bitFL⟩
  · intro pid hpid off hoff hfr
    rcases h.complete pid hpid off hoff hfr with hx | hmem
    · exact absurd rfl (hX _ hx pid hpid off hoff)
    · exact Or.inr hmem
  · intro x hx
    simp at hx

/-- The exemption list is only read through membership, so it may be
reordered freely. -/
theorem cellsWF_reorder {t : tlsf_s} {X X' : List Ptr} (h : CellsWF t X)
    (h1 : ∀ x ∈ X, x ∈ X') (h2 : ∀ x ∈ X', x ∈ X) : CellsWF t X' := by
  refine ⟨h.cellHead, h.cellMem, h.links, h.nodup, ?_, ?_, h.bitSL, h.bitFL⟩
  · intro pid hpid off hoff hfr
    rcases h.complete pid hpid off hoff hfr with hx | hmem
    · exact Or.inl (h1 _ hx)
    · exact Or.inr hmem
  · intro x hx
    exact h.exempt x (h2 x hx)

theorem updHdr_links (m : Ptr → BlockHdr) (p : Ptr) (f : BlockHdr → BlockHdr)
    (hf : ∀ h, (f h).prevFree = h.prevFree ∧ (f h).nextFree = h.nextFree) (q : Ptr) :
    ((updHdr m p f) q).prevFree = (m q).prevFree ∧
    ((updHdr m p f) q).nextFree = (m q).nextFree := by
  by_cases hq : q = p
  · subst hq
    rw [updHdr_same]
    exact hf _
  · rw [updHdr_other _ _ _ _ hq]
    exact ⟨rfl, rfl⟩

/-- block_absorb rewrites only the absorbing block's size and the next
block's prev_phys_block; the free-list link fields are untouched. -/
theorem block_absorb_links (t : tlsf_s) (prev b q : Ptr) :
    ((block_absorb t prev b).2.mem q).prevFree = (t.mem q).prevFree ∧
    ((block_absorb t prev b).2.mem q).nextFree = (t.mem q).nextFree := by
  have key : ∀ (m : Ptr → BlockHdr) (p1 p2 : Ptr) (f1 f2 : BlockHdr → BlockHdr),
      (∀ h, (f1 h).prevFree = h.prevFree ∧ (f1 h).nextFree = h.nextFree) →
      (∀ h, (f2 h).prevFree = h.prevFree ∧ (f2 h).nextFree = h.nextFree) →
      ((updHdr (updHdr m p1 f1) p2 f2) q).prevFree = (m q).prevFree ∧
      ((updHdr (updHdr m p1 f1) p2 f2) q).nextFree = (m q).nextFree := by
    intro m p1 p2 f1 f2 hf1 hf2
    have ha := updHdr_links (updHdr m p1 f1) p2 f2 hf2 q
    have hb := updHdr_links m p1 f1 hf1 q
    exact ⟨ha.1.trans hb.1, ha.2.trans hb.2⟩
  unfold block_absorb ghostAbsorb block_link_next
  cases b <;>
  · simp only []
    exact key _ _ _ _ _ (fun h => ⟨rfl, rfl⟩) (fun h => ⟨rfl, rfl⟩)

/-- Evaluated memory of block_absorb between chain neighbours: the
absorber grows, and the block past the absorbed one is re-linked. -/
theorem block_absorb_mem (t : tlsf_s) (pid oa ob oc : Nat)
    (hoc : oc = oa + ((t.mem (Ptr.blk pid oa)).size + (t.mem (Ptr.blk pid ob)).size
      + BLOCK_OVERHEAD + BLOCK_OVERHEAD)) :
    (block_absorb t (Ptr.blk pid oa) (Ptr.blk pid ob)).2.mem =
      updHdr (updHdr t.mem (Ptr.blk pid oa) (fun h =>
        { h with size := h.size + (t.mem (Ptr.blk pid ob)).size + BLOCK_OVERHEAD }))
        (Ptr.blk pid oc) (fun h => { h with prevPhys := Ptr.blk pid oa }) := by
  have hbn : block_next (updHdr t.mem (Ptr.blk pid oa) (fun h =>
      { h with size := h.size + (t.mem (Ptr.blk pid ob)).size + BLOCK_OVERHEAD }))
      (Ptr.blk pid oa) = Ptr.blk pid oc := by
    rw [block_next, updHdr_same]
    show Ptr.blk pid (oa + ((t.mem (Ptr.blk pid oa)).size
      + (t.mem (Ptr.blk pid ob)).size + BLOCK_OVERHEAD + BLOCK_OVERHEAD)) = Ptr.blk pid oc
    rw [hoc]
  show updHdr (updHdr t.mem (Ptr.blk pid oa) (fun h =>
      { h with size := h.size + (t.mem (Ptr.blk pid ob)).size + BLOCK_OVERHEAD }))
    (block_next (updHdr t.mem (Ptr.blk pid oa) (fun h =>
      { h with size := h.size + (t.mem (Ptr.blk pid ob)).size + BLOCK_OVERHEAD }))
      (Ptr.blk pid oa)) (fun h => { h with prevPhys := Ptr.blk pid oa }) = _
  rw [hbn]

/-- A fully drained pool can be removed: its only remaining free block is
the detached merged block, so no free-list entry refers to the pool. -/
theorem remove_pool_WF (t3 : tlsf_s) (pid om : Nat) (X : List Ptr)
    (hH3 : HeapWF t3) (hC3 : CellsWF t3 (Ptr.blk pid om :: X))
    (hdrain : ∀ off ∈ t3.chainG pid, off = om ∨ (t3.mem (Ptr.blk pid off)).isFree = false)
    (hX : ∀ x ∈ X, ∀ pid2 ∈ t3.pools, ∀ off2 ∈ t3.chainG pid2, Ptr.blk pid2 off2 ≠ x) :
    WF (remove_pool t3 (Ptr.blk pid om)) := by
  have hpoolseq : (remove_pool t3 (Ptr.blk pid om)).pools = t3.pools.erase pid := rfl
  have hchaineq : (remove_pool t3 (Ptr.blk pid om)).chainG = upd1 t3.chainG pid [] := rfl
  have hmemeq : (remove_pool t3 (Ptr.blk pid om)).mem = t3.mem := rfl
  have hnopid : ∀ fl sl, ∀ q ∈ t3.cellsG fl sl, ∀ off2, q ≠ Ptr.blk pid off2 := by
    intro fl sl q hq off2 hh
    obtain ⟨pid2, off3, heq, hpid2, hoff3, hfr, -⟩ := hC3.cellMem fl sl q hq
    rw [hh] at heq
    injection heq with u1 u2
    subst u1
    subst u2
    rcases hdrain off2 hoff3 with h1 | h1
    · rw [h1] at hh
      exact hC3.exempt _ (List.mem_cons_self _ _) fl sl (by rw [← hh]; exact hq)
    · rw [hh] at hfr
      rw [hfr] at h1
      exact Bool.noConfusion h1
  constructor
  · refine ⟨?_, ?_, ?_⟩
    · rw [hpoolseq]
      exact hH3.poolsNodup.erase pid
    · intro p hp
      rw [hpoolseq] at hp
      show p < t3.nextPid
      exact hH3.poolsLt p (List.mem_of_mem_erase hp)
    · intro p hp
      rw [hpoolseq] at hp
      have hpne : p ≠ pid := ((hH3.poolsNodup.mem_erase_iff).mp hp).1
      have hpmem := List.mem_of_mem_erase hp
      rw [hchaineq]
      show PoolOK t3.mem p (upd1 t3.chainG pid [] p)
      rw [upd1_other _ _ _ _ hpne]
      exact hH3.pools_ok p hpmem
  · refine ⟨hC3.cellHead, ?_, hC3.links, hC3.nodup, ?_, ?_, hC3.bitSL, hC3.bitFL⟩
    · intro fl sl p hp
      obtain ⟨pid2, off2, heq, hpid2, hoff2, hfr, hsz, hm⟩ := hC3.cellMem fl sl p hp
      have hpne : pid2 ≠ pid := by
        intro hh
        exact hnopid fl sl p hp off2 (by rw [heq, hh])
      refine ⟨pid2, off2, heq, ?_, ?_, hfr, hsz, hm⟩
      · rw [hpoolseq]
        exact (List.mem_erase_of_ne hpne).mpr hpid2
      · rw [hchaineq]
        show off2 ∈ upd1 t3.chainG pid [] pid2
        rw [upd1_other _ _ _ _ hpne]
        exact hoff2
    · intro pid2 hpid2 off2 hoff2 hfr2
      rw [hpoolseq] at hpid2
      rw [hchaineq] at hoff2
      have hpne : pid2 ≠ pid := ((hH3.poolsNodup.mem_erase_iff).mp hpid2).1
      have hoff2b : off2 ∈ t3.chainG pid2 := by
        rw [show upd1 t3.chainG pid [] pid2 = t3.chainG pid2 from upd1_other _ _ _ _ hpne]
          at hoff2
        exact hoff2
      rw [hmemeq] at hfr2
      rcases hC3.complete pid2 (List.mem_of_mem_erase hpid2) off2 hoff2b hfr2 with hx | hmem
      · rcases List.mem_cons.mp hx with h1 | h1
        · exfalso
          injection h1 with u1 u2
          exact hpne u1
        · exact absurd rfl (hX _ h1 pid2 (List.mem_of_mem_erase hpid2) off2 hoff2b)
      · exact Or.inr hmem
    · intro x hx
      simp at hx

/-- The common last step of tlsf_free's insert branch: re-filing the
merged block restores full well-formedness, provided every other detached
block has left the live chains. -/
theorem free_finish_WF (t3 : tlsf_s) (pid om : Nat) (X : List Ptr)
    (hH3 : HeapWF t3) (hC3 : CellsWF t3 (Ptr.blk pid om :: X))
    (hpid : pid ∈ t3.pools) (hom : om ∈ t3.chainG pid)
    (hfree : (t3.mem (Ptr.blk pid om)).isFree = true)
    (hX : ∀ x ∈ X, ∀ pid2 ∈ t3.pools, ∀ off2 ∈ t3.chainG pid2, Ptr.blk pid2 off2 ≠ x)
    (hmX : Ptr.blk pid om ∉ X) :
    WF (block_insert t3 (Ptr.blk pid om)) := by
  have hpo := hH3.pools_ok pid hpid
  have hsize : (t3.mem (Ptr.blk pid om)).size ≤ BLOCK_SIZE_MAX + BLOCK_OVERHEAD := by
    have h1 := chain_size_off_le hpo.2.2.1
      (fun e he => ⟨(hpo.2.2.2 e he).1, (hpo.2.2.2 e he).2.2⟩) om hom
    omega
  constructor
  · refine heapWF_sameHeap_keep hH3 ?_ (pools_block_insert _ _) (chainG_block_insert _ _) ?_
    · rw [show (block_insert t3 (Ptr.blk pid om)).mem =
        insMem t3.mem (Ptr.blk pid om)
          (t3.blocks (mapping_insert ((t3.mem (Ptr.blk pid om)).size)).1
            (mapping_insert ((t3.mem (Ptr.blk pid om)).size)).2) from rfl]
      exact insMem_sameHeap _ _ _
    · rw [nextPid_block_insert]
  · have h1 : CellsWF (insert_free_block t3 (Ptr.blk pid om)
        (mapping_insert ((t3.mem (Ptr.blk pid om)).size)).1
        (mapping_insert ((t3.mem (Ptr.blk pid om)).size)).2) X :=
      insert_free_cellsWF hC3 hpid hom hfree hsize rfl hmX
    rw [block_insert_eq]
    refine cellsWF_dropAll h1 ?_
    intro x hx pid2 hpid2 off2 hoff2
    exact hX x hx pid2 hpid2 off2 hoff2

theorem block_merge_prev_no (t : tlsf_s) (b : Ptr) (h : (t.mem b).isPrevFree = false) :
    block_merge_prev t b = (b, t) := by
  unfold block_merge_prev
  rw [h]
  simp

theorem block_merge_prev_yes (t : tlsf_s) (b : Ptr) (h : (t.mem b).isPrevFree = true) :
    block_merge_prev t b =
      block_absorb (block_remove t (block_prev t.mem b)) (block_prev t.mem b) b := by
  unfold block_merge_prev
  rw [h]
  simp

theorem block_merge_next_no (t : tlsf_s) (b : Ptr)
    (h : (t.mem (block_next t.mem b)).isFree = false) :
    block_merge_next t b = (b, t) := by
  unfold block_merge_next
  simp only []
  rw [h]
  simp

theorem block_merge_next_yes (t : tlsf_s) (b : Ptr)
    (h : (t.mem (block_next t.mem b)).isFree = true) :
    block_merge_next t b =
      block_absorb (block_remove t (block_next t.mem b)) b (block_next t.mem b) := by
  unfold block_merge_next
  simp only []
  rw [h]
  simp

/-- What tlsf_free's insert / remove_pool decision needs to know about the
state right after the merge phase: the merged block's identity, index
accuracy with the merged block (and any absorbed neighbours) detached,
physical well-formedness, and the merged block's position in its chain. -/
def FreeMergedOK (t : tlsf_s) (pid : Nat) (r : Ptr × tlsf_s) : Prop :=
  ∃ om X P3 S3,
    r.1 = Ptr.blk pid om ∧
    HeapWF r.2 ∧
    CellsWF r.2 (Ptr.blk pid om :: X) ∧
    pid ∈ r.2.pools ∧
    r.2.chainG pid = P3 ++ om :: S3 ∧
    (∀ z ∈ P3, z < om) ∧
    S3 ≠ [] ∧
    (r.2.mem (Ptr.blk pid om)).isFree = true ∧
    (∀ x ∈ X, ∀ pid2 ∈ r.2.pools, ∀ off2 ∈ r.2.chainG pid2, Ptr.blk pid2 off2 ≠ x) ∧
    Ptr.blk pid om ∉ X

/-- The merge phase when neither physical neighbour is free: only the
freed block's header and its successor's incoming flags change. -/
theorem freeMerged_WF_nn (t : tlsf_s) (pid ob oc : Nat) (P S2 : List Nat)
    (hH : HeapWF t) (hC : CellsWF t [])
    (hpid : pid ∈ t.pools)
    (hchain : t.chainG pid = P ++ ob :: oc :: S2)
    (hused : (t.mem (Ptr.blk pid ob)).isFree = false)
    (hpf : (t.mem (Ptr.blk pid ob)).isPrevFree = false)
    (hnf : (t.mem (Ptr.blk pid oc)).isFree = false) :
    FreeMergedOK t pid (freeMerged t (Ptr.blk pid (ob + BLOCK_START_OFFSET))) := by
  have hBO : (BLOCK_OVERHEAD:Nat) = 8 := rfl
  have hpo := hH.pools_ok pid hpid
  obtain ⟨hShead, hPjoin, hPmem, hSmem⟩ := chain_mid_facts hpo hchain (by simp)
  have hR : R t.mem pid ob oc ∧ oc = ob + (t.mem (Ptr.blk pid ob)).size + BLOCK_OVERHEAD :=
    hShead oc rfl
  have hocpos : ob < oc := by
    have h1 := hR.2
    rw [hBO] at h1
    omega
  have hnextc : block_next t.mem (Ptr.blk pid ob) = Ptr.blk pid oc := by
    rw [block_next, ptrAdd, hR.2, Nat.add_assoc]
  have hbneq : Ptr.blk pid ob ≠ block_next t.mem (Ptr.blk pid ob) := by
    rw [hnextc]
    intro hh
    injection hh with u1 u2
    omega
  have hbfp : block_from_ptr (Ptr.blk pid (ob + BLOCK_START_OFFSET)) = Ptr.blk pid ob := by
    show Ptr.blk pid (ob + BLOCK_START_OFFSET - BLOCK_START_OFFSET) = Ptr.blk pid ob
    rw [Nat.add_sub_cancel]
  have hBnotin : ∀ f s, Ptr.blk pid ob ∉ t.cellsG f s := by
    intro f s hmem
    obtain ⟨pid2, off2, heq, -, -, hfr, -⟩ := hC.cellMem f s _ hmem
    rw [hfr] at hused
    exact Bool.noConfusion hused
  have hu1_b : (block_set_free t (Ptr.blk pid ob) true).mem (Ptr.blk pid ob) =
      { t.mem (Ptr.blk pid ob) with isFree := true } :=
    set_free_mem_b _ _ _ hbneq
  have hu1_c : (block_set_free t (Ptr.blk pid ob) true).mem (Ptr.blk pid oc) =
      { t.mem (Ptr.blk pid oc) with prevPhys := Ptr.blk pid ob, isPrevFree := true } := by
    rw [← hnextc]
    exact set_free_mem_next _ _ _ hbneq
  have hu1_o : ∀ q, q ≠ Ptr.blk pid ob → q ≠ Ptr.blk pid oc →
      (block_set_free t (Ptr.blk pid ob) true).mem q = t.mem q := by
    intro q h1 h2
    refine set_free_mem_other _ _ _ _ h1 ?_
    rw [hnextc]
    exact h2
  have hCu1 : CellsWF (block_set_free t (Ptr.blk pid ob) true) [Ptr.blk pid ob] := by
    refine cellsWF_step hC rfl rfl rfl rfl ?_ ?_ ?_ ?_ ?_
    · intro f s q hq
      have h1 : q ≠ Ptr.blk pid ob := by
        intro hh
        exact hBnotin f s (by rw [← hh]; exact hq)
      by_cases h2 : q = Ptr.blk pid oc
      · rw [h2, hu1_c]
        exact ⟨rfl, rfl, rfl, rfl⟩
      · rw [hu1_o q h1 h2]
        exact ⟨rfl, rfl, rfl, rfl⟩
    · intro f s p2 hp2 pid2 off2 hpeq
      obtain ⟨pid3, off3, heq, hp3, ho3, -⟩ := hC.cellMem f s p2 hp2
      rw [hpeq] at heq
      injection heq with v1 v2
      subst v1
      subst v2
      exact ⟨hp3, ho3⟩
    · intro x hx
      simp at hx
    · intro x hx f s
      rcases List.mem_cons.mp hx with h1 | h1
      · rw [h1]
        exact hBnotin f s
      · simp at h1
    · intro pid2 hpid2 off2 hoff2 hfr2
      by_cases hqb : Ptr.blk pid2 off2 = Ptr.blk pid ob
      · exact Or.inl (by rw [hqb]; exact List.mem_cons_self _ _)
      · by_cases hqc : Ptr.blk pid2 off2 = Ptr.blk pid oc
        · refine Or.inr ⟨hpid2, hoff2, ?_, ?_⟩
          · rw [hqc]
            rw [hqc, hu1_c] at hfr2
            exact hfr2
          · rw [hqc, hu1_c]
        · rw [hu1_o _ hqb hqc] at hfr2
          exact Or.inr ⟨hpid2, hoff2, hfr2, by rw [hu1_o _ hqb hqc]⟩
  have hmp : block_merge_prev (block_set_free t (Ptr.blk pid ob) true) (Ptr.blk pid ob) =
      (Ptr.blk pid ob, block_set_free t (Ptr.blk pid ob) true) :=
    block_merge_prev_no _ _ (by rw [hu1_b]; exact hpf)
  have hu1nextc : block_next (block_set_free t (Ptr.blk pid ob) true).mem (Ptr.blk pid ob) =
      Ptr.blk pid oc := by
    rw [block_next, hu1_b]
    show Ptr.blk pid (ob + ((t.mem (Ptr.blk pid ob)).size + BLOCK_OVERHEAD)) = Ptr.blk pid oc
    rw [hR.2, Nat.add_assoc]
  have hmn : block_merge_next (block_set_free t (Ptr.blk pid ob) true) (Ptr.blk pid ob) =
      (Ptr.blk pid ob, block_set_free t (Ptr.blk pid ob) true) :=
    block_merge_next_no _ _ (by rw [hu1nextc, hu1_c]; exact hnf)
  have hfm : freeMerged t (Ptr.blk pid (ob + BLOCK_START_OFFSET)) =
      (Ptr.blk pid ob, block_set_free t (Ptr.blk pid ob) true) := by
    unfold freeMerged
    simp only []
    rw [hbfp, hmp, hmn]
  rw [hfm]
  have hocnotS2 : oc ∉ S2 := by
    have hnodupchain : (t.chainG pid).Nodup := chain_nodup (chain_sorted hpo.2.2.1)
    rw [hchain] at hnodupchain
    rw [List.nodup_append] at hnodupchain
    exact (List.nodup_cons.mp (List.nodup_cons.mp hnodupchain.2.1).2).1
  refine ⟨ob, [], P, oc :: S2, rfl, ?_, hCu1, hpid, hchain, hPmem, by simp,
    by rw [hu1_b], by intro x hx; simp at hx, by simp⟩
  refine heapWF_one_pool hH pid rfl rfl (fun p hp => rfl) ?_ ?_
  · intro p hp hppid off hoff
    have h1 : Ptr.blk p off ≠ Ptr.blk pid ob := by
      intro hh
      injection hh with v1 v2
      exact hppid v1
    have h2 : Ptr.blk p off ≠ Ptr.blk pid oc := by
      intro hh
      injection hh with v1 v2
      exact hppid v1
    rw [hu1_o _ h1 h2]
    exact ⟨rfl, rfl, rfl, rfl⟩
  · intro hfpid
    show PoolOK (block_set_free t (Ptr.blk pid ob) true).mem pid
      ((block_set_free t (Ptr.blk pid ob) true).chainG pid)
    rw [chainG_set_free, hchain, List.append_cons]
    have hpo2 : PoolOK t.mem pid (P ++ [ob] ++ (oc :: S2)) := by
      rw [← List.append_cons, ← hchain]
      exact hpo
    refine poolOK_replace hpo2 (by simp) (by simp) (by simp) rfl ?_ ?_ ?_ ?_ ?_ ?_ ?_
    · intro off hoff
      have hlt := hPmem off hoff
      have h1 : Ptr.blk pid off ≠ Ptr.blk pid ob := by
        intro hh
        injection hh with v1 v2
        omega
      have h2 : Ptr.blk pid off ≠ Ptr.blk pid oc := by
        intro hh
        injection hh with v1 v2
        omega
      rw [hu1_o _ h1 h2]
      exact ⟨rfl, rfl, rfl, rfl⟩
    · intro off hoff
      by_cases hoc2 : off = oc
      · rw [hoc2, hu1_c]
        exact ⟨rfl, rfl⟩
      · have hge := hSmem off hoff
        have h1 : Ptr.blk pid off ≠ Ptr.blk pid ob := by
          rw [hBO] at hge
          intro hh
          injection hh with v1 v2
          omega
        have h2 : Ptr.blk pid off ≠ Ptr.blk pid oc := by
          intro hh
          injection hh with v1 v2
          exact hoc2 v2
        rw [hu1_o _ h1 h2]
        exact ⟨rfl, rfl⟩
    · intro off hoff
      simp only [List.tail_cons] at hoff
      have h1 : Ptr.blk pid off ≠ Ptr.blk pid ob := by
        have hge := hSmem off (List.mem_cons_of_mem _ hoff)
        rw [hBO] at hge
        intro hh
        injection hh with v1 v2
        omega
      have h2 : Ptr.blk pid off ≠ Ptr.blk pid oc := by
        intro hh
        injection hh with v1 v2
        exact hocnotS2 (v2 ▸ hoff)
      rw [hu1_o _ h1 h2]
      exact ⟨rfl, rfl⟩
    · exact List.chain'_singleton _
    · intro p hp a ha
      have ha2 : ob = a := by simpa using ha
      subst ha2
      have hRold : R t.mem pid p ob := hPjoin p hp
      have hpP : p ∈ P := mem_of_getLast? hp
      have hplt := hPmem p hpP
      have h1 : Ptr.blk pid p ≠ Ptr.blk pid ob := by
        intro hh
        injection hh with v1 v2
        omega
      have h2 : Ptr.blk pid p ≠ Ptr.blk pid oc := by
        intro hh
        injection hh with v1 v2
        omega
      have hpe := hu1_o _ h1 h2
      refine ⟨?_, ?_, ?_, ?_, ?_⟩
      · rw [hpe]
        exact hRold.1
      · rw [hpe, hu1_b]
        show (t.mem (Ptr.blk pid ob)).isPrevFree = (t.mem (Ptr.blk pid p)).isFree
        exact hRold.2.1
      · intro hfr
        rw [hpe] at hfr
        rw [hu1_b]
        show (t.mem (Ptr.blk pid ob)).prevPhys = Ptr.blk pid p
        exact hRold.2.2.1 hfr
      · intro hboth
        rw [hpe] at hboth
        have hlastused : (t.mem (Ptr.blk pid p)).isFree = false := by
          rw [← hRold.2.1]
          exact hpf
        rw [hlastused] at hboth
        exact Bool.noConfusion hboth.1
      · rw [hpe]
        exact hRold.2.2.2.2
    · intro bb hbb e he
      have hbb2 : ob = bb := by simpa using hbb
      have he2 : oc = e := by simpa using he
      subst hbb2
      subst he2
      refine ⟨?_, ?_, ?_, ?_, ?_⟩
      · rw [hu1_b]
        exact hR.2
      · rw [hu1_c, hu1_b]
      · intro hfr
        rw [hu1_c]
      · intro hboth
        have hcv : ((block_set_free t (Ptr.blk pid ob) true).mem
            (Ptr.blk pid oc)).isFree = false := by
          rw [hu1_c]
          exact hnf
        rw [hcv] at hboth
        exact Bool.noConfusion hboth.2
      · rw [hu1_b]
        show BLOCK_SIZE_MIN ≤ (t.mem (Ptr.blk pid ob)).size
        exact hR.1.2.2.2.2
    · intro hPnil a ha
      have ha2 : ob = a := by simpa using ha
      subst ha2
      rw [hu1_b]
      show (t.mem (Ptr.blk pid ob)).isPrevFree = false
      exact hpf

/-- The merge phase when only the next physical neighbour is free: the
freed block absorbs it. -/
theorem freeMerged_WF_ny (t : tlsf_s) (pid ob oc oc2 : Nat) (P S3 : List Nat)
    (hH : HeapWF t) (hC : CellsWF t [])
    (hpid : pid ∈ t.pools)
    (hchain : t.chainG pid = P ++ ob :: oc :: oc2 :: S3)
    (hused : (t.mem (Ptr.blk pid ob)).isFree = false)
    (hpf : (t.mem (Ptr.blk pid ob)).isPrevFree = false)
    (hnf : (t.mem (Ptr.blk pid oc)).isFree = true) :
    FreeMergedOK t pid (freeMerged t (Ptr.blk pid (ob + BLOCK_START_OFFSET))) := by
  have hBO : (BLOCK_OVERHEAD:Nat) = 8 := rfl
  have hpo := hH.pools_ok pid hpid
  obtain ⟨hShead, hPjoin, hPmem, hSmem⟩ := chain_mid_facts hpo hchain (by simp)
  have hchain2 : t.chainG pid = (P ++ [ob]) ++ oc :: (oc2 :: S3) := by
    rw [hchain]
    simp
  obtain ⟨hShead2, hPjoin2, hPmem2, hSmem2⟩ := chain_mid_facts hpo hchain2 (by simp)
  have hR : R t.mem pid ob oc ∧ oc = ob + (t.mem (Ptr.blk pid ob)).size + BLOCK_OVERHEAD :=
    hShead oc rfl
  have hR2 : R t.mem pid oc oc2 ∧
      oc2 = oc + (t.mem (Ptr.blk pid oc)).size + BLOCK_OVERHEAD :=
    hShead2 oc2 rfl
  have hoc2used : (t.mem (Ptr.blk pid oc2)).isFree = false := by
    by_contra hcf
    rw [Bool.not_eq_false] at hcf
    exact hR2.1.2.2.2.1 ⟨hnf, hcf⟩
  have hocpos : ob < oc := by
    have h1 := hR.2
    rw [hBO] at h1
    omega
  have hoc2pos : oc < oc2 := by
    have h1 := hR2.2
    rw [hBO] at h1
    omega
  have hnextc : block_next t.mem (Ptr.blk pid ob) = Ptr.blk pid oc := by
    rw [block_next, ptrAdd, hR.2, Nat.add_assoc]
  have hbneq : Ptr.blk pid ob ≠ block_next t.mem (Ptr.blk pid ob) := by
    rw [hnextc]
    intro hh
    injection hh with u1 u2
    omega
  have hbfp : block_from_ptr (Ptr.blk pid (ob + BLOCK_START_OFFSET)) = Ptr.blk pid ob := by
    show Ptr.blk pid (ob + BLOCK_START_OFFSET - BLOCK_START_OFFSET) = Ptr.blk pid ob
    rw [Nat.add_sub_cancel]
  have hBneC : Ptr.blk pid ob ≠ Ptr.blk pid oc := by
    intro hh
    injection hh with u1 u2
    omega
  have hBneC2 : Ptr.blk pid ob ≠ Ptr.blk pid oc2 := by
    intro hh
    injection hh with u1 u2
    omega
  have hCneC2 : Ptr.blk pid oc ≠ Ptr.blk pid oc2 := by
    intro hh
    injection hh with u1 u2
    omega
  have hBnotin : ∀ f s, Ptr.blk pid ob ∉ t.cellsG f s := by
    intro f s hmem
    obtain ⟨pid2, off2, heq, -, -, hfr, -⟩ := hC.cellMem f s _ hmem
    rw [hfr] at hused
    exact Bool.noConfusion hused
  have hu1_b : (block_set_free t (Ptr.blk pid ob) true).mem (Ptr.blk pid ob) =
      { t.mem (Ptr.blk pid ob) with isFree := true } :=
    set_free_mem_b _ _ _ hbneq
  have hu1_c : (block_set_free t (Ptr.blk pid ob) true).mem (Ptr.blk pid oc) =
      { t.mem (Ptr.blk pid oc) with prevPhys := Ptr.blk pid ob, isPrevFree := true } := by
    rw [← hnextc]
    exact set_free_mem_next _ _ _ hbneq
  have hu1_o : ∀ q, q ≠ Ptr.blk pid ob → q ≠ Ptr.blk pid oc →
      (block_set_free t (Ptr.blk pid ob) true).mem q = t.mem q := by
    intro q h1 h2
    refine set_free_mem_other _ _ _ _ h1 ?_
    rw [hnextc]
    exact h2
  have hCu1 : CellsWF (block_set_free t (Ptr.blk pid ob) true) [Ptr.blk pid ob] := by
    refine cellsWF_step hC rfl rfl rfl rfl ?_ ?_ ?_ ?_ ?_
    · intro f s q hq
      have h1 : q ≠ Ptr.blk pid ob := by
        intro hh
        exact hBnotin f s (by rw [← hh]; exact hq)
      by_cases h2 : q = Ptr.blk pid oc
      · rw [h2, hu1_c]
        exact ⟨rfl, rfl, rfl, rfl⟩
      · rw [hu1_o q h1 h2]
        exact ⟨rfl, rfl, rfl, rfl⟩
    · intro f s p2 hp2 pid2 off2 hpeq
      obtain ⟨pid3, off3, heq, hp3, ho3, -⟩ := hC.cellMem f s p2 hp2
      rw [hpeq] at heq
      injection heq with v1 v2
      subst v1
      subst v2
      exact ⟨hp3, ho3⟩
    · intro x hx
      simp at hx
    · intro x hx f s
      rcases List.mem_cons.mp hx with h1 | h1
      · rw [h1]
        exact hBnotin f s
      · simp at h1
    · intro pid2 hpid2 off2 hoff2 hfr2
      by_cases hqb : Ptr.blk pid2 off2 = Ptr.blk pid ob
      · exact Or.inl (by rw [hqb]; exact List.mem_cons_self _ _)
      · by_cases hqc : Ptr.blk pid2 off2 = Ptr.blk pid oc
        · refine Or.inr ⟨hpid2, hoff2, ?_, ?_⟩
          · rw [hqc]
            rw [hqc, hu1_c] at hfr2
            exact hfr2
          · rw [hqc, hu1_c]
        · rw [hu1_o _ hqb hqc] at hfr2
          exact Or.inr ⟨hpid2, hoff2, hfr2, by rw [hu1_o _ hqb hqc]⟩
  have hocmem : oc ∈ t.chainG pid := by
    rw [hchain]
    exact List.mem_append_right _ (List.mem_cons_of_mem _ (List.mem_cons_self _ _))
  have hCcell : Ptr.blk pid oc ∈ t.cellsG (mapping_insert (t.mem (Ptr.blk pid oc)).size).1
      (mapping_insert (t.mem (Ptr.blk pid oc)).size).2 := by
    rcases hC.complete pid hpid oc hocmem hnf with hx | hmem
    · simp at hx
    · exact hmem
  have hu1szc : ((block_set_free t (Ptr.blk pid ob) true).mem (Ptr.blk pid oc)).size = (t.mem (Ptr.blk pid oc)).size := by
    rw [hu1_c]
  have hCu2 : CellsWF (block_remove (block_set_free t (Ptr.blk pid ob) true) (Ptr.blk pid oc)) [Ptr.blk pid oc, Ptr.blk pid ob] := by
    show CellsWF (remove_free_block (block_set_free t (Ptr.blk pid ob) true) (Ptr.blk pid oc)
      (mapping_insert (((block_set_free t (Ptr.blk pid ob) true).mem (Ptr.blk pid oc)).size)).1
      (mapping_insert (((block_set_free t (Ptr.blk pid ob) true).mem (Ptr.blk pid oc)).size)).2)
      (Ptr.blk pid oc :: [Ptr.blk pid ob])
    refine remove_free_cellsWF hCu1 ?_
    rw [hu1szc]
    exact hCcell
  have hu2mem : (block_remove (block_set_free t (Ptr.blk pid ob) true) (Ptr.blk pid oc)).mem = remMem (block_set_free t (Ptr.blk pid ob) true).mem (Ptr.blk pid oc) :=
    remove_free_block_mem _ _ _ _
  have hsH12 : sameHeap (block_set_free t (Ptr.blk pid ob) true).mem (block_remove (block_set_free t (Ptr.blk pid ob) true) (Ptr.blk pid oc)).mem := by
    rw [hu2mem]
    exact remMem_sameHeap _ _
  have hu2szb : ((block_remove (block_set_free t (Ptr.blk pid ob) true) (Ptr.blk pid oc)).mem (Ptr.blk pid ob)).size = (t.mem (Ptr.blk pid ob)).size := by
    rw [(hsH12 (Ptr.blk pid ob)).1, hu1_b]
  have hu2szc : ((block_remove (block_set_free t (Ptr.blk pid ob) true) (Ptr.blk pid oc)).mem (Ptr.blk pid oc)).size = (t.mem (Ptr.blk pid oc)).size := by
    rw [(hsH12 (Ptr.blk pid oc)).1, hu1_c]
  have harith : oc2 = ob + (((block_remove (block_set_free t (Ptr.blk pid ob) true) (Ptr.blk pid oc)).mem (Ptr.blk pid ob)).size
      + ((block_remove (block_set_free t (Ptr.blk pid ob) true) (Ptr.blk pid oc)).mem (Ptr.blk pid oc)).size + BLOCK_OVERHEAD + BLOCK_OVERHEAD) := by
    rw [hu2szb, hu2szc, hBO]
    have h1 := hR.2
    have h2 := hR2.2
    rw [hBO] at h1 h2
    omega
  have hmem3 : (block_absorb (block_remove (block_set_free t (Ptr.blk pid ob) true) (Ptr.blk pid oc)) (Ptr.blk pid ob) (Ptr.blk pid oc)).2.mem =
      updHdr (updHdr (block_remove (block_set_free t (Ptr.blk pid ob) true) (Ptr.blk pid oc)).mem (Ptr.blk pid ob) (fun h =>
        { h with size := h.size + ((block_remove (block_set_free t (Ptr.blk pid ob) true) (Ptr.blk pid oc)).mem (Ptr.blk pid oc)).size + BLOCK_OVERHEAD }))
        (Ptr.blk pid oc2) (fun h => { h with prevPhys := Ptr.blk pid ob }) :=
    block_absorb_mem _ pid ob oc oc2 harith
  have hu3_of : ∀ q, q ≠ Ptr.blk pid ob → q ≠ Ptr.blk pid oc2 →
      (block_absorb (block_remove (block_set_free t (Ptr.blk pid ob) true) (Ptr.blk pid oc)) (Ptr.blk pid ob) (Ptr.blk pid oc)).2.mem q = (block_remove (block_set_free t (Ptr.blk pid ob) true) (Ptr.blk pid oc)).mem q := by
    intro q h1 h2
    rw [hmem3, updHdr_other _ _ _ _ h2, updHdr_other _ _ _ _ h1]
  have hu3_c2 : (block_absorb (block_remove (block_set_free t (Ptr.blk pid ob) true) (Ptr.blk pid oc)) (Ptr.blk pid ob) (Ptr.blk pid oc)).2.mem (Ptr.blk pid oc2) =
      { (block_remove (block_set_free t (Ptr.blk pid ob) true) (Ptr.blk pid oc)).mem (Ptr.blk pid oc2) with prevPhys := Ptr.blk pid ob } := by
    rw [hmem3, updHdr_same, updHdr_other _ _ _ _ (fun hh => hBneC2 hh.symm)]
  have hu3_b : (block_absorb (block_remove (block_set_free t (Ptr.blk pid ob) true) (Ptr.blk pid oc)) (Ptr.blk pid ob) (Ptr.blk pid oc)).2.mem (Ptr.blk pid ob) =
      { (block_remove (block_set_free t (Ptr.blk pid ob) true) (Ptr.blk pid oc)).mem (Ptr.blk pid ob) with size := ((block_remove (block_set_free t (Ptr.blk pid ob) true) (Ptr.blk pid oc)).mem (Ptr.blk pid ob)).size
        + ((block_remove (block_set_free t (Ptr.blk pid ob) true) (Ptr.blk pid oc)).mem (Ptr.blk pid oc)).size + BLOCK_OVERHEAD } := by
    rw [hmem3, updHdr_other _ _ _ _ hBneC2, updHdr_same]
  have hndchain : (t.chainG pid).Nodup := chain_nodup (chain_sorted hpo.2.2.1)
  have hu2chain : (block_remove (block_set_free t (Ptr.blk pid ob) true) (Ptr.blk pid oc)).chainG = t.chainG := by
    rw [chainG_block_remove, chainG_set_free]
  have hu2pools : (block_remove (block_set_free t (Ptr.blk pid ob) true) (Ptr.blk pid oc)).pools = t.pools := by
    rw [pools_block_remove, pools_set_free]
  have hCu3 : CellsWF (block_absorb (block_remove (block_set_free t (Ptr.blk pid ob) true) (Ptr.blk pid oc)) (Ptr.blk pid ob) (Ptr.blk pid oc)).2 [Ptr.blk pid oc, Ptr.blk pid ob] := by
    refine cellsWF_step hCu2 (cellsG_absorb _ _ _) (blocks_absorb _ _ _)
      (flBitmap_absorb _ _ _) (slBitmap_absorb _ _ _) ?_ ?_ ?_ ?_ ?_
    · intro f s q hq
      have h1 : q ≠ Ptr.blk pid oc := by
        intro hh
        exact hCu2.exempt _ (List.mem_cons_self _ _) f s (hh ▸ hq)
      have h2 : q ≠ Ptr.blk pid ob := by
        intro hh
        exact hCu2.exempt _ (List.mem_cons_of_mem _ (List.mem_cons_self _ _)) f s
          (hh ▸ hq)
      refine ⟨?_, ?_, (block_absorb_links _ _ _ q).1, (block_absorb_links _ _ _ q).2⟩
      · by_cases h3 : q = Ptr.blk pid oc2
        · rw [h3, hu3_c2]
        · rw [hu3_of q h2 h3]
      · by_cases h3 : q = Ptr.blk pid oc2
        · rw [h3, hu3_c2]
        · rw [hu3_of q h2 h3]
    · intro f s p2 hp2 pid2 off2 hpeq
      obtain ⟨pid3, off3, heq, hp3, ho3, -⟩ := hCu2.cellMem f s p2 hp2
      rw [hpeq] at heq
      injection heq with v1 v2
      subst v1
      subst v2
      constructor
      · rw [pools_absorb]
        exact hp3
      · rw [chainG_absorb]
        by_cases hp4 : pid2 = pid
        · rw [hp4, upd1_same]
          have hne : off2 ≠ oc := by
            intro hh
            apply hCu2.exempt (Ptr.blk pid oc) (List.mem_cons_self _ _) f s
            have hpc : p2 = Ptr.blk pid oc := by rw [hpeq, hp4, hh]
            exact hpc ▸ hp2
          exact (List.mem_erase_of_ne hne).mpr (hp4 ▸ ho3)
        · rw [upd1_other _ _ _ _ hp4]
          exact ho3
    · intro x hx
      exact Or.inl hx
    · intro x hx f s
      exact hCu2.exempt x hx f s
    · intro pid2 hpid2 off2 hoff2 hfr2
      rw [pools_absorb] at hpid2
      rw [chainG_absorb] at hoff2
      by_cases hqb : Ptr.blk pid2 off2 = Ptr.blk pid ob
      · exact Or.inl (by rw [hqb]; exact List.mem_cons_of_mem _ (List.mem_cons_self _ _))
      · by_cases hp4 : pid2 = pid
        · rw [hp4] at hpid2 hoff2 hfr2 hqb ⊢
          rw [upd1_same] at hoff2
          have hnd2 : ((block_remove (block_set_free t (Ptr.blk pid ob) true) (Ptr.blk pid oc)).chainG pid).Nodup := by
            rw [hu2chain]
            exact hndchain
          have hne : off2 ≠ oc := ((hnd2.mem_erase_iff).mp hoff2).1
          have hoff2b : off2 ∈ (block_remove (block_set_free t (Ptr.blk pid ob) true) (Ptr.blk pid oc)).chainG pid := List.mem_of_mem_erase hoff2
          have hqc : Ptr.blk pid off2 ≠ Ptr.blk pid oc := by
            intro hh
            injection hh with v1 v2
            exact hne v2
          have hiso : ((block_absorb (block_remove (block_set_free t (Ptr.blk pid ob) true) (Ptr.blk pid oc)) (Ptr.blk pid ob) (Ptr.blk pid oc)).2.mem (Ptr.blk pid off2)).isFree =
              ((block_remove (block_set_free t (Ptr.blk pid ob) true) (Ptr.blk pid oc)).mem (Ptr.blk pid off2)).isFree ∧
              ((block_absorb (block_remove (block_set_free t (Ptr.blk pid ob) true) (Ptr.blk pid oc)) (Ptr.blk pid ob) (Ptr.blk pid oc)).2.mem (Ptr.blk pid off2)).size = ((block_remove (block_set_free t (Ptr.blk pid ob) true) (Ptr.blk pid oc)).mem (Ptr.blk pid off2)).size := by
            by_cases h3 : Ptr.blk pid off2 = Ptr.blk pid oc2
            · rw [h3, hu3_c2]
              exact ⟨rfl, rfl⟩
            · rw [hu3_of _ hqb h3]
              exact ⟨rfl, rfl⟩
          rw [hiso.1] at hfr2
          exact Or.inr ⟨hpid2, hoff2b, hfr2, hiso.2⟩
        · rw [upd1_other _ _ _ _ hp4] at hoff2
          have h3 : Ptr.blk pid2 off2 ≠ Ptr.blk pid oc2 := by
            intro hh
            injection hh with v1 v2
            exact hp4 v1
          rw [hu3_of _ hqb h3] at hfr2
          exact Or.inr ⟨hpid2, hoff2, hfr2, by rw [hu3_of _ hqb h3]⟩
  have hcond : ((block_set_free t (Ptr.blk pid ob) true).mem (block_next (block_set_free t (Ptr.blk pid ob) true).mem (Ptr.blk pid ob))).isFree = true := by
    have hu1nextc : block_next (block_set_free t (Ptr.blk pid ob) true).mem (Ptr.blk pid ob) = Ptr.blk pid oc := by
      rw [block_next, hu1_b]
      show Ptr.blk pid (ob + ((t.mem (Ptr.blk pid ob)).size + BLOCK_OVERHEAD)) =
        Ptr.blk pid oc
      rw [hR.2, Nat.add_assoc]
    rw [hu1nextc, hu1_c]
    exact hnf
  have hu1nextc : block_next (block_set_free t (Ptr.blk pid ob) true).mem (Ptr.blk pid ob) = Ptr.blk pid oc := by
    rw [block_next, hu1_b]
    show Ptr.blk pid (ob + ((t.mem (Ptr.blk pid ob)).size + BLOCK_OVERHEAD)) =
      Ptr.blk pid oc
    rw [hR.2, Nat.add_assoc]
  have hmp : block_merge_prev (block_set_free t (Ptr.blk pid ob) true) (Ptr.blk pid ob) = (Ptr.blk pid ob, (block_set_free t (Ptr.blk pid ob) true)) :=
    block_merge_prev_no _ _ (by rw [hu1_b]; exact hpf)
  have hfm : freeMerged t (Ptr.blk pid (ob + BLOCK_START_OFFSET)) =
      block_absorb (block_remove (block_set_free t (Ptr.blk pid ob) true) (Ptr.blk pid oc)) (Ptr.blk pid ob) (Ptr.blk pid oc) := by
    unfold freeMerged
    simp only []
    rw [hbfp, hmp]
    show block_merge_next (block_set_free t (Ptr.blk pid ob) true) (Ptr.blk pid ob) = _
    rw [block_merge_next_yes _ _ hcond, hu1nextc]
  rw [hfm]
  have hu3chain : (block_absorb (block_remove (block_set_free t (Ptr.blk pid ob) true) (Ptr.blk pid oc)) (Ptr.blk pid ob) (Ptr.blk pid oc)).2.chainG pid =
      P ++ ob :: oc2 :: S3 := by
    rw [chainG_absorb, upd1_same, hu2chain, hchain, List.append_cons,
      erase_append_notin]
    · simp
    · intro hmem
      rcases List.mem_append.mp hmem with h1 | h1
      · have h2 := hPmem oc h1
        omega
      · rcases List.mem_cons.mp h1 with h2 | h2
        · omega
        · simp at h2
  have hu3pools : (block_absorb (block_remove (block_set_free t (Ptr.blk pid ob) true) (Ptr.blk pid oc)) (Ptr.blk pid ob) (Ptr.blk pid oc)).2.pools = t.pools := by
    rw [pools_absorb, hu2pools]
  have hCu3R : CellsWF (block_absorb (block_remove (block_set_free t (Ptr.blk pid ob) true) (Ptr.blk pid oc)) (Ptr.blk pid ob) (Ptr.blk pid oc)).2 [Ptr.blk pid ob, Ptr.blk pid oc] := by
    refine cellsWF_reorder hCu3 ?_ ?_ <;>
    · intro x hx
      rcases List.mem_cons.mp hx with h1 | h1
      · rw [h1]
        simp
      · rcases List.mem_cons.mp h1 with h2 | h2
        · rw [h2]
          simp
        · simp at h2
  have hocnotchain : oc ∉ P ++ ob :: oc2 :: S3 := by
    intro hmem
    rcases List.mem_append.mp hmem with h1 | h1
    · have h2 := hPmem oc h1
      omega
    · rcases List.mem_cons.mp h1 with h2 | h2
      · omega
      · rcases List.mem_cons.mp h2 with h3 | h3
        · omega
        · have h4 := hSmem2 oc (List.mem_cons_of_mem _ h3)
          rw [hBO] at h4
          omega
  refine ⟨ob, [Ptr.blk pid oc], P, oc2 :: S3, rfl, ?_, hCu3R, by rw [hu3pools]; exact hpid,
    hu3chain, hPmem, by simp, ?_, ?_, by simp [hBneC]⟩
  · -- heap side
    refine heapWF_one_pool hH pid hu3pools ?_ ?_ ?_ ?_
    · rw [nextPid_absorb, nextPid_block_remove, nextPid_set_free]
    · intro p hp
      rw [chainG_absorb, upd1_other _ _ _ _ hp, hu2chain]
    · intro p hp hppid off hoff
      have h1 : Ptr.blk p off ≠ Ptr.blk pid ob := by
        intro hh
        injection hh with v1 v2
        exact hppid v1
      have h2 : Ptr.blk p off ≠ Ptr.blk pid oc := by
        intro hh
        injection hh with v1 v2
        exact hppid v1
      have h3 : Ptr.blk p off ≠ Ptr.blk pid oc2 := by
        intro hh
        injection hh with v1 v2
        exact hppid v1
      have e1 := hu3_of _ h1 h3
      have e2 := hsH12 (Ptr.blk p off)
      have e3 := hu1_o _ h1 h2
      rw [e1, e2.1, e2.2.1, e2.2.2.1, e2.2.2.2, e3]
      exact ⟨rfl, rfl, rfl, rfl⟩
    · intro hfpid
      rw [hu3chain]
      show PoolOK (block_absorb (block_remove (block_set_free t (Ptr.blk pid ob) true) (Ptr.blk pid oc)) (Ptr.blk pid ob) (Ptr.blk pid oc)).2.mem pid
        (P ++ ob :: oc2 :: S3)
      have hpo2 : PoolOK t.mem pid (P ++ [ob, oc] ++ (oc2 :: S3)) := by
        rw [show P ++ [ob, oc] ++ (oc2 :: S3) = P ++ ob :: oc :: oc2 :: S3 from by simp,
          ← hchain]
        exact hpo
      rw [show P ++ ob :: oc2 :: S3 = P ++ [ob] ++ (oc2 :: S3) from by simp]
      have hfieldsB : ((block_absorb (block_remove (block_set_free t (Ptr.blk pid ob) true) (Ptr.blk pid oc)) (Ptr.blk pid ob) (Ptr.blk pid oc)).2.mem
          (Ptr.blk pid ob)).size = (t.mem (Ptr.blk pid ob)).size
            + (t.mem (Ptr.blk pid oc)).size + BLOCK_OVERHEAD ∧
          ((block_absorb (block_remove (block_set_free t (Ptr.blk pid ob) true) (Ptr.blk pid oc)) (Ptr.blk pid ob) (Ptr.blk pid oc)).2.mem
            (Ptr.blk pid ob)).isFree = true ∧
          ((block_absorb (block_remove (block_set_free t (Ptr.blk pid ob) true) (Ptr.blk pid oc)) (Ptr.blk pid ob) (Ptr.blk pid oc)).2.mem
            (Ptr.blk pid ob)).isPrevFree = (t.mem (Ptr.blk pid ob)).isPrevFree := by
        rw [hu3_b]
        refine ⟨?_, ?_, ?_⟩
        · show ((block_remove (block_set_free t (Ptr.blk pid ob) true) (Ptr.blk pid oc)).mem (Ptr.blk pid ob)).size + ((block_remove (block_set_free t (Ptr.blk pid ob) true) (Ptr.blk pid oc)).mem (Ptr.blk pid oc)).size
            + BLOCK_OVERHEAD = _
          rw [hu2szb, hu2szc]
        · show ((block_remove (block_set_free t (Ptr.blk pid ob) true) (Ptr.blk pid oc)).mem (Ptr.blk pid ob)).isFree = true
          rw [(hsH12 _).2.1, hu1_b]
        · show ((block_remove (block_set_free t (Ptr.blk pid ob) true) (Ptr.blk pid oc)).mem (Ptr.blk pid ob)).isPrevFree = _
          rw [(hsH12 _).2.2.1, hu1_b]
      have hfieldsC2 : ∀ q, q = Ptr.blk pid oc2 →
          ((block_absorb (block_remove (block_set_free t (Ptr.blk pid ob) true) (Ptr.blk pid oc)) (Ptr.blk pid ob) (Ptr.blk pid oc)).2.mem q).size
            = (t.mem q).size ∧
          ((block_absorb (block_remove (block_set_free t (Ptr.blk pid ob) true) (Ptr.blk pid oc)) (Ptr.blk pid ob) (Ptr.blk pid oc)).2.mem q).isFree
            = (t.mem q).isFree ∧
          ((block_absorb (block_remove (block_set_free t (Ptr.blk pid ob) true) (Ptr.blk pid oc)) (Ptr.blk pid ob) (Ptr.blk pid oc)).2.mem q).isPrevFree
            = (t.mem q).isPrevFree ∧
          ((block_absorb (block_remove (block_set_free t (Ptr.blk pid ob) true) (Ptr.blk pid oc)) (Ptr.blk pid ob) (Ptr.blk pid oc)).2.mem q).prevPhys
            = Ptr.blk pid ob := by
        intro q hq
        subst hq
        rw [hu3_c2]
        have e2 := hsH12 (Ptr.blk pid oc2)
        have e3 := hu1_o (Ptr.blk pid oc2) (fun hh => hBneC2 hh.symm)
          (fun hh => hCneC2 hh.symm)
        refine ⟨?_, ?_, ?_, rfl⟩
        · show ((block_remove (block_set_free t (Ptr.blk pid ob) true) (Ptr.blk pid oc)).mem (Ptr.blk pid oc2)).size = _
          rw [e2.1, e3]
        · show ((block_remove (block_set_free t (Ptr.blk pid ob) true) (Ptr.blk pid oc)).mem (Ptr.blk pid oc2)).isFree = _
          rw [e2.2.1, e3]
        · show ((block_remove (block_set_free t (Ptr.blk pid ob) true) (Ptr.blk pid oc)).mem (Ptr.blk pid oc2)).isPrevFree = _
          rw [e2.2.2.1, e3]
      have hfieldso : ∀ q, q ≠ Ptr.blk pid ob → q ≠ Ptr.blk pid oc →
          q ≠ Ptr.blk pid oc2 →
          (((block_absorb (block_remove (block_set_free t (Ptr.blk pid ob) true) (Ptr.blk pid oc)) (Ptr.blk pid ob) (Ptr.blk pid oc)).2.mem q).size = (t.mem q).size ∧
           ((block_absorb (block_remove (block_set_free t (Ptr.blk pid ob) true) (Ptr.blk pid oc)) (Ptr.blk pid ob) (Ptr.blk pid oc)).2.mem q).isFree = (t.mem q).isFree ∧
           ((block_absorb (block_remove (block_set_free t (Ptr.blk pid ob) true) (Ptr.blk pid oc)) (Ptr.blk pid ob) (Ptr.blk pid oc)).2.mem q).isPrevFree = (t.mem q).isPrevFree ∧
           ((block_absorb (block_remove (block_set_free t (Ptr.blk pid ob) true) (Ptr.blk pid oc)) (Ptr.blk pid ob) (Ptr.blk pid oc)).2.mem q).prevPhys = (t.mem q).prevPhys) := by
        intro q h1 h2 h3
        have e1 := hu3_of _ h1 h3
        have e2 := hsH12 q
        have e3 := hu1_o _ h1 h2
        rw [e1, e2.1, e2.2.1, e2.2.2.1, e2.2.2.2, e3]
        exact ⟨rfl, rfl, rfl, rfl⟩
      have hfieldsB4 : ((block_absorb (block_remove (block_set_free t (Ptr.blk pid ob) true) (Ptr.blk pid oc)) (Ptr.blk pid ob) (Ptr.blk pid oc)).2.mem (Ptr.blk pid ob)).prevPhys =
          (t.mem (Ptr.blk pid ob)).prevPhys := by
        rw [hu3_b]
        show ((block_remove (block_set_free t (Ptr.blk pid ob) true) (Ptr.blk pid oc)).mem (Ptr.blk pid ob)).prevPhys = _
        rw [(hsH12 _).2.2.2, hu1_b]
      have hBM : (BLOCK_SIZE_MIN:Nat) = 24 := rfl
      refine poolOK_replace hpo2 (by simp) (by simp) (by simp) rfl ?_ ?_ ?_ ?_ ?_ ?_ ?_
      · intro off hoff
        have hlt := hPmem off hoff
        refine hfieldso (Ptr.blk pid off) ?_ ?_ ?_ <;>
        · intro hh
          injection hh with v1 v2
          omega
      · intro off hoff
        by_cases hoc2e : off = oc2
        · rw [hoc2e]
          have hf := hfieldsC2 (Ptr.blk pid oc2) rfl
          exact ⟨hf.1, hf.2.1⟩
        · have hge := hSmem2 off hoff
          rw [hBO] at hge
          have hf := hfieldso (Ptr.blk pid off)
            (by intro hh; injection hh with v1 v2; omega)
            (by intro hh; injection hh with v1 v2; omega)
            (by intro hh; injection hh with v1 v2; exact hoc2e v2)
          exact ⟨hf.1, hf.2.1⟩
      · intro off hoff
        simp only [List.tail_cons] at hoff
        have hoc2notS3 : oc2 ∉ S3 := by
          rw [hchain2] at hndchain
          rw [List.nodup_append] at hndchain
          exact (List.nodup_cons.mp (List.nodup_cons.mp hndchain.2.1).2).1
        have hge := hSmem2 off (List.mem_cons_of_mem _ hoff)
        rw [hBO] at hge
        have hf := hfieldso (Ptr.blk pid off)
          (by intro hh; injection hh with v1 v2; omega)
          (by intro hh; injection hh with v1 v2; omega)
          (by intro hh; injection hh with v1 v2; exact hoc2notS3 (v2 ▸ hoff))
        exact ⟨hf.2.2.1, hf.2.2.2⟩
      · exact List.chain'_singleton _
      · intro p hp a ha
        have ha2 : ob = a := by simpa using ha
        subst ha2
        have hRold : R t.mem pid p ob := hPjoin p hp
        have hplt := hPmem p (mem_of_getLast? hp)
        have hfp := hfieldso (Ptr.blk pid p)
          (by intro hh; injection hh with v1 v2; omega)
          (by intro hh; injection hh with v1 v2; omega)
          (by intro hh; injection hh with v1 v2; omega)
        refine ⟨?_, ?_, ?_, ?_, ?_⟩
        · rw [hfp.1]
          exact hRold.1
        · rw [hfieldsB.2.2, hfp.2.1]
          exact hRold.2.1
        · intro hfr
          rw [hfp.2.1] at hfr
          rw [hfieldsB4]
          exact hRold.2.2.1 hfr
        · intro hboth
          have hfree_p : (t.mem (Ptr.blk pid p)).isFree = true := by
            rw [← hfp.2.1]
            exact hboth.1
          rw [← hRold.2.1, hpf] at hfree_p
          exact Bool.noConfusion hfree_p
        · rw [hfp.1]
          exact hRold.2.2.2.2
      · intro bb hbb e he
        have hbb2 : ob = bb := by simpa using hbb
        have he2 : oc2 = e := by simpa using he
        subst hbb2
        subst he2
        refine ⟨?_, ?_, ?_, ?_, ?_⟩
        · rw [hfieldsB.1]
          have h1 := hR.2
          have h2 := hR2.2
          rw [hBO] at h1 h2 ⊢
          omega
        · rw [(hfieldsC2 _ rfl).2.2.1, hfieldsB.2.1, hR2.1.2.1, hnf]
        · intro hfr
          exact (hfieldsC2 _ rfl).2.2.2
        · intro hboth
          have hcv := hboth.2
          rw [(hfieldsC2 _ rfl).2.1, hoc2used] at hcv
          exact Bool.noConfusion hcv
        · rw [hfieldsB.1]
          have h1 := hR.1.2.2.2.2
          rw [hBM] at h1 ⊢
          rw [hBO]
          omega
      · intro hPnil a ha
        have ha2 : ob = a := by simpa using ha
        subst ha2
        rw [hfieldsB.2.2]
        exact hpf
  · rw [hu3_b]
    show ((block_remove (block_set_free t (Ptr.blk pid ob) true) (Ptr.blk pid oc)).mem (Ptr.blk pid ob)).isFree = true
    rw [(hsH12 _).2.1, hu1_b]
  · intro x hx pid2 hpid2 off2 hoff2
    rcases List.mem_cons.mp hx with h1 | h1
    · rw [h1]
      intro hh
      injection hh with v1 v2
      subst v1
      rw [hu3chain] at hoff2
      rw [v2] at hoff2
      exact hocnotchain hoff2
    · simp at h1

/-- The merge phase when only the previous physical neighbour is free: the
freed block is absorbed into it. -/
theorem freeMerged_WF_yn (t : tlsf_s) (pid oa ob oc : Nat) (P2 S2 : List Nat)
    (hH : HeapWF t) (hC : CellsWF t [])
    (hpid : pid ∈ t.pools)
    (hchain : t.chainG pid = P2 ++ oa :: ob :: oc :: S2)
    (hused : (t.mem (Ptr.blk pid ob)).isFree = false)
    (hpf : (t.mem (Ptr.blk pid ob)).isPrevFree = true)
    (hnf : (t.mem (Ptr.blk pid oc)).isFree = false) :
    FreeMergedOK t pid (freeMerged t (Ptr.blk pid (ob + BLOCK_START_OFFSET))) := by
  have hBO : (BLOCK_OVERHEAD:Nat) = 8 := rfl
  have hpo := hH.pools_ok pid hpid
  have hchainb : t.chainG pid = (P2 ++ [oa]) ++ ob :: oc :: S2 := by
    rw [hchain]
    simp
  obtain ⟨hShead, hPjoin, hPmem, hSmem⟩ := chain_mid_facts hpo hchainb (by simp)
  obtain ⟨hSheada, hPjoina, hPmema, hSmema⟩ := chain_mid_facts hpo hchain (by simp)
  have hRbc : R t.mem pid ob oc ∧ oc = ob + (t.mem (Ptr.blk pid ob)).size + BLOCK_OVERHEAD :=
    hShead oc rfl
  have hRab : R t.mem pid oa ob ∧
      ob = oa + (t.mem (Ptr.blk pid oa)).size + BLOCK_OVERHEAD :=
    hSheada ob rfl
  have haf : (t.mem (Ptr.blk pid oa)).isFree = true := by
    rw [← hRab.1.2.1]
    exact hpf
  have hprevB : (t.mem (Ptr.blk pid ob)).prevPhys = Ptr.blk pid oa :=
    hRab.1.2.2.1 haf
  have hoapos : oa < ob := by
    have h1 := hRab.2
    rw [hBO] at h1
    omega
  have hocpos : ob < oc := by
    have h1 := hRbc.2
    rw [hBO] at h1
    omega
  have hnextc : block_next t.mem (Ptr.blk pid ob) = Ptr.blk pid oc := by
    rw [block_next, ptrAdd, hRbc.2, Nat.add_assoc]
  have hbneq : Ptr.blk pid ob ≠ block_next t.mem (Ptr.blk pid ob) := by
    rw [hnextc]
    intro hh
    injection hh with u1 u2
    omega
  have hbfp : block_from_ptr (Ptr.blk pid (ob + BLOCK_START_OFFSET)) = Ptr.blk pid ob := by
    show Ptr.blk pid (ob + BLOCK_START_OFFSET - BLOCK_START_OFFSET) = Ptr.blk pid ob
    rw [Nat.add_sub_cancel]
  have hAneB : Ptr.blk pid oa ≠ Ptr.blk pid ob := by
    intro hh
    injection hh with u1 u2
    omega
  have hAneC : Ptr.blk pid oa ≠ Ptr.blk pid oc := by
    intro hh
    injection hh with u1 u2
    omega
  have hBneC : Ptr.blk pid ob ≠ Ptr.blk pid oc := by
    intro hh
    injection hh with u1 u2
    omega
  have hBnotin : ∀ f s, Ptr.blk pid ob ∉ t.cellsG f s := by
    intro f s hmem
    obtain ⟨pid2, off2, heq, -, -, hfr, -⟩ := hC.cellMem f s _ hmem
    rw [hfr] at hused
    exact Bool.noConfusion hused
  have hu1_b : (block_set_free t (Ptr.blk pid ob) true).mem (Ptr.blk pid ob) =
      { t.mem (Ptr.blk pid ob) with isFree := true } :=
    set_free_mem_b _ _ _ hbneq
  have hu1_c : (block_set_free t (Ptr.blk pid ob) true).mem (Ptr.blk pid oc) =
      { t.mem (Ptr.blk pid oc) with prevPhys := Ptr.blk pid ob, isPrevFree := true } := by
    rw [← hnextc]
    exact set_free_mem_next _ _ _ hbneq
  have hu1_o : ∀ q, q ≠ Ptr.blk pid ob → q ≠ Ptr.blk pid oc →
      (block_set_free t (Ptr.blk pid ob) true).mem q = t.mem q := by
    intro q h1 h2
    refine set_free_mem_other _ _ _ _ h1 ?_
    rw [hnextc]
    exact h2
  have hCu1 : CellsWF (block_set_free t (Ptr.blk pid ob) true) [Ptr.blk pid ob] := by
    refine cellsWF_step hC rfl rfl rfl rfl ?_ ?_ ?_ ?_ ?_
    · intro f s q hq
      have h1 : q ≠ Ptr.blk pid ob := by
        intro hh
        exact hBnotin f s (by rw [← hh]; exact hq)
      by_cases h2 : q = Ptr.blk pid oc
      · rw [h2, hu1_c]
        exact ⟨rfl, rfl, rfl, rfl⟩
      · rw [hu1_o q h1 h2]
        exact ⟨rfl, rfl, rfl, rfl⟩
    · intro f s p2 hp2 pid2 off2 hpeq
      obtain ⟨pid3, off3, heq, hp3, ho3, -⟩ := hC.cellMem f s p2 hp2
      rw [hpeq] at heq
      injection heq with v1 v2
      subst v1
      subst v2
      exact ⟨hp3, ho3⟩
    · intro x hx
      simp at hx
    · intro x hx f s
      rcases List.mem_cons.mp hx with h1 | h1
      · rw [h1]
        exact hBnotin f s
      · simp at h1
    · intro pid2 hpid2 off2 hoff2 hfr2
      by_cases hqb : Ptr.blk pid2 off2 = Ptr.blk pid ob
      · exact Or.inl (by rw [hqb]; exact List.mem_cons_self _ _)
      · by_cases hqc : Ptr.blk pid2 off2 = Ptr.blk pid oc
        · refine Or.inr ⟨hpid2, hoff2, ?_, ?_⟩
          · rw [hqc]
            rw [hqc, hu1_c] at hfr2
            exact hfr2
          · rw [hqc, hu1_c]
        · rw [hu1_o _ hqb hqc] at hfr2
          exact Or.inr ⟨hpid2, hoff2, hfr2, by rw [hu1_o _ hqb hqc]⟩
  have hoamem : oa ∈ t.chainG pid := by
    rw [hchain]
    exact List.mem_append_right _ (List.mem_cons_self _ _)
  have hAcell : Ptr.blk pid oa ∈ t.cellsG (mapping_insert (t.mem (Ptr.blk pid oa)).size).1
      (mapping_insert (t.mem (Ptr.blk pid oa)).size).2 := by
    rcases hC.complete pid hpid oa hoamem haf with hx | hmem
    · simp at hx
    · exact hmem
  have hu1sza : ((block_set_free t (Ptr.blk pid ob) true).mem (Ptr.blk pid oa)).size = (t.mem (Ptr.blk pid oa)).size := by
    rw [hu1_o _ hAneB hAneC]
  have hCu2 : CellsWF (block_remove (block_set_free t (Ptr.blk pid ob) true) (Ptr.blk pid oa)) [Ptr.blk pid oa, Ptr.blk pid ob] := by
    show CellsWF (remove_free_block (block_set_free t (Ptr.blk pid ob) true) (Ptr.blk pid oa)
      (mapping_insert (((block_set_free t (Ptr.blk pid ob) true).mem (Ptr.blk pid oa)).size)).1
      (mapping_insert (((block_set_free t (Ptr.blk pid ob) true).mem (Ptr.blk pid oa)).size)).2)
      (Ptr.blk pid oa :: [Ptr.blk pid ob])
    refine remove_free_cellsWF hCu1 ?_
    rw [hu1sza]
    exact hAcell
  have hu2mem : (block_remove (block_set_free t (Ptr.blk pid ob) true) (Ptr.blk pid oa)).mem = remMem (block_set_free t (Ptr.blk pid ob) true).mem (Ptr.blk pid oa) :=
    remove_free_block_mem _ _ _ _
  have hsH12 : sameHeap (block_set_free t (Ptr.blk pid ob) true).mem (block_remove (block_set_free t (Ptr.blk pid ob) true) (Ptr.blk pid oa)).mem := by
    rw [hu2mem]
    exact remMem_sameHeap _ _
  have hu2sza : ((block_remove (block_set_free t (Ptr.blk pid ob) true) (Ptr.blk pid oa)).mem (Ptr.blk pid oa)).size = (t.mem (Ptr.blk pid oa)).size := by
    rw [(hsH12 (Ptr.blk pid oa)).1, hu1sza]
  have hu2szb : ((block_remove (block_set_free t (Ptr.blk pid ob) true) (Ptr.blk pid oa)).mem (Ptr.blk pid ob)).size = (t.mem (Ptr.blk pid ob)).size := by
    rw [(hsH12 (Ptr.blk pid ob)).1, hu1_b]
  have harith : oc = oa + (((block_remove (block_set_free t (Ptr.blk pid ob) true) (Ptr.blk pid oa)).mem (Ptr.blk pid oa)).size
      + ((block_remove (block_set_free t (Ptr.blk pid ob) true) (Ptr.blk pid oa)).mem (Ptr.blk pid ob)).size + BLOCK_OVERHEAD + BLOCK_OVERHEAD) := by
    rw [hu2sza, hu2szb, hBO]
    have h1 := hRab.2
    have h2 := hRbc.2
    rw [hBO] at h1 h2
    omega
  have hmem3 : (block_absorb (block_remove (block_set_free t (Ptr.blk pid ob) true) (Ptr.blk pid oa)) (Ptr.blk pid oa) (Ptr.blk pid ob)).2.mem =
      updHdr (updHdr (block_remove (block_set_free t (Ptr.blk pid ob) true) (Ptr.blk pid oa)).mem (Ptr.blk pid oa) (fun h =>
        { h with size := h.size + ((block_remove (block_set_free t (Ptr.blk pid ob) true) (Ptr.blk pid oa)).mem (Ptr.blk pid ob)).size + BLOCK_OVERHEAD }))
        (Ptr.blk pid oc) (fun h => { h with prevPhys := Ptr.blk pid oa }) :=
    block_absorb_mem _ pid oa ob oc harith
  have hu3_of : ∀ q, q ≠ Ptr.blk pid oa → q ≠ Ptr.blk pid oc →
      (block_absorb (block_remove (block_set_free t (Ptr.blk pid ob) true) (Ptr.blk pid oa)) (Ptr.blk pid oa) (Ptr.blk pid ob)).2.mem q = (block_remove (block_set_free t (Ptr.blk pid ob) true) (Ptr.blk pid oa)).mem q := by
    intro q h1 h2
    rw [hmem3, updHdr_other _ _ _ _ h2, updHdr_other _ _ _ _ h1]
  have hu3_c : (block_absorb (block_remove (block_set_free t (Ptr.blk pid ob) true) (Ptr.blk pid oa)) (Ptr.blk pid oa) (Ptr.blk pid ob)).2.mem (Ptr.blk pid oc) =
      { (block_remove (block_set_free t (Ptr.blk pid ob) true) (Ptr.blk pid oa)).mem (Ptr.blk pid oc) with prevPhys := Ptr.blk pid oa } := by
    rw [hmem3, updHdr_same, updHdr_other _ _ _ _ (fun hh => hAneC hh.symm)]
  have hu3_a : (block_absorb (block_remove (block_set_free t (Ptr.blk pid ob) true) (Ptr.blk pid oa)) (Ptr.blk pid oa) (Ptr.blk pid ob)).2.mem (Ptr.blk pid oa) =
      { (block_remove (block_set_free t (Ptr.blk pid ob) true) (Ptr.blk pid oa)).mem (Ptr.blk pid oa) with size := ((block_remove (block_set_free t (Ptr.blk pid ob) true) (Ptr.blk pid oa)).mem (Ptr.blk pid oa)).size
        + ((block_remove (block_set_free t (Ptr.blk pid ob) true) (Ptr.blk pid oa)).mem (Ptr.blk pid ob)).size + BLOCK_OVERHEAD } := by
    rw [hmem3, updHdr_other _ _ _ _ hAneC, updHdr_same]
  have hndchain : (t.chainG pid).Nodup := chain_nodup (chain_sorted hpo.2.2.1)
  have hu2chain : (block_remove (block_set_free t (Ptr.blk pid ob) true) (Ptr.blk pid oa)).chainG = t.chainG := by
    rw [chainG_block_remove, chainG_set_free]
  have hu2pools : (block_remove (block_set_free t (Ptr.blk pid ob) true) (Ptr.blk pid oa)).pools = t.pools := by
    rw [pools_block_remove, pools_set_free]
  have hCu3 : CellsWF (block_absorb (block_remove (block_set_free t (Ptr.blk pid ob) true) (Ptr.blk pid oa)) (Ptr.blk pid oa) (Ptr.blk pid ob)).2 [Ptr.blk pid oa, Ptr.blk pid ob] := by
    refine cellsWF_step hCu2 (cellsG_absorb _ _ _) (blocks_absorb _ _ _)
      (flBitmap_absorb _ _ _) (slBitmap_absorb _ _ _) ?_ ?_ ?_ ?_ ?_
    · intro f s q hq
      have h1 : q ≠ Ptr.blk pid oa := by
        intro hh
        exact hCu2.exempt _ (List.mem_cons_self _ _) f s (hh ▸ hq)
      have h2 : q ≠ Ptr.blk pid ob := by
        intro hh
        exact hCu2.exempt _ (List.mem_cons_of_mem _ (List.mem_cons_self _ _)) f s
          (hh ▸ hq)
      refine ⟨?_, ?_, (block_absorb_links _ _ _ q).1, (block_absorb_links _ _ _ q).2⟩
      · by_cases h3 : q = Ptr.blk pid oc
        · rw [h3, hu3_c]
        · rw [hu3_of q h1 h3]
      · by_cases h3 : q = Ptr.blk pid oc
        · rw [h3, hu3_c]
        · rw [hu3_of q h1 h3]
    · intro f s p2 hp2 pid2 off2 hpeq
      obtain ⟨pid3, off3, heq, hp3, ho3, -⟩ := hCu2.cellMem f s p2 hp2
      rw [hpeq] at heq
      injection heq with v1 v2
      subst v1
      subst v2
      constructor
      · rw [pools_absorb]
        exact hp3
      · rw [chainG_absorb]
        by_cases hp4 : pid2 = pid
        · rw [hp4, upd1_same]
          have hne : off2 ≠ ob := by
            intro hh
            apply hCu2.exempt (Ptr.blk pid ob)
              (List.mem_cons_of_mem _ (List.mem_cons_self _ _)) f s
            have hpc : p2 = Ptr.blk pid ob := by rw [hpeq, hp4, hh]
            exact hpc ▸ hp2
          exact (List.mem_erase_of_ne hne).mpr (hp4 ▸ ho3)
        · rw [upd1_other _ _ _ _ hp4]
          exact ho3
    · intro x hx
      exact Or.inl hx
    · intro x hx f s
      exact hCu2.exempt x hx f s
    · intro pid2 hpid2 off2 hoff2 hfr2
      rw [pools_absorb] at hpid2
      rw [chainG_absorb] at hoff2
      by_cases hqa : Ptr.blk pid2 off2 = Ptr.blk pid oa
      · exact Or.inl (by rw [hqa]; exact List.mem_cons_self _ _)
      · by_cases hp4 : pid2 = pid
        · rw [hp4] at hpid2 hoff2 hfr2 hqa ⊢
          rw [upd1_same] at hoff2
          have hnd2 : ((block_remove (block_set_free t (Ptr.blk pid ob) true) (Ptr.blk pid oa)).chainG pid).Nodup := by
            rw [hu2chain]
            exact hndchain
          have hne : off2 ≠ ob := ((hnd2.mem_erase_iff).mp hoff2).1
          have hoff2b : off2 ∈ (block_remove (block_set_free t (Ptr.blk pid ob) true) (Ptr.blk pid oa)).chainG pid := List.mem_of_mem_erase hoff2
          have hiso : ((block_absorb (block_remove (block_set_free t (Ptr.blk pid ob) true) (Ptr.blk pid oa)) (Ptr.blk pid oa) (Ptr.blk pid ob)).2.mem (Ptr.blk pid off2)).isFree =
              ((block_remove (block_set_free t (Ptr.blk pid ob) true) (Ptr.blk pid oa)).mem (Ptr.blk pid off2)).isFree ∧
              ((block_absorb (block_remove (block_set_free t (Ptr.blk pid ob) true) (Ptr.blk pid oa)) (Ptr.blk pid oa) (Ptr.blk pid ob)).2.mem (Ptr.blk pid off2)).size = ((block_remove (block_set_free t (Ptr.blk pid ob) true) (Ptr.blk pid oa)).mem (Ptr.blk pid off2)).size := by
            by_cases h3 : Ptr.blk pid off2 = Ptr.blk pid oc
            · rw [h3, hu3_c]
              exact ⟨rfl, rfl⟩
            · rw [hu3_of _ hqa h3]
              exact ⟨rfl, rfl⟩
          rw [hiso.1] at hfr2
          exact Or.inr ⟨hpid2, hoff2b, hfr2, hiso.2⟩
        · rw [upd1_other _ _ _ _ hp4] at hoff2
          have h3 : Ptr.blk pid2 off2 ≠ Ptr.blk pid oc := by
            intro hh
            injection hh with v1 v2
            exact hp4 v1
          rw [hu3_of _ hqa h3] at hfr2
          exact Or.inr ⟨hpid2, hoff2, hfr2, by rw [hu3_of _ hqa h3]⟩
  have hbprev : block_prev (block_set_free t (Ptr.blk pid ob) true).mem (Ptr.blk pid ob) = Ptr.blk pid oa := by
    rw [block_prev, hu1_b]
    show (t.mem (Ptr.blk pid ob)).prevPhys = Ptr.blk pid oa
    exact hprevB
  have hmp : block_merge_prev (block_set_free t (Ptr.blk pid ob) true) (Ptr.blk pid ob) =
      block_absorb (block_remove (block_set_free t (Ptr.blk pid ob) true) (Ptr.blk pid oa)) (Ptr.blk pid oa) (Ptr.blk pid ob) := by
    rw [block_merge_prev_yes _ _ (by rw [hu1_b]; exact hpf), hbprev]
  have hu3nextA : block_next (block_absorb (block_remove (block_set_free t (Ptr.blk pid ob) true) (Ptr.blk pid oa)) (Ptr.blk pid oa) (Ptr.blk pid ob)).2.mem (Ptr.blk pid oa) = Ptr.blk pid oc := by
    rw [block_next, hu3_a]
    show Ptr.blk pid (oa + (((block_remove (block_set_free t (Ptr.blk pid ob) true) (Ptr.blk pid oa)).mem (Ptr.blk pid oa)).size
      + ((block_remove (block_set_free t (Ptr.blk pid ob) true) (Ptr.blk pid oa)).mem (Ptr.blk pid ob)).size + BLOCK_OVERHEAD + BLOCK_OVERHEAD)) = Ptr.blk pid oc
    rw [harith]
  have hcondB : ((block_absorb (block_remove (block_set_free t (Ptr.blk pid ob) true) (Ptr.blk pid oa)) (Ptr.blk pid oa) (Ptr.blk pid ob)).2.mem (block_next (block_absorb (block_remove (block_set_free t (Ptr.blk pid ob) true) (Ptr.blk pid oa)) (Ptr.blk pid oa) (Ptr.blk pid ob)).2.mem (Ptr.blk pid oa))).isFree = false := by
    rw [hu3nextA, hu3_c]
    show ((block_remove (block_set_free t (Ptr.blk pid ob) true) (Ptr.blk pid oa)).mem (Ptr.blk pid oc)).isFree = false
    rw [(hsH12 _).2.1, hu1_c]
    exact hnf
  have hfm : freeMerged t (Ptr.blk pid (ob + BLOCK_START_OFFSET)) =
      (Ptr.blk pid oa, (block_absorb (block_remove (block_set_free t (Ptr.blk pid ob) true) (Ptr.blk pid oa)) (Ptr.blk pid oa) (Ptr.blk pid ob)).2) := by
    unfold freeMerged
    simp only []
    rw [hbfp, hmp]
    show block_merge_next (block_absorb (block_remove (block_set_free t (Ptr.blk pid ob) true) (Ptr.blk pid oa)) (Ptr.blk pid oa) (Ptr.blk pid ob)).2 (Ptr.blk pid oa) = _
    rw [block_merge_next_no _ _ hcondB]
  rw [hfm]
  have hu3chain : (block_absorb (block_remove (block_set_free t (Ptr.blk pid ob) true) (Ptr.blk pid oa)) (Ptr.blk pid oa) (Ptr.blk pid ob)).2.chainG pid = P2 ++ oa :: oc :: S2 := by
    rw [chainG_absorb, upd1_same, hu2chain, hchain,
      show P2 ++ oa :: ob :: oc :: S2 = (P2 ++ [oa]) ++ ob :: (oc :: S2) from by simp,
      erase_append_notin]
    · simp
    · intro hmem
      rcases List.mem_append.mp hmem with h1 | h1
      · have h2 := hPmema ob h1
        omega
      · rcases List.mem_cons.mp h1 with h2 | h2
        · omega
        · simp at h2
  have hu3pools : (block_absorb (block_remove (block_set_free t (Ptr.blk pid ob) true) (Ptr.blk pid oa)) (Ptr.blk pid oa) (Ptr.blk pid ob)).2.pools = t.pools := by
    rw [pools_absorb, hu2pools]
  have hobnotchain : ob ∉ P2 ++ oa :: oc :: S2 := by
    intro hmem
    rcases List.mem_append.mp hmem with h1 | h1
    · have h2 := hPmema ob h1
      omega
    · rcases List.mem_cons.mp h1 with h2 | h2
      · omega
      · rcases List.mem_cons.mp h2 with h3 | h3
        · omega
        · have h4 := hSmem ob (List.mem_cons_of_mem _ h3)
          rw [hBO] at h4
          omega
  have hfieldsA : ((block_absorb (block_remove (block_set_free t (Ptr.blk pid ob) true) (Ptr.blk pid oa)) (Ptr.blk pid oa) (Ptr.blk pid ob)).2.mem (Ptr.blk pid oa)).size = (t.mem (Ptr.blk pid oa)).size
        + (t.mem (Ptr.blk pid ob)).size + BLOCK_OVERHEAD ∧
      ((block_absorb (block_remove (block_set_free t (Ptr.blk pid ob) true) (Ptr.blk pid oa)) (Ptr.blk pid oa) (Ptr.blk pid ob)).2.mem (Ptr.blk pid oa)).isFree = true ∧
      ((block_absorb (block_remove (block_set_free t (Ptr.blk pid ob) true) (Ptr.blk pid oa)) (Ptr.blk pid oa) (Ptr.blk pid ob)).2.mem (Ptr.blk pid oa)).isPrevFree = (t.mem (Ptr.blk pid oa)).isPrevFree ∧
      ((block_absorb (block_remove (block_set_free t (Ptr.blk pid ob) true) (Ptr.blk pid oa)) (Ptr.blk pid oa) (Ptr.blk pid ob)).2.mem (Ptr.blk pid oa)).prevPhys = (t.mem (Ptr.blk pid oa)).prevPhys := by
    rw [hu3_a]
    refine ⟨?_, ?_, ?_, ?_⟩
    · show ((block_remove (block_set_free t (Ptr.blk pid ob) true) (Ptr.blk pid oa)).mem (Ptr.blk pid oa)).size + ((block_remove (block_set_free t (Ptr.blk pid ob) true) (Ptr.blk pid oa)).mem (Ptr.blk pid ob)).size
        + BLOCK_OVERHEAD = _
      rw [hu2sza, hu2szb]
    · show ((block_remove (block_set_free t (Ptr.blk pid ob) true) (Ptr.blk pid oa)).mem (Ptr.blk pid oa)).isFree = true
      rw [(hsH12 _).2.1, hu1_o _ hAneB hAneC]
      exact haf
    · show ((block_remove (block_set_free t (Ptr.blk pid ob) true) (Ptr.blk pid oa)).mem (Ptr.blk pid oa)).isPrevFree = _
      rw [(hsH12 _).2.2.1, hu1_o _ hAneB hAneC]
    · show ((block_remove (block_set_free t (Ptr.blk pid ob) true) (Ptr.blk pid oa)).mem (Ptr.blk pid oa)).prevPhys = _
      rw [(hsH12 _).2.2.2, hu1_o _ hAneB hAneC]
  have hfieldsC : ((block_absorb (block_remove (block_set_free t (Ptr.blk pid ob) true) (Ptr.blk pid oa)) (Ptr.blk pid oa) (Ptr.blk pid ob)).2.mem (Ptr.blk pid oc)).size = (t.mem (Ptr.blk pid oc)).size ∧
      ((block_absorb (block_remove (block_set_free t (Ptr.blk pid ob) true) (Ptr.blk pid oa)) (Ptr.blk pid oa) (Ptr.blk pid ob)).2.mem (Ptr.blk pid oc)).isFree = (t.mem (Ptr.blk pid oc)).isFree ∧
      ((block_absorb (block_remove (block_set_free t (Ptr.blk pid ob) true) (Ptr.blk pid oa)) (Ptr.blk pid oa) (Ptr.blk pid ob)).2.mem (Ptr.blk pid oc)).isPrevFree = true ∧
      ((block_absorb (block_remove (block_set_free t (Ptr.blk pid ob) true) (Ptr.blk pid oa)) (Ptr.blk pid oa) (Ptr.blk pid ob)).2.mem (Ptr.blk pid oc)).prevPhys = Ptr.blk pid oa := by
    rw [hu3_c]
    refine ⟨?_, ?_, ?_, rfl⟩
    · show ((block_remove (block_set_free t (Ptr.blk pid ob) true) (Ptr.blk pid oa)).mem (Ptr.blk pid oc)).size = _
      rw [(hsH12 _).1, hu1_c]
    · show ((block_remove (block_set_free t (Ptr.blk pid ob) true) (Ptr.blk pid oa)).mem (Ptr.blk pid oc)).isFree = _
      rw [(hsH12 _).2.1, hu1_c]
    · show ((block_remove (block_set_free t (Ptr.blk pid ob) true) (Ptr.blk pid oa)).mem (Ptr.blk pid oc)).isPrevFree = true
      rw [(hsH12 _).2.2.1, hu1_c]
  have hfieldso : ∀ q, q ≠ Ptr.blk pid oa → q ≠ Ptr.blk pid ob → q ≠ Ptr.blk pid oc →
      (((block_absorb (block_remove (block_set_free t (Ptr.blk pid ob) true) (Ptr.blk pid oa)) (Ptr.blk pid oa) (Ptr.blk pid ob)).2.mem q).size = (t.mem q).size ∧
       ((block_absorb (block_remove (block_set_free t (Ptr.blk pid ob) true) (Ptr.blk pid oa)) (Ptr.blk pid oa) (Ptr.blk pid ob)).2.mem q).isFree = (t.mem q).isFree ∧
       ((block_absorb (block_remove (block_set_free t (Ptr.blk pid ob) true) (Ptr.blk pid oa)) (Ptr.blk pid oa) (Ptr.blk pid ob)).2.mem q).isPrevFree = (t.mem q).isPrevFree ∧
       ((block_absorb (block_remove (block_set_free t (Ptr.blk pid ob) true) (Ptr.blk pid oa)) (Ptr.blk pid oa) (Ptr.blk pid ob)).2.mem q).prevPhys = (t.mem q).prevPhys) := by
    intro q h1 h2 h3
    have e1 := hu3_of _ h1 h3
    have e2 := hsH12 q
    have e3 := hu1_o _ h2 h3
    rw [e1, e2.1, e2.2.1, e2.2.2.1, e2.2.2.2, e3]
    exact ⟨rfl, rfl, rfl, rfl⟩
  have hCu3R : CellsWF (block_absorb (block_remove (block_set_free t (Ptr.blk pid ob) true) (Ptr.blk pid oa)) (Ptr.blk pid oa) (Ptr.blk pid ob)).2 [Ptr.blk pid oa, Ptr.blk pid ob] := hCu3
  refine ⟨oa, [Ptr.blk pid ob], P2, oc :: S2, rfl, ?_, hCu3R,
    by rw [hu3pools]; exact hpid, hu3chain, hPmema, by simp, hfieldsA.2.1, ?_,
    by simp [hAneB]⟩
  · -- heap side
    refine heapWF_one_pool hH pid hu3pools ?_ ?_ ?_ ?_
    · rw [nextPid_absorb, nextPid_block_remove, nextPid_set_free]
    · intro p hp
      rw [chainG_absorb, upd1_other _ _ _ _ hp, hu2chain]
    · intro p hp hppid off hoff
      refine hfieldso (Ptr.blk p off) ?_ ?_ ?_ <;>
      · intro hh
        injection hh with v1 v2
        exact hppid v1
    · intro hfpid
      rw [hu3chain]
      show PoolOK (block_absorb (block_remove (block_set_free t (Ptr.blk pid ob) true) (Ptr.blk pid oa)) (Ptr.blk pid oa) (Ptr.blk pid ob)).2.mem pid (P2 ++ oa :: oc :: S2)
      have hpo2 : PoolOK t.mem pid (P2 ++ [oa, ob] ++ (oc :: S2)) := by
        rw [show P2 ++ [oa, ob] ++ (oc :: S2) = P2 ++ oa :: ob :: oc :: S2 from by simp,
          ← hchain]
        exact hpo
      rw [show P2 ++ oa :: oc :: S2 = P2 ++ [oa] ++ (oc :: S2) from by simp]
      have hBM : (BLOCK_SIZE_MIN:Nat) = 24 := rfl
      have hocnotS2 : oc ∉ S2 := by
        rw [hchainb] at hndchain
        rw [List.nodup_append] at hndchain
        exact (List.nodup_cons.mp (List.nodup_cons.mp hndchain.2.1).2).1
      refine poolOK_replace hpo2 (by simp) (by simp) (by simp) rfl ?_ ?_ ?_ ?_ ?_ ?_ ?_
      · intro off hoff
        have hlt := hPmema off hoff
        refine hfieldso (Ptr.blk pid off) ?_ ?_ ?_ <;>
        · intro hh
          injection hh with v1 v2
          omega
      · intro off hoff
        by_cases hoce : off = oc
        · rw [hoce]
          exact ⟨hfieldsC.1, hfieldsC.2.1⟩
        · have hge := hSmem off hoff
          rw [hBO] at hge
          have hf := hfieldso (Ptr.blk pid off)
            (by intro hh; injection hh with v1 v2; omega)
            (by intro hh; injection hh with v1 v2; omega)
            (by intro hh; injection hh with v1 v2; exact hoce v2)
          exact ⟨hf.1, hf.2.1⟩
      · intro off hoff
        simp only [List.tail_cons] at hoff
        have hge := hSmem off (List.mem_cons_of_mem _ hoff)
        rw [hBO] at hge
        have hf := hfieldso (Ptr.blk pid off)
          (by intro hh; injection hh with v1 v2; omega)
          (by intro hh; injection hh with v1 v2; omega)
          (by intro hh; injection hh with v1 v2; exact hocnotS2 (v2 ▸ hoff))
        exact ⟨hf.2.2.1, hf.2.2.2⟩
      · exact List.chain'_singleton _
      · intro p hp a ha
        have ha2 : oa = a := by simpa using ha
        subst ha2
        have hRold : R t.mem pid p oa := hPjoina p hp
        have hplt := hPmema p (mem_of_getLast? hp)
        have hfp := hfieldso (Ptr.blk pid p)
          (by intro hh; injection hh with v1 v2; omega)
          (by intro hh; injection hh with v1 v2; omega)
          (by intro hh; injection hh with v1 v2; omega)
        refine ⟨?_, ?_, ?_, ?_, ?_⟩
        · rw [hfp.1]
          exact hRold.1
        · rw [hfieldsA.2.2.1, hfp.2.1]
          exact hRold.2.1
        · intro hfr
          rw [hfp.2.1] at hfr
          rw [hfieldsA.2.2.2]
          exact hRold.2.2.1 hfr
        · intro hboth
          have hfree_p : (t.mem (Ptr.blk pid p)).isFree = true := by
            rw [← hfp.2.1]
            exact hboth.1
          exact hRold.2.2.2.1 ⟨hfree_p, haf⟩
        · rw [hfp.1]
          exact hRold.2.2.2.2
      · intro bb hbb e he
        have hbb2 : oa = bb := by simpa using hbb
        have he2 : oc = e := by simpa using he
        subst hbb2
        subst he2
        refine ⟨?_, ?_, ?_, ?_, ?_⟩
        · rw [hfieldsA.1]
          have h1 := hRab.2
          have h2 := hRbc.2
          rw [hBO] at h1 h2 ⊢
          omega
        · rw [hfieldsC.2.2.1, hfieldsA.2.1]
        · intro hfr
          exact hfieldsC.2.2.2
        · intro hboth
          have hcv := hboth.2
          rw [hfieldsC.2.1, hnf] at hcv
          exact Bool.noConfusion hcv
        · rw [hfieldsA.1]
          have h1 := hRab.1.2.2.2.2
          rw [hBM] at h1 ⊢
          rw [hBO]
          omega
      · intro hPnil a ha
        have ha2 : oa = a := by simpa using ha
        subst ha2
        have hoa0 : oa = 0 := by
          have h0 := hpo.1
          rw [hchain, hPnil] at h0
          simp only [List.nil_append, List.head?_cons, Option.some.injEq] at h0
          exact h0
        rw [hfieldsA.2.2.1, hoa0]
        exact hpo.2.1
  · intro x hx pid2 hpid2 off2 hoff2
    rcases List.mem_cons.mp hx with h1 | h1
    · rw [h1]
      intro hh
      injection hh with v1 v2
      subst v1
      rw [hu3chain] at hoff2
      rw [v2] at hoff2
      exact hobnotchain hoff2
    · simp at h1

/-- The merge phase when both physical neighbours are free: the previous
block absorbs the freed block and then the next block. -/
theorem freeMerged_WF_yy (t : tlsf_s) (pid oa ob oc oc2 : Nat) (P2 S3 : List Nat)
    (hH : HeapWF t) (hC : CellsWF t [])
    (hpid : pid ∈ t.pools)
    (hchain : t.chainG pid = P2 ++ oa :: ob :: oc :: oc2 :: S3)
    (hused : (t.mem (Ptr.blk pid ob)).isFree = false)
    (hpf : (t.mem (Ptr.blk pid ob)).isPrevFree = true)
    (hnf : (t.mem (Ptr.blk pid oc)).isFree = true) :
    FreeMergedOK t pid (freeMerged t (Ptr.blk pid (ob + BLOCK_START_OFFSET))) := by
  have hBO : (BLOCK_OVERHEAD:Nat) = 8 := rfl
  have hpo := hH.pools_ok pid hpid
  have hchainb : t.chainG pid = (P2 ++ [oa]) ++ ob :: oc :: oc2 :: S3 := by
    rw [hchain]
    simp
  have hchainc : t.chainG pid = (P2 ++ [oa, ob]) ++ oc :: oc2 :: S3 := by
    rw [hchain]
    simp
  obtain ⟨hShead, hPjoin, hPmem, hSmem⟩ := chain_mid_facts hpo hchainb (by simp)
  obtain ⟨hSheada, hPjoina, hPmema, hSmema⟩ := chain_mid_facts hpo hchain (by simp)
  obtain ⟨hSheadc, hPjoinc, hPmemc, hSmemc⟩ := chain_mid_facts hpo hchainc (by simp)
  have hRbc : R t.mem pid ob oc ∧ oc = ob + (t.mem (Ptr.blk pid ob)).size + BLOCK_OVERHEAD :=
    hShead oc rfl
  have hRab : R t.mem pid oa ob ∧
      ob = oa + (t.mem (Ptr.blk pid oa)).size + BLOCK_OVERHEAD :=
    hSheada ob rfl
  have hRcc2 : R t.mem pid oc oc2 ∧
      oc2 = oc + (t.mem (Ptr.blk pid oc)).size + BLOCK_OVERHEAD :=
    hSheadc oc2 rfl
  have haf : (t.mem (Ptr.blk pid oa)).isFree = true := by
    rw [← hRab.1.2.1]
    exact hpf
  have hprevB : (t.mem (Ptr.blk pid ob)).prevPhys = Ptr.blk pid oa :=
    hRab.1.2.2.1 haf
  have hoc2used : (t.mem (Ptr.blk pid oc2)).isFree = false := by
    by_contra hcf
    rw [Bool.not_eq_false] at hcf
    exact hRcc2.1.2.2.2.1 ⟨hnf, hcf⟩
  have hoapos : oa < ob := by
    have h1 := hRab.2
    rw [hBO] at h1
    omega
  have hocpos : ob < oc := by
    have h1 := hRbc.2
    rw [hBO] at h1
    omega
  have hoc2pos : oc < oc2 := by
    have h1 := hRcc2.2
    rw [hBO] at h1
    omega
  have hnextc : block_next t.mem (Ptr.blk pid ob) = Ptr.blk pid oc := by
    rw [block_next, ptrAdd, hRbc.2, Nat.add_assoc]
  have hbneq : Ptr.blk pid ob ≠ block_next t.mem (Ptr.blk pid ob) := by
    rw [hnextc]
    intro hh
    injection hh with u1 u2
    omega
  have hbfp : block_from_ptr (Ptr.blk pid (ob + BLOCK_START_OFFSET)) = Ptr.blk pid ob := by
    show Ptr.blk pid (ob + BLOCK_START_OFFSET - BLOCK_START_OFFSET) = Ptr.blk pid ob
    rw [Nat.add_sub_cancel]
  have hAneB : Ptr.blk pid oa ≠ Ptr.blk pid ob := by
    intro hh
    injection hh with u1 u2
    omega
  have hAneC : Ptr.blk pid oa ≠ Ptr.blk pid oc := by
    intro hh
    injection hh with u1 u2
    omega
  have hAneC2 : Ptr.blk pid oa ≠ Ptr.blk pid oc2 := by
    intro hh
    injection hh with u1 u2
    omega
  have hBneC : Ptr.blk pid ob ≠ Ptr.blk pid oc := by
    intro hh
    injection hh with u1 u2
    omega
  have hBneC2 : Ptr.blk pid ob ≠ Ptr.blk pid oc2 := by
    intro hh
    injection hh with u1 u2
    omega
  have hCneC2 : Ptr.blk pid oc ≠ Ptr.blk pid oc2 := by
    intro hh
    injection hh with u1 u2
    omega
  have hBnotin : ∀ f s, Ptr.blk pid ob ∉ t.cellsG f s := by
    intro f s hmem
    obtain ⟨pid2, off2, heq, -, -, hfr, -⟩ := hC.cellMem f s _ hmem
    rw [hfr] at hused
    exact Bool.noConfusion hused
  have hu1_b : (block_set_free t (Ptr.blk pid ob) true).mem (Ptr.blk pid ob) =
      { t.mem (Ptr.blk pid ob) with isFree := true } :=
    set_free_mem_b _ _ _ hbneq
  have hu1_c : (block_set_free t (Ptr.blk pid ob) true).mem (Ptr.blk pid oc) =
      { t.mem (Ptr.blk pid oc) with prevPhys := Ptr.blk pid ob, isPrevFree := true } := by
    rw [← hnextc]
    exact set_free_mem_next _ _ _ hbneq
  have hu1_o : ∀ q, q ≠ Ptr.blk pid ob → q ≠ Ptr.blk pid oc →
      (block_set_free t (Ptr.blk pid ob) true).mem q = t.mem q := by
    intro q h1 h2
    refine set_free_mem_other _ _ _ _ h1 ?_
    rw [hnextc]
    exact h2
  have hCu1 : CellsWF (block_set_free t (Ptr.blk pid ob) true) [Ptr.blk pid ob] := by
    refine cellsWF_step hC rfl rfl rfl rfl ?_ ?_ ?_ ?_ ?_
    · intro f s q hq
      have h1 : q ≠ Ptr.blk pid ob := by
        intro hh
        exact hBnotin f s (by rw [← hh]; exact hq)
      by_cases h2 : q = Ptr.blk pid oc
      · rw [h2, hu1_c]
        exact ⟨rfl, rfl, rfl, rfl⟩
      · rw [hu1_o q h1 h2]
        exact ⟨rfl, rfl, rfl, rfl⟩
    · intro f s p2 hp2 pid2 off2 hpeq
      obtain ⟨pid3, off3, heq, hp3, ho3, -⟩ := hC.cellMem f s p2 hp2
      rw [hpeq] at heq
      injection heq with v1 v2
      subst v1
      subst v2
      exact ⟨hp3, ho3⟩
    · intro x hx
      simp at hx
    · intro x hx f s
      rcases List.mem_cons.mp hx with h1 | h1
      · rw [h1]
        exact hBnotin f s
      · simp at h1
    · intro pid2 hpid2 off2 hoff2 hfr2
      by_cases hqb : Ptr.blk pid2 off2 = Ptr.blk pid ob
      · exact Or.inl (by rw [hqb]; exact List.mem_cons_self _ _)
      · by_cases hqc : Ptr.blk pid2 off2 = Ptr.blk pid oc
        · refine Or.inr ⟨hpid2, hoff2, ?_, ?_⟩
          · rw [hqc]
            rw [hqc, hu1_c] at hfr2
            exact hfr2
          · rw [hqc, hu1_c]
        · rw [hu1_o _ hqb hqc] at hfr2
          exact Or.inr ⟨hpid2, hoff2, hfr2, by rw [hu1_o _ hqb hqc]⟩
  have hoamem : oa ∈ t.chainG pid := by
    rw [hchain]
    exact List.mem_append_right _ (List.mem_cons_self _ _)
  have hAcell : Ptr.blk pid oa ∈ t.cellsG (mapping_insert (t.mem (Ptr.blk pid oa)).size).1
      (mapping_insert (t.mem (Ptr.blk pid oa)).size).2 := by
    rcases hC.complete pid hpid oa hoamem haf with hx | hmem
    · simp at hx
    · exact hmem
  have hu1sza : ((block_set_free t (Ptr.blk pid ob) true).mem (Ptr.blk pid oa)).size = (t.mem (Ptr.blk pid oa)).size := by
    rw [hu1_o _ hAneB hAneC]
  have hCu2 : CellsWF (block_remove (block_set_free t (Ptr.blk pid ob) true) (Ptr.blk pid oa)) [Ptr.blk pid oa, Ptr.blk pid ob] := by
    show CellsWF (remove_free_block (block_set_free t (Ptr.blk pid ob) true) (Ptr.blk pid oa)
      (mapping_insert (((block_set_free t (Ptr.blk pid ob) true).mem (Ptr.blk pid oa)).size)).1
      (mapping_insert (((block_set_free t (Ptr.blk pid ob) true).mem (Ptr.blk pid oa)).size)).2)
      (Ptr.blk pid oa :: [Ptr.blk pid ob])
    refine remove_free_cellsWF hCu1 ?_
    rw [hu1sza]
    exact hAcell
  have hu2mem : (block_remove (block_set_free t (Ptr.blk pid ob) true) (Ptr.blk pid oa)).mem = remMem (block_set_free t (Ptr.blk pid ob) true).mem (Ptr.blk pid oa) :=
    remove_free_block_mem _ _ _ _
  have hsH12 : sameHeap (block_set_free t (Ptr.blk pid ob) true).mem (block_remove (block_set_free t (Ptr.blk pid ob) true) (Ptr.blk pid oa)).mem := by
    rw [hu2mem]
    exact remMem_sameHeap _ _
  have hu2sza : ((block_remove (block_set_free t (Ptr.blk pid ob) true) (Ptr.blk pid oa)).mem (Ptr.blk pid oa)).size = (t.mem (Ptr.blk pid oa)).size := by
    rw [(hsH12 (Ptr.blk pid oa)).1, hu1sza]
  have hu2szb : ((block_remove (block_set_free t (Ptr.blk pid ob) true) (Ptr.blk pid oa)).mem (Ptr.blk pid ob)).size = (t.mem (Ptr.blk pid ob)).size := by
    rw [(hsH12 (Ptr.blk pid ob)).1, hu1_b]
  have harith : oc = oa + (((block_remove (block_set_free t (Ptr.blk pid ob) true) (Ptr.blk pid oa)).mem (Ptr.blk pid oa)).size
      + ((block_remove (block_set_free t (Ptr.blk pid ob) true) (Ptr.blk pid oa)).mem (Ptr.blk pid ob)).size + BLOCK_OVERHEAD + BLOCK_OVERHEAD) := by
    rw [hu2sza, hu2szb, hBO]
    have h1 := hRab.2
    have h2 := hRbc.2
    rw [hBO] at h1 h2
    omega
  have hmem3 : (block_absorb (block_remove (block_set_free t (Ptr.blk pid ob) true) (Ptr.blk pid oa)) (Ptr.blk pid oa) (Ptr.blk pid ob)).2.mem =
      updHdr (updHdr (block_remove (block_set_free t (Ptr.blk pid ob) true) (Ptr.blk pid oa)).mem (Ptr.blk pid oa) (fun h =>
        { h with size := h.size + ((block_remove (block_set_free t (Ptr.blk pid ob) true) (Ptr.blk pid oa)).mem (Ptr.blk pid ob)).size + BLOCK_OVERHEAD }))
        (Ptr.blk pid oc) (fun h => { h with prevPhys := Ptr.blk pid oa }) :=
    block_absorb_mem _ pid oa ob oc harith
  have hu3_of : ∀ q, q ≠ Ptr.blk pid oa → q ≠ Ptr.blk pid oc →
      (block_absorb (block_remove (block_set_free t (Ptr.blk pid ob) true) (Ptr.blk pid oa)) (Ptr.blk pid oa) (Ptr.blk pid ob)).2.mem q = (block_remove (block_set_free t (Ptr.blk pid ob) true) (Ptr.blk pid oa)).mem q := by
    intro q h1 h2
    rw [hmem3, updHdr_other _ _ _ _ h2, updHdr_other _ _ _ _ h1]
  have hu3_c : (block_absorb (block_remove (block_set_free t (Ptr.blk pid ob) true) (Ptr.blk pid oa)) (Ptr.blk pid oa) (Ptr.blk pid ob)).2.mem (Ptr.blk pid oc) =
      { (block_remove (block_set_free t (Ptr.blk pid ob) true) (Ptr.blk pid oa)).mem (Ptr.blk pid oc) with prevPhys := Ptr.blk pid oa } := by
    rw [hmem3, updHdr_same, updHdr_other _ _ _ _ (fun hh => hAneC hh.symm)]
  have hu3_a : (block_absorb (block_remove (block_set_free t (Ptr.blk pid ob) true) (Ptr.blk pid oa)) (Ptr.blk pid oa) (Ptr.blk pid ob)).2.mem (Ptr.blk pid oa) =
      { (block_remove (block_set_free t (Ptr.blk pid ob) true) (Ptr.blk pid oa)).mem (Ptr.blk pid oa) with size := ((block_remove (block_set_free t (Ptr.blk pid ob) true) (Ptr.blk pid oa)).mem (Ptr.blk pid oa)).size
        + ((block_remove (block_set_free t (Ptr.blk pid ob) true) (Ptr.blk pid oa)).mem (Ptr.blk pid ob)).size + BLOCK_OVERHEAD } := by
    rw [hmem3, updHdr_other _ _ _ _ hAneC, updHdr_same]
  have hndchain : (t.chainG pid).Nodup := chain_nodup (chain_sorted hpo.2.2.1)
  have hu2chain : (block_remove (block_set_free t (Ptr.blk pid ob) true) (Ptr.blk pid oa)).chainG = t.chainG := by
    rw [chainG_block_remove, chainG_set_free]
  have hu2pools : (block_remove (block_set_free t (Ptr.blk pid ob) true) (Ptr.blk pid oa)).pools = t.pools := by
    rw [pools_block_remove, pools_set_free]
  have hCu3 : CellsWF (block_absorb (block_remove (block_set_free t (Ptr.blk pid ob) true) (Ptr.blk pid oa)) (Ptr.blk pid oa) (Ptr.blk pid ob)).2 [Ptr.blk pid oa, Ptr.blk pid ob] := by
    refine cellsWF_step hCu2 (cellsG_absorb _ _ _) (blocks_absorb _ _ _)
      (flBitmap_absorb _ _ _) (slBitmap_absorb _ _ _) ?_ ?_ ?_ ?_ ?_
    · intro f s q hq
      have h1 : q ≠ Ptr.blk pid oa := by
        intro hh
        exact hCu2.exempt _ (List.mem_cons_self _ _) f s (hh ▸ hq)
      have h2 : q ≠ Ptr.blk pid ob := by
        intro hh
        exact hCu2.exempt _ (List.mem_cons_of_mem _ (List.mem_cons_self _ _)) f s
          (hh ▸ hq)
      refine ⟨?_, ?_, (block_absorb_links _ _ _ q).1, (block_absorb_links _ _ _ q).2⟩
      · by_cases h3 : q = Ptr.blk pid oc
        · rw [h3, hu3_c]
        · rw [hu3_of q h1 h3]
      · by_cases h3 : q = Ptr.blk pid oc
        · rw [h3, hu3_c]
        · rw [hu3_of q h1 h3]
    · intro f s p2 hp2 pid2 off2 hpeq
      obtain ⟨pid3, off3, heq, hp3, ho3, -⟩ := hCu2.cellMem f s p2 hp2
      rw [hpeq] at heq
      injection heq with v1 v2
      subst v1
      subst v2
      constructor
      · rw [pools_absorb]
        exact hp3
      · rw [chainG_absorb]
        by_cases hp4 : pid2 = pid
        · rw [hp4, upd1_same]
          have hne : off2 ≠ ob := by
            intro hh
            apply hCu2.exempt (Ptr.blk pid ob)
              (List.mem_cons_of_mem _ (List.mem_cons_self _ _)) f s
            have hpc : p2 = Ptr.blk pid ob := by rw [hpeq, hp4, hh]
            exact hpc ▸ hp2
          exact (List.mem_erase_of_ne hne).mpr (hp4 ▸ ho3)
        · rw [upd1_other _ _ _ _ hp4]
          exact ho3
    · intro x hx
      exact Or.inl hx
    · intro x hx f s
      exact hCu2.exempt x hx f s
    · intro pid2 hpid2 off2 hoff2 hfr2
      rw [pools_absorb] at hpid2
      rw [chainG_absorb] at hoff2
      by_cases hqa : Ptr.blk pid2 off2 = Ptr.blk pid oa
      · exact Or.inl (by rw [hqa]; exact List.mem_cons_self _ _)
      · by_cases hp4 : pid2 = pid
        · rw [hp4] at hpid2 hoff2 hfr2 hqa ⊢
          rw [upd1_same] at hoff2
          have hnd2 : ((block_remove (block_set_free t (Ptr.blk pid ob) true) (Ptr.blk pid oa)).chainG pid).Nodup := by
            rw [hu2chain]
            exact hndchain
          have hne : off2 ≠ ob := ((hnd2.mem_erase_iff).mp hoff2).1
          have hoff2b : off2 ∈ (block_remove (block_set_free t (Ptr.blk pid ob) true) (Ptr.blk pid oa)).chainG pid := List.mem_of_mem_erase hoff2
          have hiso : ((block_absorb (block_remove (block_set_free t (Ptr.blk pid ob) true) (Ptr.blk pid oa)) (Ptr.blk pid oa) (Ptr.blk pid ob)).2.mem (Ptr.blk pid off2)).isFree =
              ((block_remove (block_set_free t (Ptr.blk pid ob) true) (Ptr.blk pid oa)).mem (Ptr.blk pid off2)).isFree ∧
              ((block_absorb (block_remove (block_set_free t (Ptr.blk pid ob) true) (Ptr.blk pid oa)) (Ptr.blk pid oa) (Ptr.blk pid ob)).2.mem (Ptr.blk pid off2)).size = ((block_remove (block_set_free t (Ptr.blk pid ob) true) (Ptr.blk pid oa)).mem (Ptr.blk pid off2)).size := by
            by_cases h3 : Ptr.blk pid off2 = Ptr.blk pid oc
            · rw [h3, hu3_c]
              exact ⟨rfl, rfl⟩
            · rw [hu3_of _ hqa h3]
              exact ⟨rfl, rfl⟩
          rw [hiso.1] at hfr2
          exact Or.inr ⟨hpid2, hoff2b, hfr2, hiso.2⟩
        · rw [upd1_other _ _ _ _ hp4] at hoff2
          have h3 : Ptr.blk pid2 off2 ≠ Ptr.blk pid oc := by
            intro hh
            injection hh with v1 v2
            exact hp4 v1
          rw [hu3_of _ hqa h3] at hfr2
          exact Or.inr ⟨hpid2, hoff2, hfr2, by rw [hu3_of _ hqa h3]⟩
  have hu3chain : (block_absorb (block_remove (block_set_free t (Ptr.blk pid ob) true) (Ptr.blk pid oa)) (Ptr.blk pid oa) (Ptr.blk pid ob)).2.chainG pid = P2 ++ oa :: oc :: oc2 :: S3 := by
    rw [chainG_absorb, upd1_same, hu2chain, hchain,
      show P2 ++ oa :: ob :: oc :: oc2 :: S3 =
        (P2 ++ [oa]) ++ ob :: (oc :: oc2 :: S3) from by simp,
      erase_append_notin]
    · simp
    · intro hmem
      rcases List.mem_append.mp hmem with h1 | h1
      · have h2 := hPmema ob h1
        omega
      · rcases List.mem_cons.mp h1 with h2 | h2
        · omega
        · simp at h2
  have hu3pools : (block_absorb (block_remove (block_set_free t (Ptr.blk pid ob) true) (Ptr.blk pid oa)) (Ptr.blk pid oa) (Ptr.blk pid ob)).2.pools = t.pools := by
    rw [pools_absorb, hu2pools]
  have hu3nextA : block_next (block_absorb (block_remove (block_set_free t (Ptr.blk pid ob) true) (Ptr.blk pid oa)) (Ptr.blk pid oa) (Ptr.blk pid ob)).2.mem (Ptr.blk pid oa) = Ptr.blk pid oc := by
    rw [block_next, hu3_a]
    show Ptr.blk pid (oa + (((block_remove (block_set_free t (Ptr.blk pid ob) true) (Ptr.blk pid oa)).mem (Ptr.blk pid oa)).size
      + ((block_remove (block_set_free t (Ptr.blk pid ob) true) (Ptr.blk pid oa)).mem (Ptr.blk pid ob)).size + BLOCK_OVERHEAD + BLOCK_OVERHEAD)) = Ptr.blk pid oc
    rw [harith]
  have hszCu3 : ((block_absorb (block_remove (block_set_free t (Ptr.blk pid ob) true) (Ptr.blk pid oa)) (Ptr.blk pid oa) (Ptr.blk pid ob)).2.mem (Ptr.blk pid oc)).size = (t.mem (Ptr.blk pid oc)).size := by
    rw [hu3_c]
    show ((block_remove (block_set_free t (Ptr.blk pid ob) true) (Ptr.blk pid oa)).mem (Ptr.blk pid oc)).size = _
    rw [(hsH12 _).1, hu1_c]
  have hfreeCu3 : ((block_absorb (block_remove (block_set_free t (Ptr.blk pid ob) true) (Ptr.blk pid oa)) (Ptr.blk pid oa) (Ptr.blk pid ob)).2.mem (Ptr.blk pid oc)).isFree = true := by
    rw [hu3_c]
    show ((block_remove (block_set_free t (Ptr.blk pid ob) true) (Ptr.blk pid oa)).mem (Ptr.blk pid oc)).isFree = true
    rw [(hsH12 _).2.1, hu1_c]
    exact hnf
  have hcondD : ((block_absorb (block_remove (block_set_free t (Ptr.blk pid ob) true) (Ptr.blk pid oa)) (Ptr.blk pid oa) (Ptr.blk pid ob)).2.mem (block_next (block_absorb (block_remove (block_set_free t (Ptr.blk pid ob) true) (Ptr.blk pid oa)) (Ptr.blk pid oa) (Ptr.blk pid ob)).2.mem (Ptr.blk pid oa))).isFree = true := by
    rw [hu3nextA]
    exact hfreeCu3
  have hocmem3 : oc ∈ (block_absorb (block_remove (block_set_free t (Ptr.blk pid ob) true) (Ptr.blk pid oa)) (Ptr.blk pid oa) (Ptr.blk pid ob)).2.chainG pid := by
    rw [hu3chain]
    exact List.mem_append_right _ (List.mem_cons_of_mem _ (List.mem_cons_self _ _))
  have hCcell3 : Ptr.blk pid oc ∈ (block_absorb (block_remove (block_set_free t (Ptr.blk pid ob) true) (Ptr.blk pid oa)) (Ptr.blk pid oa) (Ptr.blk pid ob)).2.cellsG
      (mapping_insert (((block_absorb (block_remove (block_set_free t (Ptr.blk pid ob) true) (Ptr.blk pid oa)) (Ptr.blk pid oa) (Ptr.blk pid ob)).2.mem (Ptr.blk pid oc)).size)).1
      (mapping_insert (((block_absorb (block_remove (block_set_free t (Ptr.blk pid ob) true) (Ptr.blk pid oa)) (Ptr.blk pid oa) (Ptr.blk pid ob)).2.mem (Ptr.blk pid oc)).size)).2 := by
    rcases hCu3.complete pid (by rw [hu3pools]; exact hpid) oc hocmem3 hfreeCu3
      with hx | hmem
    · rcases List.mem_cons.mp hx with h1 | h1
      · injection h1 with v1 v2
        omega
      · rcases List.mem_cons.mp h1 with h2 | h2
        · injection h2 with v1 v2
          omega
        · simp at h2
    · exact hmem
  have hCu4 : CellsWF (block_remove (block_absorb (block_remove (block_set_free t (Ptr.blk pid ob) true) (Ptr.blk pid oa)) (Ptr.blk pid oa) (Ptr.blk pid ob)).2 (Ptr.blk pid oc)) [Ptr.blk pid oc, Ptr.blk pid oa, Ptr.blk pid ob] := by
    show CellsWF (remove_free_block (block_absorb (block_remove (block_set_free t (Ptr.blk pid ob) true) (Ptr.blk pid oa)) (Ptr.blk pid oa) (Ptr.blk pid ob)).2 (Ptr.blk pid oc)
      (mapping_insert (((block_absorb (block_remove (block_set_free t (Ptr.blk pid ob) true) (Ptr.blk pid oa)) (Ptr.blk pid oa) (Ptr.blk pid ob)).2.mem (Ptr.blk pid oc)).size)).1
      (mapping_insert (((block_absorb (block_remove (block_set_free t (Ptr.blk pid ob) true) (Ptr.blk pid oa)) (Ptr.blk pid oa) (Ptr.blk pid ob)).2.mem (Ptr.blk pid oc)).size)).2)
      (Ptr.blk pid oc :: [Ptr.blk pid oa, Ptr.blk pid ob])
    exact remove_free_cellsWF hCu3 hCcell3
  have hu4mem : (block_remove (block_absorb (block_remove (block_set_free t (Ptr.blk pid ob) true) (Ptr.blk pid oa)) (Ptr.blk pid oa) (Ptr.blk pid ob)).2 (Ptr.blk pid oc)).mem = remMem (block_absorb (block_remove (block_set_free t (Ptr.blk pid ob) true) (Ptr.blk pid oa)) (Ptr.blk pid oa) (Ptr.blk pid ob)).2.mem (Ptr.blk pid oc) :=
    remove_free_block_mem _ _ _ _
  have hsH34 : sameHeap (block_absorb (block_remove (block_set_free t (Ptr.blk pid ob) true) (Ptr.blk pid oa)) (Ptr.blk pid oa) (Ptr.blk pid ob)).2.mem (block_remove (block_absorb (block_remove (block_set_free t (Ptr.blk pid ob) true) (Ptr.blk pid oa)) (Ptr.blk pid oa) (Ptr.blk pid ob)).2 (Ptr.blk pid oc)).mem := by
    rw [hu4mem]
    exact remMem_sameHeap _ _
  have hu4szA : ((block_remove (block_absorb (block_remove (block_set_free t (Ptr.blk pid ob) true) (Ptr.blk pid oa)) (Ptr.blk pid oa) (Ptr.blk pid ob)).2 (Ptr.blk pid oc)).mem (Ptr.blk pid oa)).size = (t.mem (Ptr.blk pid oa)).size
      + (t.mem (Ptr.blk pid ob)).size + BLOCK_OVERHEAD := by
    rw [(hsH34 _).1, hu3_a]
    show ((block_remove (block_set_free t (Ptr.blk pid ob) true) (Ptr.blk pid oa)).mem (Ptr.blk pid oa)).size + ((block_remove (block_set_free t (Ptr.blk pid ob) true) (Ptr.blk pid oa)).mem (Ptr.blk pid ob)).size
      + BLOCK_OVERHEAD = _
    rw [hu2sza, hu2szb]
  have hu4szC : ((block_remove (block_absorb (block_remove (block_set_free t (Ptr.blk pid ob) true) (Ptr.blk pid oa)) (Ptr.blk pid oa) (Ptr.blk pid ob)).2 (Ptr.blk pid oc)).mem (Ptr.blk pid oc)).size = (t.mem (Ptr.blk pid oc)).size := by
    rw [(hsH34 _).1, hszCu3]
  have harith2 : oc2 = oa + (((block_remove (block_absorb (block_remove (block_set_free t (Ptr.blk pid ob) true) (Ptr.blk pid oa)) (Ptr.blk pid oa) (Ptr.blk pid ob)).2 (Ptr.blk pid oc)).mem (Ptr.blk pid oa)).size
      + ((block_remove (block_absorb (block_remove (block_set_free t (Ptr.blk pid ob) true) (Ptr.blk pid oa)) (Ptr.blk pid oa) (Ptr.blk pid ob)).2 (Ptr.blk pid oc)).mem (Ptr.blk pid oc)).size + BLOCK_OVERHEAD + BLOCK_OVERHEAD) := by
    rw [hu4szA, hu4szC, hBO]
    have h1 := hRab.2
    have h2 := hRbc.2
    have h3 := hRcc2.2
    rw [hBO] at h1 h2 h3
    omega
  have hmem5 : (block_absorb (block_remove (block_absorb (block_remove (block_set_free t (Ptr.blk pid ob) true) (Ptr.blk pid oa)) (Ptr.blk pid oa) (Ptr.blk pid ob)).2 (Ptr.blk pid oc)) (Ptr.blk pid oa) (Ptr.blk pid oc)).2.mem =
      updHdr (updHdr (block_remove (block_absorb (block_remove (block_set_free t (Ptr.blk pid ob) true) (Ptr.blk pid oa)) (Ptr.blk pid oa) (Ptr.blk pid ob)).2 (Ptr.blk pid oc)).mem (Ptr.blk pid oa) (fun h =>
        { h with size := h.size + ((block_remove (block_absorb (block_remove (block_set_free t (Ptr.blk pid ob) true) (Ptr.blk pid oa)) (Ptr.blk pid oa) (Ptr.blk pid ob)).2 (Ptr.blk pid oc)).mem (Ptr.blk pid oc)).size + BLOCK_OVERHEAD }))
        (Ptr.blk pid oc2) (fun h => { h with prevPhys := Ptr.blk pid oa }) :=
    block_absorb_mem _ pid oa oc oc2 harith2
  have hu5_of : ∀ q, q ≠ Ptr.blk pid oa → q ≠ Ptr.blk pid oc2 →
      (block_absorb (block_remove (block_absorb (block_remove (block_set_free t (Ptr.blk pid ob) true) (Ptr.blk pid oa)) (Ptr.blk pid oa) (Ptr.blk pid ob)).2 (Ptr.blk pid oc)) (Ptr.blk pid oa) (Ptr.blk pid oc)).2.mem q = (block_remove (block_absorb (block_remove (block_set_free t (Ptr.blk pid ob) true) (Ptr.blk pid oa)) (Ptr.blk pid oa) (Ptr.blk pid ob)).2 (Ptr.blk pid oc)).mem q := by
    intro q h1 h2
    rw [hmem5, updHdr_other _ _ _ _ h2, updHdr_other _ _ _ _ h1]
  have hu5_c2 : (block_absorb (block_remove (block_absorb (block_remove (block_set_free t (Ptr.blk pid ob) true) (Ptr.blk pid oa)) (Ptr.blk pid oa) (Ptr.blk pid ob)).2 (Ptr.blk pid oc)) (Ptr.blk pid oa) (Ptr.blk pid oc)).2.mem (Ptr.blk pid oc2) =
      { (block_remove (block_absorb (block_remove (block_set_free t (Ptr.blk pid ob) true) (Ptr.blk pid oa)) (Ptr.blk pid oa) (Ptr.blk pid ob)).2 (Ptr.blk pid oc)).mem (Ptr.blk pid oc2) with prevPhys := Ptr.blk pid oa } := by
    rw [hmem5, updHdr_same, updHdr_other _ _ _ _ (fun hh => hAneC2 hh.symm)]
  have hu5_a : (block_absorb (block_remove (block_absorb (block_remove (block_set_free t (Ptr.blk pid ob) true) (Ptr.blk pid oa)) (Ptr.blk pid oa) (Ptr.blk pid ob)).2 (Ptr.blk pid oc)) (Ptr.blk pid oa) (Ptr.blk pid oc)).2.mem (Ptr.blk pid oa) =
      { (block_remove (block_absorb (block_remove (block_set_free t (Ptr.blk pid ob) true) (Ptr.blk pid oa)) (Ptr.blk pid oa) (Ptr.blk pid ob)).2 (Ptr.blk pid oc)).mem (Ptr.blk pid oa) with size := ((block_remove (block_absorb (block_remove (block_set_free t (Ptr.blk pid ob) true) (Ptr.blk pid oa)) (Ptr.blk pid oa) (Ptr.blk pid ob)).2 (Ptr.blk pid oc)).mem (Ptr.blk pid oa)).size
        + ((block_remove (block_absorb (block_remove (block_set_free t (Ptr.blk pid ob) true) (Ptr.blk pid oa)) (Ptr.blk pid oa) (Ptr.blk pid ob)).2 (Ptr.blk pid oc)).mem (Ptr.blk pid oc)).size + BLOCK_OVERHEAD } := by
    rw [hmem5, updHdr_other _ _ _ _ hAneC2, updHdr_same]
  have hu4chain : (block_remove (block_absorb (block_remove (block_set_free t (Ptr.blk pid ob) true) (Ptr.blk pid oa)) (Ptr.blk pid oa) (Ptr.blk pid ob)).2 (Ptr.blk pid oc)).chainG = (block_absorb (block_remove (block_set_free t (Ptr.blk pid ob) true) (Ptr.blk pid oa)) (Ptr.blk pid oa) (Ptr.blk pid ob)).2.chainG := chainG_block_remove _ _
  have hu4pools : (block_remove (block_absorb (block_remove (block_set_free t (Ptr.blk pid ob) true) (Ptr.blk pid oa)) (Ptr.blk pid oa) (Ptr.blk pid ob)).2 (Ptr.blk pid oc)).pools = (block_absorb (block_remove (block_set_free t (Ptr.blk pid ob) true) (Ptr.blk pid oa)) (Ptr.blk pid oa) (Ptr.blk pid ob)).2.pools := pools_block_remove _ _
  have hnd3 : ((block_absorb (block_remove (block_set_free t (Ptr.blk pid ob) true) (Ptr.blk pid oa)) (Ptr.blk pid oa) (Ptr.blk pid ob)).2.chainG pid).Nodup := by
    rw [hu3chain]
    have h1 := hndchain.erase ob
    rw [hchain, show P2 ++ oa :: ob :: oc :: oc2 :: S3 =
      (P2 ++ [oa]) ++ ob :: (oc :: oc2 :: S3) from by simp, erase_append_notin] at h1
    · simpa using h1
    · intro hmem
      rcases List.mem_append.mp hmem with h2 | h2
      · have h3 := hPmema ob h2
        omega
      · rcases List.mem_cons.mp h2 with h3 | h3
        · omega
        · simp at h3
  have hCu5 : CellsWF (block_absorb (block_remove (block_absorb (block_remove (block_set_free t (Ptr.blk pid ob) true) (Ptr.blk pid oa)) (Ptr.blk pid oa) (Ptr.blk pid ob)).2 (Ptr.blk pid oc)) (Ptr.blk pid oa) (Ptr.blk pid oc)).2 [Ptr.blk pid oc, Ptr.blk pid oa, Ptr.blk pid ob] := by
    refine cellsWF_step hCu4 (cellsG_absorb _ _ _) (blocks_absorb _ _ _)
      (flBitmap_absorb _ _ _) (slBitmap_absorb _ _ _) ?_ ?_ ?_ ?_ ?_
    · intro f s q hq
      have h1 : q ≠ Ptr.blk pid oc := by
        intro hh
        exact hCu4.exempt _ (List.mem_cons_self _ _) f s (hh ▸ hq)
      have h2 : q ≠ Ptr.blk pid oa := by
        intro hh
        exact hCu4.exempt _ (List.mem_cons_of_mem _ (List.mem_cons_self _ _)) f s
          (hh ▸ hq)
      refine ⟨?_, ?_, (block_absorb_links _ _ _ q).1, (block_absorb_links _ _ _ q).2⟩
      · by_cases h3 : q = Ptr.blk pid oc2
        · rw [h3, hu5_c2]
        · rw [hu5_of q h2 h3]
      · by_cases h3 : q = Ptr.blk pid oc2
        · rw [h3, hu5_c2]
        · rw [hu5_of q h2 h3]
    · intro f s p2 hp2 pid2 off2 hpeq
      obtain ⟨pid3, off3, heq, hp3, ho3, -⟩ := hCu4.cellMem f s p2 hp2
      rw [hpeq] at heq
      injection heq with v1 v2
      subst v1
      subst v2
      constructor
      · rw [pools_absorb]
        exact hp3
      · rw [chainG_absorb]
        by_cases hp4 : pid2 = pid
        · rw [hp4, upd1_same]
          have hne : off2 ≠ oc := by
            intro hh
            apply hCu4.exempt (Ptr.blk pid oc) (List.mem_cons_self _ _) f s
            have hpc : p2 = Ptr.blk pid oc := by rw [hpeq, hp4, hh]
            exact hpc ▸ hp2
          exact (List.mem_erase_of_ne hne).mpr (hp4 ▸ ho3)
        · rw [upd1_other _ _ _ _ hp4]
          exact ho3
    · intro x hx
      exact Or.inl hx
    · intro x hx f s
      exact hCu4.exempt x hx f s
    · intro pid2 hpid2 off2 hoff2 hfr2
      rw [pools_absorb] at hpid2
      rw [chainG_absorb] at hoff2
      by_cases hqa : Ptr.blk pid2 off2 = Ptr.blk pid oa
      · exact Or.inl (by rw [hqa]; exact List.mem_cons_of_mem _ (List.mem_cons_self _ _))
      · by_cases hp4 : pid2 = pid
        · rw [hp4] at hpid2 hoff2 hfr2 hqa ⊢
          rw [upd1_same] at hoff2
          have hnd4 : ((block_remove (block_absorb (block_remove (block_set_free t (Ptr.blk pid ob) true) (Ptr.blk pid oa)) (Ptr.blk pid oa) (Ptr.blk pid ob)).2 (Ptr.blk pid oc)).chainG pid).Nodup := by
            rw [hu4chain]
            exact hnd3
          have hne : off2 ≠ oc := ((hnd4.mem_erase_iff).mp hoff2).1
          have hoff2b : off2 ∈ (block_remove (block_absorb (block_remove (block_set_free t (Ptr.blk pid ob) true) (Ptr.blk pid oa)) (Ptr.blk pid oa) (Ptr.blk pid ob)).2 (Ptr.blk pid oc)).chainG pid := List.mem_of_mem_erase hoff2
          have hiso : ((block_absorb (block_remove (block_absorb (block_remove (block_set_free t (Ptr.blk pid ob) true) (Ptr.blk pid oa)) (Ptr.blk pid oa) (Ptr.blk pid ob)).2 (Ptr.blk pid oc)) (Ptr.blk pid oa) (Ptr.blk pid oc)).2.mem (Ptr.blk pid off2)).isFree =
              ((block_remove (block_absorb (block_remove (block_set_free t (Ptr.blk pid ob) true) (Ptr.blk pid oa)) (Ptr.blk pid oa) (Ptr.blk pid ob)).2 (Ptr.blk pid oc)).mem (Ptr.blk pid off2)).isFree ∧
              ((block_absorb (block_remove (block_absorb (block_remove (block_set_free t (Ptr.blk pid ob) true) (Ptr.blk pid oa)) (Ptr.blk pid oa) (Ptr.blk pid ob)).2 (Ptr.blk pid oc)) (Ptr.blk pid oa) (Ptr.blk pid oc)).2.mem (Ptr.blk pid off2)).size = ((block_remove (block_absorb (block_remove (block_set_free t (Ptr.blk pid ob) true) (Ptr.blk pid oa)) (Ptr.blk pid oa) (Ptr.blk pid ob)).2 (Ptr.blk pid oc)).mem (Ptr.blk pid off2)).size := by
            by_cases h3 : Ptr.blk pid off2 = Ptr.blk pid oc2
            · rw [h3, hu5_c2]
              exact ⟨rfl, rfl⟩
            · rw [hu5_of _ hqa h3]
              exact ⟨rfl, rfl⟩
          rw [hiso.1] at hfr2
          exact Or.inr ⟨hpid2, hoff2b, hfr2, hiso.2⟩
        · rw [upd1_other _ _ _ _ hp4] at hoff2
          have h3 : Ptr.blk pid2 off2 ≠ Ptr.blk pid oc2 := by
            intro hh
            injection hh with v1 v2
            exact hp4 v1
          rw [hu5_of _ hqa h3] at hfr2
          exact Or.inr ⟨hpid2, hoff2, hfr2, by rw [hu5_of _ hqa h3]⟩
  have hbprev : block_prev (block_set_free t (Ptr.blk pid ob) true).mem (Ptr.blk pid ob) = Ptr.blk pid oa := by
    rw [block_prev, hu1_b]
    show (t.mem (Ptr.blk pid ob)).prevPhys = Ptr.blk pid oa
    exact hprevB
  have hmp : block_merge_prev (block_set_free t (Ptr.blk pid ob) true) (Ptr.blk pid ob) =
      block_absorb (block_remove (block_set_free t (Ptr.blk pid ob) true) (Ptr.blk pid oa)) (Ptr.blk pid oa) (Ptr.blk pid ob) := by
    rw [block_merge_prev_yes _ _ (by rw [hu1_b]; exact hpf), hbprev]
  have hfm : freeMerged t (Ptr.blk pid (ob + BLOCK_START_OFFSET)) =
      block_absorb (block_remove (block_absorb (block_remove (block_set_free t (Ptr.blk pid ob) true) (Ptr.blk pid oa)) (Ptr.blk pid oa) (Ptr.blk pid ob)).2 (Ptr.blk pid oc)) (Ptr.blk pid oa) (Ptr.blk pid oc) := by
    unfold freeMerged
    simp only []
    rw [hbfp, hmp]
    show block_merge_next (block_absorb (block_remove (block_set_free t (Ptr.blk pid ob) true) (Ptr.blk pid oa)) (Ptr.blk pid oa) (Ptr.blk pid ob)).2 (Ptr.blk pid oa) = _
    rw [block_merge_next_yes _ _ hcondD, hu3nextA]
  rw [hfm]
  have hu5chain : (block_absorb (block_remove (block_absorb (block_remove (block_set_free t (Ptr.blk pid ob) true) (Ptr.blk pid oa)) (Ptr.blk pid oa) (Ptr.blk pid ob)).2 (Ptr.blk pid oc)) (Ptr.blk pid oa) (Ptr.blk pid oc)).2.chainG pid = P2 ++ oa :: oc2 :: S3 := by
    rw [chainG_absorb, upd1_same, hu4chain, hu3chain,
      show P2 ++ oa :: oc :: oc2 :: S3 = (P2 ++ [oa]) ++ oc :: (oc2 :: S3) from by simp,
      erase_append_notin]
    · simp
    · intro hmem
      rcases List.mem_append.mp hmem with h1 | h1
      · have h2 := hPmema oc h1
        omega
      · rcases List.mem_cons.mp h1 with h2 | h2
        · omega
        · simp at h2
  have hu5pools : (block_absorb (block_remove (block_absorb (block_remove (block_set_free t (Ptr.blk pid ob) true) (Ptr.blk pid oa)) (Ptr.blk pid oa) (Ptr.blk pid ob)).2 (Ptr.blk pid oc)) (Ptr.blk pid oa) (Ptr.blk pid oc)).2.pools = t.pools := by
    rw [pools_absorb, hu4pools, hu3pools]
  have hobnot5 : ob ∉ P2 ++ oa :: oc2 :: S3 := by
    intro hmem
    rcases List.mem_append.mp hmem with h1 | h1
    · have h2 := hPmema ob h1
      omega
    · rcases List.mem_cons.mp h1 with h2 | h2
      · omega
      · rcases List.mem_cons.mp h2 with h3 | h3
        · omega
        · have h4 := hSmemc ob (List.mem_cons_of_mem _ h3)
          rw [hBO] at h4
          omega
  have hocnot5 : oc ∉ P2 ++ oa :: oc2 :: S3 := by
    intro hmem
    rcases List.mem_append.mp hmem with h1 | h1
    · have h2 := hPmema oc h1
      omega
    · rcases List.mem_cons.mp h1 with h2 | h2
      · omega
      · rcases List.mem_cons.mp h2 with h3 | h3
        · omega
        · have h4 := hSmemc oc (List.mem_cons_of_mem _ h3)
          rw [hBO] at h4
          omega
  have hfieldsA : ((block_absorb (block_remove (block_absorb (block_remove (block_set_free t (Ptr.blk pid ob) true) (Ptr.blk pid oa)) (Ptr.blk pid oa) (Ptr.blk pid ob)).2 (Ptr.blk pid oc)) (Ptr.blk pid oa) (Ptr.blk pid oc)).2.mem (Ptr.blk pid oa)).size = (t.mem (Ptr.blk pid oa)).size
        + (t.mem (Ptr.blk pid ob)).size + BLOCK_OVERHEAD
        + (t.mem (Ptr.blk pid oc)).size + BLOCK_OVERHEAD ∧
      ((block_absorb (block_remove (block_absorb (block_remove (block_set_free t (Ptr.blk pid ob) true) (Ptr.blk pid oa)) (Ptr.blk pid oa) (Ptr.blk pid ob)).2 (Ptr.blk pid oc)) (Ptr.blk pid oa) (Ptr.blk pid oc)).2.mem (Ptr.blk pid oa)).isFree = true ∧
      ((block_absorb (block_remove (block_absorb (block_remove (block_set_free t (Ptr.blk pid ob) true) (Ptr.blk pid oa)) (Ptr.blk pid oa) (Ptr.blk pid ob)).2 (Ptr.blk pid oc)) (Ptr.blk pid oa) (Ptr.blk pid oc)).2.mem (Ptr.blk pid oa)).isPrevFree = (t.mem (Ptr.blk pid oa)).isPrevFree ∧
      ((block_absorb (block_remove (block_absorb (block_remove (block_set_free t (Ptr.blk pid ob) true) (Ptr.blk pid oa)) (Ptr.blk pid oa) (Ptr.blk pid ob)).2 (Ptr.blk pid oc)) (Ptr.blk pid oa) (Ptr.blk pid oc)).2.mem (Ptr.blk pid oa)).prevPhys = (t.mem (Ptr.blk pid oa)).prevPhys := by
    rw [hu5_a]
    refine ⟨?_, ?_, ?_, ?_⟩
    · show ((block_remove (block_absorb (block_remove (block_set_free t (Ptr.blk pid ob) true) (Ptr.blk pid oa)) (Ptr.blk pid oa) (Ptr.blk pid ob)).2 (Ptr.blk pid oc)).mem (Ptr.blk pid oa)).size + ((block_remove (block_absorb (block_remove (block_set_free t (Ptr.blk pid ob) true) (Ptr.blk pid oa)) (Ptr.blk pid oa) (Ptr.blk pid ob)).2 (Ptr.blk pid oc)).mem (Ptr.blk pid oc)).size
        + BLOCK_OVERHEAD = _
      rw [hu4szA, hu4szC]
    · show ((block_remove (block_absorb (block_remove (block_set_free t (Ptr.blk pid ob) true) (Ptr.blk pid oa)) (Ptr.blk pid oa) (Ptr.blk pid ob)).2 (Ptr.blk pid oc)).mem (Ptr.blk pid oa)).isFree = true
      rw [(hsH34 _).2.1, hu3_a]
      show ((block_remove (block_set_free t (Ptr.blk pid ob) true) (Ptr.blk pid oa)).mem (Ptr.blk pid oa)).isFree = true
      rw [(hsH12 _).2.1, hu1_o _ hAneB hAneC]
      exact haf
    · show ((block_remove (block_absorb (block_remove (block_set_free t (Ptr.blk pid ob) true) (Ptr.blk pid oa)) (Ptr.blk pid oa) (Ptr.blk pid ob)).2 (Ptr.blk pid oc)).mem (Ptr.blk pid oa)).isPrevFree = _
      rw [(hsH34 _).2.2.1, hu3_a]
      show ((block_remove (block_set_free t (Ptr.blk pid ob) true) (Ptr.blk pid oa)).mem (Ptr.blk pid oa)).isPrevFree = _
      rw [(hsH12 _).2.2.1, hu1_o _ hAneB hAneC]
    · show ((block_remove (block_absorb (block_remove (block_set_free t (Ptr.blk pid ob) true) (Ptr.blk pid oa)) (Ptr.blk pid oa) (Ptr.blk pid ob)).2 (Ptr.blk pid oc)).mem (Ptr.blk pid oa)).prevPhys = _
      rw [(hsH34 _).2.2.2, hu3_a]
      show ((block_remove (block_set_free t (Ptr.blk pid ob) true) (Ptr.blk pid oa)).mem (Ptr.blk pid oa)).prevPhys = _
      rw [(hsH12 _).2.2.2, hu1_o _ hAneB hAneC]
  have hfieldsC2 : ((block_absorb (block_remove (block_absorb (block_remove (block_set_free t (Ptr.blk pid ob) true) (Ptr.blk pid oa)) (Ptr.blk pid oa) (Ptr.blk pid ob)).2 (Ptr.blk pid oc)) (Ptr.blk pid oa) (Ptr.blk pid oc)).2.mem (Ptr.blk pid oc2)).size = (t.mem (Ptr.blk pid oc2)).size ∧
      ((block_absorb (block_remove (block_absorb (block_remove (block_set_free t (Ptr.blk pid ob) true) (Ptr.blk pid oa)) (Ptr.blk pid oa) (Ptr.blk pid ob)).2 (Ptr.blk pid oc)) (Ptr.blk pid oa) (Ptr.blk pid oc)).2.mem (Ptr.blk pid oc2)).isFree = (t.mem (Ptr.blk pid oc2)).isFree ∧
      ((block_absorb (block_remove (block_absorb (block_remove (block_set_free t (Ptr.blk pid ob) true) (Ptr.blk pid oa)) (Ptr.blk pid oa) (Ptr.blk pid ob)).2 (Ptr.blk pid oc)) (Ptr.blk pid oa) (Ptr.blk pid oc)).2.mem (Ptr.blk pid oc2)).isPrevFree = true ∧
      ((block_absorb (block_remove (block_absorb (block_remove (block_set_free t (Ptr.blk pid ob) true) (Ptr.blk pid oa)) (Ptr.blk pid oa) (Ptr.blk pid ob)).2 (Ptr.blk pid oc)) (Ptr.blk pid oa) (Ptr.blk pid oc)).2.mem (Ptr.blk pid oc2)).prevPhys = Ptr.blk pid oa := by
    rw [hu5_c2]
    have e4 := hsH34 (Ptr.blk pid oc2)
    have e3 := hu3_of (Ptr.blk pid oc2) (fun hh => hAneC2 hh.symm)
      (fun hh => hCneC2 hh.symm)
    have e2 := hsH12 (Ptr.blk pid oc2)
    have e1 := hu1_o (Ptr.blk pid oc2) (fun hh => hBneC2 hh.symm)
      (fun hh => hCneC2 hh.symm)
    refine ⟨?_, ?_, ?_, rfl⟩
    · show ((block_remove (block_absorb (block_remove (block_set_free t (Ptr.blk pid ob) true) (Ptr.blk pid oa)) (Ptr.blk pid oa) (Ptr.blk pid ob)).2 (Ptr.blk pid oc)).mem (Ptr.blk pid oc2)).size = _
      rw [e4.1, e3, e2.1, e1]
    · show ((block_remove (block_absorb (block_remove (block_set_free t (Ptr.blk pid ob) true) (Ptr.blk pid oa)) (Ptr.blk pid oa) (Ptr.blk pid ob)).2 (Ptr.blk pid oc)).mem (Ptr.blk pid oc2)).isFree = _
      rw [e4.2.1, e3, e2.2.1, e1]
    · show ((block_remove (block_absorb (block_remove (block_set_free t (Ptr.blk pid ob) true) (Ptr.blk pid oa)) (Ptr.blk pid oa) (Ptr.blk pid ob)).2 (Ptr.blk pid oc)).mem (Ptr.blk pid oc2)).isPrevFree = true
      rw [e4.2.2.1, e3, e2.2.2.1, e1, hRcc2.1.2.1]
      exact hnf
  have hfieldso : ∀ q, q ≠ Ptr.blk pid oa → q ≠ Ptr.blk pid ob → q ≠ Ptr.blk pid oc →
      q ≠ Ptr.blk pid oc2 →
      (((block_absorb (block_remove (block_absorb (block_remove (block_set_free t (Ptr.blk pid ob) true) (Ptr.blk pid oa)) (Ptr.blk pid oa) (Ptr.blk pid ob)).2 (Ptr.blk pid oc)) (Ptr.blk pid oa) (Ptr.blk pid oc)).2.mem q).size = (t.mem q).size ∧
       ((block_absorb (block_remove (block_absorb (block_remove (block_set_free t (Ptr.blk pid ob) true) (Ptr.blk pid oa)) (Ptr.blk pid oa) (Ptr.blk pid ob)).2 (Ptr.blk pid oc)) (Ptr.blk pid oa) (Ptr.blk pid oc)).2.mem q).isFree = (t.mem q).isFree ∧
       ((block_absorb (block_remove (block_absorb (block_remove (block_set_free t (Ptr.blk pid ob) true) (Ptr.blk pid oa)) (Ptr.blk pid oa) (Ptr.blk pid ob)).2 (Ptr.blk pid oc)) (Ptr.blk pid oa) (Ptr.blk pid oc)).2.mem q).isPrevFree = (t.mem q).isPrevFree ∧
       ((block_absorb (block_remove (block_absorb (block_remove (block_set_free t (Ptr.blk pid ob) true) (Ptr.blk pid oa)) (Ptr.blk pid oa) (Ptr.blk pid ob)).2 (Ptr.blk pid oc)) (Ptr.blk pid oa) (Ptr.blk pid oc)).2.mem q).prevPhys = (t.mem q).prevPhys) := by
    intro q h1 h2 h3 h4
    have e5 := hu5_of _ h1 h4
    have e4 := hsH34 q
    have e3 := hu3_of _ h1 h3
    have e2 := hsH12 q
    have e1 := hu1_o _ h2 h3
    rw [e5, e4.1, e4.2.1, e4.2.2.1, e4.2.2.2, e3, e2.1, e2.2.1, e2.2.2.1, e2.2.2.2, e1]
    exact ⟨rfl, rfl, rfl, rfl⟩
  have hCu5R : CellsWF (block_absorb (block_remove (block_absorb (block_remove (block_set_free t (Ptr.blk pid ob) true) (Ptr.blk pid oa)) (Ptr.blk pid oa) (Ptr.blk pid ob)).2 (Ptr.blk pid oc)) (Ptr.blk pid oa) (Ptr.blk pid oc)).2 [Ptr.blk pid oa, Ptr.blk pid oc, Ptr.blk pid ob] := by
    refine cellsWF_reorder hCu5 ?_ ?_ <;>
    · intro x hx
      rcases List.mem_cons.mp hx with h1 | h1
      · rw [h1]
        simp
      · rcases List.mem_cons.mp h1 with h2 | h2
        · rw [h2]
          simp
        · rcases List.mem_cons.mp h2 with h3 | h3
          · rw [h3]
            simp
          · simp at h3
  refine ⟨oa, [Ptr.blk pid oc, Ptr.blk pid ob], P2, oc2 :: S3, rfl, ?_, hCu5R,
    by rw [hu5pools]; exact hpid, hu5chain, hPmema, by simp, hfieldsA.2.1, ?_,
    by simp [hAneC, hAneB]⟩
  · -- heap side
    refine heapWF_one_pool hH pid hu5pools ?_ ?_ ?_ ?_
    · rw [nextPid_absorb, nextPid_block_remove, nextPid_absorb, nextPid_block_remove,
        nextPid_set_free]
    · intro p hp
      rw [chainG_absorb, upd1_other _ _ _ _ hp, hu4chain, chainG_absorb,
        upd1_other _ _ _ _ hp, hu2chain]
    · intro p hp hppid off hoff
      refine hfieldso (Ptr.blk p off) ?_ ?_ ?_ ?_ <;>
      · intro hh
        injection hh with v1 v2
        exact hppid v1
    · intro hfpid
      rw [hu5chain]
      show PoolOK (block_absorb (block_remove (block_absorb (block_remove (block_set_free t (Ptr.blk pid ob) true) (Ptr.blk pid oa)) (Ptr.blk pid oa) (Ptr.blk pid ob)).2 (Ptr.blk pid oc)) (Ptr.blk pid oa) (Ptr.blk pid oc)).2.mem pid (P2 ++ oa :: oc2 :: S3)
      have hpo2 : PoolOK t.mem pid (P2 ++ [oa, ob, oc] ++ (oc2 :: S3)) := by
        rw [show P2 ++ [oa, ob, oc] ++ (oc2 :: S3) =
          P2 ++ oa :: ob :: oc :: oc2 :: S3 from by simp, ← hchain]
        exact hpo
      rw [show P2 ++ oa :: oc2 :: S3 = P2 ++ [oa] ++ (oc2 :: S3) from by simp]
      have hBM : (BLOCK_SIZE_MIN:Nat) = 24 := rfl
      have hoc2notS3 : oc2 ∉ S3 := by
        rw [hchainc] at hndchain
        rw [List.nodup_append] at hndchain
        exact (List.nodup_cons.mp (List.nodup_cons.mp hndchain.2.1).2).1
      refine poolOK_replace hpo2 (by simp) (by simp) (by simp) rfl ?_ ?_ ?_ ?_ ?_ ?_ ?_
      · intro off hoff
        have hlt := hPmema off hoff
        refine hfieldso (Ptr.blk pid off) ?_ ?_ ?_ ?_ <;>
        · intro hh
          injection hh with v1 v2
          omega
      · intro off hoff
        by_cases hoce : off = oc2
        · rw [hoce]
          exact ⟨hfieldsC2.1, hfieldsC2.2.1⟩
        · have hge := hSmemc off hoff
          rw [hBO] at hge
          have hf := hfieldso (Ptr.blk pid off)
            (by intro hh; injection hh with v1 v2; omega)
            (by intro hh; injection hh with v1 v2; omega)
            (by intro hh; injection hh with v1 v2; omega)
            (by intro hh; injection hh with v1 v2; exact hoce v2)
          exact ⟨hf.1, hf.2.1⟩
      · intro off hoff
        simp only [List.tail_cons] at hoff
        have hge := hSmemc off (List.mem_cons_of_mem _ hoff)
        rw [hBO] at hge
        have hf := hfieldso (Ptr.blk pid off)
          (by intro hh; injection hh with v1 v2; omega)
          (by intro hh; injection hh with v1 v2; omega)
          (by intro hh; injection hh with v1 v2; omega)
          (by intro hh; injection hh with v1 v2; exact hoc2notS3 (v2 ▸ hoff))
        exact ⟨hf.2.2.1, hf.2.2.2⟩
      · exact List.chain'_singleton _
      · intro p hp a ha
        have ha2 : oa = a := by simpa using ha
        subst ha2
        have hRold : R t.mem pid p oa := hPjoina p hp
        have hplt := hPmema p (mem_of_getLast? hp)
        have hfp := hfieldso (Ptr.blk pid p)
          (by intro hh; injection hh with v1 v2; omega)
          (by intro hh; injection hh with v1 v2; omega)
          (by intro hh; injection hh with v1 v2; omega)
          (by intro hh; injection hh with v1 v2; omega)
        refine ⟨?_, ?_, ?_, ?_, ?_⟩
        · rw [hfp.1]
          exact hRold.1
        · rw [hfieldsA.2.2.1, hfp.2.1]
          exact hRold.2.1
        · intro hfr
          rw [hfp.2.1] at hfr
          rw [hfieldsA.2.2.2]
          exact hRold.2.2.1 hfr
        · intro hboth
          have hfree_p : (t.mem (Ptr.blk pid p)).isFree = true := by
            rw [← hfp.2.1]
            exact hboth.1
          exact hRold.2.2.2.1 ⟨hfree_p, haf⟩
        · rw [hfp.1]
          exact hRold.2.2.2.2
      · intro bb hbb e he
        have hbb2 : oa = bb := by simpa using hbb
        have he2 : oc2 = e := by simpa using he
        subst hbb2
        subst he2
        refine ⟨?_, ?_, ?_, ?_, ?_⟩
        · rw [hfieldsA.1]
          have h1 := hRab.2
          have h2 := hRbc.2
          have h3 := hRcc2.2
          rw [hBO] at h1 h2 h3 ⊢
          omega
        · rw [hfieldsC2.2.2.1, hfieldsA.2.1]
        · intro hfr
          exact hfieldsC2.2.2.2
        · intro hboth
          have hcv := hboth.2
          rw [hfieldsC2.2.1, hoc2used] at hcv
          exact Bool.noConfusion hcv
        · rw [hfieldsA.1]
          have h1 := hRab.1.2.2.2.2
          rw [hBM] at h1 ⊢
          rw [hBO]
          omega
      · intro hPnil a ha
        have ha2 : oa = a := by simpa using ha
        subst ha2
        have hoa0 : oa = 0 := by
          have h0 := hpo.1
          rw [hchain, hPnil] at h0
          simp only [List.nil_append, List.head?_cons, Option.some.injEq] at h0
          exact h0
        rw [hfieldsA.2.2.1, hoa0]
        exact hpo.2.1
  · intro x hx pid2 hpid2 off2 hoff2
    rcases List.mem_cons.mp hx with h1 | h1
    · rw [h1]
      intro hh
      injection hh with v1 v2
      subst v1
      rw [hu5chain] at hoff2
      rw [v2] at hoff2
      exact hocnot5 hoff2
    · rcases List.mem_cons.mp h1 with h2 | h2
      · rw [h2]
        intro hh
        injection hh with v1 v2
        subst v1
        rw [hu5chain] at hoff2
        rw [v2] at hoff2
        exact hobnot5 hoff2
      · simp at h2

/-- tlsf_free preserves well-formedness on any valid pointer
(src/tlsf.c lines 599-618). -/
theorem tlsf_free_WF (t : tlsf_s) (p : Ptr) (hW : WF t) (hIP : IsPoolInv t)
    (hv : ValidFree t p) : WF (tlsf_free t p) := by
  rcases hv with hnull | ⟨pid, ob, hpid, hob, hlast, hpeq, hused⟩
  · unfold tlsf_free
    rw [if_pos hnull]
    exact hW
  subst hpeq
  have hpo := hW.1.pools_ok pid hpid
  have hFM : FreeMergedOK t pid (freeMerged t (Ptr.blk pid (ob + BLOCK_START_OFFSET))) := by
    obtain ⟨P, S, hchain⟩ := List.append_of_mem hob
    have hSne : S ≠ [] := by
      intro hSnil
      apply hlast
      rw [hchain, hSnil, List.getLast?_concat]
      rfl
    cases hSc : S with
    | nil => exact absurd hSc hSne
    | cons oc S2 =>
    rw [hSc] at hchain
    by_cases hpf : (t.mem (Ptr.blk pid ob)).isPrevFree = true
    · rcases List.eq_nil_or_concat P with hP0 | ⟨P2, oa, hP2⟩
      · exfalso
        have hob0 : ob = 0 := by
          have h0 := hpo.1
          rw [hchain, hP0] at h0
          simp only [List.nil_append, List.head?_cons, Option.some.injEq] at h0
          exact h0
        have hf0 := hpo.2.1
        rw [← hob0] at hf0
        rw [hf0] at hpf
        exact Bool.noConfusion hpf
      · rw [hP2] at hchain
        have hchain2 : t.chainG pid = P2 ++ oa :: ob :: oc :: S2 := by
          rw [hchain]
          simp
        by_cases hnf : (t.mem (Ptr.blk pid oc)).isFree = true
        · cases hS2c : S2 with
          | nil =>
            exfalso
            have hgl : (t.chainG pid).getLast? = some oc := by
              rw [hchain2, hS2c, show P2 ++ oa :: ob :: oc :: ([]:List Nat) =
                (P2 ++ [oa, ob]) ++ [oc] from by simp, List.getLast?_concat]
            have h1 := (hpo.2.2.2 oc hgl).2.1
            rw [hnf] at h1
            exact Bool.noConfusion h1
          | cons oc2 S3 =>
            rw [hS2c] at hchain2
            exact freeMerged_WF_yy t pid oa ob oc oc2 P2 S3 hW.1 hW.2 hpid hchain2
              hused hpf hnf
        · rw [Bool.not_eq_true] at hnf
          exact freeMerged_WF_yn t pid oa ob oc P2 S2 hW.1 hW.2 hpid hchain2
            hused hpf hnf
    · rw [Bool.not_eq_true] at hpf
      by_cases hnf : (t.mem (Ptr.blk pid oc)).isFree = true
      · cases hS2c : S2 with
        | nil =>
          exfalso
          have hgl : (t.chainG pid).getLast? = some oc := by
            rw [hchain, hS2c, show P ++ ob :: oc :: ([]:List Nat) =
              (P ++ [ob]) ++ [oc] from by simp, List.getLast?_concat]
          have h1 := (hpo.2.2.2 oc hgl).2.1
          rw [hnf] at h1
          exact Bool.noConfusion h1
        | cons oc2 S3 =>
          rw [hS2c] at hchain
          exact freeMerged_WF_ny t pid ob oc oc2 P S3 hW.1 hW.2 hpid hchain
            hused hpf hnf
      · rw [Bool.not_eq_true] at hnf
        exact freeMerged_WF_nn t pid ob oc P S2 hW.1 hW.2 hpid hchain hused hpf hnf
  obtain ⟨om, X, P3, S3x, hm1, hH3, hC3, hpid3, hchain3, hP3lt, hS3ne, hfree3, hX3, hmX3⟩ :=
    hFM
  unfold tlsf_free
  rw [if_neg (by simp)]
  simp only []
  rw [hm1]
  split_ifs with hcond
  · -- pool auto-release branch
    have hle := freeMerged_poolLe t (Ptr.blk pid (ob + BLOCK_START_OFFSET))
    have hpl : (t.mem (Ptr.blk pid om)).isPool = true := hle _ hcond.1
    obtain ⟨pid4, hpid4, heqM⟩ := hIP.1 _ hpl
    have hom0 : om = 0 := by
      injection heqM with v1 v2
    have hP3nil : P3 = [] := by
      cases hP3c : P3 with
      | nil => rfl
      | cons a P4 =>
        have h1 := hP3lt a (by rw [hP3c]; exact List.mem_cons_self _ _)
        rw [hom0] at h1
        omega
    rw [hP3nil, hom0] at hchain3
    rw [List.nil_append] at hchain3
    have hpo3 := hH3.pools_ok pid hpid3
    -- the sentinel read by the condition is the chain's second entry
    cases hS3c : S3x with
    | nil => exact absurd hS3c hS3ne
    | cons z S4 =>
    rw [hS3c] at hchain3
    have hchain3' : (freeMerged t (Ptr.blk pid (ob + BLOCK_START_OFFSET))).2.chainG pid =
        ([]:List Nat) ++ (0:Nat) :: z :: S4 := by
      rw [hchain3]
      rfl
    obtain ⟨hShead3, -, -, -⟩ := chain_mid_facts hpo3 hchain3' (by simp)
    have hR3 : R (freeMerged t (Ptr.blk pid (ob + BLOCK_START_OFFSET))).2.mem pid 0 z ∧
        z = 0 + ((freeMerged t (Ptr.blk pid (ob + BLOCK_START_OFFSET))).2.mem
          (Ptr.blk pid 0)).size + BLOCK_OVERHEAD :=
      hShead3 z rfl
    have hnext3 : block_next (freeMerged t (Ptr.blk pid (ob + BLOCK_START_OFFSET))).2.mem
        (Ptr.blk pid 0) = Ptr.blk pid z := by
      rw [block_next, ptrAdd, hR3.2, Nat.add_assoc]
    have hszz : ((freeMerged t (Ptr.blk pid (ob + BLOCK_START_OFFSET))).2.mem
        (Ptr.blk pid z)).size = 0 := by
      have h1 := hcond.2.1
      rw [hom0, hnext3] at h1
      exact h1
    have hS4nil : S4 = [] := by
      cases hS4c : S4 with
      | nil => rfl
      | cons w S5 =>
        exfalso
        have hch := hpo3.2.2.1
        rw [hchain3, hS4c] at hch
        have hRzw := (List.chain'_cons.mp (List.chain'_cons.mp hch).2).1
        have h1 := hRzw.2.2.2.2
        rw [hszz] at h1
        rw [show (BLOCK_SIZE_MIN:Nat) = 24 from rfl] at h1
        omega
    rw [hS4nil] at hchain3
    have hzlast : ((freeMerged t (Ptr.blk pid (ob + BLOCK_START_OFFSET))).2.mem
        (Ptr.blk pid z)).isFree = false := by
      refine (hpo3.2.2.2 z ?_).2.1
      rw [hchain3, show ((0:Nat) :: [z]) = [(0:Nat)] ++ [z] from rfl,
        List.getLast?_concat]
      rfl
    refine remove_pool_WF _ pid om X hH3 hC3 ?_ hX3
    · intro off hoff
      rw [hom0]
      rw [hchain3] at hoff
      rcases List.mem_cons.mp hoff with h1 | h1
      · exact Or.inl h1
      · rcases List.mem_cons.mp h1 with h2 | h2
        · rw [h2]
          exact Or.inr hzlast
        · simp at h2
  · refine free_finish_WF _ pid om X hH3 hC3 hpid3 ?_ hfree3 hX3 hmX3
    rw [hchain3]
    exact List.mem_append_right _ (List.mem_cons_self _ _)

/-- A currently allocated, non-sentinel block of a live pool: the
payload-pointer form of ValidFree. -/
def UsedAt (t : tlsf_s) (pid ob : Nat) : Prop :=
  pid ∈ t.pools ∧ ob ∈ t.chainG pid ∧ ob ≠ (t.chainG pid).getLast?.getD 0 ∧
  (t.mem (Ptr.blk pid ob)).isFree = false

theorem validFree_of_usedAt {t : tlsf_s} {pid ob : Nat} (h : UsedAt t pid ob) :
    ValidFree t (Ptr.blk pid (ob + BLOCK_START_OFFSET)) :=
  Or.inr ⟨pid, ob, h.1, h.2.1, h.2.2.1, rfl, h.2.2.2⟩

theorem chainIns_getLast? (l : List Nat) (o x : Nat)
    (h : ∀ e ∈ l.getLast?, e ≠ o) : (chainIns l o x).getLast? = l.getLast? := by
  induction l with
  | nil => rfl
  | cons a rest ih =>
    cases hr : rest with
    | nil =>
      have ha : a ≠ o := by
        apply h
        rw [hr]
        rfl
      rw [chainIns, if_neg ha]
      rfl
    | cons b rest2 =>
      rw [chainIns]
      by_cases hao : a = o
      · rw [if_pos hao]
        rw [List.getLast?_cons_cons, List.getLast?_cons_cons, List.getLast?_cons_cons]
      · rw [if_neg hao]
        have h2 : ∀ e ∈ (b :: rest2).getLast?, e ≠ o := by
          intro e he
          apply h
          rw [hr, List.getLast?_cons_cons]
          exact he
        have h3 := ih
        rw [hr] at h3
        have h4 := h3 h2
        rw [List.getLast?_cons_cons, ← h4]
        cases hc : chainIns (b :: rest2) o x with
        | nil =>
          exfalso
          rw [chainIns] at hc
          by_cases hbo : b = o
          · rw [if_pos hbo] at hc
            exact List.noConfusion hc
          · rw [if_neg hbo] at hc
            exact List.noConfusion hc
        | cons u v =>
          rw [List.getLast?_cons_cons]

theorem set_free_isFree_other (t : tlsf_s) (b0 : Ptr) (fr : Bool) (q : Ptr)
    (hne : b0 ≠ block_next t.mem b0) (hq : q ≠ b0) :
    ((block_set_free t b0 fr).mem q).isFree = (t.mem q).isFree := by
  by_cases h2 : q = block_next t.mem b0
  · rw [h2, set_free_mem_next _ _ _ hne]
  · rw [set_free_mem_other _ _ _ _ hq h2]

theorem align_up_of_mul8 {x : Nat} (h8 : x % 8 = 0) (hlt : x + 7 < 2 ^ 64) :
    align_up x = x := by
  unfold align_up
  rw [show (ALIGN_SIZE:Nat) = 8 from rfl, Nat.mod_eq_of_lt hlt]
  omega

theorem align_up_mul8 (x : Nat) : align_up x % 8 = 0 := by
  unfold align_up
  rw [show (ALIGN_SIZE:Nat) = 8 from rfl]
  exact Nat.mul_mod_left _ _

/-- adjust_size is idempotent on its own output: re-adjusting the size an
inner tlsf_malloc receives from tlsf_realloc is the identity. -/
theorem adjust_size_idem {n sz : Nat} (h : adjust_size n = some sz) :
    adjust_size sz = some sz := by
  obtain ⟨h1, h2⟩ := adjust_size_bounds h
  have h8 : sz % 8 = 0 := by
    unfold adjust_size at h
    simp only [] at h
    split_ifs at h with g1 g2
    · injection h with hh
      rw [← hh]
      rfl
    · injection h with hh
      rw [← hh]
      exact align_up_mul8 n
  have hlt64 : sz + 7 < 2 ^ 64 := by
    rw [show (BLOCK_SIZE_MAX:Nat) = 2 ^ 33 from rfl] at h2
    omega
  unfold adjust_size
  simp only []
  rw [align_up_of_mul8 h8 hlt64, if_neg (by rw [show (BLOCK_SIZE_MIN:Nat) = 24 from rfl] at h1 ⊢; omega),
    if_pos h2]

/-- mallocFinish keeps every other allocated block allocated, at the same
place and non-terminal: only the located free block, its split remainder
and the successor's incoming flags are touched. -/
theorem mallocFinish_usedAt (u : tlsf_s) (bpid bob sz : Nat) (pid ob : Nat)
    (hH : HeapWF u) (hbpid : bpid ∈ u.pools) (hbob : bob ∈ u.chainG bpid)
    (hbfree : (u.mem (Ptr.blk bpid bob)).isFree = true)
    (hU : UsedAt u pid ob) :
    UsedAt (mallocFinish u (Ptr.blk bpid bob) sz).2 pid ob := by
  obtain ⟨P, S, hchain⟩ := List.append_of_mem hbob
  have hpo := hH.pools_ok bpid hbpid
  obtain ⟨hS, hShead, hPjoin, hPmem, hSmem⟩ := chain_pos_facts hpo hchain hbfree
  cases hSc : S with
  | nil => exact absurd hSc hS
  | cons oc S2 =>
  have hBO : (BLOCK_OVERHEAD:Nat) = 8 := rfl
  have hR : R u.mem bpid bob oc ∧
      oc = bob + (u.mem (Ptr.blk bpid bob)).size + BLOCK_OVERHEAD := by
    refine hShead oc ?_
    rw [hSc]
    rfl
  have hXneB : Ptr.blk pid ob ≠ Ptr.blk bpid bob := by
    intro hh
    have h1 := hU.2.2.2
    rw [hh] at h1
    rw [h1] at hbfree
    exact Bool.noConfusion hbfree
  have hlastB : ∀ e ∈ (u.chainG bpid).getLast?, e ≠ bob := by
    intro e he hh
    have h1 := (hpo.2.2.2 e he).2.1
    rw [hh, hbfree] at h1
    exact Bool.noConfusion h1
  by_cases hcs : block_can_split u (Ptr.blk bpid bob) sz = true
  · -- split path
    have hle := block_can_split_le hcs
    rw [show (SIZEOF_BLOCK:Nat) = 32 from rfl] at hle
    have hlt : sz + BLOCK_OVERHEAD < (u.mem (Ptr.blk bpid bob)).size := by
      rw [hBO]
      omega
    have hbneRP : Ptr.blk bpid bob ≠ Ptr.blk bpid (bob + (sz + BLOCK_OVERHEAD)) := by
      intro hh
      injection hh with u1 u2
      rw [hBO] at u2
      omega
    have hRPneC : Ptr.blk bpid (bob + (sz + BLOCK_OVERHEAD)) ≠ Ptr.blk bpid oc := by
      intro hh
      injection hh with u1 u2
      rw [hR.2, hBO] at u2
      omega
    have hornot : bob + (sz + BLOCK_OVERHEAD) ∉ u.chainG bpid := by
      intro hmem
      rw [hchain] at hmem
      rcases List.mem_append.mp hmem with h1 | h1
      · have hl := hPmem _ h1
        omega
      · rcases List.mem_cons.mp h1 with h2 | h2
        · rw [hBO] at h2
          omega
        · have hl := hSmem _ h2
          rw [hBO] at hl
          omega
    have hXneRP : Ptr.blk pid ob ≠ Ptr.blk bpid (bob + (sz + BLOCK_OVERHEAD)) := by
      intro hh
      injection hh with u1 u2
      subst u1
      subst u2
      exact hornot hU.2.1
    have heval := block_split_eval u bpid bob sz hlt
    rw [← hR.2] at heval
    obtain ⟨hev_r, hev_b, hev_c, hev_o⟩ := heval
    unfold mallocFinish
    simp only []
    rw [block_trim_free_split _ _ _ hcs, block_split_fst,
      show ptrAdd (Ptr.blk bpid bob) (sz + BLOCK_OVERHEAD) =
        Ptr.blk bpid (bob + (sz + BLOCK_OVERHEAD)) from rfl]
    set s1 : tlsf_s := (block_split u (Ptr.blk bpid bob) sz).2 with hs1
    have hnext1 : block_next s1.mem (Ptr.blk bpid bob) =
        Ptr.blk bpid (bob + (sz + BLOCK_OVERHEAD)) := by
      rw [block_next, hev_b]
      rfl
    set s2 : tlsf_s := (block_link_next s1 (Ptr.blk bpid bob)).2 with hs2
    have hs2mem : s2.mem = updHdr s1.mem (Ptr.blk bpid (bob + (sz + BLOCK_OVERHEAD)))
        (fun h => { h with prevPhys := Ptr.blk bpid bob }) := by
      rw [hs2, block_link_next_snd_mem, hnext1]
    set s3 : tlsf_s := { s2 with mem := updHdr s2.mem (Ptr.blk bpid (bob + (sz + BLOCK_OVERHEAD))) (fun hh => { hh with isPrevFree := true }) } with hs3
    have hs3_rp : s3.mem (Ptr.blk bpid (bob + (sz + BLOCK_OVERHEAD))) =
        { u.mem (Ptr.blk bpid (bob + (sz + BLOCK_OVERHEAD))) with
          size := (u.mem (Ptr.blk bpid bob)).size - (sz + BLOCK_OVERHEAD)
          isPool := false
          isFree := true
          isPrevFree := true
          prevPhys := Ptr.blk bpid bob } := by
      rw [hs3]
      simp only []
      rw [updHdr_same, hs2mem, updHdr_same, hev_r]
    have hs3_other : ∀ q, q ≠ Ptr.blk bpid (bob + (sz + BLOCK_OVERHEAD)) →
        s3.mem q = s1.mem q := by
      intro q hq
      rw [hs3]
      simp only []
      rw [updHdr_other _ _ _ _ hq, hs2mem, updHdr_other _ _ _ _ hq]
    have hs3_b : s3.mem (Ptr.blk bpid bob) =
        { u.mem (Ptr.blk bpid bob) with size := sz } := by
      rw [hs3_other _ hbneRP, hev_b]
    have hs3_c : s3.mem (Ptr.blk bpid oc) =
        { u.mem (Ptr.blk bpid oc) with
          prevPhys := Ptr.blk bpid (bob + (sz + BLOCK_OVERHEAD))
          isPrevFree := true } := by
      rw [hs3_other _ (fun hh => hRPneC hh.symm), hev_c]
    have hs3_o : ∀ q, q ≠ Ptr.blk bpid bob →
        q ≠ Ptr.blk bpid (bob + (sz + BLOCK_OVERHEAD)) →
        q ≠ Ptr.blk bpid oc → s3.mem q = u.mem q := by
      intro q h1 h2 h3
      rw [hs3_other _ h2, hev_o q h1 h2 h3]
    set s4 : tlsf_s :=
      block_insert s3 (Ptr.blk bpid (bob + (sz + BLOCK_OVERHEAD))) with hs4
    have hs4mem : s4.mem = insMem s3.mem (Ptr.blk bpid (bob + (sz + BLOCK_OVERHEAD)))
        (s3.blocks (mapping_insert ((s3.mem
          (Ptr.blk bpid (bob + (sz + BLOCK_OVERHEAD)))).size)).1
          (mapping_insert ((s3.mem
            (Ptr.blk bpid (bob + (sz + BLOCK_OVERHEAD)))).size)).2) := by
      rw [hs4, block_insert_eq, insert_free_block_eq]
    have hs4heap : sameHeap s3.mem s4.mem := by
      rw [hs4mem]
      exact insMem_sameHeap _ _ _
    have hnext4 : block_next s4.mem (Ptr.blk bpid bob) =
        Ptr.blk bpid (bob + (sz + BLOCK_OVERHEAD)) := by
      rw [block_next, (hs4heap (Ptr.blk bpid bob)).1, hs3_b]
      rfl
    have hbne4 : Ptr.blk bpid bob ≠ block_next s4.mem (Ptr.blk bpid bob) := by
      rw [hnext4]
      exact hbneRP
    refine ⟨hU.1, ?_, ?_, ?_⟩
    · show ob ∈ upd1 u.chainG bpid
        (chainIns (u.chainG bpid) bob (bob + (sz + BLOCK_OVERHEAD))) pid
      by_cases hp : pid = bpid
      · subst hp
        rw [upd1_same]
        exact chainIns_mem _ _ hU.2.1
      · rw [upd1_other _ _ _ _ hp]
        exact hU.2.1
    · show ob ≠ ((upd1 u.chainG bpid
        (chainIns (u.chainG bpid) bob (bob + (sz + BLOCK_OVERHEAD))) pid).getLast?.getD 0)
      by_cases hp : pid = bpid
      · subst hp
        rw [upd1_same, chainIns_getLast? _ _ _ hlastB]
        exact hU.2.2.1
      · rw [upd1_other _ _ _ _ hp]
        exact hU.2.2.1
    · have h1 : ((block_set_free s4 (Ptr.blk bpid bob) false).mem
          (Ptr.blk pid ob)).isFree = (s4.mem (Ptr.blk pid ob)).isFree :=
        set_free_isFree_other s4 _ false _ hbne4 hXneB
      rw [h1, (hs4heap _).2.1]
      by_cases hqc : Ptr.blk pid ob = Ptr.blk bpid oc
      · rw [hqc, hs3_c]
        show (u.mem (Ptr.blk bpid oc)).isFree = false
        rw [← hqc]
        exact hU.2.2.2
      · rw [hs3_o _ hXneB hXneRP hqc]
        exact hU.2.2.2
  · -- no split: only the freed bit of the located block changes
    unfold mallocFinish
    simp only []
    rw [block_trim_free_nosplit _ _ _ hcs]
    have hnextc : block_next u.mem (Ptr.blk bpid bob) = Ptr.blk bpid oc := by
      rw [block_next, ptrAdd, hR.2, Nat.add_assoc]
    have hbneq : Ptr.blk bpid bob ≠ block_next u.mem (Ptr.blk bpid bob) := by
      rw [hnextc]
      intro hh
      injection hh with u1 u2
      rw [hR.2, hBO] at u2
      omega
    refine ⟨hU.1, hU.2.1, hU.2.2.1, ?_⟩
    rw [set_free_isFree_other u _ false _ hbneq hXneB]
    exact hU.2.2.2

theorem locate_hit_usedAt (t : tlsf_s) (sz : Nat) (b : Ptr) (fl' sl' : Nat) (pid ob : Nat)
    (hW : WF t)
    (hs : search_suitable_block t (mapping_search sz).1 (mapping_search sz).2 =
      some (b, fl', sl'))
    (hU : UsedAt t pid ob) :
    UsedAt (mallocFinish (remove_free_block t b fl' sl') b sz).2 pid ob := by
  obtain ⟨hH, hC⟩ := hW
  obtain ⟨hmem, -⟩ := search_suitable_mem hC hs
  obtain ⟨bpid, bob, hbeq, hbpid, hbob, hbfree, -, -⟩ := hC.cellMem _ _ b hmem
  subst hbeq
  have hH1 : HeapWF (remove_free_block t (Ptr.blk bpid bob) fl' sl') := by
    refine heapWF_sameHeap_keep hH ?_ (pools_remove_free _ _ _ _)
      (chainG_remove_free _ _ _ _) ?_
    · rw [remove_free_block_mem]
      exact remMem_sameHeap _ _
    · rw [nextPid_remove_free]
  have hbpid1 : bpid ∈ (remove_free_block t (Ptr.blk bpid bob) fl' sl').pools := by
    rw [pools_remove_free]
    exact hbpid
  have hbob1 : bob ∈ (remove_free_block t (Ptr.blk bpid bob) fl' sl').chainG bpid := by
    rw [chainG_remove_free]
    exact hbob
  have hbfree1 : ((remove_free_block t (Ptr.blk bpid bob) fl' sl').mem
      (Ptr.blk bpid bob)).isFree = true := by
    rw [remove_free_block_mem,
      (remMem_sameHeap t.mem (Ptr.blk bpid bob) (Ptr.blk bpid bob)).2.1]
    exact hbfree
  have hU1 : UsedAt (remove_free_block t (Ptr.blk bpid bob) fl' sl') pid ob := by
    refine ⟨?_, ?_, ?_, ?_⟩
    · rw [pools_remove_free]
      exact hU.1
    · rw [chainG_remove_free]
      exact hU.2.1
    · rw [chainG_remove_free]
      exact hU.2.2.1
    · rw [remove_free_block_mem,
        (remMem_sameHeap t.mem (Ptr.blk bpid bob) (Ptr.blk pid ob)).2.1]
      exact hU.2.2.2
  exact mallocFinish_usedAt _ bpid bob sz pid ob hH1 hbpid1 hbob1 hbfree1 hU1

theorem grownState_usedAt (t : tlsf_s) (memsize : Nat) (pid ob : Nat)
    (hH : HeapWF t) (hU : UsedAt t pid ob) :
    UsedAt (grownState t memsize) pid ob := by
  have hlt : pid < t.nextPid := hH.poolsLt pid hU.1
  have hne : pid ≠ t.nextPid := by omega
  have hpools : (grownState t memsize).pools = t.nextPid :: t.pools := rfl
  have hchainG : (grownState t memsize).chainG =
      upd1 t.chainG t.nextPid [0, memsize - POOL_OVERHEAD + BLOCK_OVERHEAD] := rfl
  refine ⟨?_, ?_, ?_, ?_⟩
  · rw [hpools]
    exact List.mem_cons_of_mem _ hU.1
  · rw [hchainG, upd1_other _ _ _ _ hne]
    exact hU.2.1
  · rw [hchainG, upd1_other _ _ _ _ hne]
    exact hU.2.2.1
  · have hXne0 : Ptr.blk pid ob ≠ Ptr.blk t.nextPid 0 := by
      intro hh
      injection hh with v1 v2
      exact hne v1
    have hXnenxt : ∀ m2 : Ptr → BlockHdr,
        Ptr.blk pid ob ≠ block_next m2 (Ptr.blk t.nextPid 0) := by
      intro m2
      show Ptr.blk pid ob ≠
        Ptr.blk t.nextPid (0 + ((m2 (Ptr.blk t.nextPid 0)).size + BLOCK_OVERHEAD))
      intro hh
      injection hh with v1 v2
      exact hne v1
    show ((updHdr (add_pool { t with nextPid := t.nextPid + 1 } t.nextPid memsize).2.mem
      (add_pool { t with nextPid := t.nextPid + 1 } t.nextPid memsize).1
      (fun h => { h with isPool := true })) (Ptr.blk pid ob)).isFree = false
    rw [add_pool_eq]
    simp only []
    rw [updHdr_other _ _ _ _ hXne0, addPool3_mem,
      updHdr_other _ _ _ _ (hXnenxt _), updHdr_other _ _ _ _ (hXnenxt _)]
    have hins := (insMem_sameHeap
      (addPool1 { t with nextPid := t.nextPid + 1 } t.nextPid memsize).mem
      (Ptr.blk t.nextPid 0)
      ((addPool1 { t with nextPid := t.nextPid + 1 } t.nextPid memsize).blocks
        (mapping_insert ((addPool1 { t with nextPid := t.nextPid + 1 }
          t.nextPid memsize).mem (Ptr.blk t.nextPid 0)).size).1
        (mapping_insert ((addPool1 { t with nextPid := t.nextPid + 1 }
          t.nextPid memsize).mem (Ptr.blk t.nextPid 0)).size).2)
      (Ptr.blk pid ob)).2.1
    rw [show (block_insert (addPool1 { t with nextPid := t.nextPid + 1 }
        t.nextPid memsize) (Ptr.blk t.nextPid 0)).mem =
      insMem (addPool1 { t with nextPid := t.nextPid + 1 } t.nextPid memsize).mem
        (Ptr.blk t.nextPid 0)
        ((addPool1 { t with nextPid := t.nextPid + 1 } t.nextPid memsize).blocks
          (mapping_insert ((addPool1 { t with nextPid := t.nextPid + 1 }
            t.nextPid memsize).mem (Ptr.blk t.nextPid 0)).size).1
          (mapping_insert ((addPool1 { t with nextPid := t.nextPid + 1 }
            t.nextPid memsize).mem (Ptr.blk t.nextPid 0)).size).2) from rfl, hins,
      addPool1_mem, updHdr_other _ _ _ _ hXne0]
    exact hU.2.2.2

theorem tlsf_malloc_usedAt (resp : Option Nat) (t : tlsf_s) (n : Nat) (q : Option Ptr)
    (t1 : tlsf_s) (pid ob : Nat) (hW : WF t)
    (hresp : ∀ sz, adjust_size n = some sz → respOK resp sz)
    (h : tlsf_malloc resp t n = Except.ok (q, t1)) (hU : UsedAt t pid ob) :
    UsedAt t1 pid ob := by
  cases ha : adjust_size n with
  | none =>
    unfold tlsf_malloc at h
    rw [ha] at h
    exact absurd h (by simp)
  | some sz =>
  obtain ⟨hsz, hszmax⟩ := adjust_size_bounds ha
  cases hs : search_suitable_block t (mapping_search sz).1 (mapping_search sz).2 with
  | some bfs =>
    unfold tlsf_malloc at h
    rw [ha] at h
    have hl : block_locate_free t sz = (some bfs.1, remove_free_block t bfs.1 bfs.2.1 bfs.2.2) :=
      block_locate_free_some t sz bfs.1 bfs.2.1 bfs.2.2 (by rw [hs])
    simp only [hl] at h
    have ht' : t1 = (mallocFinish (remove_free_block t bfs.1 bfs.2.1 bfs.2.2) bfs.1 sz).2 := by
      rw [mallocFinish] at h
      simp only [Except.ok.injEq, Prod.mk.injEq] at h
      exact h.2.symm
    rw [ht']
    exact locate_hit_usedAt t sz bfs.1 bfs.2.1 bfs.2.2 pid ob hW (by rw [hs]) hU
  | none =>
    cases hr : resp with
    | none =>
      unfold tlsf_malloc at h
      rw [ha] at h
      simp only [block_locate_free_none t sz hs] at h
      rw [hr] at h
      simp only [Except.ok.injEq, Prod.mk.injEq] at h
      rw [← h.2]
      exact hU
    | some memsize =>
      subst hr
      have he := tlsf_malloc_grow_eq t n sz memsize ha hs
      rw [he] at h
      have hmembounds := hresp sz ha memsize rfl
      have hW3 : WF (grownState t memsize) := by
        refine grownState_WF t memsize hW ?_ hmembounds.2
        have h1 := hmembounds.1
        rw [show (POOL_OVERHEAD:Nat) = 16 from rfl, show (BLOCK_OVERHEAD:Nat) = 8 from rfl,
          show (BLOCK_SIZE_MIN:Nat) = 24 from rfl] at *
        omega
      have hU3 : UsedAt (grownState t memsize) pid ob :=
        grownState_usedAt t memsize pid ob hW.1 hU
      cases hs2 : search_suitable_block (grownState t memsize)
          (mapping_search sz).1 (mapping_search sz).2 with
      | some bfs2 =>
        have hl2 : block_locate_free (grownState t memsize) sz =
            (some bfs2.1, remove_free_block (grownState t memsize) bfs2.1 bfs2.2.1 bfs2.2.2) :=
          block_locate_free_some _ sz bfs2.1 bfs2.2.1 bfs2.2.2 (by rw [hs2])
        rw [hl2] at h
        simp only [] at h
        have ht' : t1 = (mallocFinish
            (remove_free_block (grownState t memsize) bfs2.1 bfs2.2.1 bfs2.2.2)
            bfs2.1 sz).2 := by
          rw [mallocFinish] at h
          simp only [Except.ok.injEq, Prod.mk.injEq] at h
          exact h.2.symm
        rw [ht']
        exact locate_hit_usedAt _ sz bfs2.1 bfs2.2.1 bfs2.2.2 pid ob hW3 (by rw [hs2]) hU3
      | none =>
        rw [block_locate_free_none _ sz hs2] at h
        exact absurd h (by simp)

/-- block_trim_used (src/tlsf.c lines 442-452) preserves well-formedness:
the trimmed-off remainder is re-filed (after absorbing a free successor),
and stale detached blocks may simply be dropped. -/
theorem block_trim_used_WF (u : tlsf_s) (pid ob sz : Nat) (X : List Ptr)
    (hH : HeapWF u) (hC : CellsWF u X)
    (hpid : pid ∈ u.pools) (hob : ob ∈ u.chainG pid)
    (hlast : ob ≠ (u.chainG pid).getLast?.getD 0)
    (hused : (u.mem (Ptr.blk pid ob)).isFree = false)
    (hsz : BLOCK_SIZE_MIN ≤ sz)
    (hX : ∀ x ∈ X, ∀ pid2 ∈ u.pools, ∀ off2 ∈ u.chainG pid2, Ptr.blk pid2 off2 ≠ x)
    (hbX : ∀ x ∈ X, x ≠ Ptr.blk pid (ob + (sz + BLOCK_OVERHEAD))) :
    WF (block_trim_used u (Ptr.blk pid ob) sz) := by
  by_cases hcs : block_can_split u (Ptr.blk pid ob) sz = true
  swap
  · unfold block_trim_used
    simp only []
    rw [if_neg hcs]
    exact ⟨hH, cellsWF_dropAll hC hX⟩
  obtain ⟨P, S, hchain⟩ := List.append_of_mem hob
  have hpo := hH.pools_ok pid hpid
  have hBO : (BLOCK_OVERHEAD:Nat) = 8 := rfl
  have hBM : (BLOCK_SIZE_MIN:Nat) = 24 := rfl
  have hSne : S ≠ [] := by
    intro hSnil
    apply hlast
    rw [hchain, hSnil, List.getLast?_concat]
    rfl
  cases hSc : S with
  | nil => exact absurd hSc hSne
  | cons oc S2 =>
  rw [hSc] at hchain
  obtain ⟨hShead, hPjoin, hPmem, hSmem⟩ := chain_mid_facts hpo hchain (by simp)
  have hR : R u.mem pid ob oc ∧ oc = ob + (u.mem (Ptr.blk pid ob)).size + BLOCK_OVERHEAD :=
    hShead oc rfl
  have hle := block_can_split_le hcs
  rw [show (SIZEOF_BLOCK:Nat) = 32 from rfl] at hle
  have hlt : sz + BLOCK_OVERHEAD < (u.mem (Ptr.blk pid ob)).size := by
    rw [hBO]
    omega
  have hor_lt : ob + (sz + BLOCK_OVERHEAD) < oc := by
    rw [hR.2, hBO] at *
    omega
  have hbneRP : Ptr.blk pid ob ≠ Ptr.blk pid (ob + (sz + BLOCK_OVERHEAD)) := by
    intro hh
    injection hh with u1 u2
    rw [hBO] at u2
    omega
  have hRPneC : Ptr.blk pid (ob + (sz + BLOCK_OVERHEAD)) ≠ Ptr.blk pid oc := by
    intro hh
    injection hh with u1 u2
    omega
  have hbneC : Ptr.blk pid ob ≠ Ptr.blk pid oc := by
    intro hh
    injection hh with u1 u2
    have h1 := hR.2
    rw [hBO] at h1
    omega
  have hobnotP : ob ∉ P := fun hmem => absurd (hPmem ob hmem) (lt_irrefl _)
  have hornot : ob + (sz + BLOCK_OVERHEAD) ∉ u.chainG pid := by
    intro hmem
    rw [hchain, hBO] at hmem
    have hlt2 := hlt
    rw [hBO] at hlt2
    rcases List.mem_append.mp hmem with h1 | h1
    · have hl := hPmem _ h1
      omega
    · rcases List.mem_cons.mp h1 with h2 | h2
      · omega
      · have hl := hSmem _ h2
        rw [hBO] at hl
        omega
  have hBnotin : ∀ f s, Ptr.blk pid ob ∉ u.cellsG f s := by
    intro f s hmem
    obtain ⟨pid2, off2, heq, -, -, hfr, -⟩ := hC.cellMem f s _ hmem
    rw [hfr] at hused
    exact Bool.noConfusion hused
  have hRPnotin : ∀ f s, Ptr.blk pid (ob + (sz + BLOCK_OVERHEAD)) ∉ u.cellsG f s := by
    intro f s hmem
    obtain ⟨pid2, off2, heq, hp2, ho2, -⟩ := hC.cellMem f s _ hmem
    injection heq with u1 u2
    subst u1
    subst u2
    exact hornot ho2
  have heval := block_split_eval u pid ob sz hlt
  rw [← hR.2] at heval
  obtain ⟨hev_r, hev_b, hev_c, hev_o⟩ := heval
  unfold block_trim_used
  simp only []
  rw [if_pos hcs, block_split_fst,
    show ptrAdd (Ptr.blk pid ob) (sz + BLOCK_OVERHEAD) =
      Ptr.blk pid (ob + (sz + BLOCK_OVERHEAD)) from rfl]
  set s1 : tlsf_s := (block_split u (Ptr.blk pid ob) sz).2 with hs1
  set s3 : tlsf_s := { s1 with mem := updHdr s1.mem (Ptr.blk pid (ob + (sz + BLOCK_OVERHEAD))) (fun h => { h with isPrevFree := false }) } with hs3
  have hs3_rp : s3.mem (Ptr.blk pid (ob + (sz + BLOCK_OVERHEAD))) =
      { u.mem (Ptr.blk pid (ob + (sz + BLOCK_OVERHEAD))) with
        size := (u.mem (Ptr.blk pid ob)).size - (sz + BLOCK_OVERHEAD)
        isPool := false
        isFree := true
        isPrevFree := false } := by
    rw [hs3]
    simp only []
    rw [updHdr_same, hev_r]
  have hs3_other : ∀ q, q ≠ Ptr.blk pid (ob + (sz + BLOCK_OVERHEAD)) →
      s3.mem q = s1.mem q := by
    intro q hq
    rw [hs3]
    simp only []
    rw [updHdr_other _ _ _ _ hq]
  have hs3_b : s3.mem (Ptr.blk pid ob) = { u.mem (Ptr.blk pid ob) with size := sz } := by
    rw [hs3_other _ hbneRP, hev_b]
  have hs3_c : s3.mem (Ptr.blk pid oc) =
      { u.mem (Ptr.blk pid oc) with
        prevPhys := Ptr.blk pid (ob + (sz + BLOCK_OVERHEAD))
        isPrevFree := true } := by
    rw [hs3_other _ (fun hh => hRPneC hh.symm), hev_c]
  have hs3_o : ∀ q, q ≠ Ptr.blk pid ob → q ≠ Ptr.blk pid (ob + (sz + BLOCK_OVERHEAD)) →
      q ≠ Ptr.blk pid oc → s3.mem q = u.mem q := by
    intro q h1 h2 h3
    rw [hs3_other _ h2, hev_o q h1 h2 h3]
  have hs3cells : s3.cellsG = u.cellsG := rfl
  have hs3blocks : s3.blocks = u.blocks := rfl
  have hs3fl : s3.flBitmap = u.flBitmap := rfl
  have hs3sl : s3.slBitmap = u.slBitmap := rfl
  have hs3pools : s3.pools = u.pools := rfl
  have hs3chain : s3.chainG =
      upd1 u.chainG pid (chainIns (u.chainG pid) ob (ob + (sz + BLOCK_OVERHEAD))) := rfl
  have hs3chainpid : s3.chainG pid =
      P ++ ob :: (ob + (sz + BLOCK_OVERHEAD)) :: oc :: S2 := by
    rw [hs3chain, upd1_same, hchain, chainIns_append _ _ _ _ hobnotP]
  have hCA : CellsWF s3 (Ptr.blk pid (ob + (sz + BLOCK_OVERHEAD)) :: X) := by
    refine cellsWF_step hC hs3cells hs3blocks hs3fl hs3sl ?_ ?_ ?_ ?_ ?_
    · intro f s q hq
      have h1 : q ≠ Ptr.blk pid ob := by
        intro hh
        exact hBnotin f s (by rw [← hh]; exact hq)
      have h2 : q ≠ Ptr.blk pid (ob + (sz + BLOCK_OVERHEAD)) := by
        intro hh
        exact hRPnotin f s (by rw [← hh]; exact hq)
      by_cases h3 : q = Ptr.blk pid oc
      · rw [h3, hs3_c]
        exact ⟨rfl, rfl, rfl, rfl⟩
      · rw [hs3_o q h1 h2 h3]
        exact ⟨rfl, rfl, rfl, rfl⟩
    · intro f s p2 hp2 pid2 off2 hpeq
      obtain ⟨pid3, off3, heq, hp3, ho3, -⟩ := hC.cellMem f s p2 hp2
      rw [hpeq] at heq
      injection heq with v1 v2
      subst v1
      subst v2
      refine ⟨hp3, ?_⟩
      rw [hs3chain]
      by_cases hp4 : pid2 = pid
      · rw [hp4, upd1_same]
        exact chainIns_mem _ _ (hp4 ▸ ho3)
      · rw [upd1_other _ _ _ _ hp4]
        exact ho3
    · intro x hx
      exact Or.inl (List.mem_cons_of_mem _ hx)
    · intro x hx f s
      rcases List.mem_cons.mp hx with h1 | h1
      · rw [h1]
        exact hRPnotin f s
      · exact hC.exempt x h1 f s
    · intro pid2 hpid2 off2 hoff2 hfr2
      rw [hs3pools] at hpid2
      rw [hs3chain] at hoff2
      by_cases hp4 : pid2 = pid
      · rw [hp4] at hpid2 hoff2 hfr2 ⊢
        rw [upd1_same] at hoff2
        rcases chainIns_mem_rev hoff2 with h1 | h1
        · rw [h1]
          exact Or.inl (List.mem_cons_self _ _)
        · by_cases hqb : off2 = ob
          · exfalso
            rw [hqb, hs3_b] at hfr2
            simp only [] at hfr2
            rw [hfr2] at hused
            exact Bool.noConfusion hused
          · by_cases hqc : off2 = oc
            · refine Or.inr ⟨hpid2, h1, ?_, ?_⟩
              · rw [hqc]
                rw [hqc, hs3_c] at hfr2
                exact hfr2
              · rw [hqc, hs3_c]
            · have h2 : Ptr.blk pid off2 ≠ Ptr.blk pid ob := by
                intro hh
                injection hh with v1 v2
                exact hqb v2
              have h3 : Ptr.blk pid off2 ≠ Ptr.blk pid (ob + (sz + BLOCK_OVERHEAD)) := by
                intro hh
                injection hh with v1 v2
                exact hornot (v2 ▸ h1)
              have h4 : Ptr.blk pid off2 ≠ Ptr.blk pid oc := by
                intro hh
                injection hh with v1 v2
                exact hqc v2
              rw [hs3_o _ h2 h3 h4] at hfr2
              exact Or.inr ⟨hpid2, h1, hfr2, by rw [hs3_o _ h2 h3 h4]⟩
      · rw [upd1_other _ _ _ _ hp4] at hoff2
        have h2 : Ptr.blk pid2 off2 ≠ Ptr.blk pid ob := by
          intro hh
          injection hh with v1 v2
          exact hp4 v1
        have h3 : Ptr.blk pid2 off2 ≠ Ptr.blk pid (ob + (sz + BLOCK_OVERHEAD)) := by
          intro hh
          injection hh with v1 v2
          exact hp4 v1
        have h4 : Ptr.blk pid2 off2 ≠ Ptr.blk pid oc := by
          intro hh
          injection hh with v1 v2
          exact hp4 v1
        rw [hs3_o _ h2 h3 h4] at hfr2
        exact Or.inr ⟨hpid2, hoff2, hfr2, by rw [hs3_o _ h2 h3 h4]⟩
  have hnext3 : block_next s3.mem (Ptr.blk pid (ob + (sz + BLOCK_OVERHEAD))) =
      Ptr.blk pid oc := by
    rw [block_next, hs3_rp]
    show Ptr.blk pid (ob + (sz + BLOCK_OVERHEAD) +
      ((u.mem (Ptr.blk pid ob)).size - (sz + BLOCK_OVERHEAD) + BLOCK_OVERHEAD)) =
      Ptr.blk pid oc
    rw [hR.2]
    congr 1
    rw [hBO]
    omega
  by_cases hnf : (u.mem (Ptr.blk pid oc)).isFree = true
  · -- the successor is free: the remainder absorbs it before re-insertion
    have hS2ne : S2 ≠ [] := by
      intro hS2nil
      have hgl : (u.chainG pid).getLast? = some oc := by
        rw [hchain, hS2nil, show P ++ ob :: oc :: ([]:List Nat) =
          (P ++ [ob]) ++ [oc] from by simp, List.getLast?_concat]
      have h1 := (hpo.2.2.2 oc hgl).2.1
      rw [hnf] at h1
      exact Bool.noConfusion h1
    cases hS2c : S2 with
    | nil => exact absurd hS2c hS2ne
    | cons oc2 S3L =>
    rw [hS2c] at hchain hs3chainpid
    have hchain2 : u.chainG pid = (P ++ [ob]) ++ oc :: (oc2 :: S3L) := by
      rw [hchain]
      simp
    obtain ⟨hShead2, hPjoin2, hPmem2, hSmem2⟩ := chain_mid_facts hpo hchain2 (by simp)
    have hR2 : R u.mem pid oc oc2 ∧
        oc2 = oc + (u.mem (Ptr.blk pid oc)).size + BLOCK_OVERHEAD :=
      hShead2 oc2 rfl
    have hoc2used : (u.mem (Ptr.blk pid oc2)).isFree = false := by
      by_contra hcf
      rw [Bool.not_eq_false] at hcf
      exact hR2.1.2.2.2.1 ⟨hnf, hcf⟩
    have hoc2pos : oc < oc2 := by
      have h1 := hR2.2
      rw [hBO] at h1
      omega
    have hRPneC2 : Ptr.blk pid (ob + (sz + BLOCK_OVERHEAD)) ≠ Ptr.blk pid oc2 := by
      intro hh
      injection hh with v1 v2
      omega
    have hCneC2 : Ptr.blk pid oc ≠ Ptr.blk pid oc2 := by
      intro hh
      injection hh with v1 v2
      omega
    have hBneC2 : Ptr.blk pid ob ≠ Ptr.blk pid oc2 := by
      intro hh
      injection hh with v1 v2
      have h1 := hR.2
      rw [hBO] at h1
      omega
    have hocmem : oc ∈ u.chainG pid := by
      rw [hchain]
      exact List.mem_append_right _ (List.mem_cons_of_mem _ (List.mem_cons_self _ _))
    have hCnotX : Ptr.blk pid oc ∉ X := fun hmem => hX _ hmem pid hpid oc hocmem rfl
    have hCcell : Ptr.blk pid oc ∈ u.cellsG
        (mapping_insert (u.mem (Ptr.blk pid oc)).size).1
        (mapping_insert (u.mem (Ptr.blk pid oc)).size).2 := by
      rcases hC.complete pid hpid oc hocmem hnf with hx | hmem
      · exact absurd hx hCnotX
      · exact hmem
    have hCcell3 : Ptr.blk pid oc ∈ s3.cellsG
        (mapping_insert ((s3.mem (Ptr.blk pid oc)).size)).1
        (mapping_insert ((s3.mem (Ptr.blk pid oc)).size)).2 := by
      rw [hs3cells, show (s3.mem (Ptr.blk pid oc)).size =
        (u.mem (Ptr.blk pid oc)).size from by rw [hs3_c]]
      exact hCcell
    have hCu4 : CellsWF (block_remove s3 (Ptr.blk pid oc))
        (Ptr.blk pid oc :: Ptr.blk pid (ob + (sz + BLOCK_OVERHEAD)) :: X) := by
      show CellsWF (remove_free_block s3 (Ptr.blk pid oc)
        (mapping_insert ((s3.mem (Ptr.blk pid oc)).size)).1
        (mapping_insert ((s3.mem (Ptr.blk pid oc)).size)).2)
        (Ptr.blk pid oc :: (Ptr.blk pid (ob + (sz + BLOCK_OVERHEAD)) :: X))
      exact remove_free_cellsWF hCA hCcell3
    set s4 : tlsf_s := block_remove s3 (Ptr.blk pid oc) with hs4
    have hs4mem : s4.mem = remMem s3.mem (Ptr.blk pid oc) :=
      remove_free_block_mem _ _ _ _
    have hsH34 : sameHeap s3.mem s4.mem := by
      rw [hs4mem]
      exact remMem_sameHeap _ _
    have hs4chain : s4.chainG = s3.chainG := chainG_block_remove _ _
    have hs4pools : s4.pools = s3.pools := pools_block_remove _ _
    have hs4szrp : (s4.mem (Ptr.blk pid (ob + (sz + BLOCK_OVERHEAD)))).size =
        (u.mem (Ptr.blk pid ob)).size - (sz + BLOCK_OVERHEAD) := by
      rw [(hsH34 _).1, hs3_rp]
    have hs4szc : (s4.mem (Ptr.blk pid oc)).size = (u.mem (Ptr.blk pid oc)).size := by
      rw [(hsH34 _).1, hs3_c]
    have harith : oc2 = ob + (sz + BLOCK_OVERHEAD) +
        ((s4.mem (Ptr.blk pid (ob + (sz + BLOCK_OVERHEAD)))).size
          + (s4.mem (Ptr.blk pid oc)).size + BLOCK_OVERHEAD + BLOCK_OVERHEAD) := by
      rw [hs4szrp, hs4szc, hBO]
      have h1 := hR.2
      have h2 := hR2.2
      rw [hBO] at h1 h2
      omega
    have hmem5 : (block_absorb s4 (Ptr.blk pid (ob + (sz + BLOCK_OVERHEAD)))
        (Ptr.blk pid oc)).2.mem =
        updHdr (updHdr s4.mem (Ptr.blk pid (ob + (sz + BLOCK_OVERHEAD))) (fun h =>
          { h with size := h.size + (s4.mem (Ptr.blk pid oc)).size + BLOCK_OVERHEAD }))
          (Ptr.blk pid oc2) (fun h => { h with prevPhys := Ptr.blk pid (ob + (sz + BLOCK_OVERHEAD)) }) :=
      block_absorb_mem _ pid (ob + (sz + BLOCK_OVERHEAD)) oc oc2 harith
    set s5 : tlsf_s := (block_absorb s4 (Ptr.blk pid (ob + (sz + BLOCK_OVERHEAD)))
      (Ptr.blk pid oc)).2 with hs5
    have hu5_of : ∀ q, q ≠ Ptr.blk pid (ob + (sz + BLOCK_OVERHEAD)) →
        q ≠ Ptr.blk pid oc2 → s5.mem q = s4.mem q := by
      intro q h1 h2
      rw [hs5, hmem5, updHdr_other _ _ _ _ h2, updHdr_other _ _ _ _ h1]
    have hu5_c2 : s5.mem (Ptr.blk pid oc2) =
        { s4.mem (Ptr.blk pid oc2) with prevPhys := Ptr.blk pid (ob + (sz + BLOCK_OVERHEAD)) } := by
      rw [hs5, hmem5, updHdr_same, updHdr_other _ _ _ _ (fun hh => hRPneC2 hh.symm)]
    have hu5_rp : s5.mem (Ptr.blk pid (ob + (sz + BLOCK_OVERHEAD))) =
        { s4.mem (Ptr.blk pid (ob + (sz + BLOCK_OVERHEAD))) with size := (s4.mem (Ptr.blk pid (ob + (sz + BLOCK_OVERHEAD)))).size + (s4.mem (Ptr.blk pid oc)).size + BLOCK_OVERHEAD } := by
      rw [hs5, hmem5, updHdr_other _ _ _ _ hRPneC2, updHdr_same]
    have hs5chain : s5.chainG pid = P ++ ob :: (ob + (sz + BLOCK_OVERHEAD)) :: oc2 :: S3L := by
      rw [hs5, chainG_absorb, upd1_same, hs4chain, hs3chainpid,
        show P ++ ob :: (ob + (sz + BLOCK_OVERHEAD)) :: oc :: oc2 :: S3L =
          (P ++ [ob, ob + (sz + BLOCK_OVERHEAD)]) ++ oc :: (oc2 :: S3L) from by simp,
        erase_append_notin]
      · simp
      · intro hmem
        rcases List.mem_append.mp hmem with h1 | h1
        · have h2 := hPmem oc h1
          omega
        · rcases List.mem_cons.mp h1 with h2 | h2
          · omega
          · rcases List.mem_cons.mp h2 with h3 | h3
            · omega
            · simp at h3
    have hs5pools : s5.pools = u.pools := by
      rw [hs5, pools_absorb, hs4pools, hs3pools]
    have hCu5 : CellsWF s5
        (Ptr.blk pid oc :: Ptr.blk pid (ob + (sz + BLOCK_OVERHEAD)) :: X) := by
      refine cellsWF_step hCu4 (by rw [hs5]; exact cellsG_absorb _ _ _)
        (by rw [hs5]; exact blocks_absorb _ _ _)
        (by rw [hs5]; exact flBitmap_absorb _ _ _)
        (by rw [hs5]; exact slBitmap_absorb _ _ _) ?_ ?_ ?_ ?_ ?_
      · intro f s q hq
        have h1 : q ≠ Ptr.blk pid oc := by
          intro hh
          exact hCu4.exempt _ (List.mem_cons_self _ _) f s (hh ▸ hq)
        have h2 : q ≠ Ptr.blk pid (ob + (sz + BLOCK_OVERHEAD)) := by
          intro hh
          exact hCu4.exempt _ (List.mem_cons_of_mem _ (List.mem_cons_self _ _)) f s
            (hh ▸ hq)
        have hlk := block_absorb_links s4 (Ptr.blk pid (ob + (sz + BLOCK_OVERHEAD)))
          (Ptr.blk pid oc) q
        refine ⟨?_, ?_, by rw [hs5]; exact hlk.1, by rw [hs5]; exact hlk.2⟩
        · by_cases h3 : q = Ptr.blk pid oc2
          · rw [h3, hu5_c2]
          · rw [hu5_of q h2 h3]
        · by_cases h3 : q = Ptr.blk pid oc2
          · rw [h3, hu5_c2]
          · rw [hu5_of q h2 h3]
      · intro f s p2 hp2 pid2 off2 hpeq
        obtain ⟨pid3, off3, heq, hp3, ho3, -⟩ := hCu4.cellMem f s p2 hp2
        rw [hpeq] at heq
        injection heq with v1 v2
        subst v1
        subst v2
        constructor
        · rw [hs5, pools_absorb]
          exact hp3
        · rw [hs5, chainG_absorb]
          by_cases hp4 : pid2 = pid
          · rw [hp4, upd1_same]
            have hne : off2 ≠ oc := by
              intro hh
              apply hCu4.exempt (Ptr.blk pid oc) (List.mem_cons_self _ _) f s
              have hpc : p2 = Ptr.blk pid oc := by rw [hpeq, hp4, hh]
              exact hpc ▸ hp2
            exact (List.mem_erase_of_ne hne).mpr (hp4 ▸ ho3)
          · rw [upd1_other _ _ _ _ hp4]
            exact ho3
      · intro x hx
        exact Or.inl hx
      · intro x hx f s
        exact hCu4.exempt x hx f s
      · intro pid2 hpid2 off2 hoff2 hfr2
        rw [hs5, pools_absorb] at hpid2
        rw [hs5, chainG_absorb] at hoff2
        by_cases hqc : Ptr.blk pid2 off2 = Ptr.blk pid oc
        · exact Or.inl (by rw [hqc]; exact List.mem_cons_self _ _)
        · by_cases hqr : Ptr.blk pid2 off2 = Ptr.blk pid (ob + (sz + BLOCK_OVERHEAD))
          · exact Or.inl (by rw [hqr]; exact List.mem_cons_of_mem _ (List.mem_cons_self _ _))
          · by_cases hp4 : pid2 = pid
            · rw [hp4] at hpid2 hoff2 hfr2 hqc hqr ⊢
              rw [upd1_same] at hoff2
              have hoff2b : off2 ∈ s4.chainG pid := List.mem_of_mem_erase hoff2
              have hiso : (s5.mem (Ptr.blk pid off2)).isFree =
                  (s4.mem (Ptr.blk pid off2)).isFree ∧
                  (s5.mem (Ptr.blk pid off2)).size = (s4.mem (Ptr.blk pid off2)).size := by
                by_cases h3 : Ptr.blk pid off2 = Ptr.blk pid oc2
                · rw [h3, hu5_c2]
                  exact ⟨rfl, rfl⟩
                · rw [hu5_of _ hqr h3]
                  exact ⟨rfl, rfl⟩
              rw [hiso.1] at hfr2
              exact Or.inr ⟨hpid2, hoff2b, hfr2, hiso.2⟩
            · rw [upd1_other _ _ _ _ hp4] at hoff2
              have h3 : Ptr.blk pid2 off2 ≠ Ptr.blk pid oc2 := by
                intro hh
                injection hh with v1 v2
                exact hp4 v1
              rw [hu5_of _ hqr h3] at hfr2
              exact Or.inr ⟨hpid2, hoff2, hfr2, by rw [hu5_of _ hqr h3]⟩
    have hCu5R : CellsWF s5
        (Ptr.blk pid (ob + (sz + BLOCK_OVERHEAD)) :: Ptr.blk pid oc :: X) := by
      refine cellsWF_reorder hCu5 ?_ ?_ <;>
      · intro x hx
        rcases List.mem_cons.mp hx with h1 | h1
        · rw [h1]
          simp
        · rcases List.mem_cons.mp h1 with h2 | h2
          · rw [h2]
            simp
          · simp [h2]
    have hmn : block_merge_next s3 (Ptr.blk pid (ob + (sz + BLOCK_OVERHEAD))) =
        block_absorb s4 (Ptr.blk pid (ob + (sz + BLOCK_OVERHEAD))) (Ptr.blk pid oc) := by
      rw [block_merge_next_yes _ _ (by rw [hnext3, hs3_c]; exact hnf), hnext3, hs4]
    rw [hmn]
    rw [show (block_absorb s4 (Ptr.blk pid (ob + (sz + BLOCK_OVERHEAD)))
      (Ptr.blk pid oc)).1 = Ptr.blk pid (ob + (sz + BLOCK_OVERHEAD)) from rfl]
    have hfieldsB5 : (s5.mem (Ptr.blk pid ob)).size = sz ∧
        (s5.mem (Ptr.blk pid ob)).isFree = false ∧
        (s5.mem (Ptr.blk pid ob)).isPrevFree = (u.mem (Ptr.blk pid ob)).isPrevFree ∧
        (s5.mem (Ptr.blk pid ob)).prevPhys = (u.mem (Ptr.blk pid ob)).prevPhys := by
      have e1 := hu5_of (Ptr.blk pid ob) hbneRP hBneC2
      have e2 := hsH34 (Ptr.blk pid ob)
      rw [e1, e2.1, e2.2.1, e2.2.2.1, e2.2.2.2, hs3_b]
      exact ⟨rfl, hused, rfl, rfl⟩
    have hfieldsRP5 : (s5.mem (Ptr.blk pid (ob + (sz + BLOCK_OVERHEAD)))).size =
        (u.mem (Ptr.blk pid ob)).size - (sz + BLOCK_OVERHEAD)
          + (u.mem (Ptr.blk pid oc)).size + BLOCK_OVERHEAD ∧
        (s5.mem (Ptr.blk pid (ob + (sz + BLOCK_OVERHEAD)))).isFree = true ∧
        (s5.mem (Ptr.blk pid (ob + (sz + BLOCK_OVERHEAD)))).isPrevFree = false := by
      rw [hu5_rp]
      refine ⟨?_, ?_, ?_⟩
      · show (s4.mem (Ptr.blk pid (ob + (sz + BLOCK_OVERHEAD)))).size
          + (s4.mem (Ptr.blk pid oc)).size + BLOCK_OVERHEAD = _
        rw [hs4szrp, hs4szc]
      · show (s4.mem (Ptr.blk pid (ob + (sz + BLOCK_OVERHEAD)))).isFree = true
        rw [(hsH34 _).2.1, hs3_rp]
      · show (s4.mem (Ptr.blk pid (ob + (sz + BLOCK_OVERHEAD)))).isPrevFree = false
        rw [(hsH34 _).2.2.1, hs3_rp]
    have hfieldsC25 : (s5.mem (Ptr.blk pid oc2)).size = (u.mem (Ptr.blk pid oc2)).size ∧
        (s5.mem (Ptr.blk pid oc2)).isFree = (u.mem (Ptr.blk pid oc2)).isFree ∧
        (s5.mem (Ptr.blk pid oc2)).isPrevFree = true ∧
        (s5.mem (Ptr.blk pid oc2)).prevPhys =
          Ptr.blk pid (ob + (sz + BLOCK_OVERHEAD)) := by
      rw [hu5_c2]
      have e2 := hsH34 (Ptr.blk pid oc2)
      have e3 := hs3_o (Ptr.blk pid oc2) (fun hh => hBneC2 hh.symm)
        (fun hh => hRPneC2 hh.symm) (fun hh => hCneC2 hh.symm)
      refine ⟨?_, ?_, ?_, rfl⟩
      · show (s4.mem (Ptr.blk pid oc2)).size = _
        rw [e2.1, e3]
      · show (s4.mem (Ptr.blk pid oc2)).isFree = _
        rw [e2.2.1, e3]
      · show (s4.mem (Ptr.blk pid oc2)).isPrevFree = true
        rw [e2.2.2.1, e3, hR2.1.2.1]
        exact hnf
    have hfieldso5 : ∀ q, q ≠ Ptr.blk pid ob →
        q ≠ Ptr.blk pid (ob + (sz + BLOCK_OVERHEAD)) → q ≠ Ptr.blk pid oc →
        q ≠ Ptr.blk pid oc2 →
        ((s5.mem q).size = (u.mem q).size ∧
         (s5.mem q).isFree = (u.mem q).isFree ∧
         (s5.mem q).isPrevFree = (u.mem q).isPrevFree ∧
         (s5.mem q).prevPhys = (u.mem q).prevPhys) := by
      intro q h1 h2 h3 h4
      have e1 := hu5_of _ h2 h4
      have e2 := hsH34 q
      have e3 := hs3_o _ h1 h2 h3
      rw [e1, e2.1, e2.2.1, e2.2.2.1, e2.2.2.2, e3]
      exact ⟨rfl, rfl, rfl, rfl⟩
    have hH5 : HeapWF s5 := by
      refine heapWF_one_pool hH pid hs5pools ?_ ?_ ?_ ?_
      · rw [hs5, nextPid_absorb, nextPid_block_remove]
        rfl
      · intro p hp
        rw [hs5, chainG_absorb, upd1_other _ _ _ _ hp, hs4chain, hs3chain,
          upd1_other _ _ _ _ hp]
      · intro p hp hppid off hoff
        refine hfieldso5 (Ptr.blk p off) ?_ ?_ ?_ ?_ <;>
        · intro hh
          injection hh with v1 v2
          exact hppid v1
      · intro hfpid
        rw [hs5chain]
        show PoolOK s5.mem pid (P ++ ob :: (ob + (sz + BLOCK_OVERHEAD)) :: oc2 :: S3L)
        have hpo2 : PoolOK u.mem pid (P ++ [ob, oc] ++ (oc2 :: S3L)) := by
          rw [show P ++ [ob, oc] ++ (oc2 :: S3L) = P ++ ob :: oc :: oc2 :: S3L from by simp,
            ← hchain]
          exact hpo
        rw [show P ++ ob :: (ob + (sz + BLOCK_OVERHEAD)) :: oc2 :: S3L =
          P ++ [ob, ob + (sz + BLOCK_OVERHEAD)] ++ (oc2 :: S3L) from by simp]
        have hoc2notS3 : oc2 ∉ S3L := by
          have hndchain : (u.chainG pid).Nodup := chain_nodup (chain_sorted hpo.2.2.1)
          rw [hchain2] at hndchain
          rw [List.nodup_append] at hndchain
          exact (List.nodup_cons.mp (List.nodup_cons.mp hndchain.2.1).2).1
        refine poolOK_replace hpo2 (by simp) (by simp) (by simp) rfl ?_ ?_ ?_ ?_ ?_ ?_ ?_
        · intro off hoff
          have hlt2 := hPmem off hoff
          refine hfieldso5 (Ptr.blk pid off) ?_ ?_ ?_ ?_ <;>
          · intro hh
            injection hh with v1 v2
            omega
        · intro off hoff
          by_cases hoce : off = oc2
          · rw [hoce]
            exact ⟨hfieldsC25.1, hfieldsC25.2.1⟩
          · have hge := hSmem2 off hoff
            rw [hBO] at hge
            have hf := hfieldso5 (Ptr.blk pid off)
              (by intro hh; injection hh with v1 v2; omega)
              (by intro hh; injection hh with v1 v2; omega)
              (by intro hh; injection hh with v1 v2; omega)
              (by intro hh; injection hh with v1 v2; exact hoce v2)
            exact ⟨hf.1, hf.2.1⟩
        · intro off hoff
          simp only [List.tail_cons] at hoff
          have hge := hSmem2 off (List.mem_cons_of_mem _ hoff)
          rw [hBO] at hge
          have hf := hfieldso5 (Ptr.blk pid off)
            (by intro hh; injection hh with v1 v2; omega)
            (by intro hh; injection hh with v1 v2; omega)
            (by intro hh; injection hh with v1 v2; omega)
            (by intro hh; injection hh with v1 v2; exact hoc2notS3 (v2 ▸ hoff))
          exact ⟨hf.2.2.1, hf.2.2.2⟩
        · refine List.chain'_cons.mpr ⟨?_, List.chain'_singleton _⟩
          refine ⟨?_, ?_, ?_, ?_, ?_⟩
          · rw [hfieldsB5.1]
            omega
          · rw [hfieldsRP5.2.2, hfieldsB5.2.1]
          · intro hfr
            rw [hfieldsB5.2.1] at hfr
            exact Bool.noConfusion hfr
          · intro hboth
            rw [hfieldsB5.2.1] at hboth
            exact Bool.noConfusion hboth.1
          · rw [hfieldsB5.1]
            exact hsz
        · intro p hp a ha
          have ha2 : ob = a := by simpa using ha
          subst ha2
          have hRold : R u.mem pid p ob := hPjoin p hp
          have hplt := hPmem p (mem_of_getLast? hp)
          have hfp := hfieldso5 (Ptr.blk pid p)
            (by intro hh; injection hh with v1 v2; omega)
            (by intro hh; injection hh with v1 v2; omega)
            (by intro hh; injection hh with v1 v2; omega)
            (by intro hh; injection hh with v1 v2; omega)
          refine ⟨?_, ?_, ?_, ?_, ?_⟩
          · rw [hfp.1]
            exact hRold.1
          · rw [hfieldsB5.2.2.1, hfp.2.1]
            exact hRold.2.1
          · intro hfr
            rw [hfp.2.1] at hfr
            rw [hfieldsB5.2.2.2]
            exact hRold.2.2.1 hfr
          · intro hboth
            rw [hfieldsB5.2.1] at hboth
            exact Bool.noConfusion hboth.2
          · rw [hfp.1]
            exact hRold.2.2.2.2
        · intro bb hbb e he
          have hbb2 : ob + (sz + BLOCK_OVERHEAD) = bb := by simpa using hbb
          have he2 : oc2 = e := by simpa using he
          subst hbb2
          subst he2
          refine ⟨?_, ?_, ?_, ?_, ?_⟩
          · rw [hfieldsRP5.1]
            have h1 := hR.2
            have h2 := hR2.2
            rw [hBO] at h1 h2 ⊢
            omega
          · rw [hfieldsC25.2.2.1, hfieldsRP5.2.1]
          · intro hfr
            exact hfieldsC25.2.2.2
          · intro hboth
            have hcv := hboth.2
            rw [hfieldsC25.2.1, hoc2used] at hcv
            exact Bool.noConfusion hcv
          · rw [hfieldsRP5.1]
            rw [hBM, hBO]
            omega
        · intro hPnil a ha
          have ha2 : ob = a := by simpa using ha
          subst ha2
          have hob0 : ob = 0 := by
            have h0 := hpo.1
            rw [hchain, hPnil] at h0
            simp only [List.nil_append, List.head?_cons, Option.some.injEq] at h0
            exact h0
          rw [hfieldsB5.2.2.1, hob0]
          exact hpo.2.1
    have hocnotfinal : ∀ off2 ∈ s5.chainG pid, off2 ≠ oc := by
      intro off2 hoff2 hh
      rw [hs5chain] at hoff2
      rw [hh] at hoff2
      rcases List.mem_append.mp hoff2 with h1 | h1
      · have h2 := hPmem oc h1
        omega
      · rcases List.mem_cons.mp h1 with h2 | h2
        · omega
        · rcases List.mem_cons.mp h2 with h3 | h3
          · omega
          · rcases List.mem_cons.mp h3 with h4 | h4
            · omega
            · have h5 := hSmem2 oc (List.mem_cons_of_mem _ h4)
              rw [hBO] at h5
              omega
    refine free_finish_WF s5 pid (ob + (sz + BLOCK_OVERHEAD)) (Ptr.blk pid oc :: X)
      hH5 hCu5R (by rw [hs5pools]; exact hpid) ?_ hfieldsRP5.2.1 ?_ ?_
    · rw [hs5chain]
      exact List.mem_append_right _ (List.mem_cons_of_mem _ (List.mem_cons_self _ _))
    · intro x hx pid2 hpid2 off2 hoff2
      rcases List.mem_cons.mp hx with h1 | h1
      · rw [h1]
        intro hh
        injection hh with v1 v2
        subst v1
        exact hocnotfinal off2 hoff2 v2
      · intro hh
        rw [hs5pools] at hpid2
        by_cases hp4 : pid2 = pid
        · rw [hp4] at hoff2 hh
          rw [hs5chain] at hoff2
          rcases List.mem_append.mp hoff2 with g1 | g1
          · refine hX x h1 pid hpid off2 ?_ hh
            rw [hchain]
            exact List.mem_append_left _ g1
          · rcases List.mem_cons.mp g1 with g2 | g2
            · refine hX x h1 pid hpid off2 ?_ hh
              rw [hchain, g2]
              exact List.mem_append_right _ (List.mem_cons_self _ _)
            · rcases List.mem_cons.mp g2 with g3 | g3
              · rw [g3] at hh
                exact hbX x h1 hh.symm
              · refine hX x h1 pid hpid off2 ?_ hh
                rw [hchain]
                rcases List.mem_cons.mp g3 with g4 | g4
                · rw [g4]
                  exact List.mem_append_right _ (List.mem_cons_of_mem _
                    (List.mem_cons_of_mem _ (List.mem_cons_self _ _)))
                · exact List.mem_append_right _ (List.mem_cons_of_mem _
                    (List.mem_cons_of_mem _ (List.mem_cons_of_mem _ g4)))
        · have hoff2b : off2 ∈ u.chainG pid2 := by
            have hchother : s5.chainG pid2 = u.chainG pid2 := by
              rw [hs5, chainG_absorb, upd1_other _ _ _ _ hp4, hs4chain, hs3chain,
                upd1_other _ _ _ _ hp4]
            rw [hchother] at hoff2
            exact hoff2
          exact hX x h1 pid2 hpid2 off2 hoff2b hh
    · intro hmem
      rcases List.mem_cons.mp hmem with h1 | h1
      · injection h1 with v1 v2
        omega
      · exact hbX _ h1 rfl
  · -- the successor is used: the remainder is re-filed as cut
    rw [Bool.not_eq_true] at hnf
    have hmn : block_merge_next s3 (Ptr.blk pid (ob + (sz + BLOCK_OVERHEAD))) =
        (Ptr.blk pid (ob + (sz + BLOCK_OVERHEAD)), s3) :=
      block_merge_next_no _ _ (by rw [hnext3, hs3_c]; exact hnf)
    rw [hmn]
    have hH3 : HeapWF s3 := by
      refine heapWF_one_pool hH pid hs3pools ?_ ?_ ?_ ?_
      · rw [hs3]
        rfl
      · intro p hp
        rw [hs3chain, upd1_other _ _ _ _ hp]
      · intro p hp hppid off hoff
        have hf := hs3_o (Ptr.blk p off)
          (by intro hh; injection hh with v1 v2; exact hppid v1)
          (by intro hh; injection hh with v1 v2; exact hppid v1)
          (by intro hh; injection hh with v1 v2; exact hppid v1)
        rw [hf]
        exact ⟨rfl, rfl, rfl, rfl⟩
      · intro hfpid
        rw [hs3chainpid]
        show PoolOK s3.mem pid (P ++ ob :: (ob + (sz + BLOCK_OVERHEAD)) :: oc :: S2)
        have hpo2 : PoolOK u.mem pid (P ++ [ob] ++ (oc :: S2)) := by
          rw [show P ++ [ob] ++ (oc :: S2) = P ++ ob :: oc :: S2 from by simp, ← hchain]
          exact hpo
        rw [show P ++ ob :: (ob + (sz + BLOCK_OVERHEAD)) :: oc :: S2 =
          P ++ [ob, ob + (sz + BLOCK_OVERHEAD)] ++ (oc :: S2) from by simp]
        have hocnotS2 : oc ∉ S2 := by
          have hndchain : (u.chainG pid).Nodup := chain_nodup (chain_sorted hpo.2.2.1)
          rw [hchain] at hndchain
          rw [List.nodup_append] at hndchain
          exact (List.nodup_cons.mp (List.nodup_cons.mp hndchain.2.1).2).1
        refine poolOK_replace hpo2 (by simp) (by simp) (by simp) rfl ?_ ?_ ?_ ?_ ?_ ?_ ?_
        · intro off hoff
          have hlt2 := hPmem off hoff
          have hf := hs3_o (Ptr.blk pid off)
            (by intro hh; injection hh with v1 v2; omega)
            (by intro hh; injection hh with v1 v2; omega)
            (by intro hh; injection hh with v1 v2; omega)
          rw [hf]
          exact ⟨rfl, rfl, rfl, rfl⟩
        · intro off hoff
          by_cases hoce : off = oc
          · rw [hoce, hs3_c]
            exact ⟨rfl, rfl⟩
          · have hge := hSmem off hoff
            rw [hBO] at hge
            have hf := hs3_o (Ptr.blk pid off)
              (by intro hh; injection hh with v1 v2; omega)
              (by intro hh; injection hh with v1 v2; omega)
              (by intro hh; injection hh with v1 v2; exact hoce v2)
            rw [hf]
            exact ⟨rfl, rfl⟩
        · intro off hoff
          simp only [List.tail_cons] at hoff
          have hge := hSmem off (List.mem_cons_of_mem _ hoff)
          rw [hBO] at hge
          have hf := hs3_o (Ptr.blk pid off)
            (by intro hh; injection hh with v1 v2; omega)
            (by intro hh; injection hh with v1 v2; omega)
            (by intro hh; injection hh with v1 v2; exact hocnotS2 (v2 ▸ hoff))
          rw [hf]
          exact ⟨rfl, rfl⟩
        · refine List.chain'_cons.mpr ⟨?_, List.chain'_singleton _⟩
          refine ⟨?_, ?_, ?_, ?_, ?_⟩
          · rw [hs3_b]
            show ob + (sz + BLOCK_OVERHEAD) = ob + sz + BLOCK_OVERHEAD
            omega
          · rw [hs3_rp, hs3_b]
            show (false:Bool) = (u.mem (Ptr.blk pid ob)).isFree
            rw [hused]
          · intro hfr
            rw [hs3_b] at hfr
            simp only [] at hfr
            rw [hfr] at hused
            exact Bool.noConfusion hused
          · intro hboth
            have h1 := hboth.1
            rw [hs3_b] at h1
            simp only [] at h1
            rw [h1] at hused
            exact Bool.noConfusion hused
          · rw [hs3_b]
            exact hsz
        · intro p hp a ha
          have ha2 : ob = a := by simpa using ha
          subst ha2
          have hRold : R u.mem pid p ob := hPjoin p hp
          have hplt := hPmem p (mem_of_getLast? hp)
          have hfp := hs3_o (Ptr.blk pid p)
            (by intro hh; injection hh with v1 v2; omega)
            (by intro hh; injection hh with v1 v2; omega)
            (by intro hh; injection hh with v1 v2; omega)
          refine ⟨?_, ?_, ?_, ?_, ?_⟩
          · rw [hfp]
            exact hRold.1
          · rw [hfp, hs3_b]
            show (u.mem (Ptr.blk pid ob)).isPrevFree = (u.mem (Ptr.blk pid p)).isFree
            exact hRold.2.1
          · intro hfr
            rw [hfp] at hfr
            rw [hs3_b]
            show (u.mem (Ptr.blk pid ob)).prevPhys = Ptr.blk pid p
            exact hRold.2.2.1 hfr
          · intro hboth
            have h1 := hboth.2
            rw [hs3_b] at h1
            simp only [] at h1
            rw [h1] at hused
            exact Bool.noConfusion hused
          · rw [hfp]
            exact hRold.2.2.2.2
        · intro bb hbb e he
          have hbb2 : ob + (sz + BLOCK_OVERHEAD) = bb := by simpa using hbb
          have he2 : oc = e := by simpa using he
          subst hbb2
          subst he2
          refine ⟨?_, ?_, ?_, ?_, ?_⟩
          · rw [hs3_rp]
            have h1 := hR.2
            rw [hBO] at h1 ⊢
            show oc = ob + (sz + 8) + ((u.mem (Ptr.blk pid ob)).size - (sz + 8)) + 8
            omega
          · rw [hs3_c, hs3_rp]
          · intro hfr
            rw [hs3_c]
          · intro hboth
            have h1 := hboth.2
            rw [hs3_c] at h1
            simp only [] at h1
            rw [h1] at hnf
            exact Bool.noConfusion hnf
          · rw [hs3_rp]
            show BLOCK_SIZE_MIN ≤ (u.mem (Ptr.blk pid ob)).size - (sz + BLOCK_OVERHEAD)
            rw [hBM, hBO]
            omega
        · intro hPnil a ha
          have ha2 : ob = a := by simpa using ha
          subst ha2
          have hob0 : ob = 0 := by
            have h0 := hpo.1
            rw [hchain, hPnil] at h0
            simp only [List.nil_append, List.head?_cons, Option.some.injEq] at h0
            exact h0
          rw [hs3_b]
          show (u.mem (Ptr.blk pid ob)).isPrevFree = false
          rw [hob0]
          exact hpo.2.1
    refine free_finish_WF s3 pid (ob + (sz + BLOCK_OVERHEAD)) X hH3 hCA
      (by rw [hs3pools]; exact hpid) ?_ (by rw [hs3_rp]) ?_ ?_
    · rw [hs3chainpid]
      exact List.mem_append_right _ (List.mem_cons_of_mem _ (List.mem_cons_self _ _))
    · intro x hx pid2 hpid2 off2 hoff2 hh
      rw [hs3pools] at hpid2
      rw [hs3chain] at hoff2
      by_cases hp4 : pid2 = pid
      · rw [hp4] at hoff2 hh
        rw [upd1_same] at hoff2
        rcases chainIns_mem_rev hoff2 with g1 | g1
        · rw [g1] at hh
          exact hbX x hx hh.symm
        · exact hX x hx pid hpid off2 g1 hh
      · rw [upd1_other _ _ _ _ hp4] at hoff2
        exact hX x hx pid2 hpid2 off2 hoff2 hh
    · intro hmem
      exact hbX _ hmem rfl

/-- The last element of a nonempty list, read through getLast?.getD,
is a member. -/
theorem getD_getLast?_mem (l : List Nat) (h : l ≠ []) : l.getLast?.getD 0 ∈ l := by
  induction l with
  | nil => exact absurd rfl h
  | cons a rest ih =>
    cases hr : rest with
    | nil => simp
    | cons b r2 =>
      rw [List.getLast?_cons_cons]
      have h2 := ih (by rw [hr]; simp)
      rw [hr] at h2
      exact List.mem_cons_of_mem _ h2

/-- The in-place grow path of tlsf_realloc (src/tlsf.c lines 664-669):
merging the free physical successor into the used block and clearing the
stale is_prev_free flag, followed by block_trim_used, preserves
well-formedness. -/
theorem realloc_premerge_WF (t : tlsf_s) (pid ob sz : Nat)
    (hH : HeapWF t) (hC : CellsWF t [])
    (hpid : pid ∈ t.pools) (hob : ob ∈ t.chainG pid)
    (hlast : ob ≠ (t.chainG pid).getLast?.getD 0)
    (hused : (t.mem (Ptr.blk pid ob)).isFree = false)
    (hsz : BLOCK_SIZE_MIN ≤ sz)
    (hcur : (t.mem (Ptr.blk pid ob)).size < sz)
    (hnfree : (t.mem (block_next t.mem (Ptr.blk pid ob))).isFree = true) :
    WF (block_trim_used
      { (block_merge_next t (Ptr.blk pid ob)).2 with mem := updHdr (block_merge_next t (Ptr.blk pid ob)).2.mem (block_next (block_merge_next t (Ptr.blk pid ob)).2.mem (Ptr.blk pid ob)) (fun h => { h with isPrevFree := false }) }
      (Ptr.blk pid ob) sz) := by
  obtain ⟨P, S, hchain⟩ := List.append_of_mem hob
  have hpo := hH.pools_ok pid hpid
  have hBO : (BLOCK_OVERHEAD:Nat) = 8 := rfl
  have hBM : (BLOCK_SIZE_MIN:Nat) = 24 := rfl
  have hSne : S ≠ [] := by
    intro hSnil
    apply hlast
    rw [hchain, hSnil, List.getLast?_concat]
    rfl
  cases hSc : S with
  | nil => exact absurd hSc hSne
  | cons oc S2 =>
  rw [hSc] at hchain
  obtain ⟨hShead, hPjoin, hPmem, hSmem⟩ := chain_mid_facts hpo hchain (by simp)
  have hR : R t.mem pid ob oc ∧ oc = ob + (t.mem (Ptr.blk pid ob)).size + BLOCK_OVERHEAD :=
    hShead oc rfl
  have hnext : block_next t.mem (Ptr.blk pid ob) = Ptr.blk pid oc := by
    rw [block_next]
    show Ptr.blk pid (ob + ((t.mem (Ptr.blk pid ob)).size + BLOCK_OVERHEAD)) = Ptr.blk pid oc
    congr 1
    have h1 := hR.2
    omega
  have hocfree : (t.mem (Ptr.blk pid oc)).isFree = true := by
    rw [← hnext]
    exact hnfree
  have hoblt : ob < oc := by
    have h1 := hR.2
    rw [hBO] at h1
    omega
  have hS2ne : S2 ≠ [] := by
    intro hS2nil
    have hgl : (t.chainG pid).getLast? = some oc := by
      rw [hchain, hS2nil, show P ++ ob :: oc :: ([]:List Nat) =
        (P ++ [ob]) ++ [oc] from by simp, List.getLast?_concat]
    have h1 := (hpo.2.2.2 oc hgl).2.1
    rw [hocfree] at h1
    exact Bool.noConfusion h1
  cases hS2c : S2 with
  | nil => exact absurd hS2c hS2ne
  | cons oc2 S3L =>
  rw [hS2c] at hchain
  have hchain2 : t.chainG pid = (P ++ [ob]) ++ oc :: (oc2 :: S3L) := by
    rw [hchain]
    simp
  obtain ⟨hShead2, hPjoin2, hPmem2, hSmem2⟩ := chain_mid_facts hpo hchain2 (by simp)
  have hR2 : R t.mem pid oc oc2 ∧
      oc2 = oc + (t.mem (Ptr.blk pid oc)).size + BLOCK_OVERHEAD :=
    hShead2 oc2 rfl
  have hoc2used : (t.mem (Ptr.blk pid oc2)).isFree = false := by
    by_contra hcf
    rw [Bool.not_eq_false] at hcf
    exact hR2.1.2.2.2.1 ⟨hocfree, hcf⟩
  have hoclt2 : oc < oc2 := by
    have h1 := hR2.2
    rw [hBO] at h1
    omega
  have hBneC2 : Ptr.blk pid ob ≠ Ptr.blk pid oc2 := by
    intro hh
    injection hh with v1 v2
    omega
  have hBneC : Ptr.blk pid ob ≠ Ptr.blk pid oc := by
    intro hh
    injection hh with v1 v2
    omega
  have hCneC2 : Ptr.blk pid oc ≠ Ptr.blk pid oc2 := by
    intro hh
    injection hh with v1 v2
    omega
  have hndchain : (t.chainG pid).Nodup := chain_nodup (chain_sorted hpo.2.2.1)
  have hoc2notS3 : oc2 ∉ S3L := by
    have hnd2 := hndchain
    rw [hchain, List.nodup_append] at hnd2
    exact (List.nodup_cons.mp (List.nodup_cons.mp (List.nodup_cons.mp hnd2.2.1).2).2).1
  have hocmem : oc ∈ t.chainG pid := by
    rw [hchain]
    exact List.mem_append_right _ (List.mem_cons_of_mem _ (List.mem_cons_self _ _))
  have hCcell : Ptr.blk pid oc ∈ t.cellsG
      (mapping_insert (t.mem (Ptr.blk pid oc)).size).1
      (mapping_insert (t.mem (Ptr.blk pid oc)).size).2 := by
    rcases hC.complete pid hpid oc hocmem hocfree with hx | hmem
    · exact absurd hx (List.not_mem_nil _)
    · exact hmem
  set s4 : tlsf_s := block_remove t (Ptr.blk pid oc) with hs4
  have hC4 : CellsWF s4 [Ptr.blk pid oc] := by
    show CellsWF (remove_free_block t (Ptr.blk pid oc)
      (mapping_insert ((t.mem (Ptr.blk pid oc)).size)).1
      (mapping_insert ((t.mem (Ptr.blk pid oc)).size)).2)
      (Ptr.blk pid oc :: ([]:List Ptr))
    exact remove_free_cellsWF hC hCcell
  have hs4mem : s4.mem = remMem t.mem (Ptr.blk pid oc) :=
    remove_free_block_mem _ _ _ _
  have hsH34 : sameHeap t.mem s4.mem := by
    rw [hs4mem]
    exact remMem_sameHeap _ _
  have hs4chain : s4.chainG = t.chainG := by
    rw [hs4]
    exact chainG_block_remove _ _
  have hs4pools : s4.pools = t.pools := by
    rw [hs4]
    exact pools_block_remove _ _
  have harith : oc2 = ob + ((s4.mem (Ptr.blk pid ob)).size
      + (s4.mem (Ptr.blk pid oc)).size + BLOCK_OVERHEAD + BLOCK_OVERHEAD) := by
    rw [(hsH34 _).1, (hsH34 _).1]
    have h1 := hR.2
    have h2 := hR2.2
    omega
  have hmem5 : (block_absorb s4 (Ptr.blk pid ob) (Ptr.blk pid oc)).2.mem =
      updHdr (updHdr s4.mem (Ptr.blk pid ob) (fun h =>
        { h with size := h.size + (s4.mem (Ptr.blk pid oc)).size + BLOCK_OVERHEAD }))
        (Ptr.blk pid oc2) (fun h => { h with prevPhys := Ptr.blk pid ob }) :=
    block_absorb_mem _ pid ob oc oc2 harith
  set s5 : tlsf_s := (block_absorb s4 (Ptr.blk pid ob) (Ptr.blk pid oc)).2 with hs5
  have hu5_of : ∀ q, q ≠ Ptr.blk pid ob → q ≠ Ptr.blk pid oc2 →
      s5.mem q = s4.mem q := by
    intro q h1 h2
    rw [hs5, hmem5, updHdr_other _ _ _ _ h2, updHdr_other _ _ _ _ h1]
  have hu5_c2 : s5.mem (Ptr.blk pid oc2) =
      { s4.mem (Ptr.blk pid oc2) with prevPhys := Ptr.blk pid ob } := by
    rw [hs5, hmem5, updHdr_same, updHdr_other _ _ _ _ (fun hh => hBneC2 hh.symm)]
  have hu5_b : s5.mem (Ptr.blk pid ob) =
      { s4.mem (Ptr.blk pid ob) with size := (s4.mem (Ptr.blk pid ob)).size + (s4.mem (Ptr.blk pid oc)).size + BLOCK_OVERHEAD } := by
    rw [hs5, hmem5, updHdr_other _ _ _ _ hBneC2, updHdr_same]
  have hnext5 : block_next s5.mem (Ptr.blk pid ob) = Ptr.blk pid oc2 := by
    rw [block_next, hu5_b]
    show Ptr.blk pid (ob + ((s4.mem (Ptr.blk pid ob)).size
      + (s4.mem (Ptr.blk pid oc)).size + BLOCK_OVERHEAD + BLOCK_OVERHEAD)) = Ptr.blk pid oc2
    congr 1
    omega
  have hmn : block_merge_next t (Ptr.blk pid ob) =
      (Ptr.blk pid ob, s5) := by
    rw [block_merge_next_yes _ _ hnfree, hnext, hs5, hs4]
    rfl
  set t6 : tlsf_s := { s5 with mem := updHdr s5.mem (Ptr.blk pid oc2) (fun h => { h with isPrevFree := false }) } with ht6
  have htp : { (block_merge_next t (Ptr.blk pid ob)).2 with mem := updHdr (block_merge_next t (Ptr.blk pid ob)).2.mem (block_next (block_merge_next t (Ptr.blk pid ob)).2.mem (Ptr.blk pid ob)) (fun h => { h with isPrevFree := false }) } = t6 := by
    rw [ht6, hmn, hnext5]
  have ht6_of : ∀ q, q ≠ Ptr.blk pid oc2 → t6.mem q = s5.mem q := by
    intro q hq
    rw [ht6]
    simp only []
    rw [updHdr_other _ _ _ _ hq]
  have ht6_c2 : t6.mem (Ptr.blk pid oc2) =
      { s5.mem (Ptr.blk pid oc2) with isPrevFree := false } := by
    rw [ht6]
    simp only []
    rw [updHdr_same]
  have ht6pools : t6.pools = t.pools := by
    show (block_absorb s4 (Ptr.blk pid ob) (Ptr.blk pid oc)).2.pools = t.pools
    rw [pools_absorb, hs4, pools_block_remove]
  have ht6next : t6.nextPid = t.nextPid := by
    show (block_absorb s4 (Ptr.blk pid ob) (Ptr.blk pid oc)).2.nextPid = t.nextPid
    rw [nextPid_absorb, hs4, nextPid_block_remove]
  have ht6chainF : t6.chainG = upd1 t.chainG pid ((t.chainG pid).erase oc) := by
    show (block_absorb s4 (Ptr.blk pid ob) (Ptr.blk pid oc)).2.chainG = _
    rw [chainG_absorb, hs4, chainG_block_remove]
  have ht6chain : t6.chainG pid = P ++ ob :: oc2 :: S3L := by
    rw [ht6chainF, upd1_same, hchain,
      show P ++ ob :: oc :: oc2 :: S3L = (P ++ [ob]) ++ oc :: (oc2 :: S3L) from by simp,
      erase_append_notin]
    · simp
    · intro hmem2
      rcases List.mem_append.mp hmem2 with h1 | h1
      · have h2 := hPmem oc h1
        omega
      · simp only [List.mem_singleton] at h1
        omega
  have hf_b : (t6.mem (Ptr.blk pid ob)).size =
      (t.mem (Ptr.blk pid ob)).size + (t.mem (Ptr.blk pid oc)).size + BLOCK_OVERHEAD ∧
      (t6.mem (Ptr.blk pid ob)).isFree = (t.mem (Ptr.blk pid ob)).isFree ∧
      (t6.mem (Ptr.blk pid ob)).isPrevFree = (t.mem (Ptr.blk pid ob)).isPrevFree ∧
      (t6.mem (Ptr.blk pid ob)).prevPhys = (t.mem (Ptr.blk pid ob)).prevPhys := by
    rw [ht6_of _ hBneC2, hu5_b]
    refine ⟨?_, ?_, ?_, ?_⟩
    · show (s4.mem (Ptr.blk pid ob)).size + (s4.mem (Ptr.blk pid oc)).size + BLOCK_OVERHEAD = _
      rw [(hsH34 _).1, (hsH34 _).1]
    · show (s4.mem (Ptr.blk pid ob)).isFree = _
      rw [(hsH34 _).2.1]
    · show (s4.mem (Ptr.blk pid ob)).isPrevFree = _
      rw [(hsH34 _).2.2.1]
    · show (s4.mem (Ptr.blk pid ob)).prevPhys = _
      rw [(hsH34 _).2.2.2]
  have hf_c2 : (t6.mem (Ptr.blk pid oc2)).size = (t.mem (Ptr.blk pid oc2)).size ∧
      (t6.mem (Ptr.blk pid oc2)).isFree = (t.mem (Ptr.blk pid oc2)).isFree ∧
      (t6.mem (Ptr.blk pid oc2)).isPrevFree = false ∧
      (t6.mem (Ptr.blk pid oc2)).prevPhys = Ptr.blk pid ob := by
    rw [ht6_c2, hu5_c2]
    refine ⟨?_, ?_, rfl, rfl⟩
    · show (s4.mem (Ptr.blk pid oc2)).size = _
      rw [(hsH34 _).1]
    · show (s4.mem (Ptr.blk pid oc2)).isFree = _
      rw [(hsH34 _).2.1]
  have hf_o : ∀ q, q ≠ Ptr.blk pid ob → q ≠ Ptr.blk pid oc2 →
      ((t6.mem q).size = (t.mem q).size ∧
       (t6.mem q).isFree = (t.mem q).isFree ∧
       (t6.mem q).isPrevFree = (t.mem q).isPrevFree ∧
       (t6.mem q).prevPhys = (t.mem q).prevPhys) := by
    intro q h1 h2
    rw [ht6_of _ h2, hu5_of _ h1 h2]
    exact ⟨(hsH34 q).1, (hsH34 q).2.1, (hsH34 q).2.2.1, (hsH34 q).2.2.2⟩
  have ht6cells : t6.cellsG = s4.cellsG := rfl
  have ht6blocks : t6.blocks = s4.blocks := rfl
  have ht6fl : t6.flBitmap = s4.flBitmap := rfl
  have ht6sl : t6.slBitmap = s4.slBitmap := rfl
  have hs4pools2 : t6.pools = s4.pools := by
    rw [ht6pools, hs4pools]
  have hH6 : HeapWF t6 := by
    refine heapWF_one_pool hH pid ht6pools ht6next ?_ ?_ ?_
    · intro p hp
      rw [ht6chainF, upd1_other _ _ _ _ hp]
    · intro p hp hppid off hoff
      refine hf_o (Ptr.blk p off) ?_ ?_ <;>
      · intro hh
        injection hh with v1 v2
        exact hppid v1
    · intro hfpid
      rw [ht6chain]
      have hpo2 : PoolOK t.mem pid (P ++ [ob, oc] ++ (oc2 :: S3L)) := by
        rw [show P ++ [ob, oc] ++ (oc2 :: S3L) = P ++ ob :: oc :: oc2 :: S3L from by simp,
          ← hchain]
        exact hpo
      rw [show P ++ ob :: oc2 :: S3L = P ++ [ob] ++ (oc2 :: S3L) from by simp]
      refine poolOK_replace hpo2 (by simp) (by simp) (by simp) rfl ?_ ?_ ?_ ?_ ?_ ?_ ?_
      · intro off hoff
        have hlt2 := hPmem off hoff
        refine hf_o (Ptr.blk pid off) ?_ ?_ <;>
        · intro hh
          injection hh with v1 v2
          omega
      · intro off hoff
        by_cases hoce : off = oc2
        · rw [hoce]
          exact ⟨hf_c2.1, hf_c2.2.1⟩
        · have hge := hSmem2 off hoff
          rw [hBO] at hge
          have hf := hf_o (Ptr.blk pid off)
            (by intro hh; injection hh with v1 v2; omega)
            (by intro hh; injection hh with v1 v2; exact hoce v2)
          exact ⟨hf.1, hf.2.1⟩
      · intro off hoff
        simp only [List.tail_cons] at hoff
        have hge := hSmem2 off (List.mem_cons_of_mem _ hoff)
        rw [hBO] at hge
        have hf := hf_o (Ptr.blk pid off)
          (by intro hh; injection hh with v1 v2; omega)
          (by intro hh; injection hh with v1 v2; exact hoc2notS3 (v2 ▸ hoff))
        exact ⟨hf.2.2.1, hf.2.2.2⟩
      · exact List.chain'_singleton _
      · intro p hp a ha
        have ha2 : ob = a := by simpa using ha
        subst ha2
        have hRold : R t.mem pid p ob := hPjoin p hp
        have hplt := hPmem p (mem_of_getLast? hp)
        have hfp := hf_o (Ptr.blk pid p)
          (by intro hh; injection hh with v1 v2; omega)
          (by intro hh; injection hh with v1 v2; omega)
        refine ⟨?_, ?_, ?_, ?_, ?_⟩
        · rw [hfp.1]
          exact hRold.1
        · rw [hf_b.2.2.1, hfp.2.1]
          exact hRold.2.1
        · intro hfr
          rw [hfp.2.1] at hfr
          rw [hf_b.2.2.2]
          exact hRold.2.2.1 hfr
        · intro hboth
          have h1 := hboth.2
          rw [hf_b.2.1, hused] at h1
          exact Bool.noConfusion h1
        · rw [hfp.1]
          exact hRold.2.2.2.2
      · intro bb hbb e he
        have hbb2 : ob = bb := by simpa using hbb
        have he2 : oc2 = e := by simpa using he
        subst hbb2
        subst he2
        refine ⟨?_, ?_, ?_, ?_, ?_⟩
        · rw [hf_b.1]
          have h1 := hR.2
          have h2 := hR2.2
          omega
        · rw [hf_c2.2.2.1, hf_b.2.1, hused]
        · intro hfr
          exact hf_c2.2.2.2
        · intro hboth
          have h1 := hboth.2
          rw [hf_c2.2.1, hoc2used] at h1
          exact Bool.noConfusion h1
        · rw [hf_b.1]
          have h5 := hR.1.2.2.2.2
          omega
      · intro hPnil a ha
        have ha2 : ob = a := by simpa using ha
        subst ha2
        rw [hf_b.2.2.1]
        have hob0 : ob = 0 := by
          have h0 := hpo.1
          rw [hchain, hPnil] at h0
          simp only [List.nil_append, List.head?_cons, Option.some.injEq] at h0
          exact h0
        rw [hob0]
        exact hpo.2.1
  have hC6 : CellsWF t6 [Ptr.blk pid oc] := by
    refine cellsWF_step hC4 ht6cells ht6blocks ht6fl ht6sl ?_ ?_ ?_ ?_ ?_
    · intro f s q hq
      have h1 : q ≠ Ptr.blk pid ob := by
        intro hh
        obtain ⟨pid3, off3, heq, -, -, hfr, -⟩ := hC4.cellMem f s q hq
        rw [hh, (hsH34 (Ptr.blk pid ob)).2.1, hused] at hfr
        exact Bool.noConfusion hfr
      have h2 : q ≠ Ptr.blk pid oc2 := by
        intro hh
        obtain ⟨pid3, off3, heq, -, -, hfr, -⟩ := hC4.cellMem f s q hq
        rw [hh, (hsH34 (Ptr.blk pid oc2)).2.1, hoc2used] at hfr
        exact Bool.noConfusion hfr
      rw [ht6_of _ h2, hu5_of _ h1 h2]
      exact ⟨rfl, rfl, rfl, rfl⟩
    · intro f s p2 hp2 pid2 off2 hpeq
      obtain ⟨pid3, off3, heq, hp3, ho3, -⟩ := hC4.cellMem f s p2 hp2
      rw [hpeq] at heq
      injection heq with v1 v2
      subst v1
      subst v2
      have hnotC : p2 ≠ Ptr.blk pid oc := by
        intro hh
        exact hC4.exempt _ (List.mem_cons_self _ _) f s (hh ▸ hp2)
      constructor
      · rw [hs4pools2]
        exact hp3
      · rw [ht6chainF]
        by_cases hp4 : pid2 = pid
        · rw [hp4, upd1_same]
          have hne : off2 ≠ oc := by
            intro hh
            apply hnotC
            rw [hpeq, hp4, hh]
          refine (List.mem_erase_of_ne hne).mpr ?_
          rw [← hs4chain]
          exact hp4 ▸ ho3
        · rw [upd1_other _ _ _ _ hp4, ← hs4chain]
          exact ho3
    · intro x hx
      exact Or.inl hx
    · intro x hx f s
      exact hC4.exempt x hx f s
    · intro pid2 hpid2 off2 hoff2 hfr2
      rw [ht6pools] at hpid2
      rw [ht6chainF] at hoff2
      by_cases hp4 : pid2 = pid
      · rw [hp4] at hpid2 hoff2 hfr2 ⊢
        rw [upd1_same] at hoff2
        have hoffch : off2 ∈ t.chainG pid := List.mem_of_mem_erase hoff2
        by_cases hqoc : off2 = oc
        · exact Or.inl (by rw [hqoc]; exact List.mem_cons_self _ _)
        · by_cases hqb : off2 = ob
          · exfalso
            rw [hqb, hf_b.2.1, hused] at hfr2
            exact Bool.noConfusion hfr2
          · by_cases hqc2 : off2 = oc2
            · exfalso
              rw [hqc2, hf_c2.2.1, hoc2used] at hfr2
              exact Bool.noConfusion hfr2
            · have h1 : Ptr.blk pid off2 ≠ Ptr.blk pid ob := by
                intro hh
                injection hh with v1 v2
                exact hqb v2
              have h2 : Ptr.blk pid off2 ≠ Ptr.blk pid oc2 := by
                intro hh
                injection hh with v1 v2
                exact hqc2 v2
              have hmemeq : t6.mem (Ptr.blk pid off2) = s4.mem (Ptr.blk pid off2) := by
                rw [ht6_of _ h2, hu5_of _ h1 h2]
              rw [hmemeq] at hfr2
              refine Or.inr ⟨by rw [hs4pools]; exact hpid2, ?_, hfr2, by rw [hmemeq]⟩
              rw [hs4chain]
              exact hoffch
      · rw [upd1_other _ _ _ _ hp4] at hoff2
        have h1 : Ptr.blk pid2 off2 ≠ Ptr.blk pid ob := by
          intro hh
          injection hh with v1 v2
          exact hp4 v1
        have h2 : Ptr.blk pid2 off2 ≠ Ptr.blk pid oc2 := by
          intro hh
          injection hh with v1 v2
          exact hp4 v1
        have hmemeq : t6.mem (Ptr.blk pid2 off2) = s4.mem (Ptr.blk pid2 off2) := by
          rw [ht6_of _ h2, hu5_of _ h1 h2]
        rw [hmemeq] at hfr2
        refine Or.inr ⟨by rw [hs4pools]; exact hpid2, ?_, hfr2, by rw [hmemeq]⟩
        rw [hs4chain]
        exact hoff2
  rw [htp]
  refine block_trim_used_WF t6 pid ob sz [Ptr.blk pid oc] hH6 hC6 ?_ ?_ ?_ ?_ hsz ?_ ?_
  · rw [ht6pools]
    exact hpid
  · rw [ht6chain]
    exact List.mem_append_right _ (List.mem_cons_self _ _)
  · intro heq
    have h1 : (t6.chainG pid).getLast? = (oc2 :: S3L).getLast? := by
      rw [ht6chain, show P ++ ob :: oc2 :: S3L = (P ++ [ob]) ++ (oc2 :: S3L) from by simp,
        List.getLast?_append_of_ne_nil _ (by simp)]
    rw [h1] at heq
    have h2 : (oc2 :: S3L).getLast?.getD 0 ∈ oc2 :: S3L := getD_getLast?_mem _ (by simp)
    rw [← heq] at h2
    have h3 := hSmem2 ob h2
    rw [hBO] at h3
    omega
  · rw [hf_b.2.1]
    exact hused
  · intro x hx pid2 hpid2 off2 hoff2 hh
    simp only [List.mem_singleton] at hx
    subst hx
    rw [ht6pools] at hpid2
    injection hh.symm with v1 v2
    subst v1
    rw [ht6chainF, upd1_same] at hoff2
    subst v2
    exact (List.Nodup.not_mem_erase hndchain) hoff2
  · intro x hx
    simp only [List.mem_singleton] at hx
    subst hx
    intro hh
    injection hh with v1 v2
    have h1 := hR.2
    rw [hBO] at h1 v2
    omega

/-- tlsf_realloc preserves well-formedness on every successful return:
the free path, the malloc path, the reallocate-and-copy path, and the
two in-place trim paths. -/
theorem tlsf_realloc_WF (resp : Option Nat) (t : tlsf_s) (p : Ptr) (n : Nat)
    (q : Option Ptr) (t' : tlsf_s) (hW : WF t) (hRe : Reach t) (hv : ValidFree t p)
    (hresp : ∀ sz, adjust_size n = some sz → respOK resp sz)
    (h : tlsf_realloc resp t p n = Except.ok (q, t')) : WF t' := by
  have hIP : IsPoolInv t := reach_isPoolInv t hRe
  unfold tlsf_realloc at h
  by_cases h01 : p ≠ Ptr.nullp ∧ n = 0
  · rw [if_pos h01] at h
    simp only [Except.ok.injEq, Prod.mk.injEq] at h
    rw [← h.2]
    exact tlsf_free_WF t p hW hIP hv
  · rw [if_neg h01] at h
    by_cases hpn : p = Ptr.nullp
    · rw [if_pos hpn] at h
      exact tlsf_malloc_WF resp t n q t' hW hresp h
    · rw [if_neg hpn] at h
      rcases hv with hnull | ⟨pid, ob, hpid, hob, hlast, hpeq, hused⟩
      · exact absurd hnull hpn
      subst hpeq
      simp only [] at h
      have hbfp : block_from_ptr (Ptr.blk pid (ob + BLOCK_START_OFFSET)) =
          Ptr.blk pid ob := by
        show Ptr.blk pid (ob + BLOCK_START_OFFSET - BLOCK_START_OFFSET) = Ptr.blk pid ob
        congr 1
      rw [hbfp] at h
      cases ha : adjust_size n with
      | none =>
        rw [ha] at h
        exact absurd h (by simp)
      | some sz =>
      rw [ha] at h
      simp only [] at h
      have hszB := (adjust_size_bounds ha).1
      split_ifs at h with hmove hgrow
      · cases hm : tlsf_malloc resp t sz with
        | error e =>
          rw [hm] at h
          exact absurd h (by simp)
        | ok pr =>
          obtain ⟨qopt, t1⟩ := pr
          have hresp2 : ∀ sz2, adjust_size sz = some sz2 → respOK resp sz2 := by
            intro sz2 hsz2
            rw [adjust_size_idem ha] at hsz2
            injection hsz2 with hh
            subst hh
            exact hresp sz ha
          have hW1 : WF t1 := tlsf_malloc_WF resp t sz qopt t1 hW hresp2 hm
          cases qopt with
          | some q2 =>
            rw [hm] at h
            simp only [Except.ok.injEq, Prod.mk.injEq] at h
            rw [← h.2]
            have hRe1 : Reach t1 := Reach.malloc t resp sz _ t1 hRe hresp2 hm
            have hIP1 : IsPoolInv t1 := reach_isPoolInv t1 hRe1
            have hU1 : UsedAt t1 pid ob :=
              tlsf_malloc_usedAt resp t sz _ t1 pid ob hW hresp2 hm
                ⟨hpid, hob, hlast, hused⟩
            exact tlsf_free_WF t1 _ hW1 hIP1 (validFree_of_usedAt hU1)
          | none =>
            rw [hm] at h
            simp only [Except.ok.injEq, Prod.mk.injEq] at h
            rw [← h.2]
            exact hW1
      · obtain ⟨hH, hC⟩ := hW
        simp only [Except.ok.injEq, Prod.mk.injEq] at h
        rw [← h.2]
        have hnf : (t.mem (block_next t.mem (Ptr.blk pid ob))).isFree = true := by
          by_contra hcf
          rw [Bool.not_eq_true] at hcf
          exact hmove ⟨hgrow, Or.inl hcf⟩
        exact realloc_premerge_WF t pid ob sz hH hC hpid hob hlast hused hszB hgrow hnf
      · obtain ⟨hH, hC⟩ := hW
        simp only [Except.ok.injEq, Prod.mk.injEq] at h
        rw [← h.2]
        exact block_trim_used_WF t pid ob sz [] hH hC hpid hob hlast hused hszB
          (by intro x hx; exact absurd hx (List.not_mem_nil _))
          (by intro x hx; exact absurd hx (List.not_mem_nil _))

/-- Every reachable state is well-formed: tlsf_create establishes the
invariant and every complete public operation preserves it. -/
theorem reach_WF (t : tlsf_s) (h : Reach t) : WF t := by
  induction h with
  | create granted hasUnmap h1 h2 => exact tlsf_create_WF granted hasUnmap h1 h2
  | malloc t resp n p t2 ht hresp hm ih => exact tlsf_malloc_WF resp t n p t2 ih hresp hm
  | free t p ht hv ih => exact tlsf_free_WF t p ih (reach_isPoolInv t ht) hv
  | realloc t resp p n q t2 ht hv hresp hm ih =>
      exact tlsf_realloc_WF resp t p n q t2 ih ht hv hresp hm

/-- C2: full-coalescing invariant.  In every state reachable by complete
public operations from a freshly created allocator, any two physically
adjacent blocks of a pool (consecutive in the physical chain, the second
starting exactly where the first ends) are never both free. -/
theorem c2_full_coalescing (t : tlsf_s) (hRe : Reach t) (pid : Nat)
    (hpid : pid ∈ t.pools) (P S : List Nat) (oa ob : Nat)
    (hchain : t.chainG pid = P ++ oa :: ob :: S) :
    ob = oa + (t.mem (Ptr.blk pid oa)).size + BLOCK_OVERHEAD ∧
    ¬((t.mem (Ptr.blk pid oa)).isFree = true ∧
      (t.mem (Ptr.blk pid ob)).isFree = true) := by
  have hW := reach_WF t hRe
  have hpo := hW.1.pools_ok pid hpid
  obtain ⟨hShead, -, -, -⟩ := chain_mid_facts hpo hchain (by simp)
  have hR := hShead ob rfl
  exact ⟨hR.2, hR.1.2.2.2.1⟩

theorem c2_full_coalescing_witness :
    0 ∈ (tlsf_create 7000 false).pools ∧
    (tlsf_create 7000 false).chainG 0 = [] ++ 0 :: 168 :: [] ∧
    (168 = 0 + ((tlsf_create 7000 false).mem (Ptr.blk 0 0)).size + BLOCK_OVERHEAD ∧
     ¬(((tlsf_create 7000 false).mem (Ptr.blk 0 0)).isFree = true ∧
       ((tlsf_create 7000 false).mem (Ptr.blk 0 168)).isFree = true)) :=
  ⟨by decide, by decide,
    c2_full_coalescing (tlsf_create 7000 false)
      (Reach.create 7000 false (by decide) (by decide)) 0 (by decide)
      [] [] 0 168 (by decide)⟩

/-- C6 (amended): after tlsf_create and after every complete public
operation, every free-list head blocks[fl][sl] whose cell is empty points
at block_null. -/
theorem c6_empty_heads_block_null (t : tlsf_s) (fl sl : Nat) (hRe : Reach t)
    (hempty : t.cellsG fl sl = []) : t.blocks fl sl = Ptr.blockNull := by
  have hW := reach_WF t hRe
  have h1 := hW.2.cellHead fl sl
  rw [hempty] at h1
  exact h1

theorem c6_empty_heads_block_null_witness :
    (tlsf_create 7000 false).cellsG 25 31 = [] ∧
    (tlsf_create 7000 false).blocks 25 31 = Ptr.blockNull :=
  ⟨by decide,
    c6_empty_heads_block_null (tlsf_create 7000 false) 25 31
      (Reach.create 7000 false (by decide) (by decide)) (by decide)⟩

end Tlsf
